import Mathlib

/-!
# art: item-source protocol and event-processor driver

A shallow embedding of

* `art/Framework/Core/DecrepitRelicInputSourceImplementation.cc`
  (`nextItemType_`, `nextItemType`, `readFile`, `readRun`, `readSubRun`,
  `readEvent`), and
* `art/Framework/Core/EventProcessor.cc` (`runCommon`, `runToCompletion`,
  `doErrorStuff`, `terminateMachine`, `terminateAbnormally`).

Conventions.  C++ `int` counters are unbounded `Int` (signed overflow is
undefined behaviour in C++, so the model agrees with the code on every
execution that has a defined meaning).  A failed `assert` aborts the
process, and so does dereferencing a null pointer: the operations of the
source return `Option`, `none` standing for an abort.  C++ exceptions of the
driver are values of `Thrown`.  What the code leaves to collaborators that
are not part of the sources at hand is supplied from outside: the concrete
input source behind the virtual hooks is a stream of pending items, and the
reactions of the state machine, the shutdown flag and the items seen by the
driver are given per iteration of its loop.
-/

namespace art

/-! ## Item source -/

namespace input

/-- Modelled from the spec: the enumeration `input::ItemType` is declared in a
header that is not part of the sources at hand; its members are the ones the
code names (`IsInvalid`, `IsFile`, `IsRun`, `IsSubRun`, `IsEvent`, `IsStop`),
matching the item variant File, Run, SubRun, Event, Stop, Invalid. -/
inductive ItemType
  | IsInvalid
  | IsFile
  | IsRun
  | IsSubRun
  | IsEvent
  | IsStop
  deriving DecidableEq

end input

open input (ItemType)

/-- Modelled from the spec: the processing modes `source.processingMode` may
take; the enumeration itself is declared in the missing header. -/
inductive ProcessingMode
  | Runs
  | RunsAndSubRuns
  | RunsSubRunsAndEvents
  deriving DecidableEq

/-- The virtual hooks through which the base class talks to the concrete
source.  Used to record, in order, every call made to the underlying source. -/
inductive Hook
  | getNextItemType
  | readFile_
  | readRun_
  | readSubRun_
  | readEvent_
  deriving DecidableEq

/-- The data members of `DecrepitRelicInputSourceImplementation` that the item
protocol reads or writes, together with the underlying concrete source.

Modelled from the spec: the concrete source behind the pure virtual hooks is
the stream `pending` of items it has still to report, in the order it alone
determines; `calls` is a ghost record of the hook calls made so far.  A
principal is represented by a handle (`Nat`), a null pointer by `none`. -/
structure DecrepitRelicInputSourceImplementation where
  pending : List ItemType
  calls : List Hook
  maxEvents_ : Int
  remainingEvents_ : Int
  maxSubRuns_ : Int
  remainingSubRuns_ : Int
  readCount_ : Int
  processingMode_ : ProcessingMode
  doneReadAhead_ : Bool
  state_ : ItemType
  runPrincipal_ : Option Nat
  subRunPrincipal_ : Option Nat
  deriving DecidableEq

namespace DecrepitRelicInputSourceImplementation

/-- The source type, under a short name. -/
abbrev Source := DecrepitRelicInputSourceImplementation

/-- The constructor (lines 60-79): both limits start at their configured
maximum (default `-1`, no limit), nothing is read ahead, the state is
`IsInvalid` and no principal is cached.  The mode is passed already decoded. -/
def mk0 (mode : ProcessingMode) (maxEvents maxSubRuns : Int)
    (stream : List ItemType) : Source where
  pending := stream
  calls := []
  maxEvents_ := maxEvents
  remainingEvents_ := maxEvents
  maxSubRuns_ := maxSubRuns
  remainingSubRuns_ := maxSubRuns
  readCount_ := 0
  processingMode_ := mode
  doneReadAhead_ := false
  state_ := ItemType.IsInvalid
  runPrincipal_ := none
  subRunPrincipal_ := none

/-- Accessor `processingMode()`. -/
def processingMode (s : Source) : ProcessingMode := s.processingMode_

/-- Modelled from the spec: `eventLimitReached()` is defined in the missing
header; the event limit is reached when the remaining-events counter is 0. -/
def eventLimitReached (s : Source) : Bool := s.remainingEvents_ == 0

/-- Modelled from the spec: `subRunLimitReached()` is defined in the missing
header; the sub-run limit is reached when the remaining-sub-runs counter is 0. -/
def subRunLimitReached (s : Source) : Bool := s.remainingSubRuns_ == 0

/-- Modelled from the spec: `limitReached()` is defined in the missing header;
a limit is reached when the event limit or the sub-run limit is. -/
def limitReached (s : Source) : Bool := s.eventLimitReached || s.subRunLimitReached

/-- A C `assert`: the process goes on when the condition holds and is aborted
(`none`) when it does not. -/
def cassert (b : Bool) : Option Unit := if b then some () else none

/-- The next stream after a hook has read an item of tag `t`: the head is
consumed when it is the item asked for and left in place otherwise. -/
def consumeHead (t : ItemType) : List ItemType → List ItemType
  | [] => []
  | x :: xs => if x = t then xs else x :: xs

/-- Modelled from the spec: hook `getNextItemType()`, pure virtual.  It reports
the item the stream offers next without consuming it; an exhausted stream
reports `IsStop`. -/
def getNextItemType (s : Source) : ItemType × Source :=
  (s.pending.headD ItemType.IsStop, { s with calls := s.calls ++ [Hook.getNextItemType] })

/-- Modelled from the spec: hook `readFile_()`; consumes a pending File item. -/
def readFile_ (s : Source) : Source :=
  { s with pending := consumeHead ItemType.IsFile s.pending, calls := s.calls ++ [Hook.readFile_] }

/-- Modelled from the spec: hook `readRun_()`, pure virtual; consumes a pending
Run item and hands back a (non-null) run principal, identified by the number
of hook calls made before. -/
def readRun_ (s : Source) : Option Nat × Source :=
  (some s.calls.length,
    { s with pending := consumeHead ItemType.IsRun s.pending, calls := s.calls ++ [Hook.readRun_] })

/-- Modelled from the spec: hook `readSubRun_()`, pure virtual; consumes a
pending SubRun item and hands back a (non-null) sub-run principal. -/
def readSubRun_ (s : Source) : Option Nat × Source :=
  (some s.calls.length,
    { s with pending := consumeHead ItemType.IsSubRun s.pending,
             calls := s.calls ++ [Hook.readSubRun_] })

/-- Modelled from the spec: hook `readEvent_()`, pure virtual; consumes a
pending Event item and hands back its principal, or hands back a null pointer
when the stream does not offer an event. -/
def readEvent_ (s : Source) : Option Nat × Source :=
  (if s.pending.head? = some ItemType.IsEvent then some s.calls.length else none,
    { s with pending := consumeHead ItemType.IsEvent s.pending,
             calls := s.calls ++ [Hook.readEvent_] })

/-- The recursion of `nextItemType_()` (lines 143-155), unrolled at most `fuel`
times; with no unrolling left the item reported by the hook is returned. -/
def nextItemType_loop : Nat → Source → ItemType × Source
  | 0, s => getNextItemType s
  | fuel + 1, s =>
    let r := getNextItemType s
    let itemType := r.1
    let s1 := r.2
    if itemType = ItemType.IsEvent ∧ s1.processingMode ≠ ProcessingMode.RunsSubRunsAndEvents then
      nextItemType_loop fuel (readEvent_ s1).2
    else if itemType = ItemType.IsSubRun ∧ s1.processingMode = ProcessingMode.Runs then
      nextItemType_loop fuel (readSubRun_ s1).2
    else
      (itemType, s1)

/-- Method `nextItemType_()` (lines 143-155).  Every recursive call follows a
hook that consumed the head of the stream, so the length of the stream bounds
the depth of the recursion; `nextItemType__eq` shows that this function
satisfies the recursive equation of the source. -/
def nextItemType_ (s : Source) : ItemType × Source :=
  nextItemType_loop s.pending.length s

/-- Member `setRunPrincipal` (declared in the missing header): caches the
pointer. -/
def setRunPrincipal (rp : Option Nat) (s : Source) : Source := { s with runPrincipal_ := rp }

/-- Member `setSubRunPrincipal` (declared in the missing header): caches the
pointer. -/
def setSubRunPrincipal (srp : Option Nat) (s : Source) : Source :=
  { s with subRunPrincipal_ := srp }

/-- The tail of `nextItemType()` (lines 210-214): on Stop both cached
principals are reset; the new state is returned. -/
def finishNextItemType (s : Source) : ItemType × Source :=
  let s1 := if s.state_ = ItemType.IsStop then
      { s with subRunPrincipal_ := none, runPrincipal_ := none }
    else s
  (s1.state_, s1)

/-- Method `nextItemType()` (lines 157-215). -/
def nextItemType (s : Source) : Option (ItemType × Source) :=
  if s.doneReadAhead_ then
    some (s.state_, s)
  else
    let s0 := { s with doneReadAhead_ := true }
    let oldState := s0.state_
    if s0.eventLimitReached then
      some (finishNextItemType { s0 with state_ := ItemType.IsStop })
    else if s0.subRunLimitReached then
      if oldState = ItemType.IsInvalid ∨ oldState = ItemType.IsFile ∨
          oldState = ItemType.IsRun ∨
          s0.processingMode ≠ ProcessingMode.RunsSubRunsAndEvents then
        some (finishNextItemType { s0 with state_ := ItemType.IsStop })
      else
        let r := nextItemType_ s0
        let newState := r.1
        let s1 := r.2
        if newState = ItemType.IsEvent then
          (cassert (s1.processingMode == ProcessingMode.RunsSubRunsAndEvents)).bind fun _ =>
            some (finishNextItemType { s1 with state_ := ItemType.IsEvent })
        else
          some (finishNextItemType { s1 with state_ := ItemType.IsStop })
    else
      let r := nextItemType_ s0
      let newState := r.1
      let s1 := r.2
      if newState = ItemType.IsStop then
        some (finishNextItemType { s1 with state_ := ItemType.IsStop })
      else if newState = ItemType.IsFile ∨ oldState = ItemType.IsInvalid then
        some (finishNextItemType { s1 with state_ := ItemType.IsFile })
      else if newState = ItemType.IsRun ∨ oldState = ItemType.IsFile then
        let p := readRun_ s1
        some (finishNextItemType { setRunPrincipal p.1 p.2 with state_ := ItemType.IsRun })
      else if newState = ItemType.IsSubRun ∨ oldState = ItemType.IsRun then
        (cassert (s1.processingMode != ProcessingMode.Runs)).bind fun _ =>
          let p := readSubRun_ s1
          some (finishNextItemType { setSubRunPrincipal p.1 p.2 with state_ := ItemType.IsSubRun })
      else
        (cassert (s1.processingMode == ProcessingMode.RunsSubRunsAndEvents)).bind fun _ =>
          some (finishNextItemType { s1 with state_ := ItemType.IsEvent })

/-- Method `readFile()` (lines 237-246); the file block itself is not
represented. -/
def readFile (s : Source) : Option Source :=
  (cassert s.doneReadAhead_).bind fun _ =>
  (cassert (s.state_ == ItemType.IsFile)).bind fun _ =>
  (cassert (!s.limitReached)).bind fun _ =>
    some (readFile_ { s with doneReadAhead_ := false })

/-- Method `readRun()` (lines 261-271): hands back the cached run principal. -/
def readRun (s : Source) : Option (Option Nat × Source) :=
  (cassert s.doneReadAhead_).bind fun _ =>
  (cassert (s.state_ == ItemType.IsRun)).bind fun _ =>
  (cassert (!s.limitReached)).bind fun _ =>
    some (s.runPrincipal_, { s with doneReadAhead_ := false })

/-- Method `readSubRun(rp)` (lines 273-286): counts the sub-run against the
limit and hands back the cached sub-run principal.  Dereferencing a null
`subRunPrincipal_` aborts.  The contents of principals are not represented,
so the assertion of line 283, which compares the run numbers of the two
principals, is outside the model, as is the argument `rp`. -/
def readSubRun (s : Source) : Option (Option Nat × Source) :=
  (cassert s.doneReadAhead_).bind fun _ =>
  (cassert (s.state_ == ItemType.IsSubRun)).bind fun _ =>
  (cassert (!s.limitReached)).bind fun _ =>
    let s1 := { s with doneReadAhead_ := false }
    let s2 := { s1 with remainingSubRuns_ := s1.remainingSubRuns_ - 1 }
    (cassert s2.subRunPrincipal_.isSome).bind fun _ =>
      some (s2.subRunPrincipal_, s2)

/-- Method `readEvent(srp)` (lines 288-309).  The result of the hook is
dereferenced (lines 297-299) before it is tested for null, so a null result
aborts.  `preRead`, `postRead`, `setTimestamp` and `issueReports` touch no
member represented here; the assertions of lines 297-298 compare contents of
principals and are outside the model, as is the argument `srp`. -/
def readEvent (s : Source) : Option (Option Nat × Source) :=
  (cassert s.doneReadAhead_).bind fun _ =>
  (cassert (s.state_ == ItemType.IsEvent)).bind fun _ =>
  (cassert (!s.eventLimitReached)).bind fun _ =>
    let s1 := { s with doneReadAhead_ := false }
    let r := readEvent_ s1
    let result := r.1
    let s2 := r.2
    (cassert result.isSome).bind fun _ =>
      if result ≠ none then
        let s3 := if s2.remainingEvents_ > 0 then
            { s2 with remainingEvents_ := s2.remainingEvents_ - 1 }
          else s2
        some (result, { s3 with readCount_ := s3.readCount_ + 1 })
      else
        some (result, s2)

/-- The calls a client of the source may make. -/
inductive Op
  | nextItemType
  | readFile
  | readRun
  | readSubRun
  | readEvent
  deriving DecidableEq

/-- One call: the new state of the source and, for `nextItemType`, the item
returned; `none` when an assertion of the call fails. -/
def applyOp (op : Op) (s : Source) : Option (Option ItemType × Source) :=
  match op with
  | Op.nextItemType => (nextItemType s).map fun r => (some r.1, r.2)
  | Op.readFile => (readFile s).map fun s1 => (none, s1)
  | Op.readRun => (readRun s).map fun r => (none, r.2)
  | Op.readSubRun => (readSubRun s).map fun r => (none, r.2)
  | Op.readEvent => (readEvent s).map fun r => (none, r.2)

/-- A sequence of calls: the items returned by its `nextItemType` calls, in
order, and the final state; `none` when an assertion fails on the way. -/
def runOps : List Op → Source → Option (List ItemType × Source)
  | [], s => some ([], s)
  | op :: ops, s =>
    (applyOp op s).bind fun r =>
      (runOps ops r.2).map fun q =>
        (match r.1 with
          | some it => it :: q.1
          | none => q.1, q.2)

/-- The read call that consumes an item of the given tag (none for Stop). -/
def consume (it : ItemType) (s : Source) : Option Source :=
  match it with
  | ItemType.IsFile => readFile s
  | ItemType.IsRun => (readRun s).map Prod.snd
  | ItemType.IsSubRun => (readSubRun s).map Prod.snd
  | ItemType.IsEvent => (readEvent s).map Prod.snd
  | ItemType.IsStop => some s
  | ItemType.IsInvalid => none

/-- The protocol of a whole run: `nextItemType()`, then the matching read
call, until Stop is returned.  The result is the sequence of items returned;
`none` when an assertion fails or the run is not over after `fuel` items. -/
def drive : Nat → Source → Option (List ItemType)
  | 0, _ => none
  | fuel + 1, s =>
    (nextItemType s).bind fun r =>
      if r.1 = ItemType.IsStop then some [ItemType.IsStop]
      else (consume r.1 r.2).bind fun s1 => (drive fuel s1).map fun tr => r.1 :: tr

/-- The tags the processing mode lets the source emit: Event only in
`RunsSubRunsAndEvents`, SubRun not in `Runs`. -/
def permitted (mode : ProcessingMode) (it : ItemType) : Prop :=
  ¬ (it = ItemType.IsEvent ∧ mode ≠ ProcessingMode.RunsSubRunsAndEvents) ∧
  ¬ (it = ItemType.IsSubRun ∧ mode = ProcessingMode.Runs)

instance (mode : ProcessingMode) (it : ItemType) : Decidable (permitted mode it) := by
  unfold permitted; infer_instance

/-- The hook calls `nextItemType_()` makes to skip the items `pre`: for each
one a `getNextItemType`, then `readEvent_` for an Event and `readSubRun_` for
a SubRun. -/
def skipCalls : List ItemType → List Hook
  | [] => []
  | it :: rest =>
    Hook.getNextItemType ::
      (if it = ItemType.IsEvent then Hook.readEvent_ else Hook.readSubRun_) :: skipCalls rest

/-- The read-ahead invariant: an item cached as read ahead is permitted by the
mode. -/
def cachedPermitted (s : Source) : Prop :=
  s.doneReadAhead_ = true → permitted s.processingMode_ s.state_

/-- The invariant that holds once the sub-run limit is reached: the counter
stays at 0 and an item cached as read ahead is Event or Stop. -/
def subRunLimitInv (s : Source) : Prop :=
  s.remainingSubRuns_ = 0 ∧
    (s.doneReadAhead_ = true → s.state_ = ItemType.IsEvent ∨ s.state_ = ItemType.IsStop)

/-- The number of events a stream offers: its Event items before the first
Stop. -/
def eventsOffered : List ItemType → Nat
  | [] => 0
  | ItemType.IsStop :: _ => 0
  | ItemType.IsEvent :: rest => eventsOffered rest + 1
  | _ :: rest => eventsOffered rest

/-- How far the previous item is down the containment File, Run, SubRun. -/
def depth : ItemType → Nat
  | ItemType.IsInvalid => 0
  | ItemType.IsFile => 1
  | ItemType.IsRun => 2
  | _ => 3

/-- A bound on the number of items a run can still return before Stop: every
item returned either consumes a pending item or moves the previous item one
level down the containment. -/
def runMeasure (s : Source) : Nat := 4 * s.pending.length + (3 - depth s.state_)

/-- One round of the protocol: `nextItemType()` and, unless it returns Stop,
the matching read call; the item returned and the state after the read. -/
def protocolStep (s : Source) : Option (ItemType × Source) :=
  (nextItemType s).bind fun r =>
    if r.1 = ItemType.IsStop then none
    else (consume r.1 r.2).map fun s2 => (r.1, s2)

end DecrepitRelicInputSourceImplementation

/-! ## Event processor -/

/-- The status codes (`IEventProcessor.h`, line 31). -/
inductive StatusCode
  | epSuccess
  | epException
  | epOther
  | epSignal
  | epInputComplete
  | epTimedOut
  | epCountComplete
  deriving DecidableEq

namespace statemachine

/-- Modelled from the spec: the file modes named by `runCommon`; the
enumeration is declared in a header that is not part of the sources at hand. -/
inductive FileMode
  | NOMERGE
  | MERGE
  | FULLLUMIMERGE
  | FULLMERGE
  deriving DecidableEq

/-- The state-machine events `runCommon` posts (lines 370-387); the run and
sub-run numbers carried by `Run` and `SubRun` are not represented. -/
inductive Posted
  | Stop
  | File
  | Run
  | SubRun
  | Event
  deriving DecidableEq

/-- The part of the state machine `runCommon` looks at: how it was constructed
(lines 352-355) and whether it reports to be terminated. -/
structure Machine where
  fileMode : FileMode
  handleEmptyRuns : Bool
  handleEmptySubRuns : Bool
  terminated : Bool
  deriving DecidableEq

end statemachine

/-- A `cet::exception` (or an object of a class derived from it, such as
`art::Exception`): its category and the message appended to it so far. -/
structure CetException where
  category : String
  message : String
  deriving DecidableEq

/-- What a C++ `throw` inside the event loop may raise, by the classes the
handlers of `runCommon` tell apart. -/
inductive Thrown
  | cet (e : CetException)
  | bad_alloc
  | std_exception (what : String)
  | string (s : String)
  | c_string (s : String)
  | other
  deriving DecidableEq

/-- The handlers of `runCommon`, in the order of lines 450-503. -/
inductive Handler
  | cet_exception
  | std_bad_alloc
  | std_exception
  | std_string
  | char_const_ptr
  | ellipsis
  deriving DecidableEq

/-- Whether a handler catches an object: a handler for a class catches the
objects of that class and of the classes derived from it (`cet::exception` and
`std::bad_alloc` both derive from `std::exception`); `catch (...)` catches
everything. -/
def Handler.catches : Handler → Thrown → Bool
  | Handler.cet_exception, Thrown.cet _ => true
  | Handler.std_bad_alloc, Thrown.bad_alloc => true
  | Handler.std_exception, Thrown.cet _ => true
  | Handler.std_exception, Thrown.bad_alloc => true
  | Handler.std_exception, Thrown.std_exception _ => true
  | Handler.std_string, Thrown.string _ => true
  | Handler.char_const_ptr, Thrown.c_string _ => true
  | Handler.ellipsis, _ => true
  | _, _ => false

/-- The text of `e.what()` for an object caught as `std::exception`, and the
text of a string-like object. -/
def Thrown.text : Thrown → String
  | Thrown.cet e => e.message
  | Thrown.bad_alloc => "std::bad_alloc"
  | Thrown.std_exception what => what
  | Thrown.string s => s
  | Thrown.c_string s => s
  | Thrown.other => ""

/-- The calls `runCommon` and `terminateAbnormally` make to their surroundings
(the input source, the shutdown flag, the state machine, the random-number
service), recorded in order (a ghost record). -/
inductive Action
  | nextItemType
  | pollShutdown (flag : Bool)
  | process_event (ev : statemachine.Posted)
  | terminateAbnormally
  | saveToFile_
  deriving DecidableEq

/-- The data members of `EventProcessor` that `runCommon` reads or writes, and
two ghost members: the record `trace` of the calls made and the number
`doErrorStuffCalls` of calls of `doErrorStuff()` received so far. -/
structure EventProcessor where
  fileMode_ : String
  handleEmptyRuns_ : Bool
  handleEmptySubRuns_ : Bool
  machine_ : Option statemachine.Machine
  stateMachineWasInErrorState_ : Bool
  alreadyHandlingException_ : Bool
  exceptionMessageFiles_ : String
  exceptionMessageRuns_ : String
  exceptionMessageSubRuns_ : String
  trace : List Action
  doErrorStuffCalls : Nat
  deriving DecidableEq

/-- What the state machine does with one posted event, as far as the event
processor can see.  The reactions of the states are implemented in a file that
is not part of the sources at hand, so they are supplied from outside: whether
the call throws, whether the machine entered `Error` (whose constructor calls
`doErrorStuff()`), the messages left by state destructors through
`setExceptionMessageFiles/Runs/SubRuns`, and what `terminated()` says
afterwards. -/
structure Reaction where
  thrown : Option Thrown
  entersError : Bool
  messageFiles : Option String
  messageRuns : Option String
  messageSubRuns : Option String
  terminated : Bool
  deriving DecidableEq

/-- What the surroundings do during one iteration of the loop of `runCommon`:
the outcome of `input_->nextItemType()`, the value of `art::shutdown_flag` when
it is read, and the reaction of the state machine to the event posted. -/
structure Iteration where
  item : Except Thrown ItemType
  shutdown_flag : Bool
  reaction : Reaction

/-- The surroundings of one call of `runCommon`: the iterations of the loop,
and what `terminateAbnormally()` meets (whether the random-number service is
available, whether saving its state throws, and how the machine reacts to the
Stop posted by `terminateMachine()`). -/
structure World where
  iterations : List Iteration
  rngAvailable : Bool
  saveToFile_ : Option Thrown
  stopReaction : Reaction

/-- What a call ends with: a status code returned, an exception thrown, or,
when the supplied iterations do not bring the loop to an end, nothing yet. -/
inductive Outcome
  | returned (code : StatusCode)
  | threw (t : Thrown)
  | unfinished
  deriving DecidableEq

/-- How the loop of `runCommon` ends: by `break` with the current return code,
by an exception, or not within the supplied iterations. -/
inductive LoopEnd
  | broke (returnCode : StatusCode) (ep : EventProcessor)
  | raised (t : Thrown) (ep : EventProcessor)
  | unfinished (ep : EventProcessor)

namespace EventProcessor

/-- Appends an action to the ghost record. -/
def record (a : Action) (ep : EventProcessor) : EventProcessor :=
  { ep with trace := ep.trace ++ [a] }

/-- Method `doErrorStuff()` (lines 620-629): sets the flag (and logs). -/
def doErrorStuff (ep : EventProcessor) : EventProcessor :=
  { ep with stateMachineWasInErrorState_ := true, doErrorStuffCalls := ep.doErrorStuffCalls + 1 }

/-- Method `setExceptionMessageFiles` (lines 725-728). -/
def setExceptionMessageFiles (message : String) (ep : EventProcessor) : EventProcessor :=
  { ep with exceptionMessageFiles_ := message }

/-- Method `setExceptionMessageRuns` (lines 730-733). -/
def setExceptionMessageRuns (message : String) (ep : EventProcessor) : EventProcessor :=
  { ep with exceptionMessageRuns_ := message }

/-- Method `setExceptionMessageSubRuns` (lines 735-738). -/
def setExceptionMessageSubRuns (message : String) (ep : EventProcessor) : EventProcessor :=
  { ep with exceptionMessageSubRuns_ := message }

/-- Call `machine_->process_event(ev)`: the machine reacts as supplied, calling
back into the event processor, and the exception it throws, if any, is handed
to the caller. -/
def process_event (ev : statemachine.Posted) (r : Reaction) (ep : EventProcessor) :
    Option Thrown × EventProcessor :=
  let ep1 := ep.record (Action.process_event ev)
  let ep2 := if r.entersError then ep1.doErrorStuff else ep1
  let ep3 := match r.messageSubRuns with
    | some m => ep2.setExceptionMessageSubRuns m
    | none => ep2
  let ep4 := match r.messageRuns with
    | some m => ep3.setExceptionMessageRuns m
    | none => ep3
  let ep5 := match r.messageFiles with
    | some m => ep4.setExceptionMessageFiles m
    | none => ep4
  (r.thrown,
    { ep5 with machine_ := ep5.machine_.map fun m => { m with terminated := r.terminated } })

/-- Call `machine_->terminated()`; `machine_` is not null where `runCommon`
makes this call. -/
def machineTerminated (ep : EventProcessor) : Bool :=
  match ep.machine_ with
  | some m => m.terminated
  | none => false

/-- The construction of the state machine at the head of `runCommon` (lines
340-357): nothing to do when a machine exists; otherwise the configured file
mode is decoded, an illegal value being rejected with a Configuration
exception, and a machine that is not terminated is created.  What
`machine_->initiate()` does inside the machine (entering `Starting`) is not
represented. -/
def createMachine (ep : EventProcessor) : Except Thrown EventProcessor :=
  if ep.machine_.isNone then
    let decoded : Except Thrown statemachine.FileMode :=
      if ep.fileMode_.isEmpty then Except.ok statemachine.FileMode.FULLMERGE
      else if ep.fileMode_ = "MERGE" then Except.ok statemachine.FileMode.MERGE
      else if ep.fileMode_ = "NOMERGE" then Except.ok statemachine.FileMode.NOMERGE
      else if ep.fileMode_ = "FULLMERGE" then Except.ok statemachine.FileMode.FULLMERGE
      else if ep.fileMode_ = "FULLLUMIMERGE" then Except.ok statemachine.FileMode.FULLLUMIMERGE
      else
        Except.error (Thrown.cet
          { category := "Configuration",
            message := "Illegal fileMode parameter value: " ++ ep.fileMode_ ++ ".\n" ++
              "Legal values are 'MERGE', 'NOMERGE', 'FULLMERGE', and 'FULLLUMIMERGE'.\n" })
    match decoded with
    | Except.error t => Except.error t
    | Except.ok fileMode =>
      let machine : statemachine.Machine :=
        { fileMode := fileMode, handleEmptyRuns := ep.handleEmptyRuns_,
          handleEmptySubRuns := ep.handleEmptySubRuns_, terminated := false }
      Except.ok { ep with machine_ := some machine }
  else Except.ok ep

/-- What follows a posted event that did not throw, for every item but Event
(lines 401-403): the loop is left when the machine is terminated and goes on
otherwise. -/
def afterPost (continue_ : EventProcessor → LoopEnd) (returnCode : StatusCode)
    (r : Option Thrown × EventProcessor) : LoopEnd :=
  match r with
  | (some t, ep) => LoopEnd.raised t ep
  | (none, ep) =>
    if ep.machineTerminated then LoopEnd.broke returnCode ep else continue_ ep

/-- The loop of `runCommon` (lines 361-404), one supplied iteration per pass;
`iEvents` and `returnCode` are the local variables of that name. -/
def eventLoop (numberOfEventsToProcess : Int) :
    List Iteration → Int → StatusCode → EventProcessor → LoopEnd
  | [], _, _, ep => LoopEnd.unfinished ep
  | it :: rest, iEvents, returnCode, ep =>
    let ep1 := ep.record Action.nextItemType
    match it.item with
    | Except.error t => LoopEnd.raised t ep1
    | Except.ok itemType =>
      let ep2 := ep1.record (Action.pollShutdown it.shutdown_flag)
      if it.shutdown_flag then
        match ep2.process_event statemachine.Posted.Stop it.reaction with
        | (some t, ep3) => LoopEnd.raised t ep3
        | (none, ep3) => LoopEnd.broke StatusCode.epSignal ep3
      else if itemType = ItemType.IsStop then
        afterPost (eventLoop numberOfEventsToProcess rest iEvents returnCode) returnCode
          (ep2.process_event statemachine.Posted.Stop it.reaction)
      else if itemType = ItemType.IsFile then
        afterPost (eventLoop numberOfEventsToProcess rest iEvents returnCode) returnCode
          (ep2.process_event statemachine.Posted.File it.reaction)
      else if itemType = ItemType.IsRun then
        afterPost (eventLoop numberOfEventsToProcess rest iEvents returnCode) returnCode
          (ep2.process_event statemachine.Posted.Run it.reaction)
      else if itemType = ItemType.IsSubRun then
        afterPost (eventLoop numberOfEventsToProcess rest iEvents returnCode) returnCode
          (ep2.process_event statemachine.Posted.SubRun it.reaction)
      else if itemType = ItemType.IsEvent then
        match ep2.process_event statemachine.Posted.Event it.reaction with
        | (some t, ep3) => LoopEnd.raised t ep3
        | (none, ep3) =>
          if numberOfEventsToProcess > 0 ∧ iEvents + 1 ≥ numberOfEventsToProcess then
            LoopEnd.broke StatusCode.epCountComplete ep3
          else if ep3.machineTerminated then LoopEnd.broke returnCode ep3
          else eventLoop numberOfEventsToProcess rest (iEvents + 1) returnCode ep3
      else
        LoopEnd.raised
          (Thrown.cet
            { category := "LogicError",
              message := "Unknown next item type passed to EventProcessor\n" ++
                "Please report this error to the art developers\n" })
          ep2

/-- Method `terminateMachine()` (lines 745-759): a machine that exists is
stopped, unless it is terminated already, and destroyed. -/
def terminateMachine (stop : Reaction) (ep : EventProcessor) :
    Option Thrown × EventProcessor :=
  match ep.machine_ with
  | none => (none, ep)
  | some m =>
    let r := if !m.terminated then ep.process_event statemachine.Posted.Stop stop else (none, ep)
    match r with
    | (some t, ep1) => (some t, ep1)
    | (none, ep1) => (none, { ep1 with machine_ := none })

/-- Method `terminateAbnormally()` (lines 761-772), a function try block whose
handler swallows everything: the flag `alreadyHandlingException_` is raised,
the random-number state is saved when the service is available, the machine
is terminated and the flag is lowered; an exception on the way ends the body
there. -/
def terminateAbnormally (w : World) (ep : EventProcessor) : EventProcessor :=
  let ep1 := { ep.record Action.terminateAbnormally with alreadyHandlingException_ := true }
  if w.rngAvailable then
    let ep2 := ep1.record Action.saveToFile_
    match w.saveToFile_ with
    | some _ => ep2
    | none =>
      match ep2.terminateMachine w.stopReaction with
      | (some _, ep3) => ep3
      | (none, ep3) => { ep3 with alreadyHandlingException_ := false }
  else
    match ep1.terminateMachine w.stopReaction with
    | (some _, ep3) => ep3
    | (none, ep3) => { ep3 with alreadyHandlingException_ := false }

/-- The first handler of lines 450-503 that catches the object. -/
def firstHandler (t : Thrown) : Handler :=
  if Handler.cet_exception.catches t then Handler.cet_exception
  else if Handler.std_bad_alloc.catches t then Handler.std_bad_alloc
  else if Handler.std_exception.catches t then Handler.std_exception
  else if Handler.std_string.catches t then Handler.std_string
  else if Handler.char_const_ptr.catches t then Handler.char_const_ptr
  else Handler.ellipsis

/-- The three messages every handler appends, in the order of the code. -/
def accumulatedMessages (ep : EventProcessor) : String :=
  ep.exceptionMessageSubRuns_ ++ ep.exceptionMessageRuns_ ++ ep.exceptionMessageFiles_

/-- The handlers of `runCommon` (lines 450-503): each one calls
`terminateAbnormally()` and then throws a `cet::exception`. -/
def handleException (w : World) (t : Thrown) (ep : EventProcessor) :
    CetException × EventProcessor :=
  match firstHandler t with
  | Handler.cet_exception =>
    let ep1 := ep.terminateAbnormally w
    let e : CetException := match t with
      | Thrown.cet e => e
      | _ => { category := "", message := "" }
    ({ e with message := e.message ++ "cet::exception caught in EventProcessor and rethrown\n" ++
          ep1.exceptionMessageSubRuns_ ++ ep1.exceptionMessageRuns_ ++
          ep1.exceptionMessageFiles_ }, ep1)
  | Handler.std_bad_alloc =>
    let ep1 := ep.terminateAbnormally w
    ({ category := "std::bad_alloc",
       message := "The EventProcessor caught a std::bad_alloc exception and converted it to a cet::exception\n" ++
          "The job has probably exhausted the virtual memory available to the process.\n" ++
          ep1.exceptionMessageSubRuns_ ++ ep1.exceptionMessageRuns_ ++
          ep1.exceptionMessageFiles_ }, ep1)
  | Handler.std_exception =>
    let ep1 := ep.terminateAbnormally w
    ({ category := "StdException",
       message := "The EventProcessor caught a std::exception and converted it to a cet::exception\n" ++
          "Previous information:\n" ++ t.text ++ "\n" ++
          ep1.exceptionMessageSubRuns_ ++ ep1.exceptionMessageRuns_ ++
          ep1.exceptionMessageFiles_ }, ep1)
  | Handler.std_string =>
    let ep1 := ep.terminateAbnormally w
    ({ category := "Unknown",
       message := "The EventProcessor caught a string-based exception type and converted it to a cet::exception\n" ++
          t.text ++ "\n" ++
          ep1.exceptionMessageSubRuns_ ++ ep1.exceptionMessageRuns_ ++
          ep1.exceptionMessageFiles_ }, ep1)
  | Handler.char_const_ptr =>
    let ep1 := ep.terminateAbnormally w
    ({ category := "Unknown",
       message := "The EventProcessor caught a string-based exception type and converted it to a cet::exception\n" ++
          t.text ++ "\n" ++
          ep1.exceptionMessageSubRuns_ ++ ep1.exceptionMessageRuns_ ++
          ep1.exceptionMessageFiles_ }, ep1)
  | Handler.ellipsis =>
    let ep1 := ep.terminateAbnormally w
    ({ category := "Unknown",
       message := "The EventProcessor caught an unknown exception type and converted it to a cet::exception\n" ++
          ep1.exceptionMessageSubRuns_ ++ ep1.exceptionMessageRuns_ ++
          ep1.exceptionMessageFiles_ }, ep1)

/-- The exception thrown at line 509. -/
def badState : CetException :=
  { category := "BadState",
    message := "The boost state machine in the EventProcessor exited after\n" ++
      "entering the Error state.\n" }

/-- The end of `runCommon` after a loop left by `break` (lines 504-513). -/
def afterLoop (returnCode : StatusCode) (ep : EventProcessor) : Outcome × EventProcessor :=
  let ep1 := if ep.machineTerminated then { ep with machine_ := none } else ep
  if ep1.stateMachineWasInErrorState_ then (Outcome.threw (Thrown.cet badState), ep1)
  else (Outcome.returned returnCode, ep1)

/-- The state in which `runCommon` enters its loop, if it gets there (lines
336-357). -/
def enterLoop (ep : EventProcessor) : Except Thrown EventProcessor :=
  createMachine { ep with stateMachineWasInErrorState_ := false }

/-- Method `runCommon(numberOfEventsToProcess)` (lines 333-514). -/
def runCommon (numberOfEventsToProcess : Int) (ep : EventProcessor) (w : World) :
    Outcome × EventProcessor :=
  let returnCode := StatusCode.epSuccess
  let ep0 := { ep with stateMachineWasInErrorState_ := false }
  match createMachine ep0 with
  | Except.error t => (Outcome.threw t, ep0)
  | Except.ok ep1 =>
    match eventLoop numberOfEventsToProcess w.iterations 0 returnCode ep1 with
    | LoopEnd.raised t ep2 =>
      let r := handleException w t ep2
      (Outcome.threw (Thrown.cet r.1), r.2)
    | LoopEnd.unfinished ep2 => (Outcome.unfinished, ep2)
    | LoopEnd.broke returnCode ep2 => afterLoop returnCode ep2

/-- Method `runToCompletion()` (lines 319-331). -/
def runToCompletion (ep : EventProcessor) (w : World) : Outcome × EventProcessor :=
  let numberOfEventsToProcess : Int := -1
  match runCommon numberOfEventsToProcess ep w with
  | (Outcome.returned returnCode, ep1) =>
    if ep1.machine_.isSome then
      (Outcome.threw (Thrown.cet
        { category := "LogicError",
          message := "State machine not destroyed on exit from EventProcessor::runToCompletion\n" ++
            "Please report this error to the Framework group\n" }), ep1)
    else (Outcome.returned returnCode, ep1)
  | r => r

/-- The state of the event processor when the loop ends. -/
def loopEndState : LoopEnd → EventProcessor
  | LoopEnd.broke _ ep => ep
  | LoopEnd.raised _ ep => ep
  | LoopEnd.unfinished ep => ep

/-- The relation between the state before and a state after part of a loop:
calls have been added to the record, none of them `terminateAbnormally()`;
`doErrorStuff()` may have been called; and the error flag is up exactly when
it was up before or `doErrorStuff()` has been called in between. -/
def Follows (ep ep1 : EventProcessor) : Prop :=
  (∃ acts, ep1.trace = ep.trace ++ acts ∧ Action.terminateAbnormally ∉ acts) ∧
  ep.doErrorStuffCalls ≤ ep1.doErrorStuffCalls ∧
  (ep1.stateMachineWasInErrorState_ = true ↔
    ep.stateMachineWasInErrorState_ = true ∨ ep.doErrorStuffCalls < ep1.doErrorStuffCalls)

/-- The category of the exception `runCommon` throws for an object raised in
its loop (lines 450-503). -/
def normalizedCategory : Thrown → String
  | Thrown.cet e => e.category
  | Thrown.bad_alloc => "std::bad_alloc"
  | Thrown.std_exception _ => "StdException"
  | Thrown.string _ => "Unknown"
  | Thrown.c_string _ => "Unknown"
  | Thrown.other => "Unknown"

/-- An event processor before its first run, with the error flag left up by an
earlier call; used as a concrete input. -/
def sampleProcessor : EventProcessor where
  fileMode_ := ""
  handleEmptyRuns_ := true
  handleEmptySubRuns_ := true
  machine_ := none
  stateMachineWasInErrorState_ := true
  alreadyHandlingException_ := false
  exceptionMessageFiles_ := ""
  exceptionMessageRuns_ := ""
  exceptionMessageSubRuns_ := ""
  trace := []
  doErrorStuffCalls := 0

/-- A reaction of the state machine in which nothing special happens. -/
def quietReaction : Reaction where
  thrown := none
  entersError := false
  messageFiles := none
  messageRuns := none
  messageSubRuns := none
  terminated := false

/-- The reaction of the state machine to a Stop that terminates it. -/
def stoppingReaction : Reaction := { quietReaction with terminated := true }

/-- Surroundings in which the source offers one event and then stops. -/
def sampleWorld : World where
  iterations :=
    [{ item := Except.ok ItemType.IsFile, shutdown_flag := false, reaction := quietReaction },
     { item := Except.ok ItemType.IsRun, shutdown_flag := false, reaction := quietReaction },
     { item := Except.ok ItemType.IsSubRun, shutdown_flag := false, reaction := quietReaction },
     { item := Except.ok ItemType.IsEvent, shutdown_flag := false, reaction := quietReaction },
     { item := Except.ok ItemType.IsStop, shutdown_flag := false, reaction := stoppingReaction }]
  rngAvailable := false
  saveToFile_ := none
  stopReaction := stoppingReaction

/-- An iteration in which the source has a File item to offer and the shutdown
flag is up. -/
def shutdownIteration : Iteration where
  item := Except.ok ItemType.IsFile
  shutdown_flag := true
  reaction := stoppingReaction

/-- Surroundings in which the shutdown flag is up from the start, while the
source has a File item to offer. -/
def shutdownWorld : World where
  iterations := [shutdownIteration]
  rngAvailable := false
  saveToFile_ := none
  stopReaction := stoppingReaction

/-- Surroundings in which processing the first event runs out of memory, the
destructor of the sub-run state leaving a message behind. -/
def badAllocWorld : World where
  iterations :=
    [{ item := Except.ok ItemType.IsEvent, shutdown_flag := false,
       reaction := { quietReaction with thrown := some Thrown.bad_alloc,
                                        messageSubRuns := some "subrun left open\n",
                                        terminated := true } }]
  rngAvailable := true
  saveToFile_ := none
  stopReaction := stoppingReaction

/-- Surroundings in which the state machine enters `Error` on an unexpected
Event and is then stopped gracefully. -/
def errorWorld : World where
  iterations :=
    [{ item := Except.ok ItemType.IsEvent, shutdown_flag := false,
       reaction := { quietReaction with entersError := true } },
     { item := Except.ok ItemType.IsStop, shutdown_flag := false, reaction := stoppingReaction }]
  rngAvailable := false
  saveToFile_ := none
  stopReaction := stoppingReaction

/-- Surroundings in which the source offers a File item and nothing more is
supplied: the loop of `runCommon` is followed up to the posting of File. -/
def fileOnlyWorld : World where
  iterations :=
    [{ item := Except.ok ItemType.IsFile, shutdown_flag := false, reaction := quietReaction }]
  rngAvailable := false
  saveToFile_ := none
  stopReaction := stoppingReaction

/-- Surroundings in which nothing is supplied: `runCommon` is followed up to
the head of its loop. -/
def idleWorld : World where
  iterations := []
  rngAvailable := false
  saveToFile_ := none
  stopReaction := stoppingReaction

/-- How the loop of a call of `runCommon` ends, when the call gets as far as
the loop. -/
def loopOf (n : Int) (ep : EventProcessor) (w : World) : Option LoopEnd :=
  match enterLoop ep with
  | Except.ok ep0 => some (eventLoop n w.iterations 0 StatusCode.epSuccess ep0)
  | Except.error _ => none

/-- The object raised in the loop of a call of `runCommon`, if the loop ends
that way. -/
def raisedInLoop (n : Int) (ep : EventProcessor) (w : World) : Option Thrown :=
  match loopOf n ep w with
  | some (LoopEnd.raised t _) => some t
  | _ => none

/-- The return code and the state with which the loop of a call of
`runCommon` is left by `break`, if it ends that way. -/
def loopLeft (n : Int) (ep : EventProcessor) (w : World) :
    Option (StatusCode × EventProcessor) :=
  match loopOf n ep w with
  | some (LoopEnd.broke rc ep1) => some (rc, ep1)
  | _ => none

end EventProcessor

end art


/-! ## State machine: the transition table of `Machine.h` -/

namespace art

namespace statemachine

/-- The states of the machine (`Machine.h`, lines 76-269). -/
inductive State
  | Starting
  | HandleFiles
  | Stopping
  | Error
  | NewInputFile
  | HandleRuns
  | NewRun
  | PauseRun
  | HandleSubRuns
  | NewSubRun
  | PauseSubRun
  | HandleEvents
  | NewEvent
  | ProcessEvent
  | PauseEvent
  deriving DecidableEq

/-- The event classes the reactions of `Machine.h` name; they are declared in
`Events.h`, which is not part of the sources at hand. -/
inductive Events
  | Event
  | SubRun
  | Run
  | InputFile
  | SwitchOutputFiles
  | Stop
  | Pause
  | Process
  deriving DecidableEq

/-- The transition actions named in the reactions. -/
inductive TransitionAction
  | closeAllFiles
  | closeInputFile
  | closeSomeOutputFiles
  | disableFinalizeRun
  | disableFinalizeSubRun
  | disableFinalizeEvent
  deriving DecidableEq

/-- The destination of a transition: a state, or the deep history of a
state. -/
inductive Destination
  | state (s : State)
  | deep_history (s : State)
  deriving DecidableEq

/-- A reaction of a state to an event class: `sc::transition` to a destination,
with or without a transition action, or `sc::custom_reaction`, whose `react`
member is implemented outside the header. -/
inductive ReactionEntry
  | transition (ev : Events) (dest : Destination) (action : Option TransitionAction)
  | custom_reaction (ev : Events)
  deriving DecidableEq

/-- The event class a reaction is for. -/
def ReactionEntry.event : ReactionEntry → Events
  | ReactionEntry.transition ev _ _ => ev
  | ReactionEntry.custom_reaction ev => ev

/-- The second template argument of each state: the state it is nested in, or
none for a state nested directly in the machine. -/
def context : State → Option State
  | State.Starting => none
  | State.HandleFiles => none
  | State.Stopping => none
  | State.Error => none
  | State.NewInputFile => some State.HandleFiles
  | State.HandleRuns => some State.HandleFiles
  | State.NewRun => some State.HandleRuns
  | State.PauseRun => some State.HandleRuns
  | State.HandleSubRuns => some State.HandleRuns
  | State.NewSubRun => some State.HandleSubRuns
  | State.PauseSubRun => some State.HandleSubRuns
  | State.HandleEvents => some State.HandleSubRuns
  | State.NewEvent => some State.HandleEvents
  | State.ProcessEvent => some State.HandleEvents
  | State.PauseEvent => some State.HandleEvents

/-- The third template argument of each state: the inner state entered with
it, or none for a state without inner states. -/
def initialInner : State → Option State
  | State.HandleFiles => some State.NewInputFile
  | State.HandleRuns => some State.NewRun
  | State.HandleSubRuns => some State.NewSubRun
  | State.HandleEvents => some State.NewEvent
  | _ => none

/-- The member `reactions` of each state, in the order of the header. -/
def reactions : State → List ReactionEntry
  | State.Starting =>
    [ReactionEntry.transition Events.Event (Destination.state State.Error) none,
     ReactionEntry.transition Events.SubRun (Destination.state State.Error) none,
     ReactionEntry.transition Events.Run (Destination.state State.Error) none,
     ReactionEntry.transition Events.InputFile (Destination.state State.HandleFiles) none,
     ReactionEntry.transition Events.SwitchOutputFiles (Destination.state State.Error) none,
     ReactionEntry.transition Events.Stop (Destination.state State.Stopping) none]
  | State.HandleFiles =>
    [ReactionEntry.transition Events.Event (Destination.state State.Error)
       (some TransitionAction.closeAllFiles),
     ReactionEntry.transition Events.SubRun (Destination.state State.Error)
       (some TransitionAction.closeAllFiles),
     ReactionEntry.transition Events.Run (Destination.state State.Error)
       (some TransitionAction.closeAllFiles),
     ReactionEntry.transition Events.InputFile (Destination.state State.HandleFiles)
       (some TransitionAction.closeInputFile),
     ReactionEntry.transition Events.SwitchOutputFiles (Destination.state State.Error)
       (some TransitionAction.closeAllFiles),
     ReactionEntry.transition Events.Stop (Destination.state State.Stopping)
       (some TransitionAction.closeAllFiles)]
  | State.Stopping => [ReactionEntry.custom_reaction Events.Stop]
  | State.Error => [ReactionEntry.transition Events.Stop (Destination.state State.Stopping) none]
  | State.NewInputFile =>
    [ReactionEntry.transition Events.Run (Destination.state State.HandleRuns) none,
     ReactionEntry.custom_reaction Events.SwitchOutputFiles]
  | State.HandleRuns =>
    [ReactionEntry.transition Events.Run (Destination.state State.HandleRuns) none]
  | State.NewRun =>
    [ReactionEntry.transition Events.SubRun (Destination.state State.HandleSubRuns) none,
     ReactionEntry.transition Events.Pause (Destination.state State.PauseRun)
       (some TransitionAction.disableFinalizeRun)]
  | State.PauseRun =>
    [ReactionEntry.transition Events.SwitchOutputFiles (Destination.deep_history State.HandleRuns)
       (some TransitionAction.closeSomeOutputFiles),
     ReactionEntry.transition Events.SubRun (Destination.state State.HandleSubRuns) none]
  | State.HandleSubRuns =>
    [ReactionEntry.transition Events.SubRun (Destination.state State.HandleSubRuns) none]
  | State.NewSubRun =>
    [ReactionEntry.transition Events.Event (Destination.state State.HandleEvents) none,
     ReactionEntry.transition Events.Pause (Destination.state State.PauseSubRun)
       (some TransitionAction.disableFinalizeSubRun)]
  | State.PauseSubRun =>
    [ReactionEntry.transition Events.SwitchOutputFiles (Destination.deep_history State.HandleRuns)
       (some TransitionAction.closeSomeOutputFiles),
     ReactionEntry.transition Events.Event (Destination.state State.HandleEvents) none]
  | State.HandleEvents =>
    [ReactionEntry.transition Events.Event (Destination.state State.HandleEvents) none]
  | State.NewEvent =>
    [ReactionEntry.transition Events.Process (Destination.state State.ProcessEvent) none,
     ReactionEntry.transition Events.Pause (Destination.state State.PauseEvent)
       (some TransitionAction.disableFinalizeEvent)]
  | State.ProcessEvent => []
  | State.PauseEvent =>
    [ReactionEntry.transition Events.SwitchOutputFiles (Destination.deep_history State.HandleRuns)
       (some TransitionAction.closeSomeOutputFiles),
     ReactionEntry.transition Events.Process (Destination.state State.ProcessEvent) none]

/-- The reaction of one state to an event: the first entry of its reaction
list that is for the class of the event. -/
def ownReaction (s : State) (ev : Events) : Option ReactionEntry :=
  (reactions s).find? fun r => r.event = ev

/-- The dispatch of the statechart library: the reaction lists are searched
from the given (innermost) state outwards, at most `fuel` levels; the result
is the first reaction found and the state that has it, or none when no state
on the way out reacts to the event. -/
def dispatchFrom : Nat → State → Events → Option (State × ReactionEntry)
  | 0, _, _ => none
  | fuel + 1, s, ev =>
    match ownReaction s ev with
    | some r => some (s, r)
    | none =>
      match context s with
      | some outer => dispatchFrom fuel outer ev
      | none => none

/-- The dispatch of an event in a state; the nesting is four levels deep, so
five levels reach the outermost state from everywhere. -/
def dispatch (s : State) (ev : Events) : Option (State × ReactionEntry) :=
  dispatchFrom 5 s ev

/-- The states the machine can be in when an event arrives: the innermost
ones, which have no inner state. -/
def innermost (s : State) : Bool := (initialInner s).isNone

/-- Whether a state is, or is nested in, another one. -/
def within : Nat → State → State → Bool
  | 0, _, _ => false
  | fuel + 1, s, outer =>
    s = outer ||
      match context s with
      | some c => within fuel c outer
      | none => false

/-- Whether a state is `outer` itself or lies inside it. -/
def inside (s outer : State) : Bool := within 5 s outer

/-- Whether dispatching an event in a state leads to `Error`. -/
def leadsToError (s : State) (ev : Events) : Bool :=
  match dispatch s ev with
  | some (_, ReactionEntry.transition _ (Destination.state State.Error) _) => true
  | _ => false

end statemachine

end art

/-! ## Shared modules: serial task queues -/

namespace art

/-- The order of `std::string`, on the characters of two strings: the first
place where they differ decides, and a proper beginning of a string comes
before it. -/
def lexLess : List Char → List Char → Bool
  | _, [] => false
  | [], _ :: _ => true
  | x :: xs, y :: ys =>
    if x.toNat < y.toNat then true else if y.toNat < x.toNat then false else lexLess xs ys

/-- The comparison `operator<` of `std::string`, by which sets and maps of
strings are ordered. -/
def stringLess (a b : String) : Bool := lexLess a.data b.data

/-- Insertion into a `std::set<std::string>`: nothing happens when the element
is there already, otherwise it is put at its place in ascending order. -/
def setInsert (x : String) : List String → List String
  | [] => [x]
  | y :: ys => if x = y then y :: ys else if stringLess x y then x :: y :: ys else y :: setInsert x ys

namespace detail

/-- A `hep::concurrency::SerialTaskQueueChain`, identified by the names of the
resources whose queues it chains, in order. -/
structure SerialTaskQueueChain where
  queues : List String
  deriving DecidableEq

/-- The data members of `SharedModule` (and of `SharedProducer`, which has the
same ones); they are declared in `SharedModule.h`, which is not part of the
sources at hand.  `resourceNames_` is a `std::set<std::string>`, kept here in
ascending order without duplicates; `chain_` is null (`none`) until a chain is
created. -/
structure SharedModule where
  moduleLabel_ : String
  resourceNames_ : List String
  asyncDeclared_ : Bool
  chain_ : Option SerialTaskQueueChain
  deriving DecidableEq

namespace SharedModule

/-- The constructor `SharedModule(moduleLabel)` (lines 25-29). -/
def mk0 (moduleLabel : String) : SharedModule where
  moduleLabel_ := moduleLabel
  resourceNames_ := []
  asyncDeclared_ := false
  chain_ := none

/-- Method `serialize_for_resource(resourceName)` (lines 65-73); the
registration of a new name with the `SharedResourcesRegistry` is not
represented. -/
def serialize_for_resource (resourceName : String) (m : SharedModule) : SharedModule :=
  { m with resourceNames_ := setInsert resourceName m.resourceNames_ }

/-- The exception thrown at lines 44-48 (and at lines 52-56 of
`EDProducer.cc`): an `art::Exception` of code `LogicError`. -/
def schedulingError : CetException :=
  { category := "LogicError",
    message := "An error occurred while processing scheduling options for a module." ++
      "async<InEvent>() cannot be called in combination with any " ++
      "serialize<InEvent>(...) calls.\n" }

/-- Method `createQueues()` (lines 37-54): what it throws, if anything, and
the state it leaves.  The registry hands back one queue for each name. -/
def createQueues (m : SharedModule) : Option Thrown × SharedModule :=
  if m.resourceNames_.isEmpty then (none, m)
  else if m.asyncDeclared_ then (some (Thrown.cet schedulingError), m)
  else (none, { m with chain_ := some { queues := m.resourceNames_ } })

end SharedModule

end detail

namespace SharedProducer

open detail

/-- Method `SharedProducer::doBeginJob()` (`EDProducer.cc`, lines 47-64): what
it throws, if anything, and the state it leaves.  `user` is what
`failureToPutProducts(md_)` and the module's own `beginJob()` throw, if they
throw. -/
def doBeginJob (user : Option Thrown) (m : SharedModule) : Option Thrown × SharedModule :=
  if ¬ m.resourceNames_.isEmpty ∧ m.asyncDeclared_ then
    (some (Thrown.cet SharedModule.schedulingError), m)
  else
    let m1 := if ¬ m.resourceNames_.isEmpty then
        { m with chain_ := some { queues := m.resourceNames_ } }
      else m
    (user, m1)

/-- A shared module that has declared `async` and asks to be serialized on the
resource "DB"; used as a concrete input. -/
def sampleAsyncSerialized : SharedModule :=
  { (SharedModule.mk0 "writer").serialize_for_resource "DB" with asyncDeclared_ := true }

end SharedProducer

/-! ## Principal cache: writing out runs and sub-runs -/

/-- Modelled from the spec: the lowest of the cached numbers (`lowestRun()`,
`lowestSubRun()` of `PrincipalCache`, a class that is not part of the sources
at hand); none for an empty cache. -/
def lowestOf {α : Type} [LinearOrder α] : List α → Option α
  | [] => none
  | x :: xs =>
    match lowestOf xs with
    | none => some x
    | some m => some (min x m)

/-- Modelled from the spec: `deleteLowestRun()`, `deleteLowestSubRun()` of
`PrincipalCache`: the entry with the lowest number leaves the cache. -/
def deleteLowestOf {α : Type} [LinearOrder α] (l : List α) : List α :=
  match lowestOf l with
  | none => l
  | some m => l.erase m

/-- Modelled from the spec: the part of `PrincipalCache` that
`writeRunCache()` and `writeSubRunCache()` use.  The class is not part of the
sources at hand; by the spec it holds the cached run and sub-run principals by
number, and the lowest-numbered one is written out and deleted first.  A
principal is represented by its number, a sub-run by the pair of its run and
sub-run numbers, ordered by run number first. -/
structure PrincipalCache where
  runPrincipals : List Nat
  subRunPrincipals : List (Lex (Nat × Nat))

namespace PrincipalCache

/-- Modelled from the spec: `noMoreRuns()`. -/
def noMoreRuns (c : PrincipalCache) : Bool := c.runPrincipals.isEmpty

/-- Modelled from the spec: `noMoreSubRuns()`. -/
def noMoreSubRuns (c : PrincipalCache) : Bool := c.subRunPrincipals.isEmpty

/-- Modelled from the spec: `lowestRun()`. -/
def lowestRun (c : PrincipalCache) : Option Nat := lowestOf c.runPrincipals

/-- Modelled from the spec: `lowestSubRun()`. -/
def lowestSubRun (c : PrincipalCache) : Option (Lex (Nat × Nat)) := lowestOf c.subRunPrincipals

/-- Modelled from the spec: `deleteLowestRun()`. -/
def deleteLowestRun (c : PrincipalCache) : PrincipalCache :=
  { c with runPrincipals := deleteLowestOf c.runPrincipals }

/-- Modelled from the spec: `deleteLowestSubRun()`. -/
def deleteLowestSubRun (c : PrincipalCache) : PrincipalCache :=
  { c with subRunPrincipals := deleteLowestOf c.subRunPrincipals }

end PrincipalCache

/-- The calls `writeRunCache()` and `writeSubRunCache()` make, in order (a
ghost record). -/
inductive CacheCall
  | writeRun (run : Nat)
  | deleteLowestRun
  | writeSubRun (subRun : Lex (Nat × Nat))
  | deleteLowestSubRun

/-- The principal cache of the event processor and the record of the calls made
on it and on the schedule. -/
structure CacheState where
  principalCache_ : PrincipalCache
  calls : List CacheCall

namespace EventProcessor

/-- The loop of `writeRunCache()` (lines 607-610), at most `fuel` passes; none
when the loop is not over by then. -/
def writeRunCacheLoop : Nat → CacheState → Option CacheState
  | 0, st => if st.principalCache_.noMoreRuns then some st else none
  | fuel + 1, st =>
    if st.principalCache_.noMoreRuns then some st
    else
      match st.principalCache_.lowestRun with
      | none => none
      | some run =>
        writeRunCacheLoop fuel
          { principalCache_ := st.principalCache_.deleteLowestRun,
            calls := st.calls ++ [CacheCall.writeRun run, CacheCall.deleteLowestRun] }

/-- Method `writeRunCache()` (lines 605-612).  Each pass takes one run out of
the cache, so the number of cached runs bounds the number of passes. -/
def writeRunCache (st : CacheState) : Option CacheState :=
  writeRunCacheLoop st.principalCache_.runPrincipals.length st

/-- The loop of `writeSubRunCache()` (lines 598-601), at most `fuel` passes. -/
def writeSubRunCacheLoop : Nat → CacheState → Option CacheState
  | 0, st => if st.principalCache_.noMoreSubRuns then some st else none
  | fuel + 1, st =>
    if st.principalCache_.noMoreSubRuns then some st
    else
      match st.principalCache_.lowestSubRun with
      | none => none
      | some subRun =>
        writeSubRunCacheLoop fuel
          { principalCache_ := st.principalCache_.deleteLowestSubRun,
            calls := st.calls ++ [CacheCall.writeSubRun subRun, CacheCall.deleteLowestSubRun] }

/-- Method `writeSubRunCache()` (lines 596-603). -/
def writeSubRunCache (st : CacheState) : Option CacheState :=
  writeSubRunCacheLoop st.principalCache_.subRunPrincipals.length st

/-- The calls that write out and delete the given runs, one after the other. -/
def runCalls (written : List Nat) : List CacheCall :=
  written.flatMap fun run => [CacheCall.writeRun run, CacheCall.deleteLowestRun]

/-- The calls that write out and delete the given sub-runs, one after the
other. -/
def subRunCalls (written : List (Lex (Nat × Nat))) : List CacheCall :=
  written.flatMap fun subRun => [CacheCall.writeSubRun subRun, CacheCall.deleteLowestSubRun]

end EventProcessor

end art

/-! ## Path manager: `PathManager.cc` -/

namespace art

/-- Lookup in a `std::map<std::string, T>` (`find`), the map being the list of
its entries. -/
def mapFind? {β : Type} : List (String × β) → String → Option β
  | [], _ => none
  | (k, v) :: rest, key => if key = k then some v else mapFind? rest key

/-- The place of a new entry of a `std::map<std::string, T>`: before the first
entry with a greater key. -/
def mapInsert {β : Type} (key : String) (value : β) : List (String × β) → List (String × β)
  | [] => [(key, value)]
  | (k, v) :: rest =>
    if stringLess key k then (key, value) :: (k, v) :: rest
    else (k, v) :: mapInsert key value rest

/-- Method `emplace` of a `std::map<std::string, T>`: nothing happens when the
key is there already. -/
def mapEmplace {β : Type} (key : String) (value : β) (m : List (String × β)) :
    List (String × β) :=
  if (mapFind? m key).isSome then m else mapInsert key value m

/-- Method `erase(key)` of a `std::map<std::string, T>`. -/
def mapErase {β : Type} (key : String) (m : List (String × β)) : List (String × β) :=
  m.filter fun kv => kv.1 ≠ key

/-- Modelled from the spec: the enumeration `ModuleType` is declared in a
header that is not part of the sources at hand; the constructor of
`PathManager` casts the numbers 1 to 4 to it for the tables of producers,
filters, analyzers and output modules, in this order. -/
inductive ModuleType
  | non_art
  | producer
  | filter
  | analyzer
  | output_module
  deriving DecidableEq

/-- Modelled from the spec: an observer is an analyzer or an output module, a
modifier a producer or a filter. -/
def is_observer (mt : ModuleType) : Bool :=
  match mt with
  | ModuleType.analyzer => true
  | ModuleType.output_module => true
  | _ => false

/-- Modelled from the spec: the text `ModuleType_to_string` gives for a module
type (the function is declared in the missing header). -/
def ModuleType_to_string : ModuleType → String
  | ModuleType.non_art => "non-art"
  | ModuleType.producer => "producer"
  | ModuleType.filter => "filter"
  | ModuleType.analyzer => "analyzer"
  | ModuleType.output_module => "output module"

/-- Modelled from the spec: the threading types of a module; only `replicated`
is told apart by `fillWorkers_`. -/
inductive ModuleThreadingType
  | legacy
  | shared
  | replicated
  deriving DecidableEq

/-- The nested enumeration `WorkerInPath::FilterAction`. -/
inductive WorkerInPath.FilterAction
  | Normal
  | Ignore
  | Veto
  deriving DecidableEq

/-- The nested structure `WorkerInPath::ConfigInfo`: a module label and the
filter action of one path entry. -/
structure WorkerInPath.ConfigInfo where
  label : String
  filterAction : WorkerInPath.FilterAction
  deriving DecidableEq

/-- The members of `ModuleConfigInfo` the path manager reads (the parameter set
of the module is left out). -/
structure ModuleConfigInfo where
  configTableName_ : String
  moduleType_ : ModuleType
  moduleThreadingType_ : ModuleThreadingType
  libSpec_ : String
  deriving DecidableEq

/-- What a name of the `physics` table is key to. -/
inductive PhysicsValue
  | sequence (entries : List String)
  | table
  | atom
  deriving DecidableEq

/-- One name of a module table with what lines 130-143 find for it: the
`module_type` parameter, the module type the library of that name defines in
code (or the text of the exception that reading the parameter or loading the
type throws), and the threading type the library defines (or the text of the
exception `loadModuleThreadingType_` throws). -/
structure ModuleTableEntry where
  module_label : String
  lib_spec : String
  moduleType : Except String ModuleType
  threadingType : Except String ModuleThreadingType

/-- The parts of the process parameter set `procPS_` that the constructor of
`PathManager` reads.  The names of a table come in the order of `get_names()`;
`physics` holds every name of the physics table except that the contents of
its three module tables are given apart. -/
structure ProcessParameters where
  producers : List ModuleTableEntry
  filters : List ModuleTableEntry
  analyzers : List ModuleTableEntry
  outputs : List ModuleTableEntry
  physics : List (String × PhysicsValue)
  trigger_paths : Option (List String)
  end_paths : Option (List String)

/-- An error entry written to the stream `es` of lines 119-160. -/
inductive ModuleConfigError
  | wrongType (module_label lib_spec : String) (configured actual : ModuleType)
  | labelReused (module_label firstTable table : String)
  | failed (module_label what : String)
  deriving DecidableEq

/-- The text of an entry of lines 135-157. -/
def ModuleConfigError.text : ModuleConfigError → String
  | ModuleConfigError.wrongType module_label lib_spec configured actual =>
    "  ERROR: Module with label " ++ module_label ++ " of type " ++ lib_spec ++
      " is configured as a " ++ ModuleType_to_string configured ++
      " but defined in code as a " ++ ModuleType_to_string actual ++ ".\n"
  | ModuleConfigError.labelReused module_label firstTable table =>
    "  ERROR: Module label " ++ module_label ++ " has been used in " ++ firstTable ++
      " and " ++ table ++ ".\n"
  | ModuleConfigError.failed module_label what =>
    "  ERROR: Configuration of module with label " ++ module_label ++
      " encountered the following error:\n" ++ what ++ "\n"

/-- The four module tables in the order of lines 121-124, each with the module
type its position stands for. -/
def moduleTables (ps : ProcessParameters) : List (String × ModuleType × List ModuleTableEntry) :=
  [("physics.producers", ModuleType.producer, ps.producers),
   ("physics.filters", ModuleType.filter, ps.filters),
   ("physics.analyzers", ModuleType.analyzer, ps.analyzers),
   ("outputs", ModuleType.output_module, ps.outputs)]

/-- The body of the inner loop of lines 127-159 for one module label. -/
def collectModule (path_table_name : String) (module_type : ModuleType)
    (st : List (String × ModuleConfigInfo) × List ModuleConfigError) (entry : ModuleTableEntry) :
    List (String × ModuleConfigInfo) × List ModuleConfigError :=
  match entry.moduleType with
  | Except.error what => (st.1, st.2 ++ [ModuleConfigError.failed entry.module_label what])
  | Except.ok actualModType =>
    let es := if actualModType ≠ module_type then
        st.2 ++ [ModuleConfigError.wrongType entry.module_label entry.lib_spec module_type
          actualModType]
      else st.2
    match entry.threadingType with
    | Except.error what => (st.1, es ++ [ModuleConfigError.failed entry.module_label what])
    | Except.ok threading =>
      match mapFind? st.1 entry.module_label with
      | some first =>
        (st.1, es ++ [ModuleConfigError.labelReused entry.module_label first.configTableName_
          path_table_name])
      | none =>
        (mapEmplace entry.module_label
          { configTableName_ := path_table_name, moduleType_ := module_type,
            moduleThreadingType_ := threading, libSpec_ := entry.lib_spec } st.1, es)

/-- The loops of lines 121-160: the map `allModules_` and the error entries. -/
def collectModuleTables (ps : ProcessParameters) :
    List (String × ModuleConfigInfo) × List ModuleConfigError :=
  (moduleTables ps).foldl (fun st t => t.2.2.foldl (collectModule t.1 t.2.1) st) ([], [])

/-- An `art::Exception` of code `Configuration` with the given message. -/
def configurationError (message : String) : Thrown :=
  Thrown.cet { category := "Configuration", message := message }

/-- The block of lines 118-167: `allModules_`, or the exception of lines
162-165.  Every entry is a text that is not empty, so the stream is empty
exactly if no entry was written. -/
def collectModules (ps : ProcessParameters) : Except Thrown (List (String × ModuleConfigInfo)) :=
  let r := collectModuleTables ps
  if r.2.isEmpty then Except.ok r.1
  else Except.error (configurationError
    ("The following were encountered while processing the module configurations:\n" ++
      String.join (r.2.map ModuleConfigError.text)))

/-- The category of a path, `mod_cat_t` of line 263. -/
inductive mod_cat_t
  | UNSET
  | OBSERVER
  | MODIFIER
  deriving DecidableEq

/-- An error entry written to the stream `es` of lines 172-357. -/
inductive PathError
  | unknownPath (path parameter : String)
  | notConfigured (entry path_name label : String)
  | mixed (entry path_name : String) (cat : mod_cat_t)
  | endPathIsTrigger (path_name : String)
  | triggerPathIsEnd (path_name : String)
  | actionOnNonFilter (label path_name : String) (cat : mod_cat_t) (moduleType : ModuleType)
  deriving DecidableEq

/-- The text of an entry (lines 204-205, 216-217, 273-275, 284-289, 312-314,
333-335 and 347-350). -/
def PathError.text : PathError → String
  | PathError.unknownPath path parameter =>
    "ERROR: Unknown path " ++ path ++ " specified by user in " ++ parameter ++ ".\n"
  | PathError.notConfigured entry path_name label =>
    "  ERROR: Entry " ++ entry ++ " in path " ++ path_name ++
      " refers to a module label " ++ label ++ " which is not configured.\n"
  | PathError.mixed entry path_name cat =>
    "  ERROR: Entry " ++ entry ++ " in path " ++ path_name ++ " is a" ++
      (if cat = mod_cat_t.OBSERVER then " modifier" else "n observer") ++
      " while previous entries in the same path are all " ++
      (if cat = mod_cat_t.OBSERVER then "observers" else "modifiers") ++ ".\n"
  | PathError.endPathIsTrigger path_name =>
    "  ERROR: Path \x27" ++ path_name ++
      "\x27 is configured as an end path but is actually a trigger path."
  | PathError.triggerPathIsEnd path_name =>
    "  ERROR: Path \x27" ++ path_name ++
      "\x27 is configured as a trigger path but is actually an end path."
  | PathError.actionOnNonFilter label path_name cat moduleType =>
    "  ERROR: Module " ++ label ++ " in path " ++ path_name ++ " is" ++
      (if cat = mod_cat_t.OBSERVER then " an " else " a ") ++ ModuleType_to_string moduleType ++
      " and cannot have a \x27!\x27 or \x27-\x27 prefix.\n"

/-- The string method `find_first_not_of`: the position of the first character
that is none of `chars`; none stands for `npos`. -/
def find_first_not_of (spec : String) (chars : String) : Option Nat :=
  spec.data.findIdx? fun c => !chars.data.contains c

/-- The exception of lines 256-257. -/
def illegalLabel (spec : String) : Thrown :=
  configurationError ("Module label " ++ spec ++ " is illegal.\n")

/-- The lambda `remove_filter_action` of lines 253-260; `npos` is greater
than 1. -/
def remove_filter_action (spec : String) : Except Thrown String :=
  match find_first_not_of spec "!-" with
  | none => Except.error (illegalLabel spec)
  | some pos => if pos > 1 then Except.error (illegalLabel spec) else Except.ok (String.mk (spec.data.drop pos))

/-- The filter action of an entry, lines 339-344. -/
def filterActionOf (modname_filterAction : String) : WorkerInPath.FilterAction :=
  if modname_filterAction.data.head? = some (Char.ofNat 33) then WorkerInPath.FilterAction.Veto
  else if modname_filterAction.data.head? = some (Char.ofNat 45) then
    WorkerInPath.FilterAction.Ignore
  else WorkerInPath.FilterAction.Normal

/-- The local variables and data members that the loop over the paths (lines
261-368) changes. -/
structure PathScan where
  es : List PathError
  specified_modules : List String
  num_end_paths : Nat
  triggerPathNames_ : List String
  protoTrigPathLabelMap_ : List (String × List WorkerInPath.ConfigInfo)
  protoEndPathLabels_ : List WorkerInPath.ConfigInfo
  deriving DecidableEq

/-- The statement `protoTrigPathLabelMap_[path_name].emplace_back(..)` of line
354. -/
def appendToPath (path_name : String) (info : WorkerInPath.ConfigInfo) :
    List (String × List WorkerInPath.ConfigInfo) → List (String × List WorkerInPath.ConfigInfo)
  | [] => [(path_name, [info])]
  | (k, v) :: rest =>
    if path_name = k then (k, v ++ [info]) :: rest
    else if (mapFind? rest path_name).isNone ∧ stringLess path_name k then
      (path_name, [info]) :: (k, v) :: rest
    else (k, v) :: appendToPath path_name info rest

/-- The loops of lines 305-307 and 325-327: the labels of an ignored path leave
`specified_modules`. -/
def eraseSpecified : List String → List String → Except Thrown (List String)
  | [], specified => Except.ok specified
  | mod :: rest, specified =>
    match remove_filter_action mod with
    | Except.error t => Except.error t
    | Except.ok label => eraseSpecified rest (specified.filter fun l => l ≠ label)

/-- The branch of lines 291-338, taken at the first configured entry of a path,
up to the erasing loop: none when the path is to be ignored, else the state with
the path registered. -/
def categorize (trigger_paths_config_ end_paths_config_ : Option (List String))
    (path_name : String) (cat : mod_cat_t) (st : PathScan) : Option PathScan :=
  if cat = mod_cat_t.MODIFIER then
    if trigger_paths_config_.any (fun c => !c.contains path_name) then none
    else
      let es := if end_paths_config_.any (fun c => c.contains path_name) then
          st.es ++ [PathError.endPathIsTrigger path_name]
        else st.es
      some { st with es := es, triggerPathNames_ := st.triggerPathNames_ ++ [path_name] }
  else
    if end_paths_config_.any (fun c => !c.contains path_name) then none
    else
      let es := if trigger_paths_config_.any (fun c => c.contains path_name) then
          st.es ++ [PathError.triggerPathIsEnd path_name]
        else st.es
      some { st with es := es }

/-- Lines 339-357: the filter action of the entry, the check of the prefix, and
the entry joining its trigger path or the end path. -/
def recordEntry (modname_filterAction label path_name : String) (mci : ModuleConfigInfo)
    (cat : mod_cat_t) (st : PathScan) : PathScan :=
  let filteract := filterActionOf modname_filterAction
  let es := if mci.moduleType_ ≠ ModuleType.filter ∧
      filteract ≠ WorkerInPath.FilterAction.Normal then
      st.es ++ [PathError.actionOnNonFilter label path_name cat mci.moduleType_]
    else st.es
  if cat = mod_cat_t.MODIFIER then
    { st with
      es := es,
      protoTrigPathLabelMap_ := appendToPath path_name ⟨label, filteract⟩ st.protoTrigPathLabelMap_ }
  else
    { st with es := es, protoEndPathLabels_ := st.protoEndPathLabels_ ++ [⟨label, filteract⟩] }

/-- The loop over the entries of one path, lines 268-358, from the given entry
on: the category of the path and the state at the end of the loop.  `path` is
the whole path, which the erasing loop of an ignored path walks through. -/
def processEntries (allModules_ : List (String × ModuleConfigInfo))
    (trigger_paths_config_ end_paths_config_ : Option (List String)) (path_name : String)
    (path : List String) : List String → mod_cat_t → PathScan → Except Thrown (mod_cat_t × PathScan)
  | [], cat, st => Except.ok (cat, st)
  | modname_filterAction :: rest, cat, st =>
    match remove_filter_action modname_filterAction with
    | Except.error t => Except.error t
    | Except.ok label =>
      let st1 := { st with specified_modules := setInsert label st.specified_modules }
      match mapFind? allModules_ label with
      | none =>
        processEntries allModules_ trigger_paths_config_ end_paths_config_ path_name path rest cat
          { st1 with es := st1.es ++ [PathError.notConfigured modname_filterAction path_name label] }
      | some mci =>
        let mtype := if is_observer mci.moduleType_ then mod_cat_t.OBSERVER else mod_cat_t.MODIFIER
        if cat = mod_cat_t.UNSET then
          match categorize trigger_paths_config_ end_paths_config_ path_name mtype st1 with
          | none =>
            match eraseSpecified path st1.specified_modules with
            | Except.error t => Except.error t
            | Except.ok specified => Except.ok (mtype, { st1 with specified_modules := specified })
          | some st2 =>
            processEntries allModules_ trigger_paths_config_ end_paths_config_ path_name path rest
              mtype (recordEntry modname_filterAction label path_name mci mtype st2)
        else
          let st2 := if cat ≠ mtype then
              { st1 with es := st1.es ++ [PathError.mixed modname_filterAction path_name cat] }
            else st1
          processEntries allModules_ trigger_paths_config_ end_paths_config_ path_name path rest
            cat (recordEntry modname_filterAction label path_name mci cat st2)

/-- The sequence `physics.get<vector<string>>(path_name)`; by line 247 the name
is key to a sequence when this is reached. -/
def pathOf (ps : ProcessParameters) (path_name : String) : List String :=
  match mapFind? ps.physics path_name with
  | some (PhysicsValue.sequence entries) => entries
  | _ => []

/-- The body of the loop of lines 265-362 for one path. -/
def processPath (ps : ProcessParameters) (allModules_ : List (String × ModuleConfigInfo))
    (trigger_paths_config_ end_paths_config_ : Option (List String)) (path_name : String)
    (st : PathScan) : Except Thrown PathScan :=
  match processEntries allModules_ trigger_paths_config_ end_paths_config_ path_name
      (pathOf ps path_name) (pathOf ps path_name) mod_cat_t.UNSET st with
  | Except.error t => Except.error t
  | Except.ok (cat, st1) =>
    Except.ok (if cat = mod_cat_t.OBSERVER then { st1 with num_end_paths := st1.num_end_paths + 1 }
      else st1)

/-- The loop of lines 265-362 over the given path names. -/
def processPaths (ps : ProcessParameters) (allModules_ : List (String × ModuleConfigInfo))
    (trigger_paths_config_ end_paths_config_ : Option (List String)) :
    List String → PathScan → Except Thrown PathScan
  | [], st => Except.ok st
  | path_name :: rest, st =>
    match processPath ps allModules_ trigger_paths_config_ end_paths_config_ path_name st with
    | Except.error t => Except.error t
    | Except.ok st1 => processPaths ps allModules_ trigger_paths_config_ end_paths_config_ rest st1

/-- The names that are no paths, line 185-186. -/
def special_parms : List String :=
  ["analyzers", "end_paths", "filters", "producers", "trigger_paths"]

/-- The vector `path_names` of lines 187-192.  Both ranges are ascending and
free of duplicates (`get_names()` walks a map, `special_parms` is a set), and
for such ranges `std::set_difference` keeps the names of the first that are
not in the second. -/
def pathNames (ps : ProcessParameters) : List String :=
  (ps.physics.map Prod.fst).filter fun name => !special_parms.contains name

/-- The set built at lines 106-107 and 111-112 from the value of
`physics.trigger_paths` or `physics.end_paths`. -/
def pathsConfig (tmp : Option (List String)) : Option (List String) :=
  tmp.map fun names => names.foldl (fun set name => setInsert name set) []

/-- The entries of lines 196-219: the names of `trigger_paths` and of
`end_paths` that are no path of the physics table. -/
def unknownPaths (trigger_paths_config_ end_paths_config_ : Option (List String))
    (path_names : List String) : List PathError :=
  (match trigger_paths_config_ with
    | none => []
    | some config =>
      (config.filter fun path => !path_names.contains path).map fun path =>
        PathError.unknownPath path "trigger_paths") ++
  (match end_paths_config_ with
    | none => []
    | some config =>
      (config.filter fun path => !path_names.contains path).map fun path =>
        PathError.unknownPath path "end_paths")

/-- The map `bad_names` of lines 224-231: the path names that are not key to a
sequence, each with the kind of its value. -/
def badNames (ps : ProcessParameters) (path_names : List String) : List (String × String) :=
  path_names.foldl (fun bad name =>
    match mapFind? ps.physics name with
    | some (PhysicsValue.sequence _) => bad
    | some PhysicsValue.table => mapEmplace name "table" bad
    | _ => mapEmplace name "atom" bad) []

/-- The exception of lines 233-247. -/
def unsupportedParameters (bad_names : List (String × String)) : Thrown :=
  configurationError
    ("\nYou have specified the following unsupported parameters in the\n" ++
      "\"physics\" block of your configuration:\n\n" ++
      String.join (bad_names.map fun name =>
        "   \"physics." ++ name.1 ++ "\"   (" ++ name.2 ++ ")\n") ++
      "\n" ++
      "Supported parameters include the following tables:\n" ++
      "   \"physics.producers\"\n" ++
      "   \"physics.filters\"\n" ++
      "   \"physics.analyzers\"\n" ++
      "and sequences. Atomic configuration parameters are not allowed.\n\n")

/-- The block of lines 171-368: the state after the loop over the paths, or
the exception thrown at once at line 247 or at line 256. -/
def scanPaths (ps : ProcessParameters) (allModules_ : List (String × ModuleConfigInfo)) :
    Except Thrown PathScan :=
  let trigger_paths_config_ := pathsConfig ps.trigger_paths
  let end_paths_config_ := pathsConfig ps.end_paths
  let path_names := pathNames ps
  let bad_names := badNames ps path_names
  if !bad_names.isEmpty then Except.error (unsupportedParameters bad_names)
  else
    processPaths ps allModules_ trigger_paths_config_ end_paths_config_ path_names
      { es := unknownPaths trigger_paths_config_ end_paths_config_ path_names,
        specified_modules := [],
        num_end_paths := 0,
        triggerPathNames_ := [],
        protoTrigPathLabelMap_ := [],
        protoEndPathLabels_ := [] }

/-- Lines 372-403: the modules no active path names leave `allModules_`. -/
def removeUnused (allModules_ : List (String × ModuleConfigInfo)) (specified_modules : List String) :
    List (String × ModuleConfigInfo) :=
  ((allModules_.map Prod.fst).filter fun label => !specified_modules.contains label).foldl
    (fun all unused_module => mapErase unused_module all) allModules_

/-- The exception of lines 408-411. -/
def pathConfigurationError (es : List PathError) : Thrown :=
  configurationError
    ("Path configuration: " ++
      "The following were encountered while processing path configurations:\n" ++
      String.join (es.map PathError.text))

/-- A module object made by the `make_module` function of a module library.
The address of the object is represented by `id`, its place in the sequence of
all constructions; the label and the schedule are those of the description and
of the worker parameters it was made with. -/
structure ModuleBase where
  id : Nat
  module_label : String
  scheduleID : Nat
  deriving DecidableEq

/-- A worker object made by the `make_worker_from_module` function of a module
library, for the given module. -/
structure Worker where
  id : Nat
  module_label : String
  scheduleID : Nat
  module : ModuleBase
  deriving DecidableEq

/-- A `WorkerInPath`: the worker (a pointer, null when the construction of the
worker failed validation) and the filter action of a path entry. -/
structure WorkerInPath where
  worker : Option Worker
  filterAction : WorkerInPath.FilterAction
  deriving DecidableEq

/-- The arguments with which `createModulesAndWorkers` constructs a `Path`. -/
structure Path where
  scheduleID : Nat
  bitPosition : Nat
  isEndPath : Bool
  name : String
  workers : List WorkerInPath
  deriving DecidableEq

/-- The members of `PathsInfo` that `createModulesAndWorkers` fills: the map
of workers by label, the paths, and the size of the `HLTGlobalStatus`. -/
structure PathsInfo where
  workers : List (String × Option Worker)
  paths : List Path
  pathResults : Nat
  deriving DecidableEq

/-- A construction of a module or of a worker (a ghost record). -/
inductive Construction
  | module (m : ModuleBase)
  | worker (w : Worker)
  deriving DecidableEq

/-- The data members of `PathManager` that the constructor and
`createModulesAndWorkers()` use, with the number of schedules (which the code
reads from `Globals`) and the ghost record `constructed` of all constructions
of modules and workers, in order.  The members hold what the initializers of
lines 80-98 and the body of the constructor give them. -/
structure PathManager where
  nschedules : Nat
  triggerPathNames_ : List String
  moduleSet_ : List (String × ModuleBase)
  workerSet_ : List (String × Worker)
  triggerPathsInfo_ : List PathsInfo
  endPathInfo_ : PathsInfo
  allModules_ : List (String × ModuleConfigInfo)
  trigger_paths_config_ : Option (List String)
  end_paths_config_ : Option (List String)
  protoTrigPathLabelMap_ : List (String × List WorkerInPath.ConfigInfo)
  protoEndPathLabels_ : List WorkerInPath.ConfigInfo
  constructed : List Construction
  deriving DecidableEq

/-- A default-constructed `PathsInfo`. -/
def PathsInfo.empty : PathsInfo := { workers := [], paths := [], pathResults := 0 }

namespace PathManager

/-- The constructor `PathManager::PathManager` (lines 75-414), for the process
parameters `procPS` and the number of schedules: the path manager, or the
exception thrown. -/
def mk0 (procPS : ProcessParameters) (nschedules : Nat) : Except Thrown PathManager :=
  match collectModules procPS with
  | Except.error t => Except.error t
  | Except.ok allModules =>
    match scanPaths procPS allModules with
    | Except.error t => Except.error t
    | Except.ok scan =>
      if !scan.es.isEmpty then Except.error (pathConfigurationError scan.es)
      else
        Except.ok
          { nschedules := nschedules,
            triggerPathNames_ := scan.triggerPathNames_,
            moduleSet_ := [],
            workerSet_ := [],
            triggerPathsInfo_ := List.replicate nschedules PathsInfo.empty,
            endPathInfo_ := PathsInfo.empty,
            allModules_ := removeUnused allModules scan.specified_modules,
            trigger_paths_config_ := pathsConfig procPS.trigger_paths,
            end_paths_config_ := pathsConfig procPS.end_paths,
            protoTrigPathLabelMap_ := scan.protoTrigPathLabelMap_,
            protoEndPathLabels_ := scan.protoEndPathLabels_,
            constructed := [] }

end PathManager

/-- What a call of a factory function of a module library does: it makes the
object, or it throws a `fhicl::detail::validationException` with the given
text, or it throws something else (which also stands for a library without the
function, lines 606-620 and 643-657). -/
inductive MakeResult
  | made
  | invalid (what : String)
  | threw (t : Thrown)

/-- The module libraries as `fillWorkers_` meets them: what making the module,
and making the worker from the module, does for a module label and a
schedule. -/
structure ModuleFactory where
  make_module : String → Nat → MakeResult
  make_worker_from_module : String → Nat → MakeResult

/-- The local variables of `fillWorkers_` and the path manager. -/
structure FillState where
  configErrMsgs : List String
  wips : List WorkerInPath
  workers : List (String × Option Worker)
  pm : PathManager

namespace PathManager

/-- Lines 674-675: the worker, which may be null, joins the map of workers
(unless the label has an entry there) and the path. -/
def enterWorker (wci : WorkerInPath.ConfigInfo) (worker : Option Worker) (st : FillState) :
    FillState :=
  { st with
    workers := mapEmplace wci.label worker st.workers,
    wips := st.wips ++ [{ worker := worker, filterAction := wci.filterAction }] }

/-- The text pushed to `configErrMsgs` at lines 666-671 (without the bold
font). -/
def validationMessage (module_label module_type what : String) : String :=
  "\n\nModule label: " ++ module_label ++ "\nmodule_type : " ++ module_type ++ "\n\n" ++ what

/-- Lines 641-663: the worker is made from the module and registered in
`workerSet_`. -/
def makeWorker (f : ModuleFactory) (si : Nat) (wci : WorkerInPath.ConfigInfo)
    (mci : ModuleConfigInfo) (module : ModuleBase) (st : FillState) : Except Thrown FillState :=
  match f.make_worker_from_module wci.label si with
  | MakeResult.threw t => Except.error t
  | MakeResult.invalid what =>
    Except.ok (enterWorker wci none
      { st with configErrMsgs := st.configErrMsgs ++ [validationMessage wci.label mci.libSpec_ what] })
  | MakeResult.made =>
    let worker : Worker :=
      { id := st.pm.constructed.length, module_label := wci.label, scheduleID := si,
        module := module }
    Except.ok (enterWorker wci (some worker)
      { st with
        pm := { st.pm with
          workerSet_ := mapEmplace wci.label worker st.pm.workerSet_,
          constructed := st.pm.constructed ++ [Construction.worker worker] } })

/-- The body of the loop of `fillWorkers_` (lines 547-675) for one entry of
the path. -/
def fillWorker (f : ModuleFactory) (si : Nat) (st : FillState) (wci : WorkerInPath.ConfigInfo) :
    Except Thrown FillState :=
  match mapFind? st.pm.allModules_ wci.label with
  | none => Except.error (Thrown.std_exception "map::at")
  | some mci =>
    let module : Option ModuleBase :=
      if mci.moduleThreadingType_ ≠ ModuleThreadingType.replicated then
        mapFind? st.pm.moduleSet_ wci.label
      else none
    match (mapFind? st.workers wci.label).join with
    | some worker => Except.ok (enterWorker wci (some worker) st)
    | none =>
      match module with
      | some m => makeWorker f si wci mci m st
      | none =>
        match f.make_module wci.label si with
        | MakeResult.threw t => Except.error t
        | MakeResult.invalid what =>
          Except.ok (enterWorker wci none
            { st with
              configErrMsgs := st.configErrMsgs ++ [validationMessage wci.label mci.libSpec_ what] })
        | MakeResult.made =>
          let m : ModuleBase :=
            { id := st.pm.constructed.length, module_label := wci.label, scheduleID := si }
          makeWorker f si wci mci m
            { st with
              pm := { st.pm with
                moduleSet_ := mapEmplace wci.label m st.pm.moduleSet_,
                constructed := st.pm.constructed ++ [Construction.module m] } }

/-- The loop of lines 546-676 over the entries of a path. -/
def fillWorkersLoop (f : ModuleFactory) (si : Nat) :
    List WorkerInPath.ConfigInfo → FillState → Except Thrown FillState
  | [], st => Except.ok st
  | wci :: rest, st =>
    match fillWorker f si st wci with
    | Except.error t => Except.error t
    | Except.ok st1 => fillWorkersLoop f si rest st1

/-- The exception of lines 677-689 (the rules are left out of the text). -/
def misconfigured (configErrMsgs : List String) : Thrown :=
  configurationError
    ("\n\n" ++ "!! The following modules have been misconfigured: !!" ++ "\n" ++
      String.join (configErrMsgs.map fun err => "\n" ++ "\n" ++ err) ++ "\n" ++ "\n\n")

/-- Method `fillWorkers_(si, pi, wci_list, wips, workers)` (lines 538-690):
the path `wips`, the map `workers` and the path manager afterwards.  The bit
position `pi` only goes into debugging messages. -/
def fillWorkers_ (f : ModuleFactory) (si : Nat) (wci_list : List WorkerInPath.ConfigInfo)
    (wips : List WorkerInPath) (workers : List (String × Option Worker)) (pm : PathManager) :
    Except Thrown (List WorkerInPath × List (String × Option Worker) × PathManager) :=
  match fillWorkersLoop f si wci_list
      { configErrMsgs := [], wips := wips, workers := workers, pm := pm } with
  | Except.error t => Except.error t
  | Except.ok st =>
    if !st.configErrMsgs.isEmpty then Except.error (misconfigured st.configErrMsgs)
    else Except.ok (st.wips, st.workers, st.pm)

/-- The loop of lines 438-460 over the entries of `protoTrigPathLabelMap_`
that are left, for schedule `si`: the trigger paths of the schedule are made
one after the other. -/
def makeTriggerPaths (f : ModuleFactory) (si : Nat) :
    List (String × List WorkerInPath.ConfigInfo) → Nat → PathsInfo → PathManager →
      Except Thrown (PathsInfo × PathManager)
  | [], _, pinfo, pm => Except.ok (pinfo, pm)
  | (path_name, worker_config_infos) :: rest, bitPos, pinfo, pm =>
    match fillWorkers_ f si worker_config_infos [] pinfo.workers pm with
    | Except.error t => Except.error t
    | Except.ok (wips, workers, pm1) =>
      makeTriggerPaths f si rest (bitPos + 1)
        { pinfo with
          workers := workers,
          paths := pinfo.paths ++
            [{ scheduleID := si, bitPosition := bitPos, isEndPath := false, name := path_name,
               workers := wips }] }
        pm1

/-- The body of the loop over the schedules, lines 435-460. -/
def fillSchedule (f : ModuleFactory) (pm : PathManager) (si : Nat) : Except Thrown PathManager :=
  let pinfo := pm.triggerPathsInfo_.getD si PathsInfo.empty
  match makeTriggerPaths f si pm.protoTrigPathLabelMap_ 0
      { pinfo with pathResults := pm.triggerPathNames_.length } pm with
  | Except.error t => Except.error t
  | Except.ok (pinfo1, pm1) =>
    Except.ok { pm1 with triggerPathsInfo_ := pm1.triggerPathsInfo_.set si pinfo1 }

/-- The loop of lines 433-461 over the given schedules. -/
def fillSchedules (f : ModuleFactory) : List Nat → PathManager → Except Thrown PathManager
  | [], pm => Except.ok pm
  | si :: rest, pm =>
    match fillSchedule f pm si with
    | Except.error t => Except.error t
    | Except.ok pm1 => fillSchedules f rest pm1

/-- The block of lines 430-462: the trigger paths of all schedules and the
workers on them. -/
def createTriggerPaths (f : ModuleFactory) (pm : PathManager) : Except Thrown PathManager :=
  fillSchedules f (List.range pm.nschedules) pm

/-- The block of lines 463-486: the end path and the workers on it. -/
def createEndPath (f : ModuleFactory) (pm : PathManager) : Except Thrown PathManager :=
  if !pm.protoEndPathLabels_.isEmpty then
    match fillWorkers_ f 0 pm.protoEndPathLabels_ [] pm.endPathInfo_.workers pm with
    | Except.error t => Except.error t
    | Except.ok (wips, workers, pm1) =>
      Except.ok
        { pm1 with
          endPathInfo_ :=
            { pm1.endPathInfo_ with
              workers := workers,
              paths := pm1.endPathInfo_.paths ++
                [{ scheduleID := 0, bitPosition := 0, isEndPath := true, name := "end_path",
                   workers := wips }] } }
  else Except.ok pm

/-- Method `createModulesAndWorkers()` (lines 422-505).  `err` is the error
text that `make_module_graph` finds for the graph of the modules, empty when it
finds none; the graph itself and its printing are not represented. -/
def createModulesAndWorkers (f : ModuleFactory) (err : String) (pm : PathManager) :
    Except Thrown PathManager :=
  match createTriggerPaths f pm with
  | Except.error t => Except.error t
  | Except.ok pm1 =>
    match createEndPath f pm1 with
    | Except.error t => Except.error t
    | Except.ok pm2 =>
      if !err.isEmpty then Except.error (configurationError (err ++ "\n"))
      else Except.ok { pm2 with allModules_ := [] }

end PathManager

/-! ### The path configuration in the words of the specification -/

/-- The entry is a label with at most one prefix character: the lambda
`remove_filter_action` gives a label for it. -/
def wellFormed (entry : String) : Bool :=
  match remove_filter_action entry with
  | Except.ok _ => true
  | Except.error _ => false

/-- The module label an entry names, after removal of a prefix. -/
def labelOf (entry : String) : String :=
  match remove_filter_action entry with
  | Except.ok label => label
  | Except.error _ => ""

/-- The category of a configured module: observer or modifier. -/
def categoryOf (mci : ModuleConfigInfo) : mod_cat_t :=
  if is_observer mci.moduleType_ then mod_cat_t.OBSERVER else mod_cat_t.MODIFIER

/-- A path of the given category is ignored: the list for its category
(`trigger_paths` for modifiers, `end_paths` for observers) is given and lacks
the path. -/
def ignoredAs (trigger_paths_config_ end_paths_config_ : Option (List String))
    (path_name : String) (cat : mod_cat_t) : Bool :=
  if cat = mod_cat_t.MODIFIER then trigger_paths_config_.any fun c => !c.contains path_name
  else end_paths_config_.any fun c => !c.contains path_name

/-- The violation of a path that is listed in the wrong one of `trigger_paths`
and `end_paths`. -/
def listingViolations (trigger_paths_config_ end_paths_config_ : Option (List String))
    (path_name : String) (cat : mod_cat_t) : List PathError :=
  if cat = mod_cat_t.MODIFIER then
    if end_paths_config_.any (fun c => c.contains path_name) then
      [PathError.endPathIsTrigger path_name]
    else []
  else
    if trigger_paths_config_.any (fun c => c.contains path_name) then
      [PathError.triggerPathIsEnd path_name]
    else []

/-- The violation of an entry that puts a prefix on a module that is no
filter. -/
def actionViolations (path_name : String) (cat : mod_cat_t) (mci : ModuleConfigInfo)
    (entry : String) : List PathError :=
  if mci.moduleType_ ≠ ModuleType.filter ∧ filterActionOf entry ≠ WorkerInPath.FilterAction.Normal
  then [PathError.actionOnNonFilter (labelOf entry) path_name cat mci.moduleType_]
  else []

/-- The violations of an entry of a path whose category is known: the label is
not configured, or the module is of the other category, or it has a prefix
without being a filter. -/
def entryViolations (allModules_ : List (String × ModuleConfigInfo)) (path_name : String)
    (cat : mod_cat_t) (entry : String) : List PathError :=
  match mapFind? allModules_ (labelOf entry) with
  | none => [PathError.notConfigured entry path_name (labelOf entry)]
  | some mci =>
    (if cat ≠ categoryOf mci then [PathError.mixed entry path_name cat] else []) ++
      actionViolations path_name cat mci entry

/-- The violations of a path: the entries ahead of the first configured one
are not configured; the first configured entry gives the path its category, and
unless the path is ignored for that category, the path may be listed in the
wrong list and every entry from there on may have violations of its own. -/
def pathViolations (allModules_ : List (String × ModuleConfigInfo))
    (trigger_paths_config_ end_paths_config_ : Option (List String)) (path_name : String) :
    List String → List PathError
  | [] => []
  | entry :: rest =>
    match mapFind? allModules_ (labelOf entry) with
    | none =>
      PathError.notConfigured entry path_name (labelOf entry) ::
        pathViolations allModules_ trigger_paths_config_ end_paths_config_ path_name rest
    | some mci =>
      if ignoredAs trigger_paths_config_ end_paths_config_ path_name (categoryOf mci) then []
      else
        listingViolations trigger_paths_config_ end_paths_config_ path_name (categoryOf mci) ++
          actionViolations path_name (categoryOf mci) mci entry ++
          rest.flatMap (entryViolations allModules_ path_name (categoryOf mci))

/-- All violations of the path configuration, in the order of the paths: the
unknown names of `trigger_paths` and `end_paths`, then the violations of each
path. -/
def violations (ps : ProcessParameters) (allModules_ : List (String × ModuleConfigInfo)) :
    List PathError :=
  unknownPaths (pathsConfig ps.trigger_paths) (pathsConfig ps.end_paths) (pathNames ps) ++
    (pathNames ps).flatMap fun path_name =>
      pathViolations allModules_ (pathsConfig ps.trigger_paths) (pathsConfig ps.end_paths)
        path_name (pathOf ps path_name)

/-- The label and the filter action of an entry. -/
def configInfoOf (entry : String) : WorkerInPath.ConfigInfo :=
  { label := labelOf entry, filterAction := filterActionOf entry }

/-- The path is an active observer path: its first entry names an analyzer or
an output module, and `end_paths` is not given or lists the path. -/
def activeObserverPath (ps : ProcessParameters) (allModules_ : List (String × ModuleConfigInfo))
    (path_name : String) : Bool :=
  match pathOf ps path_name with
  | [] => false
  | entry :: _ =>
    match mapFind? allModules_ (labelOf entry) with
    | none => false
    | some mci =>
      is_observer mci.moduleType_ &&
        !ignoredAs (pathsConfig ps.trigger_paths) (pathsConfig ps.end_paths) path_name
          mod_cat_t.OBSERVER

/-- The entry names a configured module. -/
def isConfigured (allModules_ : List (String × ModuleConfigInfo)) (entry : String) : Bool :=
  (mapFind? allModules_ (labelOf entry)).isSome

/-- What a path adds to the end path: nothing unless its first configured
entry is an observer and the path is not ignored, else its configured
entries. -/
def pathEndLabels (allModules_ : List (String × ModuleConfigInfo))
    (trigger_paths_config_ end_paths_config_ : Option (List String)) (path_name : String) :
    List String → List WorkerInPath.ConfigInfo
  | [] => []
  | entry :: rest =>
    match mapFind? allModules_ (labelOf entry) with
    | none => pathEndLabels allModules_ trigger_paths_config_ end_paths_config_ path_name rest
    | some mci =>
      if categoryOf mci = mod_cat_t.OBSERVER ∧
          ignoredAs trigger_paths_config_ end_paths_config_ path_name mod_cat_t.OBSERVER = false
      then configInfoOf entry :: (rest.filter (isConfigured allModules_)).map configInfoOf
      else []

/-- The map `allModules_` as lines 118-160 build it from the four module
tables: a label is configured when this map has it. -/
def configuredModules (ps : ProcessParameters) : List (String × ModuleConfigInfo) :=
  (collectModuleTables ps).1

/-- The path is ignored: its first configured entry puts it in a category for
which it is ignored. -/
def pathIgnored (allModules_ : List (String × ModuleConfigInfo))
    (trigger_paths_config_ end_paths_config_ : Option (List String)) (path_name : String) :
    List String → Bool
  | [] => false
  | entry :: rest =>
    match mapFind? allModules_ (labelOf entry) with
    | none => pathIgnored allModules_ trigger_paths_config_ end_paths_config_ path_name rest
    | some mci => ignoredAs trigger_paths_config_ end_paths_config_ path_name (categoryOf mci)

/-! ### Sample configurations -/

/-- An entry of a module table for a legacy module whose library defines the
given type. -/
def moduleEntry (module_label : String) (moduleType : ModuleType) : ModuleTableEntry :=
  { module_label := module_label, lib_spec := "Lib", moduleType := Except.ok moduleType,
    threadingType := Except.ok ModuleThreadingType.legacy }

/-- A configuration with the producer `a`, the filter `f` and the analyzer `b`,
and the given paths and lists. -/
def sampleParameters (physics : List (String × List String))
    (trigger_paths end_paths : Option (List String)) : ProcessParameters :=
  { producers := [moduleEntry "a" ModuleType.producer],
    filters := [moduleEntry "f" ModuleType.filter],
    analyzers := [moduleEntry "b" ModuleType.analyzer],
    outputs := [],
    physics := physics.map fun p => (p.1, PhysicsValue.sequence p.2),
    trigger_paths := trigger_paths,
    end_paths := end_paths }

/-- Path `p1` starts with a producer and goes on with an analyzer, but
`trigger_paths` lists only `p2`. -/
def ignoredMixedPath : ProcessParameters :=
  sampleParameters [("p1", ["a", "b"]), ("p2", ["a", "f"]), ("p3", ["b"])] (some ["p2"]) none

/-- Path `p1` names the label `zzz`, which is not configured, after a producer,
but `trigger_paths` lists only `p2`. -/
def ignoredUnresolvedPath : ProcessParameters :=
  sampleParameters [("p1", ["a", "zzz"]), ("p2", ["a", "f"]), ("p3", ["b"])] (some ["p2"]) none

/-- Path `p1` has an entry with two prefix characters and names the label
`zzz`, which is not configured. -/
def malformedAndUnresolved : ProcessParameters :=
  sampleParameters [("p1", ["zzz", "!!a"])] none none

/-- Path `p1` names the label `zzz`, which is not configured, but is ignored;
path `p2` names the label `yyy`, which is not configured either. -/
def ignoredAndActiveViolations : ProcessParameters :=
  sampleParameters [("p1", ["a", "zzz"]), ("p2", ["a", "yyy"])] (some ["p2"]) none

/-- The name `p0` of the physics table is key to an atom, and path `p1` names
the label `zzz`, which is not configured. -/
def atomAndUnresolved : ProcessParameters :=
  { sampleParameters [] none none with
    physics := [("p0", PhysicsValue.atom), ("p1", PhysicsValue.sequence ["zzz"])] }

/-- The table of producers has the label `a` for a module that is an analyzer
in code, and path `p1` names the label `zzz`, which is not configured. -/
def wrongTypeAndUnresolved : ProcessParameters :=
  { sampleParameters [("p1", ["zzz"])] none none with
    producers := [moduleEntry "a" ModuleType.analyzer] }

/-- Path `p1` starts with a producer and goes on with an analyzer. -/
def mixedPath : ProcessParameters :=
  sampleParameters [("p1", ["a", "b"])] none none

/-- Path `p1` names the label `zzz`, which is not configured. -/
def unresolvedPath : ProcessParameters :=
  sampleParameters [("p1", ["a", "zzz"])] none none

/-- Path `p1` has an analyzer after a producer, a label that is not configured
and a prefix on a producer; `end_paths` names a path that does not exist. -/
def severalViolations : ProcessParameters :=
  sampleParameters [("p1", ["a", "b", "zzz", "-a"])] none (some ["e9"])

/-- Two observer paths and two trigger paths. -/
def twoEndPaths : ProcessParameters :=
  sampleParameters [("e1", ["b"]), ("e2", ["b", "b"]), ("p1", ["a", "!f"]), ("p2", ["f", "a"])]
    none none

/-- Module libraries that make every module and every worker. -/
def makesAll : ModuleFactory :=
  { make_module := fun _ _ => MakeResult.made,
    make_worker_from_module := fun _ _ => MakeResult.made }

/-! ### The record of constructions -/

/-- The schedule a module or worker was constructed for. -/
def Construction.scheduleID : Construction → Nat
  | Construction.module m => m.scheduleID
  | Construction.worker w => w.scheduleID

/-- The construction is that of a worker for the label and the schedule. -/
def Construction.isWorkerFor (label : String) (si : Nat) : Construction → Bool
  | Construction.module _ => false
  | Construction.worker w => w.module_label = label && w.scheduleID = si

/-- The construction is that of a module for the label. -/
def Construction.isModuleOf (label : String) : Construction → Bool
  | Construction.module m => m.module_label = label
  | Construction.worker _ => false

/-- The construction is that of a module for the label and the schedule. -/
def Construction.isModuleFor (label : String) (si : Nat) : Construction → Bool
  | Construction.module m => m.module_label = label && m.scheduleID = si
  | Construction.worker _ => false

/-- The module of the label is configured as replicated. -/
def isReplicated (allModules_ : List (String × ModuleConfigInfo)) (label : String) : Bool :=
  match mapFind? allModules_ label with
  | some mci => mci.moduleThreadingType_ = ModuleThreadingType.replicated
  | none => false

/-- The labels on the trigger paths, in the order of the paths. -/
def triggerLabels (pm : PathManager) : List String :=
  pm.protoTrigPathLabelMap_.flatMap fun p => p.2.map WorkerInPath.ConfigInfo.label

/-- The map of workers of schedule `si` agrees with the record of
constructions: every entry holds a worker made for its label and the schedule,
on a module that is the one of `moduleSet_` (or, for a replicated module, one
made for the schedule), and exactly the labels of the map have had a worker
(and, if replicated, a module) made for the schedule, once. -/
def WorkersAgree (si : Nat) (workers : List (String × Option Worker)) (pm : PathManager) : Prop :=
  (∀ l v, mapFind? workers l = some v →
    ∃ w, v = some w ∧ w.module_label = l ∧ w.scheduleID = si ∧
      Construction.worker w ∈ pm.constructed ∧ Construction.module w.module ∈ pm.constructed ∧
      w.module.module_label = l ∧
      (if isReplicated pm.allModules_ l then w.module.scheduleID = si
        else mapFind? pm.moduleSet_ l = some w.module)) ∧
  (∀ l, pm.constructed.countP (Construction.isWorkerFor l si) =
    if (mapFind? workers l).isSome then 1 else 0) ∧
  (∀ l, isReplicated pm.allModules_ l = true →
    pm.constructed.countP (Construction.isModuleFor l si) =
      if (mapFind? workers l).isSome then 1 else 0)

/-- The map `moduleSet_` agrees with the record of constructions: every
entry is a module made for its label, and of the modules that are not
replicated exactly those with an entry have been made, once. -/
def ModulesAgree (pm : PathManager) : Prop :=
  (∀ l m, mapFind? pm.moduleSet_ l = some m →
    Construction.module m ∈ pm.constructed ∧ m.module_label = l) ∧
  ∀ l, isReplicated pm.allModules_ l = false →
    pm.constructed.countP (Construction.isModuleOf l) =
      if (mapFind? pm.moduleSet_ l).isSome then 1 else 0

/-- The path manager `pm1` comes from `pm` by constructions for schedule `si`
only: the configuration and the paths made are the same, the record of
constructions has grown by constructions for `si`, and `moduleSet_` has kept
its entries. -/
def Extends (si : Nat) (pm pm1 : PathManager) : Prop :=
  pm1.allModules_ = pm.allModules_ ∧ pm1.protoTrigPathLabelMap_ = pm.protoTrigPathLabelMap_ ∧
  pm1.protoEndPathLabels_ = pm.protoEndPathLabels_ ∧ pm1.nschedules = pm.nschedules ∧
  pm1.triggerPathNames_ = pm.triggerPathNames_ ∧ pm1.triggerPathsInfo_ = pm.triggerPathsInfo_ ∧
  pm1.endPathInfo_ = pm.endPathInfo_ ∧
  (∃ added, pm1.constructed = pm.constructed ++ added ∧
    ∀ c ∈ added, Construction.scheduleID c = si) ∧
  (∀ l m, mapFind? pm.moduleSet_ l = some m → mapFind? pm1.moduleSet_ l = some m)

/-- The entries of a path, each with the worker the map of workers holds for
its label. -/
def wipsFor (workers : List (String × Option Worker)) (wci_list : List WorkerInPath.ConfigInfo) :
    List WorkerInPath :=
  wci_list.map fun wci =>
    { worker := (mapFind? workers wci.label).join, filterAction := wci.filterAction }

/-- The trigger paths of schedule `si` for the given entries of
`protoTrigPathLabelMap_`, with bit positions from `bitPos` on and the workers
of the given map. -/
def pathsFor (si : Nat) (workers : List (String × Option Worker)) :
    Nat → List (String × List WorkerInPath.ConfigInfo) → List Path
  | _, [] => []
  | bitPos, p :: rest =>
    { scheduleID := si, bitPosition := bitPos, isEndPath := false, name := p.1,
      workers := wipsFor workers p.2 } :: pathsFor si workers (bitPos + 1) rest

/-- The trigger paths of schedule `si` are made: the schedule has its paths,
each entry of a path with the worker that the map of workers of the schedule
holds for the label; the map has one entry for each label on the trigger
paths and agrees with the record of constructions. -/
def ScheduleDone (pm : PathManager) (si : Nat) : Prop :=
  ∃ pinfo, pm.triggerPathsInfo_[si]? = some pinfo ∧ WorkersAgree si pinfo.workers pm ∧
    pinfo.paths = pathsFor si pinfo.workers 0 pm.protoTrigPathLabelMap_ ∧
    (pinfo.workers.map Prod.fst).Nodup ∧
    (∀ l, (mapFind? pinfo.workers l).isSome = true ↔ l ∈ triggerLabels pm) ∧
    pinfo.pathResults = pm.triggerPathNames_.length

/-- The state of `createModulesAndWorkers()` when the trigger paths of the
schedules below `k` are made and those of the other schedules are not. -/
def SchedulesDone (k : Nat) (pm : PathManager) : Prop :=
  ModulesAgree pm ∧ (∀ c ∈ pm.constructed, Construction.scheduleID c < k) ∧
    (∀ sj, sj < k → ScheduleDone pm sj) ∧
    (∀ sj, k ≤ sj → sj < pm.nschedules → pm.triggerPathsInfo_[sj]? = some PathsInfo.empty) ∧
    pm.triggerPathsInfo_.length = pm.nschedules

/-- The path manager right after construction, for the configuration
`twoEndPaths` and two schedules. -/
def samplePathManager : PathManager :=
  match PathManager.mk0 twoEndPaths 2 with
  | Except.ok pm => pm
  | Except.error _ =>
    { nschedules := 0, triggerPathNames_ := [], moduleSet_ := [], workerSet_ := [],
      triggerPathsInfo_ := [], endPathInfo_ := PathsInfo.empty, allModules_ := [],
      trigger_paths_config_ := none, end_paths_config_ := none, protoTrigPathLabelMap_ := [],
      protoEndPathLabels_ := [], constructed := [] }

end art

/-! ## Prescaler: `Prescaler_module.cc` -/

namespace art

/-- The data members of `Prescaler` (lines 33-38).  They are of type `size_t`,
an unsigned integer of 64 bits. -/
structure Prescaler where
  count_ : Nat
  n_ : Nat
  offset_ : Nat
  deriving DecidableEq

namespace Prescaler

/-- The constructor (lines 44-49): the counter starts at 0, the factor and the
offset are the configured `prescaleFactor` and `prescaleOffset`. -/
def mk0 (prescaleFactor prescaleOffset : Nat) : Prescaler where
  count_ := 0
  n_ := prescaleFactor
  offset_ := prescaleOffset

/-- Method `filter` (lines 51-59): the counter is incremented, wrapping around
at 64 bits, and its new value modulo the factor is compared with the offset.
Division by a factor of 0 has no defined meaning (`none`). -/
def filter (p : Prescaler) : Option (Bool × Prescaler) :=
  let count := (p.count_ + 1) % 2 ^ 64
  if p.n_ = 0 then none
  else some (count % p.n_ == p.offset_, { p with count_ := count })

/-- The results of `k` calls of `filter`, one after the other, and the module
after them. -/
def filterCalls : Nat → Prescaler → Option (List Bool × Prescaler)
  | 0, p => some ([], p)
  | k + 1, p =>
    match filter p with
    | none => none
    | some (accepted, p1) =>
      match filterCalls k p1 with
      | none => none
      | some (rest, p2) => some (accepted :: rest, p2)

end Prescaler

/-! ## Item source: construction and random access -/

namespace DecrepitRelicInputSourceImplementation

open input (ItemType)

/-- The parts of the parameter set `pset` and of the description `desc` that
the constructor reads.  A parameter with a default is absent (`none`) or has a
value; `module_label` has no default, so reading it yields the label or throws;
`productRegistry` says that `desc.productRegistry_` is not null. -/
structure ConstructorArguments where
  maxEvents : Option Int
  maxSubRuns : Option Int
  module_label : Except Thrown String
  processingMode : Option String
  productRegistry : Bool

/-- The exception of lines 96-102. -/
def illegalProcessingMode (processingMode : String) : Thrown :=
  Thrown.cet
    { category := "Configuration",
      message :=
        "DecrepitRelicInputSourceImplementation::DecrepitRelicInputSourceImplementation()\n" ++
        "The \x27processingMode\x27 parameter for sources has an illegal value \x27" ++
        processingMode ++ "\x27\n" ++
        "Legal values are \x27" ++ "RunsSubRunsAndEvents" ++ "\x27, \x27" ++ "RunsAndSubRuns" ++
        "\x27, or \x27" ++ "Runs" ++ "\x27.\n" }

/-- The name the configuration uses for a processing mode. -/
def modeName : ProcessingMode → String
  | ProcessingMode.Runs => "Runs"
  | ProcessingMode.RunsAndSubRuns => "RunsAndSubRuns"
  | ProcessingMode.RunsSubRunsAndEvents => "RunsSubRunsAndEvents"

/-- The constructor (lines 60-107), for the given arguments, the stream of the
concrete source, and what `registerProducts_()` throws, if it throws.  The
result is none when the assertion of line 82 fails, else the exception thrown
or the source constructed. -/
def construct (args : ConstructorArguments) (stream : List ItemType)
    (registerProducts_ : Option Thrown) : Option (Except Thrown Source) :=
  match args.module_label with
  | Except.error t => some (Except.error t)
  | Except.ok module_label =>
    let primary_ := module_label == "source"
    let s := mk0 ProcessingMode.RunsSubRunsAndEvents (args.maxEvents.getD (-1))
      (args.maxSubRuns.getD (-1)) stream
    (cassert (!primary_ || args.productRegistry)).bind fun _ =>
      let defaultMode := "RunsSubRunsAndEvents"
      let runMode := "Runs"
      let runSubRunMode := "RunsAndSubRuns"
      let processingMode := args.processingMode.getD defaultMode
      let decoded : Except Thrown Source :=
        if processingMode = runMode then
          Except.ok { s with processingMode_ := ProcessingMode.Runs }
        else if processingMode = runSubRunMode then
          Except.ok { s with processingMode_ := ProcessingMode.RunsAndSubRuns }
        else if processingMode ≠ defaultMode then
          Except.error (illegalProcessingMode processingMode)
        else Except.ok s
      match decoded with
      | Except.error t => some (Except.error t)
      | Except.ok s1 =>
        match registerProducts_ with
        | some t => some (Except.error t)
        | none => some (Except.ok s1)

/-- Arguments of a primary source with a product registry, all parameters
absent but the given `processingMode`. -/
def sampleArguments (processingMode : Option String) : ConstructorArguments where
  maxEvents := none
  maxSubRuns := none
  module_label := Except.ok "source"
  processingMode := processingMode
  productRegistry := true

/-- The exception of lines 349-352 and 356-359, with the name of the function
that throws it. -/
def randomAccessNotImplemented (function : String) : Thrown :=
  Thrown.cet
    { category := "LogicError",
      message := "DecrepitRelicInputSourceImplementation::" ++ function ++ "()\n" ++
        "Random access is not implemented for this type of Input Source\n" ++
        "Contact a Framework Developer\n" }

/-- Method `readIt(EventID const&)` (lines 347-353), the default of the
base class: it throws.  An event id is represented by a number. -/
def readIt (_eventID : Nat) (_s : Source) : Except Thrown (Option Nat × Source) :=
  Except.error (randomAccessNotImplemented "readIt")

/-- Method `skip(int)` (lines 355-361), the default of the base class: it
throws. -/
def skip (_offset : Int) (_s : Source) : Except Thrown Source :=
  Except.error (randomAccessNotImplemented "skip")

/-- Method `skipEvents(int offset)` (lines 329-332). -/
def skipEvents (offset : Int) (s : Source) : Except Thrown Source :=
  skip offset s

/-- Method `readEvent(EventID const&)` (lines 311-327): the pointer returned
(none for a null pointer) and the source afterwards, or the exception thrown.
`preRead`, `postRead` and `issueReports` touch no member represented here. -/
def readEventByID (eventID : Nat) (s : Source) : Except Thrown (Option Nat × Source) :=
  if !s.limitReached then
    match readIt eventID s with
    | Except.error t => Except.error t
    | Except.ok (result, s1) =>
      if result ≠ none then
        let s2 := if s1.remainingEvents_ > 0 then
            { s1 with remainingEvents_ := s1.remainingEvents_ - 1 }
          else s1
        Except.ok (result, { s2 with readCount_ := s2.readCount_ + 1 })
      else Except.ok (result, s1)
  else Except.ok (none, s)

/-- The protocol, for a given number of rounds: in each round
`nextItemType()` is called and the item it returns is consumed by its read call
(Stop has none).  The result is the sequence of items returned and the state
after the last round; `none` when an assertion fails on the way. -/
def protocol : Nat → Source → Option (List ItemType × Source)
  | 0, s => some ([], s)
  | n + 1, s =>
    (nextItemType s).bind fun r =>
      (consume r.1 r.2).bind fun s1 =>
        (protocol n s1).map fun q => (r.1 :: q.1, q.2)

/-- Containment, for two items returned one directly after the other (with
`IsInvalid` as `previous` when nothing was returned before): File does not
follow Stop, Run follows an item other than Stop, SubRun follows Run, SubRun
or Event, Event follows SubRun or Event, and Stop may follow anything. -/
def allowedAfter (previous it : ItemType) : Bool :=
  match it with
  | ItemType.IsInvalid => false
  | ItemType.IsFile => previous != ItemType.IsStop
  | ItemType.IsRun => previous != ItemType.IsInvalid && previous != ItemType.IsStop
  | ItemType.IsSubRun =>
    previous == ItemType.IsRun || previous == ItemType.IsSubRun || previous == ItemType.IsEvent
  | ItemType.IsEvent => previous == ItemType.IsSubRun || previous == ItemType.IsEvent
  | ItemType.IsStop => true

/-- The state between two rounds of the protocol: an item is cached as read
ahead exactly if the item returned last is Stop. -/
def betweenRounds (s : Source) : Prop :=
  s.doneReadAhead_ = (s.state_ == ItemType.IsStop)

end DecrepitRelicInputSourceImplementation

/-! ## Event processor: abnormal termination -/

namespace EventProcessor

/-- Surroundings in which the random-number service is available and saving
its state throws. -/
def saveFailsWorld : World where
  iterations := []
  rngAvailable := true
  saveToFile_ := some (Thrown.std_exception "cannot write")
  stopReaction := stoppingReaction

/-- The body of `terminateAbnormally()` throws: saving the random-number state
throws, or the machine exists, is not terminated, and throws on the Stop that
`terminateMachine()` posts. -/
def bodyThrows (w : World) (ep : EventProcessor) : Bool :=
  (w.rngAvailable && w.saveToFile_.isSome) ||
    (match ep.machine_ with
      | none => false
      | some m => !m.terminated && w.stopReaction.thrown.isSome)

end EventProcessor

/-! ## Trigger paths and their bit positions -/

/-- Whether a path with the given entries is an active trigger path: its first
configured entry names a producer or a filter, and `trigger_paths` is not given
or lists the path. -/
def triggerEntries (allModules_ : List (String × ModuleConfigInfo))
    (trigger_paths_config_ end_paths_config_ : Option (List String)) (path_name : String) :
    List String → Bool
  | [] => false
  | entry :: rest =>
    match mapFind? allModules_ (labelOf entry) with
    | none => triggerEntries allModules_ trigger_paths_config_ end_paths_config_ path_name rest
    | some mci =>
      decide (categoryOf mci = mod_cat_t.MODIFIER) &&
        !ignoredAs trigger_paths_config_ end_paths_config_ path_name mod_cat_t.MODIFIER

/-- The path of the given name is an active trigger path of the
configuration. -/
def activeTriggerPath (ps : ProcessParameters) (path_name : String) : Bool :=
  triggerEntries (configuredModules ps) (pathsConfig ps.trigger_paths)
    (pathsConfig ps.end_paths) path_name (pathOf ps path_name)

/-- A schedule has its trigger paths: one for each entry of
`protoTrigPathLabelMap_`, in the order of the map, with bit positions 0, 1, 2,
and so on, and a `HLTGlobalStatus` of the size of `triggerPathNames_`. -/
def PathsPlaced (pm : PathManager) (si : Nat) (pinfo : PathsInfo) : Prop :=
  pinfo.pathResults = pm.triggerPathNames_.length ∧
    pinfo.paths.map Path.name = pm.protoTrigPathLabelMap_.map Prod.fst ∧
    pinfo.paths.map Path.bitPosition = List.range pm.protoTrigPathLabelMap_.length ∧
    ∀ p ∈ pinfo.paths, p.scheduleID = si ∧ p.isEndPath = false

/-- A configuration with three trigger paths and one end path, the names in
ascending order, of which `trigger_paths` lists two. -/
def threeTriggerPaths : ProcessParameters :=
  sampleParameters [("e1", ["b"]), ("p1", ["a"]), ("p2", ["f"]), ("p3", ["a"])]
    (some ["p1", "p3"]) none

/-- The path manager right after construction, for the configuration
`threeTriggerPaths` and two schedules. -/
def threePathManager : PathManager :=
  match PathManager.mk0 threeTriggerPaths 2 with
  | Except.ok pm => pm
  | Except.error _ => samplePathManager

/-- The path manager of `threeTriggerPaths` after `createModulesAndWorkers()`,
with module libraries that make every module and worker and no error in the
module graph. -/
def threePathsMade : PathManager :=
  match PathManager.createModulesAndWorkers makesAll "" threePathManager with
  | Except.ok pm => pm
  | Except.error _ => threePathManager

/-! ## Data dependencies: `check_data_dependencies.cc` -/

/-- The parts of an input tag that the check reads: module label, instance
name and process name. -/
structure InputTag where
  label : String
  instanceName : String
  process : String
  deriving DecidableEq

/-- Modelled from the spec: a process tag, built from the process name an input
tag specifies and the name of the current process (the class is declared in a
header that is not part of the sources at hand).  Its name is the specified
name, with the literal "current_process" standing for the name of the current
process. -/
structure ProcessTag where
  name : String
  deriving DecidableEq

/-- Modelled from the spec: the constructor `ProcessTag{specified, current}`. -/
def ProcessTag.mk0 (specified_process_name current_process_name : String) : ProcessTag :=
  { name := if specified_process_name = "current_process" then current_process_name
      else specified_process_name }

/-- The members of `ProductInfo` that the check fills in (the consumable type
is always `Product`). -/
structure ProductInfo where
  friendlyClassName : String
  label : String
  instanceName : String
  process : ProcessTag
  deriving DecidableEq

/-- The member of `ModuleGraphInfo` that `sorted_consumed_products` reads: the
products a module produces. -/
structure detail.ModuleGraphInfo where
  produced_products : List ProductInfo
  deriving DecidableEq

namespace test

/-- One consumes declaration of a module in the test configuration: a
friendly class name and an input tag. -/
structure TypeAndTag where
  friendlyClassName : String
  inputTag : InputTag
  deriving DecidableEq

/-- The lambda `product_match` of lines 206-209. -/
def product_match (dep : TypeAndTag) (pi : ProductInfo) : Bool :=
  dep.friendlyClassName == pi.friendlyClassName && dep.inputTag.instanceName == pi.instanceName

/-- The exception of lines 214-224. -/
def noSuchProduct (module_name : String) (dep : TypeAndTag) : Thrown :=
  configurationError
    ("Module " ++ module_name ++ " expects to consume a product from module " ++
      dep.inputTag.label ++ " with the signature:\n" ++
      "  Friendly class name: " ++ dep.friendlyClassName ++ "\n" ++
      "  Instance name: " ++ dep.inputTag.instanceName ++ "\n" ++
      "  Process name: " ++ dep.inputTag.process ++ "\n" ++
      "However, no product of that signature is provided by module " ++
      dep.inputTag.label ++ ".\n")

/-- The label under which a declaration is recorded, lines 201-203:
"input_source" unless the process tag has the name of the current process. -/
def dependencyLabel (current_process_name : String) (dep : TypeAndTag) : String :=
  if (ProcessTag.mk0 dep.inputTag.process current_process_name).name ≠ current_process_name then
    "input_source"
  else dep.inputTag.label

/-- The body of the loop of lines 186-231 for one declaration; `sorted_deps`
is a set, of which the order is not represented. -/
def consumeDependency (module_name current_process_name : String)
    (modules : List (String × detail.ModuleGraphInfo)) (sorted_deps : List ProductInfo)
    (dep : TypeAndTag) : Except Thrown (List ProductInfo) :=
  let processTag := ProcessTag.mk0 dep.inputTag.process current_process_name
  let label := dependencyLabel current_process_name dep
  let checked : Option Thrown :=
    if label ≠ "input_source" then
      match mapFind? modules dep.inputTag.label with
      | none => some (Thrown.std_exception "map::at")
      | some mod_info =>
        if !mod_info.produced_products.any (product_match dep) then
          some (noSuchProduct module_name dep)
        else none
    else none
  match checked with
  | some t => Except.error t
  | none =>
    let info : ProductInfo :=
      { friendlyClassName := dep.friendlyClassName, label := label,
        instanceName := dep.inputTag.instanceName, process := processTag }
    Except.ok (if info ∈ sorted_deps then sorted_deps else sorted_deps ++ [info])

/-- The loop of lines 186-231 over the declarations that are left. -/
def consumeDependencies (module_name current_process_name : String)
    (modules : List (String × detail.ModuleGraphInfo)) :
    List TypeAndTag → List ProductInfo → Except Thrown (List ProductInfo)
  | [], sorted_deps => Except.ok sorted_deps
  | dep :: rest, sorted_deps =>
    match consumeDependency module_name current_process_name modules sorted_deps dep with
    | Except.error t => Except.error t
    | Except.ok sorted_deps1 =>
      consumeDependencies module_name current_process_name modules rest sorted_deps1

/-- Function `sorted_consumed_products` (lines 176-235); `consumes` is the
optional sequence of consumes declarations of the module. -/
def sorted_consumed_products (consumes : Option (List TypeAndTag))
    (module_name current_process_name : String)
    (modules : List (String × detail.ModuleGraphInfo)) : Except Thrown (List ProductInfo) :=
  match consumes with
  | none => Except.ok []
  | some deps => consumeDependencies module_name current_process_name modules deps []

/-- The process tag of the declaration resolves to the current process. -/
def resolvesToCurrent (current_process_name : String) (dep : TypeAndTag) : Bool :=
  (ProcessTag.mk0 dep.inputTag.process current_process_name).name = current_process_name

/-- The module the declaration names is known and produces a product with the
friendly class name and the instance name of the declaration. -/
def isProvided (modules : List (String × detail.ModuleGraphInfo)) (dep : TypeAndTag) : Bool :=
  match mapFind? modules dep.inputTag.label with
  | none => false
  | some mod_info => mod_info.produced_products.any (product_match dep)

/-- The declaration is one the check rejects: it resolves to the current
process, names a module other than "input_source", and is not provided. -/
def isRejected (current_process_name : String)
    (modules : List (String × detail.ModuleGraphInfo)) (dep : TypeAndTag) : Bool :=
  resolvesToCurrent current_process_name dep && dep.inputTag.label != "input_source" &&
    !isProvided modules dep

/-- The modules of a sample job named "job": the input source, which is known
to the check but has no products listed, and the producer `p1` of a product of
friendly class name "ints" with empty instance name. -/
def sampleModules : List (String × detail.ModuleGraphInfo) :=
  [("input_source", { produced_products := [] }),
   ("p1", { produced_products :=
      [{ friendlyClassName := "ints", label := "p1", instanceName := "",
         process := ProcessTag.mk0 "job" "job" }] })]

/-- A consumes declaration for a product of the given class from the given
module and process, with empty instance name. -/
def sampleDeclaration (friendlyClassName label process : String) : TypeAndTag :=
  { friendlyClassName := friendlyClassName,
    inputTag := { label := label, instanceName := "", process := process } }

end test

/-! ## Serialized module invocations -/

namespace scheduling

open detail

/-- Modelled from the spec: an invocation of a module that is in progress on a
schedule. -/
structure Invocation where
  schedule : Nat
  module : SharedModule
  deriving DecidableEq

/-- Modelled from the spec: the serial task queues a module invocation has to
hold while it runs, the queues of the chain built for the module at begin-job;
there is one queue for each resource name, so that the same name gives the same
queue.  A module without a chain needs no queue. -/
def queuesOf (m : SharedModule) : List String :=
  match m.chain_ with
  | none => []
  | some chain => chain.queues

/-- Modelled from the spec: the queue is held by an invocation in progress. -/
def isHeld (running : List Invocation) (queue : String) : Bool :=
  running.any (fun i => (queuesOf i.module).contains queue)

/-- Modelled from the spec: what the schedules do, in the order in which it
happens: a schedule asks to invoke a module, or the invocation at the given
place among those in progress comes to its end. -/
inductive SchedulerEvent
  | invoke (schedule : Nat) (module : SharedModule)
  | finish (index : Nat)
  deriving DecidableEq

/-- Modelled from the spec: an invocation starts only when none of the queues
of its chain is held, and holds all of them until it ends; an invocation that
finds a queue held waits, which leaves the invocations in progress as they
are. -/
def schedulerStep (running : List Invocation) : SchedulerEvent → List Invocation
  | SchedulerEvent.invoke schedule module =>
    if (queuesOf module).any (isHeld running) then running
    else running ++ [{ schedule := schedule, module := module }]
  | SchedulerEvent.finish index => running.eraseIdx index

/-- Modelled from the spec: the invocations in progress after the given
events. -/
def schedulerRun : List SchedulerEvent → List Invocation → List Invocation
  | [], running => running
  | e :: rest, running => schedulerRun rest (schedulerStep running e)

/-- The counter of the scenario: the number of invocations in progress of the
two given modules. -/
def invocationsInProgress (m1 m2 : SharedModule) (running : List Invocation) : Nat :=
  running.countP (fun i => i.module = m1 || i.module = m2)

/-- A module with the given label that declares `serialize("DB")`. -/
def serializedOnDB (moduleLabel : String) : SharedModule :=
  (SharedModule.mk0 moduleLabel).serialize_for_resource "DB"

end scheduling

end art
/-! ## Theorems: item source -/
namespace art
namespace DecrepitRelicInputSourceImplementation
open input (ItemType)

/-- The unrolled loop, started with as many unrollings as the stream has items,
satisfies the recursive equation of `nextItemType_()` (lines 143-155). -/
theorem nextItemType__eq (s : Source) :
    nextItemType_ s =
      if (getNextItemType s).1 = ItemType.IsEvent ∧
          (getNextItemType s).2.processingMode ≠ ProcessingMode.RunsSubRunsAndEvents then
        nextItemType_ (readEvent_ (getNextItemType s).2).2
      else if (getNextItemType s).1 = ItemType.IsSubRun ∧
          (getNextItemType s).2.processingMode = ProcessingMode.Runs then
        nextItemType_ (readSubRun_ (getNextItemType s).2).2
      else getNextItemType s := by
  obtain ⟨pending, calls, a, b, c, d, e, mode, f, g, h, i⟩ := s
  cases pending with
  | nil => simp [nextItemType_, nextItemType_loop, getNextItemType]
  | cons x xs =>
    by_cases h1 : x = ItemType.IsEvent ∧ mode ≠ ProcessingMode.RunsSubRunsAndEvents
    · obtain ⟨hx, hm⟩ := h1
      subst hx
      simp [nextItemType_, nextItemType_loop, getNextItemType, readEvent_, processingMode,
        consumeHead, hm]
    · by_cases h2 : x = ItemType.IsSubRun ∧ mode = ProcessingMode.Runs
      · obtain ⟨hx, hm⟩ := h2
        subst hx; subst hm
        simp [nextItemType_, nextItemType_loop, getNextItemType, readSubRun_, processingMode,
          consumeHead]
      · simp only [nextItemType_, nextItemType_loop, getNextItemType, processingMode,
          List.length_cons, List.headD_cons]
        rw [if_neg h1, if_neg h2, if_neg h1, if_neg h2]

theorem not_permitted_iff (mode : ProcessingMode) (x : ItemType) :
    ¬ permitted mode x ↔
      (x = ItemType.IsEvent ∧ mode ≠ ProcessingMode.RunsSubRunsAndEvents) ∨
      (x = ItemType.IsSubRun ∧ mode = ProcessingMode.Runs) := by
  unfold permitted
  tauto

/-- Skipping: when the stream is `pre ++ rest` with nothing in `pre` permitted
and `rest` empty or headed by a permitted item, `nextItemType_()` reads the
items of `pre` in order and returns the head of `rest`, left pending (Stop
when `rest` is empty). -/
theorem nextItemType__skip (pre rest : List ItemType) :
    ∀ s : Source, s.pending = pre ++ rest →
      (∀ y ∈ pre, ¬ permitted s.processingMode y) →
      (∀ x, rest.head? = some x → permitted s.processingMode x) →
      nextItemType_ s =
        (rest.headD ItemType.IsStop,
          { s with pending := rest,
                   calls := s.calls ++ skipCalls pre ++ [Hook.getNextItemType] }) := by
  induction pre with
  | nil =>
    intro s hs _ hx
    obtain ⟨pending, calls, a, b, c, d, e, mode, f, g, h, i⟩ := s
    simp only [List.nil_append] at hs
    subst hs
    rw [nextItemType__eq]
    cases pending with
    | nil => simp [getNextItemType, skipCalls]
    | cons x post =>
      have hx1 := (hx x rfl).1
      have hx2 := (hx x rfl).2
      simp only [processingMode] at hx1 hx2
      simp only [getNextItemType, processingMode, List.headD_cons, skipCalls, List.append_nil]
      rw [if_neg hx1, if_neg hx2]
  | cons y ys ih =>
    intro s hs hpre hx
    obtain ⟨pending, calls, a, b, c, d, e, mode, f, g, h, i⟩ := s
    simp only [List.cons_append] at hs
    subst hs
    have hy := (not_permitted_iff _ _).1 (hpre y (List.mem_cons_self _ _))
    have hys : ∀ z ∈ ys, ¬ permitted mode z := fun z hz => hpre z (List.mem_cons_of_mem _ hz)
    simp only [processingMode] at hy hx hys
    rw [nextItemType__eq]
    rcases hy with ⟨hy1, hy2⟩ | ⟨hy1, hy2⟩
    · subst hy1
      simp only [getNextItemType, processingMode, List.headD_cons]
      rw [if_pos ⟨trivial, hy2⟩]
      rw [ih _ (by simp [readEvent_, consumeHead]) (by simpa [readEvent_, processingMode] using hys)
        (by simpa [readEvent_, processingMode] using hx)]
      simp [readEvent_, skipCalls]
    · subst hy1; subst hy2
      simp only [getNextItemType, processingMode, List.headD_cons]
      rw [if_neg (by simp), if_pos ⟨trivial, trivial⟩]
      rw [ih _ (by simp [readSubRun_, consumeHead]) (by simpa [readSubRun_, processingMode] using hys)
        (by simpa [readSubRun_, processingMode] using hx)]
      simp [readSubRun_, skipCalls]

/-- Every stream splits into a longest prefix of items the mode does not
permit and a rest that is empty or starts with a permitted item. -/
theorem exists_split (mode : ProcessingMode) (l : List ItemType) :
    ∃ pre rest, l = pre ++ rest ∧ (∀ y ∈ pre, ¬ permitted mode y) ∧
      (∀ x, rest.head? = some x → permitted mode x) := by
  induction l with
  | nil => exact ⟨[], [], rfl, by simp, by simp⟩
  | cons a l ih =>
    by_cases ha : permitted mode a
    · refine ⟨[], a :: l, rfl, by simp, ?_⟩
      intro x hx
      simp only [List.head?_cons, Option.some.injEq] at hx
      exact hx ▸ ha
    · obtain ⟨pre, rest, hl, hpre, hx⟩ := ih
      refine ⟨a :: pre, rest, by simp [hl], ?_, hx⟩
      intro y hy
      rcases List.mem_cons.1 hy with rfl | hy
      · exact ha
      · exact hpre y hy

/-- What `nextItemType_()` leaves behind: the item returned is permitted and is
the one the stream offers next, and only the stream and the record of hook
calls have changed. -/
theorem nextItemType__result (s : Source) :
    ∃ (p : List ItemType) (c : List Hook),
      nextItemType_ s = (p.headD ItemType.IsStop, { s with pending := p, calls := c }) ∧
      permitted s.processingMode_ (p.headD ItemType.IsStop) := by
  obtain ⟨pre, rest, hl, hpre, hx⟩ := exists_split s.processingMode_ s.pending
  refine ⟨rest, s.calls ++ skipCalls pre ++ [Hook.getNextItemType],
    nextItemType__skip pre rest s hl hpre hx, ?_⟩
  cases rest with
  | nil => simp [permitted]
  | cons x post => exact hx x rfl

theorem cassert_bind {α : Type} (b : Bool) (f : Unit → Option α) :
    (cassert b).bind f = if b = true then f () else none := by
  cases b <;> rfl

/-- What a successful `nextItemType()` leaves behind: the item returned is
cached as read ahead, mode and limit counters are untouched, and an item that
was not already cached is permitted by the mode. -/
theorem nextItemType_post (s : Source) (it : ItemType) (s1 : Source)
    (h : nextItemType s = some (it, s1)) :
    s1.doneReadAhead_ = true ∧ s1.state_ = it ∧ s1.processingMode_ = s.processingMode_ ∧
    s1.remainingSubRuns_ = s.remainingSubRuns_ ∧ s1.remainingEvents_ = s.remainingEvents_ ∧
    (s.doneReadAhead_ = false → permitted s.processingMode_ it) ∧
    (s.doneReadAhead_ = true → it = s.state_ ∧ s1 = s) := by
  obtain ⟨p, c, hr, hperm⟩ := nextItemType__result { s with doneReadAhead_ := true }
  obtain ⟨pending, calls, a, b, c, d, e, mode, f, g, hh, i⟩ := s
  unfold nextItemType at h
  dsimp only at h hr hperm ⊢
  cases f with
  | true =>
    simp only [if_true, Option.some.injEq, Prod.mk.injEq] at h
    obtain ⟨h1, h2⟩ := h
    subst h2
    simp [h1]
  | false =>
    rw [if_neg (by simp)] at h
    rw [hr] at h
    clear hr
    generalize List.headD p ItemType.IsStop = newState at h hperm
    simp only [finishNextItemType, cassert_bind, processingMode, setRunPrincipal,
      setSubRunPrincipal, readRun_, readSubRun_] at h
    unfold permitted at hperm ⊢
    split_ifs at h <;>
      simp only [Option.some.injEq, Prod.mk.injEq, reduceCtorEq] at h <;>
      (obtain ⟨h1, h2⟩ := h; subst h2; subst h1; simp_all)

/-- A successful read call consumes the read-ahead and keeps the mode. -/
theorem read_post (op : Op) (hop : op ≠ Op.nextItemType) (s : Source)
    (r : Option ItemType × Source) (h : applyOp op s = some r) :
    r.1 = none ∧ r.2.doneReadAhead_ = false ∧ r.2.processingMode_ = s.processingMode_ ∧
    s.doneReadAhead_ = true := by
  obtain ⟨pending, calls, a, b, c, d, e, mode, f, g, hh, i⟩ := s
  cases op with
  | nextItemType => exact absurd rfl hop
  | readFile =>
    simp only [applyOp, readFile, cassert_bind, readFile_, Option.map_eq_some'] at h
    obtain ⟨s1, h1, h2⟩ := h
    subst h2
    split_ifs at h1
    simp_all
    subst h1; simp
  | readRun =>
    simp only [applyOp, readRun, cassert_bind, Option.map_eq_some'] at h
    obtain ⟨s1, h1, h2⟩ := h
    subst h2
    split_ifs at h1
    simp_all
    subst h1; simp
  | readSubRun =>
    simp only [applyOp, readSubRun, cassert_bind, Option.map_eq_some'] at h
    obtain ⟨s1, h1, h2⟩ := h
    subst h2
    split_ifs at h1
    simp_all
    subst h1; simp
  | readEvent =>
    simp only [applyOp, readEvent, cassert_bind, readEvent_, Option.map_eq_some'] at h
    obtain ⟨s1, h1, h2⟩ := h
    subst h2
    split_ifs at h1 <;> simp_all <;> subst h1 <;> simp

/-- Every call keeps the read-ahead invariant and the mode, and an item it
returns is permitted. -/
theorem applyOp_cachedPermitted (op : Op) (s : Source) (r : Option ItemType × Source)
    (h : applyOp op s = some r) (hinv : cachedPermitted s) :
    cachedPermitted r.2 ∧ r.2.processingMode_ = s.processingMode_ ∧
      ∀ it, r.1 = some it → permitted s.processingMode_ it := by
  by_cases hop : op = Op.nextItemType
  · subst hop
    simp only [applyOp, Option.map_eq_some'] at h
    obtain ⟨⟨it, s1⟩, h1, h2⟩ := h
    subst h2
    obtain ⟨-, hst, hmode, -, -, hf, ht⟩ := nextItemType_post s it s1 h1
    have hp : permitted s.processingMode_ it := by
      cases hd : s.doneReadAhead_ with
      | false => exact hf hd
      | true => rw [(ht hd).1]; exact hinv hd
    refine ⟨fun _ => ?_, hmode, ?_⟩
    · simp only [hmode, hst]; exact hp
    · intro it2 hit
      simp only [Option.some.injEq] at hit
      exact hit ▸ hp
  · obtain ⟨h1, h2, h3, -⟩ := read_post op hop s r h
    refine ⟨fun hd => ?_, h3, fun it hit => ?_⟩
    · rw [h2] at hd; exact absurd hd (by simp)
    · rw [h1] at hit; exact absurd hit (by simp)

theorem runOps_permitted (ops : List Op) :
    ∀ (s : Source) (items : List ItemType) (s1 : Source), cachedPermitted s →
      runOps ops s = some (items, s1) → ∀ it ∈ items, permitted s.processingMode_ it := by
  induction ops with
  | nil =>
    intro s items s1 _ h
    simp only [runOps, Option.some.injEq, Prod.mk.injEq] at h
    intro it hit
    rw [← h.1] at hit
    exact absurd hit (List.not_mem_nil _)
  | cons op ops ih =>
    intro s items s1 hinv h
    simp only [runOps, Option.bind_eq_some, Option.map_eq_some'] at h
    obtain ⟨r, hr, q, hq, hres⟩ := h
    obtain ⟨hinv1, hmode, hit⟩ := applyOp_cachedPermitted op s r hr hinv
    have hrest := ih r.2 q.1 q.2 hinv1 hq
    rw [hmode] at hrest
    simp only [Prod.mk.injEq] at hres
    obtain ⟨hres, -⟩ := hres
    subst hres
    intro it hmem
    cases hr1 : r.1 with
    | none => rw [hr1] at hmem; exact hrest it hmem
    | some it0 =>
      rw [hr1] at hmem
      rcases List.mem_cons.1 hmem with rfl | hmem
      · exact hit _ hr1
      · exact hrest it hmem

/-- In mode `RunsSubRunsAndEvents` nothing is skipped: `nextItemType_()` is one
call of the hook. -/
theorem nextItemType__all_modes (s : Source)
    (hm : s.processingMode_ = ProcessingMode.RunsSubRunsAndEvents) :
    nextItemType_ s = getNextItemType s := by
  rw [nextItemType__eq]
  have h1 : (getNextItemType s).2.processingMode = ProcessingMode.RunsSubRunsAndEvents := hm
  rw [if_neg (by simp [h1]), if_neg (by simp [h1])]

/-- C3: two calls of `nextItemType()` with no read call in between return the
same item, and the second call leaves every member of the source, the record
of calls to the underlying source included, as the first call left it. -/
theorem nextItemType_idempotent (s : Source) (it : ItemType) (s1 : Source)
    (h : nextItemType s = some (it, s1)) :
    nextItemType s1 = some (it, s1) := by
  obtain ⟨hd, hst, -⟩ := nextItemType_post s it s1 h
  unfold nextItemType
  rw [if_pos hd, hst]

theorem nextItemType_idempotent_witness :
    nextItemType
        { mk0 ProcessingMode.Runs (-1) (-1) [ItemType.IsFile] with
          calls := [Hook.getNextItemType, Hook.readEvent_, Hook.getNextItemType]
          doneReadAhead_ := true
          state_ := ItemType.IsFile } =
      some (ItemType.IsFile,
        { mk0 ProcessingMode.Runs (-1) (-1) [ItemType.IsFile] with
          calls := [Hook.getNextItemType, Hook.readEvent_, Hook.getNextItemType]
          doneReadAhead_ := true
          state_ := ItemType.IsFile }) :=
  nextItemType_idempotent
    (mk0 ProcessingMode.Runs (-1) (-1) [ItemType.IsEvent, ItemType.IsFile])
    ItemType.IsFile
    { mk0 ProcessingMode.Runs (-1) (-1) [ItemType.IsFile] with
      calls := [Hook.getNextItemType, Hook.readEvent_, Hook.getNextItemType]
      doneReadAhead_ := true
      state_ := ItemType.IsFile }
    (by decide)

/-- With the event limit reached and nothing read ahead, `nextItemType()` sets
the state to Stop and resets the principals, and does nothing else. -/
theorem nextItemType_of_eventLimitReached (s : Source) (hd : s.doneReadAhead_ = false)
    (hev : s.remainingEvents_ = 0) :
    nextItemType s =
      some (ItemType.IsStop,
        { s with doneReadAhead_ := true, state_ := ItemType.IsStop,
                 runPrincipal_ := none, subRunPrincipal_ := none }) := by
  obtain ⟨pending, calls, a, b, c, d, e, mode, f, g, hh, i⟩ := s
  simp only at hd hev
  subst hd; subst hev
  simp [nextItemType, eventLimitReached, finishNextItemType]

/-- C5: with the event limit reached and nothing read ahead, `nextItemType()`
returns Stop at once, whatever the previous item, the mode, the sub-run counter
and the pending stream: the underlying source is not called (stream and record
of hook calls are unchanged) and both cached principals are dropped. -/
theorem nextItemType_event_limit (s : Source) (hd : s.doneReadAhead_ = false)
    (hev : s.remainingEvents_ = 0) :
    nextItemType s =
      some (ItemType.IsStop,
        { s with doneReadAhead_ := true, state_ := ItemType.IsStop,
                 runPrincipal_ := none, subRunPrincipal_ := none }) :=
  nextItemType_of_eventLimitReached s hd hev

theorem nextItemType_event_limit_witness :
    nextItemType
        { mk0 ProcessingMode.RunsSubRunsAndEvents 1 5 [ItemType.IsEvent, ItemType.IsStop] with
          remainingEvents_ := 0, state_ := ItemType.IsEvent,
          runPrincipal_ := some 1, subRunPrincipal_ := some 2 } =
      some (ItemType.IsStop,
        { mk0 ProcessingMode.RunsSubRunsAndEvents 1 5 [ItemType.IsEvent, ItemType.IsStop] with
          remainingEvents_ := 0, doneReadAhead_ := true, state_ := ItemType.IsStop }) :=
  nextItemType_event_limit
    { mk0 ProcessingMode.RunsSubRunsAndEvents 1 5 [ItemType.IsEvent, ItemType.IsStop] with
      remainingEvents_ := 0, state_ := ItemType.IsEvent,
      runPrincipal_ := some 1, subRunPrincipal_ := some 2 } rfl rfl

/-- C1: whatever stream the underlying source reports and whatever sequence
of `nextItemType()` and read calls is made on a freshly constructed source, no
`nextItemType()` call returns Event unless the mode is `RunsSubRunsAndEvents`,
and none returns SubRun when the mode is `Runs`. -/
theorem nextItemType_respects_mode (mode : ProcessingMode) (maxEvents maxSubRuns : Int)
    (stream : List ItemType) (ops : List Op) (items : List ItemType)
    (h : (runOps ops (mk0 mode maxEvents maxSubRuns stream)).map Prod.fst = some items) :
    ∀ it ∈ items,
      (it = ItemType.IsEvent → mode = ProcessingMode.RunsSubRunsAndEvents) ∧
      (it = ItemType.IsSubRun → mode ≠ ProcessingMode.Runs) := by
  simp only [Option.map_eq_some'] at h
  obtain ⟨⟨items1, s1⟩, h1, h2⟩ := h
  simp only at h2
  subst h2
  have hinv : cachedPermitted (mk0 mode maxEvents maxSubRuns stream) := by
    intro hd
    simp [mk0] at hd
  intro it hit
  have hp := runOps_permitted ops _ _ _ hinv h1 it hit
  unfold permitted at hp
  simp only [mk0] at hp
  constructor
  · intro he
    by_contra hne
    exact hp.1 ⟨he, hne⟩
  · intro he hm
    exact hp.2 ⟨he, hm⟩

theorem nextItemType_respects_mode_witness :
    (runOps
        [Op.nextItemType, Op.nextItemType, Op.readFile, Op.nextItemType, Op.readRun,
          Op.nextItemType, Op.readRun, Op.nextItemType]
        (mk0 ProcessingMode.Runs (-1) (-1)
          [ItemType.IsFile, ItemType.IsRun, ItemType.IsSubRun, ItemType.IsEvent,
            ItemType.IsEvent, ItemType.IsSubRun, ItemType.IsEvent, ItemType.IsRun,
            ItemType.IsEvent, ItemType.IsStop])).map Prod.fst =
      some [ItemType.IsFile, ItemType.IsFile, ItemType.IsRun, ItemType.IsRun,
        ItemType.IsStop] ∧
    (ItemType.IsRun = ItemType.IsEvent →
      ProcessingMode.Runs = ProcessingMode.RunsSubRunsAndEvents) ∧
    (ItemType.IsRun = ItemType.IsSubRun → ProcessingMode.Runs ≠ ProcessingMode.Runs) :=
  ⟨by decide,
    nextItemType_respects_mode ProcessingMode.Runs (-1) (-1)
      [ItemType.IsFile, ItemType.IsRun, ItemType.IsSubRun, ItemType.IsEvent, ItemType.IsEvent,
        ItemType.IsSubRun, ItemType.IsEvent, ItemType.IsRun, ItemType.IsEvent, ItemType.IsStop]
      [Op.nextItemType, Op.nextItemType, Op.readFile, Op.nextItemType, Op.readRun,
        Op.nextItemType, Op.readRun, Op.nextItemType]
      [ItemType.IsFile, ItemType.IsFile, ItemType.IsRun, ItemType.IsRun, ItemType.IsStop]
      (by decide) ItemType.IsRun (by decide)⟩

/-- C2: on a stream that ends in Stop, `nextItemType_()` (a total function)
returns the first pending item `x` the mode permits; the items `pre` before it
are the ones it has read, in their order (`getNextItemType` then `readEvent_`
for an Event, `getNextItemType` then `readSubRun_` for a SubRun), and `x` and
everything after it are still pending, in their order. -/
theorem nextItemType__first_permitted (s : Source)
    (hstop : s.pending.getLast? = some ItemType.IsStop) :
    ∃ pre x post, s.pending = pre ++ x :: post ∧
      (∀ y ∈ pre, ¬ permitted s.processingMode y) ∧ permitted s.processingMode x ∧
      nextItemType_ s =
        (x, { s with pending := x :: post,
                     calls := s.calls ++ skipCalls pre ++ [Hook.getNextItemType] }) := by
  obtain ⟨pre, rest, hl, hpre, hx⟩ := exists_split s.processingMode s.pending
  have hskip := nextItemType__skip pre rest s hl hpre hx
  cases rest with
  | nil =>
    exfalso
    rw [List.append_nil] at hl
    rw [hl] at hstop
    have hmem : ItemType.IsStop ∈ pre := List.mem_of_getLast?_eq_some hstop
    exact hpre _ hmem (by simp [permitted])
  | cons x post =>
    exact ⟨pre, x, post, hl, hpre, hx x rfl, hskip⟩

theorem nextItemType__first_permitted_witness :
    ∃ pre x post,
      (mk0 ProcessingMode.Runs (-1) (-1)
        [ItemType.IsSubRun, ItemType.IsEvent, ItemType.IsRun, ItemType.IsEvent,
          ItemType.IsStop]).pending = pre ++ x :: post ∧
      (∀ y ∈ pre, ¬ permitted ProcessingMode.Runs y) ∧ permitted ProcessingMode.Runs x ∧
      nextItemType_ (mk0 ProcessingMode.Runs (-1) (-1)
        [ItemType.IsSubRun, ItemType.IsEvent, ItemType.IsRun, ItemType.IsEvent,
          ItemType.IsStop]) =
        (x, { mk0 ProcessingMode.Runs (-1) (-1)
                [ItemType.IsSubRun, ItemType.IsEvent, ItemType.IsRun, ItemType.IsEvent,
                  ItemType.IsStop] with
              pending := x :: post,
              calls := [] ++ skipCalls pre ++ [Hook.getNextItemType] }) :=
  nextItemType__first_permitted
    (mk0 ProcessingMode.Runs (-1) (-1)
      [ItemType.IsSubRun, ItemType.IsEvent, ItemType.IsRun, ItemType.IsEvent, ItemType.IsStop])
    (by decide)

/-- With the sub-run limit reached and nothing read ahead, `nextItemType()`
returns Event or Stop only. -/
theorem nextItemType_subRun_limit_item (s : Source) (it : ItemType) (s1 : Source)
    (hd : s.doneReadAhead_ = false) (hsr : s.remainingSubRuns_ = 0)
    (h : nextItemType s = some (it, s1)) :
    it = ItemType.IsEvent ∨ it = ItemType.IsStop := by
  obtain ⟨p, c, hr, -⟩ := nextItemType__result { s with doneReadAhead_ := true }
  obtain ⟨pending, calls, a, b, c, d, e, mode, f, g, hh, i⟩ := s
  unfold nextItemType at h
  dsimp only at h hr hd hsr
  subst hd; subst hsr
  rw [if_neg (by simp)] at h
  rw [hr] at h
  clear hr
  generalize List.headD p ItemType.IsStop = newState at h
  simp only [finishNextItemType, cassert_bind, processingMode, subRunLimitReached,
    beq_self_eq_true, if_true] at h
  split_ifs at h <;>
    simp only [Option.some.injEq, Prod.mk.injEq, reduceCtorEq] at h <;>
    (obtain ⟨h1, -⟩ := h; subst h1; simp)

/-- Every call keeps the sub-run-limit invariant, and an item it returns is
Event or Stop. -/
theorem applyOp_subRunLimitInv (op : Op) (s : Source) (r : Option ItemType × Source)
    (h : applyOp op s = some r) (hinv : subRunLimitInv s) :
    subRunLimitInv r.2 ∧ ∀ it, r.1 = some it → it = ItemType.IsEvent ∨ it = ItemType.IsStop := by
  cases op with
  | nextItemType =>
    simp only [applyOp, Option.map_eq_some'] at h
    obtain ⟨⟨it, s1⟩, h1, h2⟩ := h
    subst h2
    obtain ⟨-, hst, -, hsr, -, -, ht⟩ := nextItemType_post s it s1 h1
    have hit : it = ItemType.IsEvent ∨ it = ItemType.IsStop := by
      cases hd : s.doneReadAhead_ with
      | false => exact nextItemType_subRun_limit_item s it s1 hd hinv.1 h1
      | true => rw [(ht hd).1]; exact hinv.2 hd
    refine ⟨⟨hsr.trans hinv.1, fun _ => ?_⟩, ?_⟩
    · simp only [hst]; exact hit
    · intro it2 h2
      simp only [Option.some.injEq] at h2
      exact h2 ▸ hit
  | readFile =>
    exfalso
    obtain ⟨h0, hst⟩ := hinv
    simp only [applyOp, readFile, cassert_bind, Option.map_eq_some'] at h
    obtain ⟨s1, h1, -⟩ := h
    split_ifs at h1 with hd hs
    rcases hst hd with h3 | h3 <;> simp [h3] at hs
  | readRun =>
    exfalso
    obtain ⟨h0, hst⟩ := hinv
    simp only [applyOp, readRun, cassert_bind, Option.map_eq_some'] at h
    obtain ⟨s1, h1, -⟩ := h
    split_ifs at h1 with hd hs
    rcases hst hd with h3 | h3 <;> simp [h3] at hs
  | readSubRun =>
    exfalso
    obtain ⟨h0, hst⟩ := hinv
    simp only [applyOp, readSubRun, cassert_bind, Option.map_eq_some'] at h
    obtain ⟨s1, h1, -⟩ := h
    split_ifs at h1 with hd hs
    all_goals rcases hst hd with h3 | h3 <;> simp [h3] at hs
  | readEvent =>
    obtain ⟨h1, h2, -, -⟩ := read_post Op.readEvent (by simp) s r h
    refine ⟨⟨?_, fun hd => ?_⟩, fun it hit => ?_⟩
    · obtain ⟨h0, -⟩ := hinv
      obtain ⟨pending, calls, a, b, c, d, e, mode, f, g, hh, i⟩ := s
      simp only [applyOp, readEvent, cassert_bind, readEvent_, Option.map_eq_some'] at h
      obtain ⟨s1, h3, h4⟩ := h
      subst h4
      simp only at h0
      split_ifs at h3 <;> simp_all <;> subst h3 <;> rfl
    · rw [h2] at hd; exact absurd hd (by simp)
    · rw [h1] at hit; exact absurd hit (by simp)

theorem runOps_subRunLimitInv (ops : List Op) :
    ∀ (s : Source) (items : List ItemType) (s1 : Source), subRunLimitInv s →
      runOps ops s = some (items, s1) →
      ∀ it ∈ items, it = ItemType.IsEvent ∨ it = ItemType.IsStop := by
  induction ops with
  | nil =>
    intro s items s1 _ h
    simp only [runOps, Option.some.injEq, Prod.mk.injEq] at h
    intro it hit
    rw [← h.1] at hit
    exact absurd hit (List.not_mem_nil _)
  | cons op ops ih =>
    intro s items s1 hinv h
    simp only [runOps, Option.bind_eq_some, Option.map_eq_some'] at h
    obtain ⟨r, hr, q, hq, hres⟩ := h
    obtain ⟨hinv1, hit⟩ := applyOp_subRunLimitInv op s r hr hinv
    have hrest := ih r.2 q.1 q.2 hinv1 hq
    simp only [Prod.mk.injEq] at hres
    obtain ⟨hres, -⟩ := hres
    subst hres
    intro it hmem
    cases hr1 : r.1 with
    | none => rw [hr1] at hmem; exact hrest it hmem
    | some it0 =>
      rw [hr1] at hmem
      rcases List.mem_cons.1 hmem with rfl | hmem
      · exact hit _ hr1
      · exact hrest it hmem

/-- C6: with the sub-run limit reached, the event limit not reached and nothing
read ahead, `nextItemType()` returns Stop, without calling the underlying
source, if the previous item was Invalid, File or Run or the mode is not
`RunsSubRunsAndEvents`; otherwise it asks the underlying source once and
returns Event if that reports an Event (left pending for `readEvent`) and Stop
if it reports anything else.  Hence, from then on, whatever calls are made,
every item returned is Event or Stop: never File, Run or SubRun. -/
theorem nextItemType_subRun_limit (s : Source) (hd : s.doneReadAhead_ = false)
    (hsr : s.remainingSubRuns_ = 0) (hev : s.remainingEvents_ ≠ 0) :
    ((s.state_ = ItemType.IsInvalid ∨ s.state_ = ItemType.IsFile ∨ s.state_ = ItemType.IsRun ∨
        s.processingMode_ ≠ ProcessingMode.RunsSubRunsAndEvents) →
      nextItemType s =
        some (ItemType.IsStop,
          { s with doneReadAhead_ := true, state_ := ItemType.IsStop,
                   runPrincipal_ := none, subRunPrincipal_ := none })) ∧
    (¬ (s.state_ = ItemType.IsInvalid ∨ s.state_ = ItemType.IsFile ∨ s.state_ = ItemType.IsRun ∨
        s.processingMode_ ≠ ProcessingMode.RunsSubRunsAndEvents) →
      ((getNextItemType s).1 = ItemType.IsEvent →
        nextItemType s =
          some (ItemType.IsEvent,
            { s with doneReadAhead_ := true, state_ := ItemType.IsEvent,
                     calls := s.calls ++ [Hook.getNextItemType] })) ∧
      ((getNextItemType s).1 ≠ ItemType.IsEvent →
        nextItemType s =
          some (ItemType.IsStop,
            { s with doneReadAhead_ := true, state_ := ItemType.IsStop,
                     calls := s.calls ++ [Hook.getNextItemType],
                     runPrincipal_ := none, subRunPrincipal_ := none }))) ∧
    (∀ (ops : List Op) (items : List ItemType),
      (runOps ops s).map Prod.fst = some items →
      ∀ it ∈ items, it = ItemType.IsEvent ∨ it = ItemType.IsStop) := by
  refine ⟨?_, ?_, ?_⟩
  · intro hold
    obtain ⟨pending, calls, a, b, c, d, e, mode, f, g, hh, i⟩ := s
    simp only at hd hsr hev hold
    subst hd; subst hsr
    simp [nextItemType, eventLimitReached, subRunLimitReached, finishNextItemType,
      processingMode, hev, hold]
  · intro hold
    have hm : s.processingMode_ = ProcessingMode.RunsSubRunsAndEvents := by
      by_contra hne
      exact hold (Or.inr (Or.inr (Or.inr hne)))
    have hn := nextItemType__all_modes { s with doneReadAhead_ := true } hm
    obtain ⟨pending, calls, a, b, c, d, e, mode, f, g, hh, i⟩ := s
    simp only at hd hsr hev hold hm hn
    subst hd; subst hsr; subst hm
    have hold2 : ¬ (g = ItemType.IsInvalid ∨ g = ItemType.IsFile ∨ g = ItemType.IsRun) :=
      fun h3 => hold (by tauto)
    constructor
    · intro hnext
      simp only [getNextItemType] at hnext hn
      simp only [nextItemType, eventLimitReached, subRunLimitReached, finishNextItemType,
        processingMode, hn, hnext, cassert]
      simp [hev, hold2]
    · intro hnext
      simp only [getNextItemType] at hnext hn
      simp only [nextItemType, eventLimitReached, subRunLimitReached, finishNextItemType,
        processingMode, hn, hnext, cassert]
      simp [hev, hold2]
  · intro ops items h
    simp only [Option.map_eq_some'] at h
    obtain ⟨⟨items1, s1⟩, h1, h2⟩ := h
    simp only at h2
    subst h2
    exact runOps_subRunLimitInv ops s _ s1 ⟨hsr, fun ht => by simp [hd] at ht⟩ h1

theorem nextItemType_subRun_limit_witness :
    nextItemType
        { mk0 ProcessingMode.RunsSubRunsAndEvents (-1) 1
            [ItemType.IsEvent, ItemType.IsSubRun, ItemType.IsEvent, ItemType.IsStop] with
          remainingSubRuns_ := 0, state_ := ItemType.IsSubRun } =
      some (ItemType.IsEvent,
        { mk0 ProcessingMode.RunsSubRunsAndEvents (-1) 1
            [ItemType.IsEvent, ItemType.IsSubRun, ItemType.IsEvent, ItemType.IsStop] with
          remainingSubRuns_ := 0, doneReadAhead_ := true, state_ := ItemType.IsEvent,
          calls := [] ++ [Hook.getNextItemType] }) :=
  ((nextItemType_subRun_limit
    { mk0 ProcessingMode.RunsSubRunsAndEvents (-1) 1
        [ItemType.IsEvent, ItemType.IsSubRun, ItemType.IsEvent, ItemType.IsStop] with
      remainingSubRuns_ := 0, state_ := ItemType.IsSubRun }
    rfl rfl (by decide)).2.1 (by decide)).1 (by decide)

/-- A run goes on with the rest of the run after a round of the protocol. -/
theorem drive_succ (fuel : Nat) (s : Source) (it : ItemType) (s2 : Source)
    (h : protocolStep s = some (it, s2)) :
    drive (fuel + 1) s = (drive fuel s2).map fun tr => it :: tr := by
  simp only [protocolStep, Option.bind_eq_some] at h
  obtain ⟨r, hr, h2⟩ := h
  split_ifs at h2 with hstop
  simp only [Option.map_eq_some', Prod.mk.injEq] at h2
  obtain ⟨s3, h3, h4, h5⟩ := h2
  subst h5; subst h4
  simp only [drive, hr, Option.some_bind, if_neg hstop, h3]

set_option maxHeartbeats 4000000 in
/-- One round of the protocol while the event limit is not reached, in mode
`RunsSubRunsAndEvents` with no sub-run limit: `nextItemType()` returns an item
other than Stop, its read call succeeds, and the run has come closer to its
end; an Event returned takes one event both from the limit and from the
stream. -/
theorem protocolStep_progress (s : Source) (k : Nat)
    (hm : s.processingMode_ = ProcessingMode.RunsSubRunsAndEvents)
    (hd : s.doneReadAhead_ = false) (hsr : s.remainingSubRuns_ < 0)
    (hev : s.remainingEvents_ = (k : Int) + 1) (hinv : ItemType.IsInvalid ∉ s.pending)
    (hoff : k + 1 ≤ eventsOffered s.pending) :
    (protocolStep s).isSome = true ∧
    ∀ r, protocolStep s = some r →
      r.2.processingMode_ = ProcessingMode.RunsSubRunsAndEvents ∧
      r.2.doneReadAhead_ = false ∧ r.2.remainingSubRuns_ < 0 ∧
      ItemType.IsInvalid ∉ r.2.pending ∧ runMeasure r.2 < runMeasure s ∧
      ((r.1 = ItemType.IsEvent ∧ r.2.remainingEvents_ = (k : Int) ∧
          k ≤ eventsOffered r.2.pending) ∨
        (r.1 ≠ ItemType.IsEvent ∧ r.2.remainingEvents_ = (k : Int) + 1 ∧
          k + 1 ≤ eventsOffered r.2.pending)) := by
  have hn := nextItemType__all_modes { s with doneReadAhead_ := true } hm
  obtain ⟨pending, calls, a, b, c, d, e, mode, f, g, hh, i⟩ := s
  simp only at hm hd hsr hev hinv hoff hn
  subst hm; subst hd; subst hev
  have hd0 : d ≠ 0 := by omega
  have hd1 : d - 1 ≠ 0 := by omega
  have hd2 : d - 1 < 0 := by omega
  have hk0 : ((k : Int) + 1) ≠ 0 := by omega
  have hk1 : (0 : Int) < (k : Int) + 1 := by omega
  cases pending with
  | nil => simp [eventsOffered] at hoff
  | cons x rest =>
    have hx : x ≠ ItemType.IsInvalid := fun h0 => hinv (h0 ▸ List.mem_cons_self _ _)
    have hrest : ItemType.IsInvalid ∉ rest := fun h0 => hinv (List.mem_cons_of_mem _ h0)
    simp only [getNextItemType, List.headD_cons] at hn
    cases x <;> cases g <;>
      first
        | exact absurd rfl hx
        | (simp [eventsOffered] at hoff; done)
        | (simp only [eventsOffered] at hoff
           simp [protocolStep, nextItemType, hn, eventLimitReached, subRunLimitReached,
             limitReached, finishNextItemType, processingMode, cassert, consume, readFile,
             readRun, readSubRun, readEvent, readFile_, readRun_, readSubRun_, readEvent_,
             setRunPrincipal, setSubRunPrincipal, consumeHead, runMeasure, depth, hd0, hd1,
             hd2, hk0, hk1, hsr, hrest, hinv, hx, eventsOffered]
           try omega)

/-- More fuel does not change a finished run. -/
theorem drive_mono (fuel : Nat) :
    ∀ (s : Source) (tr : List ItemType), drive fuel s = some tr → drive (fuel + 1) s = some tr := by
  induction fuel with
  | zero => intro s tr h; simp [drive] at h
  | succ n ih =>
    intro s tr h
    rw [drive] at h ⊢
    cases hn : nextItemType s with
    | none => rw [hn] at h; simp at h
    | some r =>
      rw [hn] at h
      simp only [Option.some_bind] at h ⊢
      by_cases hstop : r.1 = ItemType.IsStop
      · rw [if_pos hstop] at h ⊢; exact h
      · rw [if_neg hstop] at h ⊢
        cases hc : consume r.1 r.2 with
        | none => rw [hc] at h; simp at h
        | some s1 =>
          rw [hc] at h
          simp only [Option.some_bind, Option.map_eq_some'] at h ⊢
          obtain ⟨tr1, h1, h2⟩ := h
          exact ⟨tr1, ih s1 tr1 h1, h2⟩

theorem drive_mono_le (fuel : Nat) (s : Source) (tr : List ItemType)
    (h : drive fuel s = some tr) : ∀ f, fuel ≤ f → drive f s = some tr := by
  intro f hf
  induction f with
  | zero =>
    have : fuel = 0 := by omega
    rw [← this]; exact h
  | succ n ih =>
    by_cases hn : fuel ≤ n
    · exact drive_mono n s tr (ih hn)
    · have : fuel = n + 1 := by omega
      rw [← this]; exact h

/-- A run with `k` events left before the limit, on a stream that offers at
least `k` events: it ends, returns exactly `k` Event items, and Stop comes
right after the last of them. -/
theorem drive_event_limit (m : Nat) :
    ∀ (s : Source) (k : Nat), runMeasure s ≤ m →
      s.processingMode_ = ProcessingMode.RunsSubRunsAndEvents →
      s.doneReadAhead_ = false → s.remainingSubRuns_ < 0 →
      s.remainingEvents_ = (k : Int) → ItemType.IsInvalid ∉ s.pending →
      k ≤ eventsOffered s.pending →
      ∃ tr, drive (m + 1) s = some tr ∧ tr.count ItemType.IsEvent = k ∧
        (k = 0 → tr = [ItemType.IsStop]) ∧
        (0 < k → ∃ pre, tr = pre ++ [ItemType.IsEvent, ItemType.IsStop]) := by
  induction m with
  | zero =>
    intro s k hmeas hm hd hsr hev hinv hoff
    cases k with
    | zero =>
      refine ⟨[ItemType.IsStop], ?_, by decide, fun _ => rfl, fun h => absurd h (by omega)⟩
      simp [drive, nextItemType_of_eventLimitReached s hd (by simpa using hev)]
    | succ k =>
      exfalso
      obtain ⟨hsome, hstep⟩ := protocolStep_progress s k hm hd hsr (by simpa using hev) hinv hoff
      obtain ⟨r, hr⟩ := Option.isSome_iff_exists.1 hsome
      have := (hstep r hr).2.2.2.2.1
      omega
  | succ m ih =>
    intro s k hmeas hm hd hsr hev hinv hoff
    cases k with
    | zero =>
      refine ⟨[ItemType.IsStop], ?_, by decide, fun _ => rfl, fun h => absurd h (by omega)⟩
      simp [drive, nextItemType_of_eventLimitReached s hd (by simpa using hev)]
    | succ k =>
      obtain ⟨hsome, hstep⟩ := protocolStep_progress s k hm hd hsr (by simpa using hev) hinv hoff
      obtain ⟨⟨it, s2⟩, hr⟩ := Option.isSome_iff_exists.1 hsome
      obtain ⟨hm2, hd2, hsr2, hinv2, hmeas2, hcase⟩ := hstep _ hr
      simp only at hm2 hd2 hsr2 hinv2 hmeas2 hcase
      rw [drive_succ (m + 1) s it s2 hr]
      rcases hcase with ⟨hit, hev2, hoff2⟩ | ⟨hit, hev2, hoff2⟩
      · obtain ⟨tr, htr, hcount, hzero, hpos⟩ :=
          ih s2 k (by omega) hm2 hd2 hsr2 hev2 hinv2 hoff2
        subst hit
        refine ⟨ItemType.IsEvent :: tr, by simp [htr], by simp [hcount], fun h => by omega,
          fun _ => ?_⟩
        cases k with
        | zero => exact ⟨[], by simp [hzero rfl]⟩
        | succ k =>
          obtain ⟨pre, hpre⟩ := hpos (by omega)
          exact ⟨ItemType.IsEvent :: pre, by simp [hpre]⟩
      · obtain ⟨tr, htr, hcount, -, hpos⟩ :=
          ih s2 (k + 1) (by omega) hm2 hd2 hsr2 (by simpa using hev2) hinv2 hoff2
        refine ⟨it :: tr, by simp [htr], ?_, fun h => by omega, fun _ => ?_⟩
        · rw [List.count_cons_of_ne (Ne.symm hit)]; exact hcount
        · obtain ⟨pre, hpre⟩ := hpos (by omega)
          exact ⟨it :: pre, by simp [hpre]⟩

/-- C4: a source with `maxEvents = N`, mode `RunsSubRunsAndEvents` and no
sub-run limit, on a stream of File, Run, SubRun, Event and Stop items that
offers at least `N` events before its first Stop, driven by the protocol
(every item returned is consumed by its read call): the run ends, exactly `N`
Event items are returned, and the call of `nextItemType()` that follows the
`N`-th `readEvent` returns Stop (the first call, when `N = 0`). -/
theorem maxEvents_exact (N : Nat) (stream : List ItemType)
    (hinv : ItemType.IsInvalid ∉ stream) (hoff : N ≤ eventsOffered stream) :
    ∃ tr fuel,
      (∀ f, fuel ≤ f →
        drive f (mk0 ProcessingMode.RunsSubRunsAndEvents (N : Int) (-1) stream) = some tr) ∧
      tr.count ItemType.IsEvent = N ∧
      (N = 0 → tr = [ItemType.IsStop]) ∧
      (0 < N → ∃ pre, tr = pre ++ [ItemType.IsEvent, ItemType.IsStop]) := by
  obtain ⟨tr, htr, hcount, hzero, hpos⟩ :=
    drive_event_limit (runMeasure (mk0 ProcessingMode.RunsSubRunsAndEvents (N : Int) (-1) stream))
      (mk0 ProcessingMode.RunsSubRunsAndEvents (N : Int) (-1) stream) N (le_refl _) rfl rfl
      (by simp [mk0]) rfl hinv hoff
  exact ⟨tr, _, drive_mono_le _ _ tr htr, hcount, hzero, hpos⟩

theorem maxEvents_exact_witness :
    ∃ tr fuel,
      (∀ f, fuel ≤ f →
        drive f (mk0 ProcessingMode.RunsSubRunsAndEvents ((2 : Nat) : Int) (-1)
          [ItemType.IsFile, ItemType.IsRun, ItemType.IsSubRun, ItemType.IsEvent,
            ItemType.IsEvent, ItemType.IsEvent, ItemType.IsStop]) = some tr) ∧
      tr.count ItemType.IsEvent = 2 ∧
      (2 = 0 → tr = [ItemType.IsStop]) ∧
      (0 < 2 → ∃ pre, tr = pre ++ [ItemType.IsEvent, ItemType.IsStop]) :=
  maxEvents_exact 2
    [ItemType.IsFile, ItemType.IsRun, ItemType.IsSubRun, ItemType.IsEvent,
      ItemType.IsEvent, ItemType.IsEvent, ItemType.IsStop]
    (by decide) (by decide)

end DecrepitRelicInputSourceImplementation
end art

/-! ## Theorems: event processor -/

namespace art
namespace EventProcessor
open input (ItemType)

theorem process_event_fst (ev : statemachine.Posted) (r : Reaction) (ep : EventProcessor) :
    (ep.process_event ev r).1 = r.thrown := rfl

theorem process_event_trace (ev : statemachine.Posted) (r : Reaction) (ep : EventProcessor) :
    (ep.process_event ev r).2.trace = ep.trace ++ [Action.process_event ev] := by
  unfold process_event
  cases r.entersError <;> cases r.messageSubRuns <;> cases r.messageRuns <;>
    cases r.messageFiles <;> rfl

theorem process_event_eta (ev : statemachine.Posted) (r : Reaction) (ep : EventProcessor) :
    ep.process_event ev r = (r.thrown, (ep.process_event ev r).2) := rfl

theorem afterPost_broke (k : EventProcessor → LoopEnd) (rc : StatusCode)
    (r : Option Thrown × EventProcessor) (code : StatusCode) (ep1 : EventProcessor)
    (h : afterPost k rc r = LoopEnd.broke code ep1) :
    r.1 = none ∧
      ((r.2.machineTerminated = true ∧ code = rc ∧ ep1 = r.2) ∨
        (r.2.machineTerminated = false ∧ k r.2 = LoopEnd.broke code ep1)) := by
  obtain ⟨thr, ep⟩ := r
  cases thr with
  | some t => simp [afterPost] at h
  | none =>
    simp only [afterPost] at h
    refine ⟨rfl, ?_⟩
    by_cases ht : ep.machineTerminated = true
    · rw [if_pos ht] at h
      simp only [LoopEnd.broke.injEq] at h
      exact Or.inl ⟨ht, h.1.symm, h.2.symm⟩
    · rw [if_neg ht] at h
      exact Or.inr ⟨by simpa using ht, h⟩

/-- What a loop left by `break` has done and returns. -/
theorem eventLoop_broke (n : Int) :
    ∀ (its : List Iteration) (iEvents : Int) (rc : StatusCode) (ep : EventProcessor)
      (code : StatusCode) (ep1 : EventProcessor),
      (0 < n → iEvents < n) →
      eventLoop n its iEvents rc ep = LoopEnd.broke code ep1 →
      ∃ acts, ep1.trace = ep.trace ++ acts ∧
        ((code = StatusCode.epSignal ∧
            ∃ pre, acts = pre ++ [Action.pollShutdown true,
              Action.process_event statemachine.Posted.Stop]) ∨
          (code = StatusCode.epCountComplete ∧ 0 < n ∧
            iEvents + (acts.count (Action.process_event statemachine.Posted.Event) : Int) = n ∧
            ∃ pre, acts = pre ++ [Action.pollShutdown false,
              Action.process_event statemachine.Posted.Event]) ∨
          (code = rc ∧ Action.pollShutdown true ∉ acts ∧
            (0 < n →
              iEvents + (acts.count (Action.process_event statemachine.Posted.Event) : Int)
                < n))) := by
  intro its
  induction its with
  | nil => intro iEvents rc ep code ep1 _ h; simp [eventLoop] at h
  | cons it rest ih =>
    intro iEvents rc ep code ep1 hpre h
    rw [eventLoop] at h
    cases hitem : it.item with
    | error t => simp [hitem] at h
    | ok itemType =>
      simp only [hitem] at h
      -- the four items whose event is posted and followed by the `terminated()` test
      have key : ∀ ev : statemachine.Posted, ev ≠ statemachine.Posted.Event →
          it.shutdown_flag = false →
          afterPost (eventLoop n rest iEvents rc) rc
            (((ep.record Action.nextItemType).record
              (Action.pollShutdown it.shutdown_flag)).process_event ev it.reaction) =
            LoopEnd.broke code ep1 →
          ∃ acts, ep1.trace = ep.trace ++ acts ∧
            ((code = StatusCode.epSignal ∧
                ∃ pre, acts = pre ++ [Action.pollShutdown true,
                  Action.process_event statemachine.Posted.Stop]) ∨
              (code = StatusCode.epCountComplete ∧ 0 < n ∧
                iEvents + (acts.count (Action.process_event statemachine.Posted.Event) : Int)
                  = n ∧
                ∃ pre, acts = pre ++ [Action.pollShutdown false,
                  Action.process_event statemachine.Posted.Event]) ∨
              (code = rc ∧ Action.pollShutdown true ∉ acts ∧
                (0 < n →
                  iEvents +
                    (acts.count (Action.process_event statemachine.Posted.Event) : Int)
                      < n))) := by
        intro ev hev hflag hpost
        obtain ⟨-, hcase⟩ := afterPost_broke _ _ _ _ _ hpost
        have hcount : List.count (Action.process_event statemachine.Posted.Event)
            [Action.nextItemType, Action.pollShutdown false, Action.process_event ev] = 0 := by
          cases ev <;> first | exact absurd rfl hev | decide
        rcases hcase with ⟨-, hcode, hep⟩ | ⟨-, hrest⟩
        · refine ⟨[Action.nextItemType, Action.pollShutdown false, Action.process_event ev],
            ?_, Or.inr (Or.inr ⟨hcode, by simp, ?_⟩)⟩
          · rw [hep, process_event_trace, hflag]
            simp [record]
          · intro hn
            rw [hcount]
            simpa using hpre hn
        · obtain ⟨acts, htrace, hacts⟩ := ih iEvents rc _ code ep1 hpre hrest
          refine ⟨[Action.nextItemType, Action.pollShutdown false, Action.process_event ev]
            ++ acts, ?_, ?_⟩
          · rw [htrace, process_event_trace, hflag]
            simp [record]
          · rcases hacts with ⟨h1, pre, h2⟩ | ⟨h1, h2, h3, pre, h4⟩ | ⟨h1, h2, h3⟩
            · exact Or.inl ⟨h1, [Action.nextItemType, Action.pollShutdown false,
                Action.process_event ev] ++ pre, by rw [h2]; simp⟩
            · refine Or.inr (Or.inl ⟨h1, h2, ?_, [Action.nextItemType,
                Action.pollShutdown false, Action.process_event ev] ++ pre, by rw [h4]; simp⟩)
              rw [List.count_append, hcount]
              simpa using h3
            · refine Or.inr (Or.inr ⟨h1, ?_, ?_⟩)
              · simpa using h2
              · intro hn
                rw [List.count_append, hcount]
                simpa using h3 hn
      by_cases hflag : it.shutdown_flag = true
      · rw [if_pos hflag, process_event_eta] at h
        cases hthr : it.reaction.thrown with
        | some t => simp [hthr] at h
        | none =>
          simp only [hthr, LoopEnd.broke.injEq] at h
          refine ⟨[Action.nextItemType, Action.pollShutdown true,
            Action.process_event statemachine.Posted.Stop], ?_, Or.inl ⟨h.1.symm, [_], rfl⟩⟩
          rw [← h.2, process_event_trace, hflag]
          simp [record]
      · have hflag2 : it.shutdown_flag = false := by simpa using hflag
        rw [if_neg hflag] at h
        by_cases h1 : itemType = ItemType.IsStop
        · rw [if_pos h1] at h; exact key _ (by decide) hflag2 h
        rw [if_neg h1] at h
        by_cases h2 : itemType = ItemType.IsFile
        · rw [if_pos h2] at h; exact key _ (by decide) hflag2 h
        rw [if_neg h2] at h
        by_cases h3 : itemType = ItemType.IsRun
        · rw [if_pos h3] at h; exact key _ (by decide) hflag2 h
        rw [if_neg h3] at h
        by_cases h4 : itemType = ItemType.IsSubRun
        · rw [if_pos h4] at h; exact key _ (by decide) hflag2 h
        rw [if_neg h4] at h
        by_cases h5 : itemType = ItemType.IsEvent
        · rw [if_pos h5, process_event_eta] at h
          cases hthr : it.reaction.thrown with
          | some t => simp [hthr] at h
          | none =>
            simp only [hthr] at h
            have htr : ((((ep.record Action.nextItemType).record
                (Action.pollShutdown it.shutdown_flag)).process_event
                  statemachine.Posted.Event it.reaction).2).trace =
                ep.trace ++ [Action.nextItemType, Action.pollShutdown false,
                  Action.process_event statemachine.Posted.Event] := by
              rw [process_event_trace, hflag2]
              simp [record]
            by_cases hc : n > 0 ∧ iEvents + 1 ≥ n
            · rw [if_pos hc] at h
              simp only [LoopEnd.broke.injEq] at h
              refine ⟨_, by rw [← h.2]; exact htr,
                Or.inr (Or.inl ⟨h.1.symm, hc.1, ?_, [_], rfl⟩)⟩
              have := hpre hc.1
              simp
              omega
            · rw [if_neg hc] at h
              by_cases ht : (((ep.record Action.nextItemType).record
                  (Action.pollShutdown it.shutdown_flag)).process_event
                    statemachine.Posted.Event it.reaction).2.machineTerminated = true
              · rw [if_pos ht] at h
                simp only [LoopEnd.broke.injEq] at h
                refine ⟨_, by rw [← h.2]; exact htr,
                  Or.inr (Or.inr ⟨h.1.symm, by simp, fun hn => ?_⟩)⟩
                simp
                omega
              · rw [if_neg ht] at h
                obtain ⟨acts, htrace, hacts⟩ :=
                  ih (iEvents + 1) rc _ code ep1 (fun hn => by omega) h
                refine ⟨[Action.nextItemType, Action.pollShutdown false,
                  Action.process_event statemachine.Posted.Event] ++ acts, ?_, ?_⟩
                · rw [htrace, htr]; simp
                · rcases hacts with ⟨h1, pre, h2⟩ | ⟨h1, h2, h3, pre, h4⟩ | ⟨h1, h2, h3⟩
                  · exact Or.inl ⟨h1, [Action.nextItemType, Action.pollShutdown false,
                      Action.process_event statemachine.Posted.Event] ++ pre,
                      by rw [h2]; simp⟩
                  · refine Or.inr (Or.inl ⟨h1, h2, ?_, [Action.nextItemType,
                      Action.pollShutdown false,
                      Action.process_event statemachine.Posted.Event] ++ pre,
                      by rw [h4]; simp⟩)
                    rw [List.count_append]
                    simp
                    omega
                  · refine Or.inr (Or.inr ⟨h1, ?_, ?_⟩)
                    · simpa using h2
                    · intro hn
                      have := h3 hn
                      rw [List.count_append]
                      simp
                      omega
        · rw [if_neg h5] at h
          simp at h

/-- Creating the machine touches nothing but `machine_`. -/
theorem createMachine_ok (ep ep1 : EventProcessor) (h : createMachine ep = Except.ok ep1) :
    ep1 = { ep with machine_ := ep1.machine_ } ∧ ep1.machine_.isSome = true := by
  unfold createMachine at h
  by_cases hm : ep.machine_.isNone = true
  · rw [if_pos hm] at h
    dsimp only at h
    split_ifs at h <;> simp only [Except.ok.injEq, reduceCtorEq] at h <;> subst h <;> simp
  · rw [if_neg hm] at h
    simp only [Except.ok.injEq] at h
    subst h
    refine ⟨rfl, ?_⟩
    cases hmm : ep.machine_ with
    | none => simp [hmm] at hm
    | some m => rfl

/-- The end of `runCommon` keeps the record of calls. -/
theorem afterLoop_returned (rc code : StatusCode) (ep ep1 : EventProcessor)
    (h : afterLoop rc ep = (Outcome.returned code, ep1)) :
    code = rc ∧ ep1.trace = ep.trace ∧ ep.stateMachineWasInErrorState_ = false := by
  unfold afterLoop at h
  dsimp only at h
  split_ifs at h <;> simp only [Prod.mk.injEq, Outcome.returned.injEq, reduceCtorEq,
    false_and] at h <;> obtain ⟨h1, h2⟩ := h <;> subst h2 <;> simp_all

/-- The normal return of `runCommon`: the loop was left by `break`, and what
it did decides the code. -/
theorem runCommon_returned (n : Int) (ep : EventProcessor) (w : World) (code : StatusCode)
    (ep1 : EventProcessor) (h : runCommon n ep w = (Outcome.returned code, ep1)) :
    ∃ acts, ep1.trace = ep.trace ++ acts ∧
      ((code = StatusCode.epSignal ∧
          ∃ pre, acts = pre ++ [Action.pollShutdown true,
            Action.process_event statemachine.Posted.Stop]) ∨
        (code = StatusCode.epCountComplete ∧ 0 < n ∧
          (acts.count (Action.process_event statemachine.Posted.Event) : Int) = n ∧
          ∃ pre, acts = pre ++ [Action.pollShutdown false,
            Action.process_event statemachine.Posted.Event]) ∨
        (code = StatusCode.epSuccess ∧ Action.pollShutdown true ∉ acts ∧
          (0 < n →
            (acts.count (Action.process_event statemachine.Posted.Event) : Int) < n))) := by
  unfold runCommon at h
  dsimp only at h
  cases hc : createMachine { ep with stateMachineWasInErrorState_ := false } with
  | error t => rw [hc] at h; simp at h
  | ok ep0 =>
    rw [hc] at h
    dsimp only at h
    obtain ⟨hep0, -⟩ := createMachine_ok _ _ hc
    have htr0 : ep0.trace = ep.trace := by rw [hep0]
    cases hl : eventLoop n w.iterations 0 StatusCode.epSuccess ep0 with
    | raised t ep2 => rw [hl] at h; simp at h
    | unfinished ep2 => rw [hl] at h; simp at h
    | broke rc ep2 =>
      rw [hl] at h
      dsimp only at h
      obtain ⟨hcode, htr, -⟩ := afterLoop_returned _ _ _ _ h
      obtain ⟨acts, hacts, hcases⟩ := eventLoop_broke n _ 0 _ _ _ _ (fun hn => hn) hl
      refine ⟨acts, by rw [htr, hacts, htr0], ?_⟩
      subst hcode
      simpa using hcases

/-- C7: when `runCommon(n)` returns normally, the code is `epSignal` exactly
when the loop was left on seeing the shutdown flag (the last poll found it
raised and Stop was posted), `epCountComplete` exactly when it was left because
`n > 0` and the `n`-th Event of this call had just been posted, and `epSuccess`
otherwise (the flag was never seen raised and, for `n > 0`, fewer than `n`
Events were posted); and `runToCompletion()` never returns `epCountComplete`. -/
theorem runCommon_status (n : Int) (ep : EventProcessor) (w : World) (code : StatusCode)
    (ep1 : EventProcessor) (h : runCommon n ep w = (Outcome.returned code, ep1)) :
    (∃ acts, ep1.trace = ep.trace ++ acts ∧
      ((code = StatusCode.epSignal ∧
          ∃ pre, acts = pre ++ [Action.pollShutdown true,
            Action.process_event statemachine.Posted.Stop]) ∨
        (code = StatusCode.epCountComplete ∧ 0 < n ∧
          (acts.count (Action.process_event statemachine.Posted.Event) : Int) = n ∧
          ∃ pre, acts = pre ++ [Action.pollShutdown false,
            Action.process_event statemachine.Posted.Event]) ∨
        (code = StatusCode.epSuccess ∧ Action.pollShutdown true ∉ acts ∧
          (0 < n →
            (acts.count (Action.process_event statemachine.Posted.Event) : Int) < n)))) ∧
    ∀ (ep2 : EventProcessor) (w2 : World),
      (runToCompletion ep2 w2).1 ≠ Outcome.returned StatusCode.epCountComplete := by
  refine ⟨runCommon_returned n ep w code ep1 h, ?_⟩
  intro ep2 w2 hret
  unfold runToCompletion at hret
  dsimp only at hret
  cases hr : runCommon (-1) ep2 w2 with
  | mk o ep3 =>
    rw [hr] at hret
    cases o with
    | threw t => simp at hret
    | unfinished => simp at hret
    | returned c =>
      dsimp only at hret
      split_ifs at hret
      simp only [Outcome.returned.injEq] at hret
      subst hret
      obtain ⟨acts, -, hcases⟩ := runCommon_returned (-1) ep2 w2 _ ep3 hr
      rcases hcases with ⟨h1, -⟩ | ⟨-, h2, -⟩ | ⟨h1, -⟩
      · exact absurd h1 (by decide)
      · omega
      · exact absurd h1 (by decide)

theorem Follows.refl (ep : EventProcessor) : Follows ep ep :=
  ⟨⟨[], by simp, by simp⟩, le_refl _, by simp⟩

theorem Follows.trans {a b c : EventProcessor} (h1 : Follows a b) (h2 : Follows b c) :
    Follows a c := by
  obtain ⟨⟨acts1, ht1, hn1⟩, hle1, hf1⟩ := h1
  obtain ⟨⟨acts2, ht2, hn2⟩, hle2, hf2⟩ := h2
  refine ⟨⟨acts1 ++ acts2, by rw [ht2, ht1, List.append_assoc], ?_⟩, le_trans hle1 hle2, ?_⟩
  · simp only [List.mem_append, not_or]
    exact ⟨hn1, hn2⟩
  · rw [hf2, hf1]
    constructor
    · rintro (h | h)
      · rcases h with h | h
        · exact Or.inl h
        · exact Or.inr (by omega)
      · exact Or.inr (by omega)
    · rintro (h | h)
      · exact Or.inl (Or.inl h)
      · by_cases hb : a.doErrorStuffCalls < b.doErrorStuffCalls
        · exact Or.inl (Or.inr hb)
        · exact Or.inr (by omega)

theorem follows_record (a : Action) (ha : a ≠ Action.terminateAbnormally)
    (ep : EventProcessor) : Follows ep (ep.record a) :=
  ⟨⟨[a], rfl, by simpa using Ne.symm ha⟩, le_refl _, by simp [record]⟩

theorem follows_process_event (ev : statemachine.Posted) (r : Reaction)
    (ep : EventProcessor) : Follows ep (ep.process_event ev r).2 := by
  refine ⟨⟨[Action.process_event ev], process_event_trace ev r ep, by simp⟩, ?_, ?_⟩
  · unfold process_event
    cases r.entersError <;> cases r.messageSubRuns <;> cases r.messageRuns <;>
      cases r.messageFiles <;>
      simp [record, doErrorStuff, setExceptionMessageSubRuns, setExceptionMessageRuns,
        setExceptionMessageFiles]
  · unfold process_event
    cases r.entersError <;> cases r.messageSubRuns <;> cases r.messageRuns <;>
      cases r.messageFiles <;>
      simp [record, doErrorStuff, setExceptionMessageSubRuns, setExceptionMessageRuns,
        setExceptionMessageFiles]

theorem afterPost_follows (k : EventProcessor → LoopEnd) (rc : StatusCode)
    (r : Option Thrown × EventProcessor) (ep : EventProcessor) (hr : Follows ep r.2)
    (hk : ∀ ep1, Follows ep1 (loopEndState (k ep1))) :
    Follows ep (loopEndState (afterPost k rc r)) := by
  obtain ⟨thr, ep2⟩ := r
  cases thr with
  | some t => exact hr
  | none =>
    simp only [afterPost]
    split_ifs
    · exact hr
    · exact hr.trans (hk ep2)

/-- One pass of the loop starts with the call of `nextItemType()`; what
follows adds no `terminateAbnormally()`. -/
theorem eventLoop_cons_follows (n : Int) (it : Iteration) (rest : List Iteration)
    (ih : ∀ (iEvents : Int) (rc : StatusCode) (ep : EventProcessor),
      Follows ep (loopEndState (eventLoop n rest iEvents rc ep)))
    (iEvents : Int) (rc : StatusCode) (ep : EventProcessor) :
    Follows (ep.record Action.nextItemType)
      (loopEndState (eventLoop n (it :: rest) iEvents rc ep)) := by
  have h2 : Follows (ep.record Action.nextItemType)
      ((ep.record Action.nextItemType).record (Action.pollShutdown it.shutdown_flag)) :=
    follows_record _ (by simp) _
  have h3 : ∀ ev, Follows (ep.record Action.nextItemType)
      (((ep.record Action.nextItemType).record
        (Action.pollShutdown it.shutdown_flag)).process_event ev it.reaction).2 :=
    fun ev => h2.trans (follows_process_event ev it.reaction _)
  rw [eventLoop]
  cases hitem : it.item with
  | error t => exact Follows.refl _
  | ok itemType =>
    dsimp only
    split_ifs
    all_goals first
      | exact h2
      | exact afterPost_follows _ _ _ _ (h3 _) (ih iEvents rc)
      | (rw [process_event_eta]
         cases it.reaction.thrown <;> dsimp only <;> (try split_ifs) <;>
           first | exact h3 _ | exact (h3 _).trans (ih _ _ _))

/-- Whatever way the loop ends, it has only added calls other than
`terminateAbnormally()` to the record, and the error flag is up at its end
exactly when it was up before or `doErrorStuff()` was called meanwhile. -/
theorem eventLoop_follows (n : Int) :
    ∀ (its : List Iteration) (iEvents : Int) (rc : StatusCode) (ep : EventProcessor),
      Follows ep (loopEndState (eventLoop n its iEvents rc ep)) := by
  intro its
  induction its with
  | nil => intro iEvents rc ep; exact Follows.refl ep
  | cons it rest ih =>
    intro iEvents rc ep
    exact (follows_record _ (by simp) ep).trans (eventLoop_cons_follows n it rest ih iEvents rc ep)

/-- C8 (as the code has it): every pass of the loop of `runCommon` first
fetches the next item with `nextItemType()` and polls the shutdown flag after
that; when the item was fetched and the flag is found raised, Stop is posted
and the loop is left at once (with `epSignal`, or with what the state machine
throws), the fetched item not being posted and no further item being
fetched, whatever iterations would follow. -/
theorem eventLoop_polls_after_fetch (n : Int) (it : Iteration) (rest : List Iteration)
    (iEvents : Int) (rc : StatusCode) (ep : EventProcessor) :
    (∃ acts, (loopEndState (eventLoop n (it :: rest) iEvents rc ep)).trace =
      ep.trace ++ Action.nextItemType :: acts) ∧
    (∀ itemType, it.item = Except.ok itemType → it.shutdown_flag = true →
      (loopEndState (eventLoop n (it :: rest) iEvents rc ep)).trace =
        ep.trace ++ [Action.nextItemType, Action.pollShutdown true,
          Action.process_event statemachine.Posted.Stop] ∧
      (it.reaction.thrown = none →
        ∃ ep1, eventLoop n (it :: rest) iEvents rc ep = LoopEnd.broke StatusCode.epSignal ep1) ∧
      (∀ t, it.reaction.thrown = some t →
        ∃ ep1, eventLoop n (it :: rest) iEvents rc ep = LoopEnd.raised t ep1)) := by
  constructor
  · obtain ⟨⟨acts, hacts, -⟩, -⟩ :=
      eventLoop_cons_follows n it rest (eventLoop_follows n rest) iEvents rc ep
    exact ⟨acts, by rw [hacts]; simp [record]⟩
  · intro itemType hitem hflag
    rw [eventLoop]
    simp only [hitem, hflag, if_true]
    rw [process_event_eta]
    cases hthr : it.reaction.thrown with
    | none =>
      refine ⟨?_, fun _ => ⟨_, rfl⟩, fun t ht => by simp at ht⟩
      simp only [loopEndState]
      rw [process_event_trace]
      simp [record]
    | some t0 =>
      refine ⟨?_, fun h => by simp at h, fun t ht => ?_⟩
      · simp only [loopEndState]
        rw [process_event_trace]
        simp [record]
      · simp only [Option.some.injEq] at ht
        subst ht
        exact ⟨_, rfl⟩

theorem eventLoop_polls_after_fetch_witness :
    (loopEndState (eventLoop (-1) [shutdownIteration] 0 StatusCode.epSuccess
        sampleProcessor)).trace =
      sampleProcessor.trace ++ [Action.nextItemType, Action.pollShutdown true,
        Action.process_event statemachine.Posted.Stop] :=
  ((eventLoop_polls_after_fetch (-1) shutdownIteration [] 0 StatusCode.epSuccess
    sampleProcessor).2 ItemType.IsFile rfl rfl).1

/-- C8 (counterexample): the shutdown flag is up when the first iteration
begins, and yet that iteration calls `nextItemType()`, before it polls the
flag and posts Stop. -/
theorem runCommon_polls_before_fetch_counterexample :
    shutdownWorld.iterations.map (fun it => it.shutdown_flag) = [true] ∧
    (runCommon (-1) sampleProcessor shutdownWorld).1 = Outcome.returned StatusCode.epSignal ∧
    (runCommon (-1) sampleProcessor shutdownWorld).2.trace =
      [Action.nextItemType, Action.pollShutdown true,
        Action.process_event statemachine.Posted.Stop] := by
  decide

theorem runCommon_status_witness :
    (∃ acts, (runCommon 1 sampleProcessor sampleWorld).2.trace = sampleProcessor.trace ++ acts ∧
      ((StatusCode.epCountComplete = StatusCode.epSignal ∧
          ∃ pre, acts = pre ++ [Action.pollShutdown true,
            Action.process_event statemachine.Posted.Stop]) ∨
        (StatusCode.epCountComplete = StatusCode.epCountComplete ∧ 0 < (1 : Int) ∧
          (acts.count (Action.process_event statemachine.Posted.Event) : Int) = 1 ∧
          ∃ pre, acts = pre ++ [Action.pollShutdown false,
            Action.process_event statemachine.Posted.Event]) ∨
        (StatusCode.epCountComplete = StatusCode.epSuccess ∧ Action.pollShutdown true ∉ acts ∧
          (0 < (1 : Int) →
            (acts.count (Action.process_event statemachine.Posted.Event) : Int) < 1)))) ∧
    ∀ (ep2 : EventProcessor) (w2 : World),
      (runToCompletion ep2 w2).1 ≠ Outcome.returned StatusCode.epCountComplete :=
  runCommon_status 1 sampleProcessor sampleWorld StatusCode.epCountComplete
    (runCommon 1 sampleProcessor sampleWorld).2 (Prod.ext (by decide) rfl)

/-- What `terminateMachine()` adds to the record. -/
theorem terminateMachine_trace (stop : Reaction) (ep : EventProcessor) :
    ∃ acts, (ep.terminateMachine stop).2.trace = ep.trace ++ acts ∧
      Action.terminateAbnormally ∉ acts := by
  unfold terminateMachine
  cases ep.machine_ with
  | none => exact ⟨[], by simp, by simp⟩
  | some m =>
    dsimp only
    cases m.terminated with
    | true => exact ⟨[], by simp, by simp⟩
    | false =>
      simp only [Bool.not_false, if_true]
      rw [process_event_eta]
      cases stop.thrown <;>
        exact ⟨[Action.process_event statemachine.Posted.Stop],
          by simp [process_event_trace], by simp⟩

/-- What `terminateAbnormally()` adds to the record: its own call, once. -/
theorem terminateAbnormally_trace (w : World) (ep : EventProcessor) :
    ∃ acts, (ep.terminateAbnormally w).trace = ep.trace ++ acts ∧
      acts.count Action.terminateAbnormally = 1 := by
  unfold terminateAbnormally
  dsimp only
  split_ifs
  · cases w.saveToFile_ with
    | some t =>
      exact ⟨[Action.terminateAbnormally, Action.saveToFile_], by simp [record], by decide⟩
    | none =>
      dsimp only
      obtain ⟨acts, hacts, hn⟩ := terminateMachine_trace w.stopReaction
        ((({ ep.record Action.terminateAbnormally with
          alreadyHandlingException_ := true } : EventProcessor)).record Action.saveToFile_)
      refine ⟨[Action.terminateAbnormally, Action.saveToFile_] ++ acts, ?_, ?_⟩
      · generalize hr : terminateMachine w.stopReaction _ = r at hacts
        obtain ⟨thr, ep3⟩ := r
        cases thr <;> simp only at hacts ⊢ <;> rw [hacts] <;> simp [record]
      · rw [List.count_append, List.count_eq_zero_of_not_mem hn]; decide
  · obtain ⟨acts, hacts, hn⟩ := terminateMachine_trace w.stopReaction
      ({ ep.record Action.terminateAbnormally with
        alreadyHandlingException_ := true } : EventProcessor)
    refine ⟨[Action.terminateAbnormally] ++ acts, ?_, ?_⟩
    · generalize hr : terminateMachine w.stopReaction _ = r at hacts
      obtain ⟨thr, ep3⟩ := r
      cases thr <;> simp only at hacts ⊢ <;> rw [hacts] <;> simp [record]
    · rw [List.count_append, List.count_eq_zero_of_not_mem hn]; decide

theorem exists_head (m x y z : String) :
    ∃ head, m ++ x ++ y ++ z = head ++ (x ++ y ++ z) :=
  ⟨m, by simp [String.append_assoc]⟩

/-- What a handler of `runCommon` throws, object by object. -/
theorem handleException_spec (w : World) (t : Thrown) (ep : EventProcessor) :
    (handleException w t ep).2 = ep.terminateAbnormally w ∧
    (handleException w t ep).1.category = normalizedCategory t ∧
    (∀ c, t = Thrown.cet c →
      (handleException w t ep).1 =
        { c with message := c.message ++
            "cet::exception caught in EventProcessor and rethrown\n" ++
            accumulatedMessages (ep.terminateAbnormally w) }) ∧
    ∃ head, (handleException w t ep).1.message =
      head ++ accumulatedMessages (ep.terminateAbnormally w) := by
  cases t with
  | cet c =>
    refine ⟨rfl, rfl, ?_, exists_head _ _ _ _⟩
    intro c2 hc
    simp only [Thrown.cet.injEq] at hc
    subst hc
    simp [handleException, firstHandler, Handler.catches, accumulatedMessages,
      String.append_assoc]
  | bad_alloc => exact ⟨rfl, rfl, fun c hc => by simp at hc, exists_head _ _ _ _⟩
  | std_exception s => exact ⟨rfl, rfl, fun c hc => by simp at hc, exists_head _ _ _ _⟩
  | string s => exact ⟨rfl, rfl, fun c hc => by simp at hc, exists_head _ _ _ _⟩
  | c_string s => exact ⟨rfl, rfl, fun c hc => by simp at hc, exists_head _ _ _ _⟩
  | other => exact ⟨rfl, rfl, fun c hc => by simp at hc, exists_head _ _ _ _⟩

/-- The loop a call of `runCommon` runs, spelled out. -/
theorem loopOf_eq_some (n : Int) (ep : EventProcessor) (w : World) (l : LoopEnd)
    (h : loopOf n ep w = some l) :
    ∃ ep0, createMachine { ep with stateMachineWasInErrorState_ := false } = Except.ok ep0 ∧
      ep0.trace = ep.trace ∧ ep0.doErrorStuffCalls = ep.doErrorStuffCalls ∧
      ep0.stateMachineWasInErrorState_ = false ∧
      eventLoop n w.iterations 0 StatusCode.epSuccess ep0 = l := by
  unfold loopOf enterLoop at h
  cases hc : createMachine { ep with stateMachineWasInErrorState_ := false } with
  | error t => rw [hc] at h; simp at h
  | ok ep0 =>
    rw [hc] at h
    simp only [Option.some.injEq] at h
    obtain ⟨hep0, -⟩ := createMachine_ok _ _ hc
    exact ⟨ep0, rfl, by rw [hep0], by rw [hep0], by rw [hep0], h⟩

/-- C9: whatever object is raised inside the loop of `runCommon`, be it a
`cet::exception`, a `std::bad_alloc`, another `std::exception`, a
`std::string`, a `char const*` or anything else, `runCommon` calls
`terminateAbnormally()` exactly once and throws a `cet::exception`: the
caught one, with text appended, for a `cet::exception`; one of category
"std::bad_alloc" for `std::bad_alloc`, of category "StdException" for another
`std::exception` and of category "Unknown" for the rest; and the message
thrown ends with the sub-run, run and file messages, in that order. -/
theorem runCommon_normalizes (n : Int) (ep : EventProcessor) (w : World) (t : Thrown)
    (h : raisedInLoop n ep w = some t) :
    ∃ e acts, (runCommon n ep w).1 = Outcome.threw (Thrown.cet e) ∧
      (runCommon n ep w).2.trace = ep.trace ++ acts ∧
      acts.count Action.terminateAbnormally = 1 ∧
      e.category = normalizedCategory t ∧
      (∀ c, t = Thrown.cet c →
        e = { c with message := c.message ++
            "cet::exception caught in EventProcessor and rethrown\n" ++
            accumulatedMessages (runCommon n ep w).2 }) ∧
      ∃ head, e.message = head ++
        ((runCommon n ep w).2.exceptionMessageSubRuns_ ++
          (runCommon n ep w).2.exceptionMessageRuns_ ++
          (runCommon n ep w).2.exceptionMessageFiles_) := by
  unfold raisedInLoop at h
  cases hl : loopOf n ep w with
  | none => rw [hl] at h; simp at h
  | some l =>
    rw [hl] at h
    cases l with
    | broke rc ep1 => simp at h
    | unfinished ep1 => simp at h
    | raised t1 ep1 =>
      simp only [Option.some.injEq] at h
      subst h
      obtain ⟨ep0, hc, htr0, -, -, hloop⟩ := loopOf_eq_some n ep w _ hl
      have hrun : runCommon n ep w =
          (Outcome.threw (Thrown.cet (handleException w t1 ep1).1),
            (handleException w t1 ep1).2) := by
        unfold runCommon
        simp only [hc, hloop]
      obtain ⟨h1, h2, h3, h4⟩ := handleException_spec w t1 ep1
      obtain ⟨⟨acts1, hacts1, hno1⟩, -, -⟩ :=
        eventLoop_follows n w.iterations 0 StatusCode.epSuccess ep0
      rw [hloop] at hacts1
      simp only [loopEndState] at hacts1
      obtain ⟨acts2, hacts2, hcount2⟩ := terminateAbnormally_trace w ep1
      rw [hrun]
      refine ⟨(handleException w t1 ep1).1, acts1 ++ acts2, rfl, ?_, ?_, h2, ?_, ?_⟩
      · simp only [h1, hacts2, hacts1, htr0, List.append_assoc]
      · rw [List.count_append, List.count_eq_zero_of_not_mem hno1, hcount2]
      · simp only [h1]; exact h3
      · simp only [h1]; exact h4

theorem runCommon_normalizes_witness :
    ∃ e acts, (runCommon (-1) sampleProcessor badAllocWorld).1 = Outcome.threw (Thrown.cet e) ∧
      (runCommon (-1) sampleProcessor badAllocWorld).2.trace = sampleProcessor.trace ++ acts ∧
      acts.count Action.terminateAbnormally = 1 ∧
      e.category = normalizedCategory Thrown.bad_alloc ∧
      (∀ c, Thrown.bad_alloc = Thrown.cet c →
        e = { c with message := c.message ++
            "cet::exception caught in EventProcessor and rethrown\n" ++
            accumulatedMessages (runCommon (-1) sampleProcessor badAllocWorld).2 }) ∧
      ∃ head, e.message = head ++
        ((runCommon (-1) sampleProcessor badAllocWorld).2.exceptionMessageSubRuns_ ++
          (runCommon (-1) sampleProcessor badAllocWorld).2.exceptionMessageRuns_ ++
          (runCommon (-1) sampleProcessor badAllocWorld).2.exceptionMessageFiles_) :=
  runCommon_normalizes (-1) sampleProcessor badAllocWorld Thrown.bad_alloc (by decide)

/-- What the end of `runCommon` throws or returns. -/
theorem afterLoop_spec (rc : StatusCode) (ep : EventProcessor) :
    (afterLoop rc ep).1 =
      (if ep.stateMachineWasInErrorState_ = true then Outcome.threw (Thrown.cet badState)
        else Outcome.returned rc) ∧
    (afterLoop rc ep).2.doErrorStuffCalls = ep.doErrorStuffCalls := by
  unfold afterLoop
  dsimp only
  split_ifs <;> simp_all

/-- C10: `runCommon` clears the error flag on entry (its result does not
depend on the value the flag had); when the loop ends without an exception,
`runCommon` throws the "BadState" exception if `doErrorStuff()` was called
during the loop, also when the loop ended on a graceful Stop, and returns the
status code if it was not; and `runCommon` throws an exception of category
"BadState" only if `doErrorStuff()` was called during the call or an exception
of that category was itself raised inside the loop. -/
theorem runCommon_badState (n : Int) (ep : EventProcessor) (w : World) :
    (∀ b, runCommon n { ep with stateMachineWasInErrorState_ := b } w = runCommon n ep w) ∧
    (∀ rc ep1, loopLeft n ep w = some (rc, ep1) →
      (ep.doErrorStuffCalls < ep1.doErrorStuffCalls →
        (runCommon n ep w).1 = Outcome.threw (Thrown.cet badState)) ∧
      (ep1.doErrorStuffCalls = ep.doErrorStuffCalls →
        (runCommon n ep w).1 = Outcome.returned rc)) ∧
    (∀ e, (runCommon n ep w).1 = Outcome.threw (Thrown.cet e) → e.category = "BadState" →
      ep.doErrorStuffCalls < (runCommon n ep w).2.doErrorStuffCalls ∨
      ∃ c, raisedInLoop n ep w = some (Thrown.cet c) ∧ c.category = "BadState") := by
  refine ⟨fun b => rfl, ?_, ?_⟩
  · intro rc ep1 hleft
    unfold loopLeft at hleft
    cases hl : loopOf n ep w with
    | none => rw [hl] at hleft; simp at hleft
    | some l =>
      rw [hl] at hleft
      cases l with
      | raised t ep2 => simp at hleft
      | unfinished ep2 => simp at hleft
      | broke rc2 ep2 =>
        simp only [Option.some.injEq, Prod.mk.injEq] at hleft
        obtain ⟨h1, h2⟩ := hleft
        subst h1; subst h2
        obtain ⟨ep0, hc, -, hcalls0, hflag0, hloop⟩ := loopOf_eq_some n ep w _ hl
        have hrun : runCommon n ep w = afterLoop rc2 ep2 := by
          unfold runCommon
          simp only [hc, hloop]
        obtain ⟨-, hle, hflag⟩ := eventLoop_follows n w.iterations 0 StatusCode.epSuccess ep0
        rw [hloop] at hle hflag
        simp only [loopEndState, hflag0, hcalls0, Bool.false_eq_true, false_or] at hle hflag
        rw [hrun, (afterLoop_spec rc2 ep2).1]
        constructor
        · intro hlt
          rw [if_pos (hflag.2 hlt)]
        · intro heq
          rw [if_neg]
          intro hf
          have := hflag.1 hf
          omega
  · intro e hthrew hcat
    cases hl : loopOf n ep w with
    | none =>
      exfalso
      unfold loopOf enterLoop at hl
      unfold runCommon at hthrew
      dsimp only at hthrew
      cases hc : createMachine { ep with stateMachineWasInErrorState_ := false } with
      | ok ep0 => rw [hc] at hl; simp at hl
      | error t =>
        rw [hc] at hthrew
        simp only [Outcome.threw.injEq] at hthrew
        subst hthrew
        unfold createMachine at hc
        dsimp only at hc
        split_ifs at hc
        simp only [Except.error.injEq, Thrown.cet.injEq, reduceCtorEq] at hc
        subst hc
        simp at hcat
    | some l =>
      obtain ⟨ep0, hc, -, hcalls0, hflag0, hloop⟩ := loopOf_eq_some n ep w _ hl
      cases l with
      | unfinished ep2 =>
        have hrun : runCommon n ep w = (Outcome.unfinished, ep2) := by
          unfold runCommon
          simp only [hc, hloop]
        rw [hrun] at hthrew
        simp at hthrew
      | raised t ep2 =>
        have hrun : runCommon n ep w =
            (Outcome.threw (Thrown.cet (handleException w t ep2).1),
              (handleException w t ep2).2) := by
          unfold runCommon
          simp only [hc, hloop]
        rw [hrun] at hthrew
        right
        simp only [Outcome.threw.injEq, Thrown.cet.injEq] at hthrew
        obtain ⟨-, h2, -, -⟩ := handleException_spec w t ep2
        rw [hthrew, hcat] at h2
        cases t with
        | cet c => exact ⟨c, by simp [raisedInLoop, hl], h2.symm⟩
        | bad_alloc => simp [normalizedCategory] at h2
        | std_exception s => simp [normalizedCategory] at h2
        | string s => simp [normalizedCategory] at h2
        | c_string s => simp [normalizedCategory] at h2
        | other => simp [normalizedCategory] at h2
      | broke rc2 ep2 =>
        have hrun : runCommon n ep w = afterLoop rc2 ep2 := by
          unfold runCommon
          simp only [hc, hloop]
        left
        obtain ⟨-, hle, hflag⟩ := eventLoop_follows n w.iterations 0 StatusCode.epSuccess ep0
        rw [hloop] at hle hflag
        simp only [loopEndState, hflag0, hcalls0, Bool.false_eq_true, false_or] at hle hflag
        rw [hrun] at hthrew ⊢
        rw [(afterLoop_spec rc2 ep2).2]
        rw [(afterLoop_spec rc2 ep2).1] at hthrew
        by_cases hf : ep2.stateMachineWasInErrorState_ = true
        · exact hflag.1 hf
        · rw [if_neg hf] at hthrew
          simp at hthrew

theorem runCommon_badState_witness :
    (runCommon (-1) sampleProcessor errorWorld).1 = Outcome.threw (Thrown.cet badState) :=
  ((runCommon_badState (-1) sampleProcessor errorWorld).2.1 StatusCode.epSuccess
    (((loopLeft (-1) sampleProcessor errorWorld).map Prod.snd).getD sampleProcessor)
    (by decide)).1 (by decide)

end EventProcessor
end art

/-! ## Theorems: state machine -/

namespace art
namespace statemachine

/-- C11: in every state other than `Stopping`, a Stop is answered by a
transition to `Stopping`: by the state itself in `Starting` and `Error`, and
by `HandleFiles`, with `closeAllFiles`, in `HandleFiles` and in every state
nested in it, none of which has a reaction to Stop of its own. -/
theorem stop_leads_to_Stopping (s : State) (h : s ≠ State.Stopping) :
    (∃ owner action, dispatch s Events.Stop =
      some (owner, ReactionEntry.transition Events.Stop (Destination.state State.Stopping)
        action)) ∧
    (inside s State.HandleFiles = true →
      dispatch s Events.Stop =
        some (State.HandleFiles,
          ReactionEntry.transition Events.Stop (Destination.state State.Stopping)
            (some TransitionAction.closeAllFiles)) ∧
      (s ≠ State.HandleFiles → ownReaction s Events.Stop = none)) := by
  cases s <;> first
    | exact absurd rfl h
    | exact ⟨⟨_, _, rfl⟩, fun hin => absurd hin (by decide)⟩
    | exact ⟨⟨_, _, rfl⟩, fun _ => ⟨rfl, fun hne => absurd rfl hne⟩⟩
    | exact ⟨⟨_, _, rfl⟩, fun _ => ⟨rfl, fun _ => rfl⟩⟩

theorem stop_leads_to_Stopping_witness :
    (∃ owner action, dispatch State.PauseEvent Events.Stop =
      some (owner, ReactionEntry.transition Events.Stop (Destination.state State.Stopping)
        action)) ∧
    (inside State.PauseEvent State.HandleFiles = true →
      dispatch State.PauseEvent Events.Stop =
        some (State.HandleFiles,
          ReactionEntry.transition Events.Stop (Destination.state State.Stopping)
            (some TransitionAction.closeAllFiles)) ∧
      (State.PauseEvent ≠ State.HandleFiles →
        ownReaction State.PauseEvent Events.Stop = none)) :=
  stop_leads_to_Stopping State.PauseEvent (by decide)

/-- C12: with the reactions looked up from the innermost state outwards, an
Event, SubRun, Run or SwitchOutputFiles in `Starting` leads to `Error`; in the
innermost states inside `HandleFiles` a SubRun leads to `Error` exactly when no
run is open (the state is `NewInputFile`, the only one outside `HandleRuns`)
and an Event exactly when no sub-run is open (the state is `NewInputFile`,
`NewRun` or `PauseRun`, the ones outside `HandleSubRuns`); a Run inside
`HandleFiles`, a SubRun inside `HandleRuns` and an Event inside
`HandleSubRuns` never lead to `Error`. -/
theorem unexpected_item_leads_to_Error :
    (leadsToError State.Starting Events.Event = true ∧
      leadsToError State.Starting Events.SubRun = true ∧
      leadsToError State.Starting Events.Run = true ∧
      leadsToError State.Starting Events.SwitchOutputFiles = true) ∧
    (∀ s, innermost s = true → inside s State.HandleFiles = true →
      ((leadsToError s Events.SubRun = true ↔ s = State.NewInputFile) ∧
        (leadsToError s Events.SubRun = true ↔ inside s State.HandleRuns = false) ∧
        (leadsToError s Events.Event = true ↔
          s = State.NewInputFile ∨ s = State.NewRun ∨ s = State.PauseRun) ∧
        (leadsToError s Events.Event = true ↔ inside s State.HandleSubRuns = false) ∧
        leadsToError s Events.Run = false)) ∧
    (∀ s, innermost s = true → inside s State.HandleRuns = true →
      leadsToError s Events.SubRun = false) ∧
    (∀ s, innermost s = true → inside s State.HandleSubRuns = true →
      leadsToError s Events.Event = false) := by
  refine ⟨by decide, ?_, ?_, ?_⟩
  · intro s; cases s <;> decide
  · intro s; cases s <;> decide
  · intro s; cases s <;> decide

end statemachine
end art

/-! ## Theorems: file mode -/

namespace art
namespace EventProcessor

theorem string_isEmpty_iff (s : String) : s.isEmpty = true ↔ s = "" := by
  constructor
  · intro h
    have h1 : s.endPos = 0 := by simpa [String.isEmpty] using h
    have h2 : s.utf8ByteSize = 0 := by
      have := congrArg String.Pos.byteIdx h1
      simpa [String.endPos] using this
    cases s with
    | mk l =>
      cases l with
      | nil => rfl
      | cons c cs =>
        exfalso
        have hpos : 0 < c.utf8Size := Char.utf8Size_pos c
        change String.utf8ByteSize.go (c :: cs) = 0 at h2
        simp only [String.utf8ByteSize.go] at h2
        omega
  · intro h; subst h; rfl

/-- What `createMachine` does when there is no machine and the file mode
decodes to `m`. -/
theorem createMachine_legal (ep : EventProcessor) (m : statemachine.FileMode)
    (hnone : ep.machine_ = none)
    (hm : (ep.fileMode_ = "" ∧ m = statemachine.FileMode.FULLMERGE) ∨
      (ep.fileMode_ = "MERGE" ∧ m = statemachine.FileMode.MERGE) ∨
      (ep.fileMode_ = "NOMERGE" ∧ m = statemachine.FileMode.NOMERGE) ∨
      (ep.fileMode_ = "FULLMERGE" ∧ m = statemachine.FileMode.FULLMERGE) ∨
      (ep.fileMode_ = "FULLLUMIMERGE" ∧ m = statemachine.FileMode.FULLLUMIMERGE)) :
    createMachine ep =
      Except.ok
        { ep with
          machine_ := some ⟨m, ep.handleEmptyRuns_, ep.handleEmptySubRuns_, false⟩ } := by
  obtain ⟨fm, a, b, mach, c, d, e, f, g, tr, k⟩ := ep
  simp only at hnone hm
  subst hnone
  rcases hm with ⟨h1, h2⟩ | ⟨h1, h2⟩ | ⟨h1, h2⟩ | ⟨h1, h2⟩ | ⟨h1, h2⟩ <;>
    subst h2 <;> subst h1 <;> rfl

/-- What `createMachine` does when there is no machine and the file mode is
none of the legal values. -/
theorem createMachine_illegal (ep : EventProcessor) (hnone : ep.machine_ = none)
    (h0 : ep.fileMode_ ≠ "") (h1 : ep.fileMode_ ≠ "MERGE") (h2 : ep.fileMode_ ≠ "NOMERGE")
    (h3 : ep.fileMode_ ≠ "FULLMERGE") (h4 : ep.fileMode_ ≠ "FULLLUMIMERGE") :
    createMachine ep =
      Except.error (Thrown.cet
        { category := "Configuration",
          message := "Illegal fileMode parameter value: " ++ ep.fileMode_ ++ ".\n" ++
            "Legal values are 'MERGE', 'NOMERGE', 'FULLMERGE', and 'FULLLUMIMERGE'.\n" }) := by
  have he : ¬ ep.fileMode_.isEmpty = true := fun h => h0 ((string_isEmpty_iff _).1 h)
  unfold createMachine
  rw [if_pos (by simp [hnone])]
  simp only [he, h1, h2, h3, h4, if_false, Bool.false_eq_true]

/-- C20: when `runCommon` has to create the state machine, the file mode ""
gives a machine in mode FULLMERGE, "MERGE" one in mode MERGE, "NOMERGE" one in
mode NOMERGE, "FULLMERGE" one in mode FULLMERGE and "FULLLUMIMERGE" one in mode
FULLLUMIMERGE: `runCommon` goes through its loop, and ends, with the event
processor holding a machine of that mode (constructed with the two flags for
empty runs and sub-runs, not terminated), and when the loop makes no call the
machine is there at the end, with the record of calls as it was; for every
other string `runCommon` throws a Configuration exception, having made no call
at all to the source or to a state machine (the record of calls is as it was,
and no machine exists). -/
theorem runCommon_fileMode (n : Int) (ep : EventProcessor) (w : World)
    (hnone : ep.machine_ = none) :
    (∀ m,
      ((ep.fileMode_ = "" ∧ m = statemachine.FileMode.FULLMERGE) ∨
        (ep.fileMode_ = "MERGE" ∧ m = statemachine.FileMode.MERGE) ∨
        (ep.fileMode_ = "NOMERGE" ∧ m = statemachine.FileMode.NOMERGE) ∨
        (ep.fileMode_ = "FULLMERGE" ∧ m = statemachine.FileMode.FULLMERGE) ∨
        (ep.fileMode_ = "FULLLUMIMERGE" ∧ m = statemachine.FileMode.FULLLUMIMERGE)) →
      runCommon n ep w =
        (match eventLoop n w.iterations 0 StatusCode.epSuccess
            { ep with
              stateMachineWasInErrorState_ := false
              machine_ := some ⟨m, ep.handleEmptyRuns_, ep.handleEmptySubRuns_, false⟩ } with
          | LoopEnd.raised t ep2 =>
            (Outcome.threw (Thrown.cet (handleException w t ep2).1), (handleException w t ep2).2)
          | LoopEnd.unfinished ep2 => (Outcome.unfinished, ep2)
          | LoopEnd.broke returnCode ep2 => afterLoop returnCode ep2) ∧
      (w.iterations = [] →
        (runCommon n ep w).2.machine_ =
            some ⟨m, ep.handleEmptyRuns_, ep.handleEmptySubRuns_, false⟩ ∧
          (runCommon n ep w).2.trace = ep.trace)) ∧
    (ep.fileMode_ ∉ ["", "MERGE", "NOMERGE", "FULLMERGE", "FULLLUMIMERGE"] →
      ∃ e, runCommon n ep w =
          (Outcome.threw (Thrown.cet e), { ep with stateMachineWasInErrorState_ := false }) ∧
        e.category = "Configuration" ∧
        (runCommon n ep w).2.trace = ep.trace ∧ (runCommon n ep w).2.machine_ = none) := by
  constructor
  · intro m hm
    have hc := createMachine_legal { ep with stateMachineWasInErrorState_ := false } m hnone hm
    have hrun : runCommon n ep w =
        (match eventLoop n w.iterations 0 StatusCode.epSuccess
            { ep with
              stateMachineWasInErrorState_ := false
              machine_ := some ⟨m, ep.handleEmptyRuns_, ep.handleEmptySubRuns_, false⟩ } with
          | LoopEnd.raised t ep2 =>
            (Outcome.threw (Thrown.cet (handleException w t ep2).1), (handleException w t ep2).2)
          | LoopEnd.unfinished ep2 => (Outcome.unfinished, ep2)
          | LoopEnd.broke returnCode ep2 => afterLoop returnCode ep2) := by
      unfold runCommon
      simp only [hc]
    refine ⟨hrun, ?_⟩
    intro hw
    rw [hrun, hw]
    exact ⟨rfl, rfl⟩
  · intro hnot
    simp only [List.mem_cons, List.mem_singleton, List.not_mem_nil, or_false, not_or] at hnot
    obtain ⟨h0, h1, h2, h3, h4⟩ := hnot
    have hc := createMachine_illegal { ep with stateMachineWasInErrorState_ := false } hnone
      h0 h1 h2 h3 h4
    have hrun : runCommon n ep w =
        (Outcome.threw (Thrown.cet
          { category := "Configuration",
            message := "Illegal fileMode parameter value: " ++ ep.fileMode_ ++ ".\n" ++
              "Legal values are 'MERGE', 'NOMERGE', 'FULLMERGE', and 'FULLLUMIMERGE'.\n" }),
          { ep with stateMachineWasInErrorState_ := false }) := by
      unfold runCommon
      simp only [hc]
    rw [hrun]
    exact ⟨_, rfl, rfl, rfl, hnone⟩

/-- Witness of C20: the sample processor has no machine and the file mode "";
a call of `runCommon` whose loop gets as far as posting File leaves it with a
machine in mode FULLMERGE that has been posted that one event, and a call
whose loop makes no call leaves it with the machine and an empty record. -/
theorem runCommon_fileMode_witness :
    sampleProcessor.machine_ = none ∧ sampleProcessor.fileMode_ = "" ∧
    runCommon 1 sampleProcessor fileOnlyWorld =
      (Outcome.unfinished,
        { sampleProcessor with
          stateMachineWasInErrorState_ := false
          machine_ := some ⟨statemachine.FileMode.FULLMERGE, true, true, false⟩
          trace := [Action.nextItemType, Action.pollShutdown false,
            Action.process_event statemachine.Posted.File] }) ∧
    (runCommon 1 sampleProcessor idleWorld).2.machine_ =
      some ⟨statemachine.FileMode.FULLMERGE, true, true, false⟩ ∧
    (runCommon 1 sampleProcessor idleWorld).2.trace = [] :=
  ⟨rfl, rfl,
    ((runCommon_fileMode 1 sampleProcessor fileOnlyWorld rfl).1 statemachine.FileMode.FULLMERGE
      (Or.inl ⟨rfl, rfl⟩)).1.trans rfl,
    ((runCommon_fileMode 1 sampleProcessor idleWorld rfl).1 statemachine.FileMode.FULLMERGE
      (Or.inl ⟨rfl, rfl⟩)).2 rfl⟩

end EventProcessor
end art

/-! ## Theorems: shared modules -/

namespace art

namespace SharedProducer

open detail

/-- C19, as stated, fails: a shared module that has declared `async` and asks to
be serialized on the resource "DB" makes both `createQueues()` and
`SharedProducer::doBeginJob()` throw, but the exception is of category
`LogicError`, not a configuration error. -/
theorem scheduling_conflict_not_Configuration :
    ∃ e, (SharedModule.createQueues sampleAsyncSerialized).1 = some (Thrown.cet e) ∧
      (doBeginJob none sampleAsyncSerialized).1 = some (Thrown.cet e) ∧
      e.category = "LogicError" ∧ e.category ≠ "Configuration" :=
  ⟨SharedModule.schedulingError, rfl, rfl, rfl, by decide⟩

/-- C19, amended: `createQueues()` and `SharedProducer::doBeginJob()` throw the
`LogicError` exception of the scheduling check exactly for a module that is
registered for at least one resource and has declared `async`; the module is
then left as it was, so no serial task queue chain has been created.  For any
other module `createQueues()` throws nothing and `doBeginJob()` throws only
what `failureToPutProducts` and the module's own `beginJob()` throw. -/
theorem scheduling_conflict_throws_LogicError (m : SharedModule) (user : Option Thrown) :
    SharedModule.schedulingError.category = "LogicError" ∧
    ((SharedModule.createQueues m).1 = some (Thrown.cet SharedModule.schedulingError) ↔
      (m.resourceNames_ ≠ [] ∧ m.asyncDeclared_ = true)) ∧
    ((m.resourceNames_ ≠ [] ∧ m.asyncDeclared_ = true) →
      SharedModule.createQueues m = (some (Thrown.cet SharedModule.schedulingError), m) ∧
      doBeginJob user m = (some (Thrown.cet SharedModule.schedulingError), m)) ∧
    (¬ (m.resourceNames_ ≠ [] ∧ m.asyncDeclared_ = true) →
      (SharedModule.createQueues m).1 = none ∧ (doBeginJob user m).1 = user) := by
  obtain ⟨label, names, async, chain⟩ := m
  cases names with
  | nil =>
    refine ⟨rfl, ?_, ?_, ?_⟩
    · simp [SharedModule.createQueues]
    · rintro ⟨h, _⟩
      exact absurd rfl h
    · intro _
      exact ⟨rfl, by simp [doBeginJob]⟩
  | cons x xs =>
    cases async with
    | true =>
      refine ⟨rfl, ?_, ?_, ?_⟩
      · simp [SharedModule.createQueues]
      · intro _
        exact ⟨rfl, by simp [doBeginJob]⟩
      · intro h
        exact absurd ⟨List.cons_ne_nil _ _, rfl⟩ h
    | false =>
      refine ⟨rfl, ?_, ?_, ?_⟩
      · simp [SharedModule.createQueues]
      · rintro ⟨_, h⟩
        exact absurd h (by simp)
      · intro _
        exact ⟨by simp [SharedModule.createQueues], by simp [doBeginJob]⟩

end SharedProducer

end art

/-! ## Theorems: principal cache -/

namespace art

theorem lowestOf_spec {α : Type} [LinearOrder α] (l : List α) (h : l ≠ []) :
    ∃ m, lowestOf l = some m ∧ m ∈ l ∧ ∀ x ∈ l, m ≤ x := by
  induction l with
  | nil => exact absurd rfl h
  | cons a t ih =>
    cases t with
    | nil => exact ⟨a, rfl, List.mem_singleton_self a, by simp⟩
    | cons b t2 =>
      obtain ⟨m, hm, hmem, hle⟩ := ih (List.cons_ne_nil b t2)
      refine ⟨min a m, ?_, ?_, ?_⟩
      · simp only [lowestOf] at hm ⊢
        rw [hm]
      · rcases min_choice a m with h1 | h1
        · rw [h1]
          exact List.mem_cons_self a _
        · rw [h1]
          exact List.mem_cons_of_mem a hmem
      · intro x hx
        rcases List.mem_cons.mp hx with h1 | h1
        · rw [h1]
          exact min_le_left a m
        · exact le_trans (min_le_right a m) (hle x h1)

theorem deleteLowestOf_spec {α : Type} [LinearOrder α] (l : List α) (h : l ≠ []) :
    ∃ m, lowestOf l = some m ∧ (∀ x ∈ l, m ≤ x) ∧
      (deleteLowestOf l).length + 1 = l.length ∧ (m :: deleteLowestOf l).Perm l := by
  obtain ⟨m, hm, hmem, hle⟩ := lowestOf_spec l h
  have hdel : deleteLowestOf l = l.erase m := by simp [deleteLowestOf, hm]
  refine ⟨m, hm, hle, ?_, ?_⟩
  · rw [hdel, List.length_erase_of_mem hmem]
    have : 0 < l.length := List.length_pos.mpr h
    omega
  · rw [hdel]
    exact (List.perm_cons_erase hmem).symm

namespace EventProcessor

theorem writeRunCacheLoop_spec (n : Nat) (st : CacheState)
    (hn : st.principalCache_.runPrincipals.length = n) :
    ∃ written : List Nat, written.Sorted (· ≤ ·) ∧ written.Perm st.principalCache_.runPrincipals ∧
      writeRunCacheLoop n st = some
        { principalCache_ := { st.principalCache_ with runPrincipals := [] },
          calls := st.calls ++ runCalls written } := by
  induction n generalizing st with
  | zero =>
    obtain ⟨⟨runs, subRuns⟩, calls⟩ := st
    have : runs = [] := List.length_eq_zero.mp hn
    subst this
    exact ⟨[], List.sorted_nil, List.Perm.refl _, by simp [writeRunCacheLoop, PrincipalCache.noMoreRuns, runCalls]⟩
  | succ k ih =>
    obtain ⟨⟨runs, subRuns⟩, calls⟩ := st
    have hne : runs ≠ [] := by
      intro h
      rw [h] at hn
      exact absurd hn (by simp)
    obtain ⟨m, hm, hle, hlen1, hperm⟩ := deleteLowestOf_spec runs hne
    have hlen : (deleteLowestOf runs).length = k := by
      simp only at hn
      omega
    obtain ⟨w, hs, hp, hrun⟩ := ih
      { principalCache_ := { runPrincipals := deleteLowestOf runs, subRunPrincipals := subRuns },
        calls := calls ++ [CacheCall.writeRun m, CacheCall.deleteLowestRun] } hlen
    refine ⟨m :: w, ?_, ?_, ?_⟩
    · refine List.sorted_cons.mpr ⟨?_, hs⟩
      intro x hx
      exact hle x ((hperm.mem_iff.mp (List.mem_cons_of_mem m (hp.mem_iff.mp hx))))
    · exact (List.Perm.cons m hp).trans hperm
    · have hemp : runs.isEmpty = false := by
        cases runs with
        | nil => exact absurd rfl hne
        | cons _ _ => rfl
      simp only [writeRunCacheLoop, PrincipalCache.noMoreRuns, PrincipalCache.lowestRun,
        PrincipalCache.deleteLowestRun, hemp, hm]
      simp only at hrun
      rw [if_neg (by simp), hrun]
      simp [runCalls]

theorem writeSubRunCacheLoop_spec (n : Nat) (st : CacheState)
    (hn : st.principalCache_.subRunPrincipals.length = n) :
    ∃ written : List (Lex (Nat × Nat)), written.Sorted (· ≤ ·) ∧
      written.Perm st.principalCache_.subRunPrincipals ∧
      writeSubRunCacheLoop n st = some
        { principalCache_ := { st.principalCache_ with subRunPrincipals := [] },
          calls := st.calls ++ subRunCalls written } := by
  induction n generalizing st with
  | zero =>
    obtain ⟨⟨runs, subRuns⟩, calls⟩ := st
    have : subRuns = [] := List.length_eq_zero.mp hn
    subst this
    exact ⟨[], List.sorted_nil, List.Perm.refl _,
      by simp [writeSubRunCacheLoop, PrincipalCache.noMoreSubRuns, subRunCalls]⟩
  | succ k ih =>
    obtain ⟨⟨runs, subRuns⟩, calls⟩ := st
    have hne : subRuns ≠ [] := by
      intro h
      rw [h] at hn
      exact absurd hn (by simp)
    obtain ⟨m, hm, hle, hlen1, hperm⟩ := deleteLowestOf_spec subRuns hne
    have hlen : (deleteLowestOf subRuns).length = k := by
      simp only at hn
      omega
    obtain ⟨w, hs, hp, hrun⟩ := ih
      { principalCache_ := { runPrincipals := runs, subRunPrincipals := deleteLowestOf subRuns },
        calls := calls ++ [CacheCall.writeSubRun m, CacheCall.deleteLowestSubRun] } hlen
    refine ⟨m :: w, ?_, ?_, ?_⟩
    · refine List.sorted_cons.mpr ⟨?_, hs⟩
      intro x hx
      exact hle x ((hperm.mem_iff.mp (List.mem_cons_of_mem m (hp.mem_iff.mp hx))))
    · exact (List.Perm.cons m hp).trans hperm
    · have hemp : subRuns.isEmpty = false := by
        cases subRuns with
        | nil => exact absurd rfl hne
        | cons _ _ => rfl
      simp only [writeSubRunCacheLoop, PrincipalCache.noMoreSubRuns, PrincipalCache.lowestSubRun,
        PrincipalCache.deleteLowestSubRun, hemp, hm]
      simp only at hrun
      rw [if_neg (by simp), hrun]
      simp [subRunCalls]

/-- C18: `writeRunCache()` ends, having written out every cached run once, in
ascending order of run number, each write followed at once by the deletion of
that run from the cache; `writeSubRunCache()` does the same for the cached
sub-runs, in ascending order of run number and then sub-run number.  The cache
is empty of runs, respectively of sub-runs, afterwards, and the other half of
the cache is untouched. -/
theorem writeCache_lowest_first (st : CacheState) :
    (∃ written : List Nat, written.Sorted (· ≤ ·) ∧
      written.Perm st.principalCache_.runPrincipals ∧
      writeRunCache st = some
        { principalCache_ := { st.principalCache_ with runPrincipals := [] },
          calls := st.calls ++ runCalls written }) ∧
    (∃ written : List (Lex (Nat × Nat)), written.Sorted (· ≤ ·) ∧
      written.Perm st.principalCache_.subRunPrincipals ∧
      writeSubRunCache st = some
        { principalCache_ := { st.principalCache_ with subRunPrincipals := [] },
          calls := st.calls ++ subRunCalls written }) :=
  ⟨writeRunCacheLoop_spec _ st rfl, writeSubRunCacheLoop_spec _ st rfl⟩

end EventProcessor

end art

/-! ## Theorems: path manager -/

namespace art

theorem remove_filter_action_of_wellFormed (entry : String) (h : wellFormed entry = true) :
    remove_filter_action entry = Except.ok (labelOf entry) := by
  unfold wellFormed at h
  unfold labelOf
  cases hr : remove_filter_action entry with
  | ok l => rfl
  | error t => rw [hr] at h; exact absurd h (by simp)

theorem remove_filter_action_of_not_wellFormed (entry : String) (h : wellFormed entry = false) :
    remove_filter_action entry = Except.error (illegalLabel entry) := by
  unfold wellFormed remove_filter_action at h
  unfold remove_filter_action
  cases hf : find_first_not_of entry "!-" with
  | none => rfl
  | some pos =>
    rw [hf] at h
    simp only at h ⊢
    by_cases hp : pos > 1
    · rw [if_pos hp]
    · rw [if_neg hp] at h
      exact absurd h (by simp)

theorem eraseSpecified_ok (path : List String) (h : ∀ e ∈ path, wellFormed e = true)
    (specified : List String) : ∃ s, eraseSpecified path specified = Except.ok s := by
  induction path generalizing specified with
  | nil => exact ⟨specified, rfl⟩
  | cons e rest ih =>
    rw [eraseSpecified, remove_filter_action_of_wellFormed e (h e (List.mem_cons_self _ _))]
    exact ih (fun x hx => h x (List.mem_cons_of_mem _ hx)) _

theorem eraseSpecified_error (path : List String) (h : ∃ e ∈ path, wellFormed e = false)
    (specified : List String) :
    ∃ bad, wellFormed bad = false ∧ eraseSpecified path specified = Except.error (illegalLabel bad) := by
  induction path generalizing specified with
  | nil =>
    obtain ⟨e, he, _⟩ := h
    exact absurd he (List.not_mem_nil e)
  | cons e rest ih =>
    cases hw : wellFormed e with
    | false =>
      refine ⟨e, hw, ?_⟩
      rw [eraseSpecified, remove_filter_action_of_not_wellFormed e hw]
    | true =>
      rw [eraseSpecified, remove_filter_action_of_wellFormed e hw]
      apply ih
      obtain ⟨x, hx, hxw⟩ := h
      rcases List.mem_cons.mp hx with h1 | h1
      · rw [h1, hw] at hxw
        exact absurd hxw (by simp)
      · exact ⟨x, h1, hxw⟩

theorem recordEntry_es (entry path_name : String) (mci : ModuleConfigInfo) (cat : mod_cat_t)
    (st : PathScan) :
    (recordEntry entry (labelOf entry) path_name mci cat st).es =
      st.es ++ actionViolations path_name cat mci entry := by
  unfold recordEntry actionViolations
  by_cases hp : mci.moduleType_ ≠ ModuleType.filter ∧
      filterActionOf entry ≠ WorkerInPath.FilterAction.Normal <;>
    by_cases hc : cat = mod_cat_t.MODIFIER <;> simp [hp, hc]

theorem recordEntry_protoEnd (entry path_name : String) (mci : ModuleConfigInfo) (cat : mod_cat_t)
    (st : PathScan) :
    (recordEntry entry (labelOf entry) path_name mci cat st).protoEndPathLabels_ =
      st.protoEndPathLabels_ ++ (if cat = mod_cat_t.MODIFIER then [] else [configInfoOf entry]) := by
  unfold recordEntry configInfoOf
  by_cases hc : cat = mod_cat_t.MODIFIER <;> simp [hc]

theorem recordEntry_names (entry path_name : String) (mci : ModuleConfigInfo) (cat : mod_cat_t)
    (st : PathScan) :
    (recordEntry entry (labelOf entry) path_name mci cat st).triggerPathNames_ =
        st.triggerPathNames_ ∧
      (recordEntry entry (labelOf entry) path_name mci cat st).num_end_paths = st.num_end_paths := by
  unfold recordEntry
  by_cases hc : cat = mod_cat_t.MODIFIER <;> simp [hc]

theorem processEntries_known_ok (am : List (String × ModuleConfigInfo))
    (tp ep : Option (List String)) (name : String) (path rest : List String) (cat : mod_cat_t)
    (hcat : cat ≠ mod_cat_t.UNSET) (h : ∀ e ∈ rest, wellFormed e = true) (st : PathScan) :
    ∃ st1, processEntries am tp ep name path rest cat st = Except.ok (cat, st1) ∧
      st1.es = st.es ++ rest.flatMap (entryViolations am name cat) ∧
      st1.protoEndPathLabels_ = st.protoEndPathLabels_ ++
        (if cat = mod_cat_t.MODIFIER then []
          else (rest.filter (isConfigured am)).map configInfoOf) ∧
      st1.triggerPathNames_ = st.triggerPathNames_ ∧ st1.num_end_paths = st.num_end_paths := by
  induction rest generalizing st with
  | nil => exact ⟨st, rfl, by simp, by simp, rfl, rfl⟩
  | cons e rest ih =>
    have hrest : ∀ x ∈ rest, wellFormed x = true := fun x hx => h x (List.mem_cons_of_mem _ hx)
    rw [processEntries, remove_filter_action_of_wellFormed e (h e (List.mem_cons_self _ _))]
    simp only
    cases hfind : mapFind? am (labelOf e) with
    | none =>
      simp only
      obtain ⟨st1, hrun, hes, hend, hnames, hnum⟩ := ih hrest
        { st with
          specified_modules := setInsert (labelOf e) st.specified_modules,
          es := st.es ++ [PathError.notConfigured e name (labelOf e)] }
      refine ⟨st1, hrun, ?_, ?_, hnames, hnum⟩
      · rw [hes]
        simp [entryViolations, hfind]
      · rw [hend]
        simp [isConfigured, hfind]
    | some mci =>
      simp only
      rw [if_neg hcat]
      by_cases hc : cat = (if is_observer mci.moduleType_ = true then mod_cat_t.OBSERVER
            else mod_cat_t.MODIFIER)
      · rw [if_neg (not_not.mpr hc)]
        obtain ⟨st1, hrun, hes, hend, hnames, hnum⟩ := ih hrest
          (recordEntry e (labelOf e) name mci cat
            { st with specified_modules := setInsert (labelOf e) st.specified_modules })
        refine ⟨st1, hrun, ?_, ?_, ?_, ?_⟩
        · rw [hes, recordEntry_es]
          simp [entryViolations, hfind, categoryOf, ← hc]
        · rw [hend, recordEntry_protoEnd]
          by_cases hm : cat = mod_cat_t.MODIFIER <;> simp [isConfigured, hfind, hm]
        · rw [hnames, (recordEntry_names _ _ _ _ _).1]
        · rw [hnum, (recordEntry_names _ _ _ _ _).2]
      · rw [if_pos hc]
        obtain ⟨st1, hrun, hes, hend, hnames, hnum⟩ := ih hrest
          (recordEntry e (labelOf e) name mci cat
            { st with
              specified_modules := setInsert (labelOf e) st.specified_modules,
              es := st.es ++ [PathError.mixed e name cat] })
        refine ⟨st1, hrun, ?_, ?_, ?_, ?_⟩
        · rw [hes, recordEntry_es]
          simp [entryViolations, hfind, categoryOf, hc]
        · rw [hend, recordEntry_protoEnd]
          by_cases hm : cat = mod_cat_t.MODIFIER <;> simp [isConfigured, hfind, hm]
        · rw [hnames, (recordEntry_names _ _ _ _ _).1]
        · rw [hnum, (recordEntry_names _ _ _ _ _).2]

theorem processEntries_known_error (am : List (String × ModuleConfigInfo))
    (tp ep : Option (List String)) (name : String) (path rest : List String) (cat : mod_cat_t)
    (hcat : cat ≠ mod_cat_t.UNSET) (h : ∃ e ∈ rest, wellFormed e = false) (st : PathScan) :
    ∃ bad, wellFormed bad = false ∧
      processEntries am tp ep name path rest cat st = Except.error (illegalLabel bad) := by
  induction rest generalizing st with
  | nil =>
    obtain ⟨e, he, _⟩ := h
    exact absurd he (List.not_mem_nil e)
  | cons e rest ih =>
    cases hw : wellFormed e with
    | false =>
      refine ⟨e, hw, ?_⟩
      rw [processEntries, remove_filter_action_of_not_wellFormed e hw]
    | true =>
      have hrest : ∃ x ∈ rest, wellFormed x = false := by
        obtain ⟨x, hx, hxw⟩ := h
        rcases List.mem_cons.mp hx with h1 | h1
        · rw [h1, hw] at hxw
          exact absurd hxw (by simp)
        · exact ⟨x, h1, hxw⟩
      rw [processEntries, remove_filter_action_of_wellFormed e hw]
      simp only
      cases hfind : mapFind? am (labelOf e) with
      | none => exact ih hrest _
      | some mci =>
        simp only
        rw [if_neg hcat]
        exact ih hrest _

theorem categoryOf_ne_UNSET (mci : ModuleConfigInfo) : categoryOf mci ≠ mod_cat_t.UNSET := by
  unfold categoryOf
  split <;> decide

theorem categoryOf_cases (mci : ModuleConfigInfo) :
    categoryOf mci = mod_cat_t.OBSERVER ∨ categoryOf mci = mod_cat_t.MODIFIER := by
  unfold categoryOf
  split
  · exact Or.inl rfl
  · exact Or.inr rfl

theorem categorize_none (tp ep : Option (List String)) (name : String) (cat : mod_cat_t)
    (st : PathScan) (h : ignoredAs tp ep name cat = true) : categorize tp ep name cat st = none := by
  unfold ignoredAs at h
  unfold categorize
  by_cases hc : cat = mod_cat_t.MODIFIER
  · rw [if_pos hc] at h ⊢
    rw [if_pos h]
  · rw [if_neg hc] at h ⊢
    rw [if_pos h]

theorem categorize_some (tp ep : Option (List String)) (name : String) (cat : mod_cat_t)
    (st : PathScan) (h : ignoredAs tp ep name cat = false) :
    ∃ st2, categorize tp ep name cat st = some st2 ∧
      st2.es = st.es ++ listingViolations tp ep name cat ∧
      st2.protoEndPathLabels_ = st.protoEndPathLabels_ := by
  unfold ignoredAs at h
  unfold categorize listingViolations
  by_cases hc : cat = mod_cat_t.MODIFIER
  · rw [if_pos hc] at h
    simp only [if_pos hc, h, Bool.false_eq_true, if_false]
    refine ⟨_, rfl, ?_, rfl⟩
    split <;> simp
  · rw [if_neg hc] at h
    simp only [if_neg hc, h, Bool.false_eq_true, if_false]
    refine ⟨_, rfl, ?_, rfl⟩
    split <;> simp

theorem processEntries_unset_ok (am : List (String × ModuleConfigInfo))
    (tp ep : Option (List String)) (name : String) (path entries : List String)
    (hpath : ∀ e ∈ path, wellFormed e = true) (h : ∀ e ∈ entries, wellFormed e = true)
    (st : PathScan) :
    ∃ cat st1, processEntries am tp ep name path entries mod_cat_t.UNSET st = Except.ok (cat, st1) ∧
      st1.es = st.es ++ pathViolations am tp ep name entries ∧
      st1.protoEndPathLabels_ = st.protoEndPathLabels_ ++ pathEndLabels am tp ep name entries := by
  induction entries generalizing st with
  | nil => exact ⟨_, st, rfl, by simp [pathViolations], by simp [pathEndLabels]⟩
  | cons e rest ih =>
    have hrest : ∀ x ∈ rest, wellFormed x = true := fun x hx => h x (List.mem_cons_of_mem _ hx)
    rw [processEntries, remove_filter_action_of_wellFormed e (h e (List.mem_cons_self _ _))]
    simp only
    cases hfind : mapFind? am (labelOf e) with
    | none =>
      simp only
      obtain ⟨cat, st1, hrun, hes, hend⟩ := ih hrest
        { st with
          specified_modules := setInsert (labelOf e) st.specified_modules,
          es := st.es ++ [PathError.notConfigured e name (labelOf e)] }
      refine ⟨cat, st1, hrun, ?_, ?_⟩
      · rw [hes]
        simp [pathViolations, hfind]
      · rw [hend]
        simp [pathEndLabels, hfind]
    | some mci =>
      simp only
      rw [if_pos trivial]
      change ∃ cat st1, (match categorize tp ep name (categoryOf mci)
          { st with specified_modules := setInsert (labelOf e) st.specified_modules } with
        | none =>
          match eraseSpecified path (setInsert (labelOf e) st.specified_modules) with
          | Except.error t => Except.error t
          | Except.ok specified =>
            Except.ok (categoryOf mci,
              { st with specified_modules := specified })
        | some st2 =>
          processEntries am tp ep name path rest (categoryOf mci)
            (recordEntry e (labelOf e) name mci (categoryOf mci) st2)) = Except.ok (cat, st1) ∧ _
      cases hig : ignoredAs tp ep name (categoryOf mci) with
      | true =>
        rw [categorize_none tp ep name _ _ hig]
        obtain ⟨s, hs⟩ := eraseSpecified_ok path hpath (setInsert (labelOf e) st.specified_modules)
        simp only [hs]
        refine ⟨_, _, rfl, ?_, ?_⟩
        · simp [pathViolations, hfind, hig]
        · have : ¬ (categoryOf mci = mod_cat_t.OBSERVER ∧
              ignoredAs tp ep name mod_cat_t.OBSERVER = false) := by
            rintro ⟨h1, h2⟩
            rw [h1, h2] at hig
            exact absurd hig (by simp)
          simp [pathEndLabels, hfind, this]
      | false =>
        obtain ⟨st2, hcz, hes2, hend2⟩ := categorize_some tp ep name (categoryOf mci)
          { st with specified_modules := setInsert (labelOf e) st.specified_modules } hig
        rw [hcz]
        simp only
        obtain ⟨st1, hrun, hes, hend⟩ := processEntries_known_ok am tp ep name path rest
          (categoryOf mci) (categoryOf_ne_UNSET mci) hrest
          (recordEntry e (labelOf e) name mci (categoryOf mci) st2)
        refine ⟨_, st1, hrun, ?_, ?_⟩
        · rw [hes, recordEntry_es, hes2]
          simp [pathViolations, hfind, hig]
        · rw [hend.1, recordEntry_protoEnd, hend2]
          rcases categoryOf_cases mci with hc | hc
          · rw [hc] at hig
            simp [pathEndLabels, hfind, hc, hig]
          · simp [pathEndLabels, hfind, hc]

theorem processEntries_unset_error (am : List (String × ModuleConfigInfo))
    (tp ep : Option (List String)) (name : String) (path entries : List String)
    (hsub : ∀ e ∈ entries, e ∈ path) (h : ∃ e ∈ entries, wellFormed e = false) (st : PathScan) :
    ∃ bad, wellFormed bad = false ∧
      processEntries am tp ep name path entries mod_cat_t.UNSET st =
        Except.error (illegalLabel bad) := by
  induction entries generalizing st with
  | nil =>
    obtain ⟨e, he, _⟩ := h
    exact absurd he (List.not_mem_nil e)
  | cons e rest ih =>
    cases hw : wellFormed e with
    | false =>
      refine ⟨e, hw, ?_⟩
      rw [processEntries, remove_filter_action_of_not_wellFormed e hw]
    | true =>
      have hrest : ∃ x ∈ rest, wellFormed x = false := by
        obtain ⟨x, hx, hxw⟩ := h
        rcases List.mem_cons.mp hx with h1 | h1
        · rw [h1, hw] at hxw
          exact absurd hxw (by simp)
        · exact ⟨x, h1, hxw⟩
      have hsub1 : ∀ x ∈ rest, x ∈ path := fun x hx => hsub x (List.mem_cons_of_mem _ hx)
      rw [processEntries, remove_filter_action_of_wellFormed e hw]
      simp only
      cases hfind : mapFind? am (labelOf e) with
      | none => exact ih hsub1 hrest _
      | some mci =>
        simp only
        rw [if_pos trivial]
        cases hcz : categorize tp ep name
            (if is_observer mci.moduleType_ = true then mod_cat_t.OBSERVER else mod_cat_t.MODIFIER)
            { st with specified_modules := setInsert (labelOf e) st.specified_modules } with
        | none =>
          simp only
          obtain ⟨x, hx, hxw⟩ := hrest
          obtain ⟨bad, hbad, herr⟩ := eraseSpecified_error path ⟨x, hsub1 x hx, hxw⟩
            (setInsert (labelOf e) st.specified_modules)
          rw [herr]
          exact ⟨bad, hbad, rfl⟩
        | some st2 =>
          simp only
          exact processEntries_known_error am tp ep name path rest _ (categoryOf_ne_UNSET mci)
            hrest _

theorem processPath_ok (ps : ProcessParameters) (am : List (String × ModuleConfigInfo))
    (tp ep : Option (List String)) (name : String)
    (h : ∀ e ∈ pathOf ps name, wellFormed e = true) (st : PathScan) :
    ∃ st1, processPath ps am tp ep name st = Except.ok st1 ∧
      st1.es = st.es ++ pathViolations am tp ep name (pathOf ps name) ∧
      st1.protoEndPathLabels_ =
        st.protoEndPathLabels_ ++ pathEndLabels am tp ep name (pathOf ps name) := by
  obtain ⟨cat, st1, hrun, hes, hend⟩ :=
    processEntries_unset_ok am tp ep name (pathOf ps name) (pathOf ps name) h h st
  unfold processPath
  rw [hrun]
  simp only
  by_cases hc : cat = mod_cat_t.OBSERVER
  · rw [if_pos hc]
    exact ⟨_, rfl, hes, hend⟩
  · rw [if_neg hc]
    exact ⟨_, rfl, hes, hend⟩

theorem processPath_error (ps : ProcessParameters) (am : List (String × ModuleConfigInfo))
    (tp ep : Option (List String)) (name : String)
    (h : ∃ e ∈ pathOf ps name, wellFormed e = false) (st : PathScan) :
    ∃ bad, wellFormed bad = false ∧
      processPath ps am tp ep name st = Except.error (illegalLabel bad) := by
  obtain ⟨bad, hbad, hrun⟩ :=
    processEntries_unset_error am tp ep name (pathOf ps name) (pathOf ps name) (fun _ hx => hx) h st
  unfold processPath
  rw [hrun]
  exact ⟨bad, hbad, rfl⟩

theorem processPaths_ok (ps : ProcessParameters) (am : List (String × ModuleConfigInfo))
    (tp ep : Option (List String)) (names : List String)
    (h : ∀ name ∈ names, ∀ e ∈ pathOf ps name, wellFormed e = true) (st : PathScan) :
    ∃ st1, processPaths ps am tp ep names st = Except.ok st1 ∧
      st1.es = st.es ++ names.flatMap (fun name => pathViolations am tp ep name (pathOf ps name)) ∧
      st1.protoEndPathLabels_ = st.protoEndPathLabels_ ++
        names.flatMap (fun name => pathEndLabels am tp ep name (pathOf ps name)) := by
  induction names generalizing st with
  | nil => exact ⟨st, rfl, by simp, by simp⟩
  | cons name rest ih =>
    obtain ⟨st1, hrun, hes, hend⟩ := processPath_ok ps am tp ep name
      (h name (List.mem_cons_self _ _)) st
    obtain ⟨st2, hrun2, hes2, hend2⟩ := ih (fun n hn => h n (List.mem_cons_of_mem _ hn)) st1
    rw [processPaths, hrun]
    refine ⟨st2, hrun2, ?_, ?_⟩
    · rw [hes2, hes]
      simp
    · rw [hend2, hend]
      simp

theorem processPaths_error (ps : ProcessParameters) (am : List (String × ModuleConfigInfo))
    (tp ep : Option (List String)) (names : List String)
    (h : ∃ name ∈ names, ∃ e ∈ pathOf ps name, wellFormed e = false) (st : PathScan) :
    ∃ bad, wellFormed bad = false ∧
      processPaths ps am tp ep names st = Except.error (illegalLabel bad) := by
  induction names generalizing st with
  | nil =>
    obtain ⟨n, hn, _⟩ := h
    exact absurd hn (List.not_mem_nil n)
  | cons name rest ih =>
    by_cases hw : ∀ e ∈ pathOf ps name, wellFormed e = true
    · obtain ⟨st1, hrun, _⟩ := processPath_ok ps am tp ep name hw st
      rw [processPaths, hrun]
      apply ih
      obtain ⟨n, hn, e, he, hew⟩ := h
      rcases List.mem_cons.mp hn with h1 | h1
      · rw [h1] at he
        rw [hw e he] at hew
        exact absurd hew (by simp)
      · exact ⟨n, h1, e, he, hew⟩
    · have hbad : ∃ e ∈ pathOf ps name, wellFormed e = false := by
        by_contra hcon
        apply hw
        intro e he
        cases hwe : wellFormed e with
        | true => rfl
        | false => exact absurd ⟨e, he, hwe⟩ hcon
      obtain ⟨bad, hb, hrun⟩ := processPath_error ps am tp ep name hbad st
      rw [processPaths, hrun]
      exact ⟨bad, hb, rfl⟩

theorem collectModules_ok (ps : ProcessParameters) (am : List (String × ModuleConfigInfo))
    (h : collectModules ps = Except.ok am) : am = configuredModules ps := by
  unfold collectModules at h
  simp only at h
  split at h
  · cases h
    rfl
  · cases h

theorem collectModules_error (ps : ProcessParameters) (t : Thrown)
    (h : collectModules ps = Except.error t) : ∃ msg, t = configurationError msg := by
  unfold collectModules at h
  simp only at h
  split at h
  · cases h
  · cases h
    exact ⟨_, rfl⟩

theorem all_wellFormed_or_not (ps : ProcessParameters) (names : List String) :
    (∀ name ∈ names, ∀ e ∈ pathOf ps name, wellFormed e = true) ∨
      (∃ name ∈ names, ∃ e ∈ pathOf ps name, wellFormed e = false) := by
  by_cases h : ∀ name ∈ names, ∀ e ∈ pathOf ps name, wellFormed e = true
  · exact Or.inl h
  · right
    by_contra hcon
    apply h
    intro name hn e he
    cases hw : wellFormed e with
    | true => rfl
    | false => exact absurd ⟨name, hn, e, he, hw⟩ hcon

theorem scanPaths_ok (ps : ProcessParameters) (am : List (String × ModuleConfigInfo))
    (hseq : (badNames ps (pathNames ps)).isEmpty = true)
    (hwf : ∀ name ∈ pathNames ps, ∀ e ∈ pathOf ps name, wellFormed e = true) :
    ∃ scan, scanPaths ps am = Except.ok scan ∧ scan.es = violations ps am ∧
      scan.protoEndPathLabels_ = (pathNames ps).flatMap (fun name =>
        pathEndLabels am (pathsConfig ps.trigger_paths) (pathsConfig ps.end_paths) name
          (pathOf ps name)) := by
  obtain ⟨st1, hrun, hes, hend⟩ := processPaths_ok ps am (pathsConfig ps.trigger_paths)
    (pathsConfig ps.end_paths) (pathNames ps) hwf
    { es := unknownPaths (pathsConfig ps.trigger_paths) (pathsConfig ps.end_paths) (pathNames ps),
      specified_modules := [],
      num_end_paths := 0,
      triggerPathNames_ := [],
      protoTrigPathLabelMap_ := [],
      protoEndPathLabels_ := [] }
  unfold scanPaths
  simp only [hseq, Bool.not_true, Bool.false_eq_true, if_false]
  exact ⟨st1, hrun, by rw [hes]; rfl, by rw [hend]; rfl⟩

theorem scanPaths_of_ok (ps : ProcessParameters) (am : List (String × ModuleConfigInfo))
    (scan : PathScan) (h : scanPaths ps am = Except.ok scan) :
    (badNames ps (pathNames ps)).isEmpty = true ∧
      (∀ name ∈ pathNames ps, ∀ e ∈ pathOf ps name, wellFormed e = true) ∧
      scan.es = violations ps am ∧
      scan.protoEndPathLabels_ = (pathNames ps).flatMap (fun name =>
        pathEndLabels am (pathsConfig ps.trigger_paths) (pathsConfig ps.end_paths) name
          (pathOf ps name)) := by
  cases hseq : (badNames ps (pathNames ps)).isEmpty with
  | false =>
    unfold scanPaths at h
    simp only [hseq, Bool.not_false, if_true] at h
    cases h
  | true =>
    rcases all_wellFormed_or_not ps (pathNames ps) with hwf | hbad
    · obtain ⟨scan1, hrun, hes, hend⟩ := scanPaths_ok ps am hseq hwf
      rw [hrun] at h
      cases h
      exact ⟨rfl, hwf, hes, hend⟩
    · obtain ⟨bad, _, hrun⟩ := processPaths_error ps am (pathsConfig ps.trigger_paths)
        (pathsConfig ps.end_paths) (pathNames ps) hbad
        { es := unknownPaths (pathsConfig ps.trigger_paths) (pathsConfig ps.end_paths)
            (pathNames ps),
          specified_modules := [],
          num_end_paths := 0,
          triggerPathNames_ := [],
          protoTrigPathLabelMap_ := [],
          protoEndPathLabels_ := [] }
      unfold scanPaths at h
      simp only [hseq, Bool.not_true, Bool.false_eq_true, if_false] at h
      rw [hrun] at h
      cases h

theorem scanPaths_error (ps : ProcessParameters) (am : List (String × ModuleConfigInfo))
    (t : Thrown) (h : scanPaths ps am = Except.error t) : ∃ msg, t = configurationError msg := by
  cases hseq : (badNames ps (pathNames ps)).isEmpty with
  | false =>
    unfold scanPaths at h
    simp only [hseq, Bool.not_false, if_true] at h
    cases h
    exact ⟨_, rfl⟩
  | true =>
    rcases all_wellFormed_or_not ps (pathNames ps) with hwf | hbad
    · obtain ⟨scan1, hrun, _⟩ := scanPaths_ok ps am hseq hwf
      rw [hrun] at h
      cases h
    · obtain ⟨bad, _, hrun⟩ := processPaths_error ps am (pathsConfig ps.trigger_paths)
        (pathsConfig ps.end_paths) (pathNames ps) hbad
        { es := unknownPaths (pathsConfig ps.trigger_paths) (pathsConfig ps.end_paths)
            (pathNames ps),
          specified_modules := [],
          num_end_paths := 0,
          triggerPathNames_ := [],
          protoTrigPathLabelMap_ := [],
          protoEndPathLabels_ := [] }
      unfold scanPaths at h
      simp only [hseq, Bool.not_true, Bool.false_eq_true, if_false] at h
      rw [hrun] at h
      cases h
      exact ⟨_, rfl⟩

namespace PathManager

theorem mk0_error (ps : ProcessParameters) (n : Nat) (t : Thrown)
    (h : mk0 ps n = Except.error t) : ∃ e, t = Thrown.cet e ∧ e.category = "Configuration" := by
  unfold mk0 at h
  cases hc : collectModules ps with
  | error t1 =>
    rw [hc] at h
    cases h
    obtain ⟨msg, hmsg⟩ := collectModules_error ps t hc
    exact ⟨_, hmsg, rfl⟩
  | ok am =>
    rw [hc] at h
    simp only at h
    cases hs : scanPaths ps am with
    | error t1 =>
      rw [hs] at h
      cases h
      obtain ⟨msg, hmsg⟩ := scanPaths_error ps am t hs
      exact ⟨_, hmsg, rfl⟩
    | ok scan =>
      rw [hs] at h
      simp only at h
      split at h
      · cases h
        exact ⟨_, rfl, rfl⟩
      · cases h

theorem mk0_of_ok (ps : ProcessParameters) (n : Nat) (pm : PathManager)
    (h : mk0 ps n = Except.ok pm) :
    collectModules ps = Except.ok (configuredModules ps) ∧
      violations ps (configuredModules ps) = [] ∧
      pm.protoEndPathLabels_ = (pathNames ps).flatMap (fun name =>
        pathEndLabels (configuredModules ps) (pathsConfig ps.trigger_paths)
          (pathsConfig ps.end_paths) name (pathOf ps name)) ∧
      pm.nschedules = n ∧ pm.moduleSet_ = [] ∧ pm.workerSet_ = [] ∧ pm.constructed = [] ∧
      pm.triggerPathsInfo_ = List.replicate n PathsInfo.empty ∧
      pm.endPathInfo_ = PathsInfo.empty := by
  unfold mk0 at h
  cases hc : collectModules ps with
  | error t1 =>
    rw [hc] at h
    cases h
  | ok am =>
    have ham := collectModules_ok ps am hc
    subst ham
    rw [hc] at h
    simp only at h
    cases hs : scanPaths ps (configuredModules ps) with
    | error t1 =>
      rw [hs] at h
      cases h
    | ok scan =>
      obtain ⟨_, _, hes, hend⟩ := scanPaths_of_ok ps _ scan hs
      rw [hs] at h
      simp only at h
      split at h
      · cases h
      · rename_i hemp
        cases h
        refine ⟨rfl, ?_, hend, rfl, rfl, rfl, rfl, rfl, rfl⟩
        rw [← hes]
        cases hl : scan.es with
        | nil => rfl
        | cons x xs =>
          rw [hl] at hemp
          exact absurd rfl hemp

theorem mk0_violations (ps : ProcessParameters) (n : Nat) (am : List (String × ModuleConfigInfo))
    (hc : collectModules ps = Except.ok am)
    (hseq : (badNames ps (pathNames ps)).isEmpty = true)
    (hwf : ∀ name ∈ pathNames ps, ∀ e ∈ pathOf ps name, wellFormed e = true)
    (hv : violations ps am ≠ []) :
    mk0 ps n = Except.error (pathConfigurationError (violations ps am)) := by
  obtain ⟨scan, hs, hes, _⟩ := scanPaths_ok ps am hseq hwf
  unfold mk0
  rw [hc]
  simp only
  rw [hs]
  simp only
  rw [hes]
  cases hl : violations ps am with
  | nil => exact absurd hl hv
  | cons x xs => rfl

theorem mk0_not_ok_of_violation (ps : ProcessParameters) (n : Nat) (v : PathError)
    (hv : v ∈ violations ps (configuredModules ps)) :
    ∃ e, mk0 ps n = Except.error (Thrown.cet e) ∧ e.category = "Configuration" := by
  cases h : mk0 ps n with
  | error t =>
    obtain ⟨e, he, hcat⟩ := mk0_error ps n t h
    exact ⟨e, by rw [he], hcat⟩
  | ok pm =>
    have := (mk0_of_ok ps n pm h).2.1
    rw [this] at hv
    exact absurd hv (List.not_mem_nil v)

end PathManager

theorem mem_violations_of_path (ps : ProcessParameters) (am : List (String × ModuleConfigInfo))
    (name : String) (v : PathError) (hname : name ∈ pathNames ps)
    (hv : v ∈ pathViolations am (pathsConfig ps.trigger_paths) (pathsConfig ps.end_paths) name
      (pathOf ps name)) : v ∈ violations ps am := by
  unfold violations
  exact List.mem_append_right _ (List.mem_flatMap.mpr ⟨name, hname, hv⟩)

theorem mixed_mem_pathViolations (am : List (String × ModuleConfigInfo))
    (tp ep : Option (List String)) (name first later : String) (rest : List String)
    (mciF mciL : ModuleConfigInfo) (hlater : later ∈ rest)
    (hF : mapFind? am (labelOf first) = some mciF) (hL : mapFind? am (labelOf later) = some mciL)
    (hmix : categoryOf mciF ≠ categoryOf mciL)
    (hactive : ignoredAs tp ep name (categoryOf mciF) = false) :
    PathError.mixed later name (categoryOf mciF) ∈ pathViolations am tp ep name (first :: rest) := by
  simp only [pathViolations, hF, hactive, Bool.false_eq_true, if_false]
  apply List.mem_append_right
  refine List.mem_flatMap.mpr ⟨later, hlater, ?_⟩
  simp [entryViolations, hL, hmix]

theorem notConfigured_mem_of_not_ignored (am : List (String × ModuleConfigInfo))
    (tp ep : Option (List String)) (name e : String) (entries : List String)
    (he : e ∈ entries) (hun : mapFind? am (labelOf e) = none)
    (hig : pathIgnored am tp ep name entries = false) :
    PathError.notConfigured e name (labelOf e) ∈ pathViolations am tp ep name entries := by
  induction entries with
  | nil => exact absurd he (List.not_mem_nil e)
  | cons x xs ih =>
    cases hx : mapFind? am (labelOf x) with
    | none =>
      simp only [pathViolations, hx]
      simp only [pathIgnored, hx] at hig
      rcases List.mem_cons.mp he with h1 | h1
      · rw [h1]
        exact List.mem_cons_self _ _
      · exact List.mem_cons_of_mem _ (ih h1 hig)
    | some mci =>
      simp only [pathIgnored, hx] at hig
      simp only [pathViolations, hx, hig, Bool.false_eq_true, if_false]
      rcases List.mem_cons.mp he with h1 | h1
      · rw [h1, hx] at hun
        cases hun
      · apply List.mem_append_right
        refine List.mem_flatMap.mpr ⟨e, h1, ?_⟩
        simp [entryViolations, hun]

theorem notConfigured_mem_of_ahead (am : List (String × ModuleConfigInfo))
    (tp ep : Option (List String)) (name e : String) (pre post : List String)
    (hun : mapFind? am (labelOf e) = none) (hpre : ∀ x ∈ pre, isConfigured am x = false) :
    PathError.notConfigured e name (labelOf e) ∈
      pathViolations am tp ep name (pre ++ e :: post) := by
  induction pre with
  | nil =>
    simp only [List.nil_append, pathViolations, hun]
    exact List.mem_cons_self _ _
  | cons x xs ih =>
    have hx : mapFind? am (labelOf x) = none := by
      have := hpre x (List.mem_cons_self _ _)
      unfold isConfigured at this
      cases hf : mapFind? am (labelOf x) with
      | none => rfl
      | some m => rw [hf] at this; exact absurd this (by simp)
    simp only [List.cons_append, pathViolations, hx]
    exact List.mem_cons_of_mem _ (ih (fun y hy => hpre y (List.mem_cons_of_mem _ hy)))

theorem categoryOf_ne_of_is_observer_ne (a b : ModuleConfigInfo)
    (h : is_observer a.moduleType_ ≠ is_observer b.moduleType_) : categoryOf a ≠ categoryOf b := by
  unfold categoryOf
  cases ha : is_observer a.moduleType_ <;> cases hb : is_observer b.moduleType_ <;>
    simp_all

end art

namespace art

namespace PathManager

/-- C13, as stated, fails: in `ignoredMixedPath` the path `p1` is `[a, b]`, `a`
is a producer and `b` an analyzer, both configured, yet the constructor
succeeds, because `trigger_paths` does not list `p1` and the path is ignored
from its first entry on. -/
theorem ignored_mixed_path_accepted :
    "p1" ∈ pathNames ignoredMixedPath ∧ pathOf ignoredMixedPath "p1" = ["a", "b"] ∧
      (mapFind? (configuredModules ignoredMixedPath) "a").map ModuleConfigInfo.moduleType_ =
        some ModuleType.producer ∧
      (mapFind? (configuredModules ignoredMixedPath) "b").map ModuleConfigInfo.moduleType_ =
        some ModuleType.analyzer ∧
      (mk0 ignoredMixedPath 1).toOption.isSome = true := by
  decide

/-- C13, amended: for every path of the physics table that is not ignored (the
list for the category of its first entry, `trigger_paths` for a modifier and
`end_paths` for an observer, is not given or names the path): if the first
entry names a configured observer and some later entry a configured modifier,
or the first a modifier and some later one an observer, the constructor of
`PathManager` throws an exception of category `Configuration`; and a
constructor that returns has constructed no module and no worker. -/
theorem mixed_path_rejected (ps : ProcessParameters) (n : Nat) (name first later : String)
    (rest : List String) (mciF mciL : ModuleConfigInfo)
    (hname : name ∈ pathNames ps) (hpath : pathOf ps name = first :: rest)
    (hlater : later ∈ rest)
    (hF : mapFind? (configuredModules ps) (labelOf first) = some mciF)
    (hL : mapFind? (configuredModules ps) (labelOf later) = some mciL)
    (hmix : is_observer mciF.moduleType_ ≠ is_observer mciL.moduleType_)
    (hactive : ignoredAs (pathsConfig ps.trigger_paths) (pathsConfig ps.end_paths) name
      (categoryOf mciF) = false) :
    (∃ e, mk0 ps n = Except.error (Thrown.cet e) ∧ e.category = "Configuration") ∧
      ∀ ps1 n1 pm, mk0 ps1 n1 = Except.ok pm →
        pm.constructed = [] ∧ pm.moduleSet_ = [] ∧ pm.workerSet_ = [] := by
  refine ⟨?_, ?_⟩
  · apply mk0_not_ok_of_violation ps n (PathError.mixed later name (categoryOf mciF))
    apply mem_violations_of_path ps _ name _ hname
    rw [hpath]
    exact mixed_mem_pathViolations _ _ _ name first later rest mciF mciL hlater hF hL
      (categoryOf_ne_of_is_observer_ne _ _ hmix) hactive
  · intro ps1 n1 pm h
    obtain ⟨_, _, _, _, h1, h2, h3, _⟩ := mk0_of_ok ps1 n1 pm h
    exact ⟨h3, h1, h2⟩

/-- Witness of C13 (amended): path `p1` of `mixedPath` is `[a, b]` with the
producer `a` and the analyzer `b`, and no list of trigger paths is given. -/
theorem mixed_path_rejected_witness :
    pathOf mixedPath "p1" = ["a", "b"] ∧
      ((∃ e, mk0 mixedPath 1 = Except.error (Thrown.cet e) ∧ e.category = "Configuration") ∧
        ∀ ps1 n1 pm, mk0 ps1 n1 = Except.ok pm →
          pm.constructed = [] ∧ pm.moduleSet_ = [] ∧ pm.workerSet_ = []) :=
  ⟨rfl, mixed_path_rejected mixedPath 1 "p1" "a" "b" ["b"]
    { configTableName_ := "physics.producers", moduleType_ := ModuleType.producer,
      moduleThreadingType_ := ModuleThreadingType.legacy, libSpec_ := "Lib" }
    { configTableName_ := "physics.analyzers", moduleType_ := ModuleType.analyzer,
      moduleThreadingType_ := ModuleThreadingType.legacy, libSpec_ := "Lib" }
    (by decide) rfl (by decide) rfl rfl (by decide) rfl⟩

/-- C14, as stated, fails: in `ignoredUnresolvedPath` the entry `zzz` of path
`p1` names a label that is configured in no table, yet the constructor
succeeds, because the path is ignored from its first entry `a` on. -/
theorem ignored_unresolved_label_accepted :
    "p1" ∈ pathNames ignoredUnresolvedPath ∧ "zzz" ∈ pathOf ignoredUnresolvedPath "p1" ∧
      mapFind? (configuredModules ignoredUnresolvedPath) (labelOf "zzz") = none ∧
      (mk0 ignoredUnresolvedPath 1).toOption.isSome = true := by
  decide

/-- C14, amended: if an entry of a path of the physics table names a module
label (after removal of a prefix) that is configured in none of the module
tables, and the path is not ignored or the entry comes ahead of the first
configured entry of its path, the constructor of `PathManager` throws an
exception of category `Configuration`. -/
theorem unresolved_label_rejected (ps : ProcessParameters) (n : Nat) (name entry : String)
    (hname : name ∈ pathNames ps) (hentry : entry ∈ pathOf ps name)
    (hun : mapFind? (configuredModules ps) (labelOf entry) = none)
    (hreach : pathIgnored (configuredModules ps) (pathsConfig ps.trigger_paths)
        (pathsConfig ps.end_paths) name (pathOf ps name) = false ∨
      ∃ pre post, pathOf ps name = pre ++ entry :: post ∧
        ∀ x ∈ pre, isConfigured (configuredModules ps) x = false) :
    ∃ e, mk0 ps n = Except.error (Thrown.cet e) ∧ e.category = "Configuration" := by
  apply mk0_not_ok_of_violation ps n (PathError.notConfigured entry name (labelOf entry))
  apply mem_violations_of_path ps _ name _ hname
  rcases hreach with hig | ⟨pre, post, hsplit, hpre⟩
  · exact notConfigured_mem_of_not_ignored _ _ _ name entry _ hentry hun hig
  · rw [hsplit]
    exact notConfigured_mem_of_ahead _ _ _ name entry pre post hun hpre

/-- Witness of C14 (amended): the entry `zzz` of path `p1` of `unresolvedPath`,
a path that is not ignored. -/
theorem unresolved_label_rejected_witness :
    "zzz" ∈ pathOf unresolvedPath "p1" ∧
      ∃ e, mk0 unresolvedPath 1 = Except.error (Thrown.cet e) ∧ e.category = "Configuration" :=
  ⟨by decide, unresolved_label_rejected unresolvedPath 1 "p1" "zzz" (by decide) (by decide) rfl
    (Or.inl rfl)⟩

end PathManager

end art

namespace art

theorem pathViolations_split (am : List (String × ModuleConfigInfo))
    (tp ep : Option (List String)) (name first : String) (pre rest : List String)
    (mciF : ModuleConfigInfo) (hpre : ∀ x ∈ pre, isConfigured am x = false)
    (hF : mapFind? am (labelOf first) = some mciF)
    (hactive : ignoredAs tp ep name (categoryOf mciF) = false) :
    pathViolations am tp ep name (pre ++ first :: rest) =
      pre.map (fun x => PathError.notConfigured x name (labelOf x)) ++
        (listingViolations tp ep name (categoryOf mciF) ++
          actionViolations name (categoryOf mciF) mciF first ++
          rest.flatMap (entryViolations am name (categoryOf mciF))) := by
  induction pre with
  | nil => simp [pathViolations, hF, hactive]
  | cons x xs ih =>
    have hx : mapFind? am (labelOf x) = none := by
      have := hpre x (List.mem_cons_self _ _)
      unfold isConfigured at this
      cases hf : mapFind? am (labelOf x) with
      | none => rfl
      | some m => rw [hf] at this; exact absurd this (by simp)
    have hih := ih (fun y hy => hpre y (List.mem_cons_of_mem _ hy))
    rw [List.cons_append, pathViolations]
    simp only [hx, List.map_cons, List.cons_append]
    rw [hih]

theorem unknownPath_mem_violations (ps : ProcessParameters) (am : List (String × ModuleConfigInfo))
    (path : String) (hnot : path ∉ pathNames ps) :
    (∀ config, pathsConfig ps.trigger_paths = some config → path ∈ config →
      PathError.unknownPath path "trigger_paths" ∈ violations ps am) ∧
    (∀ config, pathsConfig ps.end_paths = some config → path ∈ config →
      PathError.unknownPath path "end_paths" ∈ violations ps am) := by
  constructor
  · intro config hc hp
    unfold violations unknownPaths
    rw [hc]
    apply List.mem_append_left
    apply List.mem_append_left
    simp only [List.mem_map, List.mem_filter]
    exact ⟨path, ⟨hp, by simpa using hnot⟩, rfl⟩
  · intro config hc hp
    unfold violations unknownPaths
    rw [hc]
    apply List.mem_append_left
    apply List.mem_append_right
    simp only [List.mem_map, List.mem_filter]
    exact ⟨path, ⟨hp, by simpa using hnot⟩, rfl⟩

namespace PathManager

/-- C15, as stated, fails.  In `malformedAndUnresolved` path `p1` names the
label `zzz`, which is not configured, and has the malformed entry `!!a`: the
constructor throws the exception of the malformed label alone, whose message
has no entry for `zzz`.  In `ignoredAndActiveViolations` the paths `p1` and
`p2` both name a label that is not configured, and the message of the one
exception has an entry for `yyy` of `p2` only, since `p1` is ignored.  In
`atomAndUnresolved` and in `wrongTypeAndUnresolved` path `p1` names the label
`zzz`, which is not configured, but the exception thrown is the one for the
name that is no sequence, respectively the one for the module tables. -/
theorem first_malformed_label_only :
    "zzz" ∈ pathOf malformedAndUnresolved "p1" ∧
      mapFind? (configuredModules malformedAndUnresolved) (labelOf "zzz") = none ∧
      wellFormed "!!a" = false ∧
      mk0 malformedAndUnresolved 1 = Except.error (illegalLabel "!!a") ∧
      (illegalLabel "!!a").text = "Module label !!a is illegal.\n" ∧
      "zzz" ∈ pathOf ignoredAndActiveViolations "p1" ∧
      mapFind? (configuredModules ignoredAndActiveViolations) (labelOf "zzz") = none ∧
      mk0 ignoredAndActiveViolations 1 =
        Except.error (pathConfigurationError [PathError.notConfigured "yyy" "p2" "yyy"]) ∧
      "zzz" ∈ pathOf atomAndUnresolved "p1" ∧
      mk0 atomAndUnresolved 1 = Except.error (unsupportedParameters [("p0", "atom")]) ∧
      "zzz" ∈ pathOf wrongTypeAndUnresolved "p1" ∧
      mk0 wrongTypeAndUnresolved 1 = Except.error (configurationError
        ("The following were encountered while processing the module configurations:\n" ++
          (ModuleConfigError.wrongType "a" "Lib" ModuleType.producer ModuleType.analyzer).text)) :=
  ⟨by decide, rfl, rfl, rfl, rfl, by decide, rfl, rfl, by decide, rfl, by decide, rfl⟩

/-- C15, amended: when the module tables are accepted, every path name is key
to a sequence, no entry is malformed, and the path configuration has
violations (names in `trigger_paths` or `end_paths` that are no paths,
unresolved module labels ahead of the first configured entry of a path, and, on
paths that are not ignored, unresolved labels, entries of the wrong category,
prefixes on modules that are no filters, a listing in the wrong one of
`trigger_paths` and `end_paths`), the constructor throws one exception of
category `Configuration` whose message is the heading followed by the error
entries of all the violations, in the order of the paths. -/
theorem all_violations_reported (ps : ProcessParameters) (n : Nat)
    (am : List (String × ModuleConfigInfo)) (hmod : collectModules ps = Except.ok am)
    (hseq : (badNames ps (pathNames ps)).isEmpty = true)
    (hwf : ∀ name ∈ pathNames ps, ∀ e ∈ pathOf ps name, wellFormed e = true)
    (hv : violations ps am ≠ []) :
    mk0 ps n = Except.error (Thrown.cet
      { category := "Configuration",
        message := "Path configuration: " ++
          "The following were encountered while processing path configurations:\n" ++
          String.join ((violations ps am).map PathError.text) }) ∧
    (∀ path, path ∉ pathNames ps →
      (∀ config, pathsConfig ps.trigger_paths = some config → path ∈ config →
        PathError.unknownPath path "trigger_paths" ∈ violations ps am) ∧
      (∀ config, pathsConfig ps.end_paths = some config → path ∈ config →
        PathError.unknownPath path "end_paths" ∈ violations ps am)) ∧
    (∀ name pre first rest mciF, name ∈ pathNames ps → pathOf ps name = pre ++ first :: rest →
      (∀ x ∈ pre, isConfigured am x = false) → mapFind? am (labelOf first) = some mciF →
      (∀ x ∈ pre, PathError.notConfigured x name (labelOf x) ∈ violations ps am) ∧
      (ignoredAs (pathsConfig ps.trigger_paths) (pathsConfig ps.end_paths) name
          (categoryOf mciF) = false →
        ∀ v, (v ∈ listingViolations (pathsConfig ps.trigger_paths) (pathsConfig ps.end_paths)
              name (categoryOf mciF) ∨
            v ∈ actionViolations name (categoryOf mciF) mciF first ∨
            ∃ e ∈ rest, v ∈ entryViolations am name (categoryOf mciF) e) →
          v ∈ violations ps am)) := by
  refine ⟨mk0_violations ps n am hmod hseq hwf hv, ?_, ?_⟩
  · intro path hnot
    exact unknownPath_mem_violations ps am path hnot
  · intro name pre first rest mciF hname hsplit hpre hF
    constructor
    · intro x hx
      apply mem_violations_of_path ps am name _ hname
      obtain ⟨l1, l2, hl⟩ := List.append_of_mem hx
      rw [hsplit, hl, List.append_assoc, List.cons_append]
      apply notConfigured_mem_of_ahead
      · have := hpre x hx
        unfold isConfigured at this
        cases hf : mapFind? am (labelOf x) with
        | none => rfl
        | some m => rw [hf] at this; exact absurd this (by simp)
      · intro y hy
        exact hpre y (by rw [hl]; exact List.mem_append_left _ hy)
    · intro hactive v hvv
      apply mem_violations_of_path ps am name _ hname
      rw [hsplit, pathViolations_split am _ _ name first pre rest mciF hpre hF hactive]
      apply List.mem_append_right
      rcases hvv with h1 | h1 | ⟨e, he, h1⟩
      · exact List.mem_append_left _ (List.mem_append_left _ h1)
      · exact List.mem_append_left _ (List.mem_append_right _ h1)
      · exact List.mem_append_right _ (List.mem_flatMap.mpr ⟨e, he, h1⟩)

end PathManager

end art

namespace art

namespace PathManager

/-- Witness of C15 (amended): the four violations of `severalViolations` are
all reported by the one exception. -/
theorem all_violations_reported_witness :
    violations severalViolations (configuredModules severalViolations) =
        [PathError.unknownPath "e9" "end_paths",
          PathError.mixed "b" "p1" mod_cat_t.MODIFIER,
          PathError.notConfigured "zzz" "p1" "zzz",
          PathError.actionOnNonFilter "a" "p1" mod_cat_t.MODIFIER ModuleType.producer] ∧
      mk0 severalViolations 1 = Except.error (Thrown.cet
        { category := "Configuration",
          message := "Path configuration: " ++
            "The following were encountered while processing path configurations:\n" ++
            String.join ((violations severalViolations
              (configuredModules severalViolations)).map PathError.text) }) :=
  ⟨by decide, (all_violations_reported severalViolations 1
    (configuredModules severalViolations) rfl rfl (by decide) (by decide)).1⟩

end PathManager

end art

/-! ## Theorems: workers and modules -/

namespace art

theorem mapFind?_mapInsert_ne {β : Type} (k k1 : String) (v : β) (m : List (String × β))
    (h : k1 ≠ k) : mapFind? (mapInsert k v m) k1 = mapFind? m k1 := by
  induction m with
  | nil => simp [mapInsert, mapFind?, h]
  | cons kv rest ih =>
    obtain ⟨a, b⟩ := kv
    unfold mapInsert
    split
    · simp [mapFind?, h]
    · simp only [mapFind?]
      rw [ih]

theorem mapFind?_mapInsert_self {β : Type} (k : String) (v : β) (m : List (String × β))
    (h : mapFind? m k = none) : mapFind? (mapInsert k v m) k = some v := by
  induction m with
  | nil => simp [mapInsert, mapFind?]
  | cons kv rest ih =>
    obtain ⟨a, b⟩ := kv
    simp only [mapFind?] at h
    by_cases hk : k = a
    · rw [if_pos hk] at h
      cases h
    · rw [if_neg hk] at h
      unfold mapInsert
      split
      · simp [mapFind?]
      · simp only [mapFind?, if_neg hk]
        exact ih h

theorem mapFind?_mapEmplace_ne {β : Type} (k k1 : String) (v : β) (m : List (String × β))
    (h : k1 ≠ k) : mapFind? (mapEmplace k v m) k1 = mapFind? m k1 := by
  unfold mapEmplace
  split
  · rfl
  · exact mapFind?_mapInsert_ne k k1 v m h

theorem mapFind?_mapEmplace_new {β : Type} (k : String) (v : β) (m : List (String × β))
    (h : mapFind? m k = none) : mapFind? (mapEmplace k v m) k = some v := by
  unfold mapEmplace
  rw [h]
  exact mapFind?_mapInsert_self k v m h

theorem mapEmplace_old {β : Type} (k : String) (v v0 : β) (m : List (String × β))
    (h : mapFind? m k = some v0) : mapEmplace k v m = m := by
  unfold mapEmplace
  rw [h]
  rfl

theorem mapFind?_isSome_iff {β : Type} (m : List (String × β)) (k : String) :
    (mapFind? m k).isSome = true ↔ k ∈ m.map Prod.fst := by
  induction m with
  | nil => simp [mapFind?]
  | cons kv rest ih =>
    obtain ⟨a, b⟩ := kv
    simp only [mapFind?, List.map_cons, List.mem_cons]
    by_cases hk : k = a
    · simp [hk]
    · rw [if_neg hk, ih]
      simp [hk]

theorem mapInsert_keys_perm {β : Type} (k : String) (v : β) (m : List (String × β)) :
    ((mapInsert k v m).map Prod.fst).Perm (k :: m.map Prod.fst) := by
  induction m with
  | nil => simp [mapInsert]
  | cons kv rest ih =>
    obtain ⟨a, b⟩ := kv
    unfold mapInsert
    split
    · simp
    · simp only [List.map_cons]
      exact (List.Perm.cons a ih).trans (List.Perm.swap k a _)

theorem mapEmplace_keys_nodup {β : Type} (k : String) (v : β) (m : List (String × β))
    (h : (m.map Prod.fst).Nodup) : ((mapEmplace k v m).map Prod.fst).Nodup := by
  unfold mapEmplace
  cases hf : mapFind? m k with
  | some v0 => simpa using h
  | none =>
    simp only [Option.isSome_none, Bool.false_eq_true, if_false]
    rw [(mapInsert_keys_perm k v m).nodup_iff]
    refine List.nodup_cons.mpr ⟨?_, h⟩
    intro hmem
    have := (mapFind?_isSome_iff m k).mpr hmem
    rw [hf] at this
    exact absurd this (by simp)

end art

namespace art

namespace PathManager

theorem makeWorker_spec (f : ModuleFactory) (si : Nat) (wci : WorkerInPath.ConfigInfo)
    (mci : ModuleConfigInfo) (m : ModuleBase) (st : FillState)
    (hmw : f.make_worker_from_module wci.label si = MakeResult.made)
    (hnone : mapFind? st.workers wci.label = none)
    (hI1 : ∀ l v, mapFind? st.workers l = some v →
      ∃ w, v = some w ∧ w.module_label = l ∧ w.scheduleID = si ∧
        Construction.worker w ∈ st.pm.constructed ∧
        Construction.module w.module ∈ st.pm.constructed ∧ w.module.module_label = l ∧
        (if isReplicated st.pm.allModules_ l then w.module.scheduleID = si
          else mapFind? st.pm.moduleSet_ l = some w.module))
    (hI2 : ∀ l, st.pm.constructed.countP (Construction.isWorkerFor l si) =
      if (mapFind? st.workers l).isSome then 1 else 0)
    (hI6 : ∀ l, isReplicated st.pm.allModules_ l = true →
      st.pm.constructed.countP (Construction.isModuleFor l si) =
        if (mapFind? st.workers l).isSome ∨ l = wci.label then 1 else 0)
    (hm : Construction.module m ∈ st.pm.constructed ∧ m.module_label = wci.label ∧
      (if isReplicated st.pm.allModules_ wci.label then m.scheduleID = si
        else mapFind? st.pm.moduleSet_ wci.label = some m))
    (hmods : ModulesAgree st.pm) :
    ∃ st1, makeWorker f si wci mci m st = Except.ok st1 ∧
      WorkersAgree si st1.workers st1.pm ∧ ModulesAgree st1.pm ∧ Extends si st.pm st1.pm ∧
      st1.configErrMsgs = st.configErrMsgs ∧
      (∃ w, mapFind? st1.workers wci.label = some (some w) ∧
        st1.wips = st.wips ++ [{ worker := some w, filterAction := wci.filterAction }]) ∧
      (∀ l, l ≠ wci.label → mapFind? st1.workers l = mapFind? st.workers l) ∧
      ((st.workers.map Prod.fst).Nodup → (st1.workers.map Prod.fst).Nodup) := by
  obtain ⟨errs, wips, workers, pm⟩ := st
  simp only at hnone hI1 hI2 hI6 hm hmods ⊢
  unfold makeWorker
  rw [hmw]
  simp only [enterWorker]
  refine ⟨_, rfl, ⟨?_, ?_, ?_⟩, ⟨?_, ?_⟩, ?_, rfl, ?_, ?_, ?_⟩
  · -- entries of the map
    intro l v hl
    by_cases hlab : l = wci.label
    · subst hlab
      rw [mapFind?_mapEmplace_new _ _ _ hnone] at hl
      cases hl
      exact ⟨_, rfl, rfl, rfl, by simp, by simp [hm.1], hm.2.1, hm.2.2⟩
    · rw [mapFind?_mapEmplace_ne _ _ _ _ hlab] at hl
      obtain ⟨w, h1, h2, h3, h4, h5, h6, h7⟩ := hI1 l v hl
      exact ⟨w, h1, h2, h3, by simp [h4], by simp [h5], h6, h7⟩
  · -- workers made
    intro l
    by_cases hlab : l = wci.label
    · subst hlab
      have := hI2 wci.label
      rw [hnone] at this
      simp only [Option.isSome_none, Bool.false_eq_true, if_false] at this
      rw [mapFind?_mapEmplace_new _ _ _ hnone]
      simp [List.countP_append, this, Construction.isWorkerFor]
    · rw [mapFind?_mapEmplace_ne _ _ _ _ hlab]
      have := hI2 l
      simp only [List.countP_append, this]
      have hne : ¬ (wci.label = l) := fun h => hlab h.symm
      simp [Construction.isWorkerFor, hne]
  · -- replicated modules made
    intro l hrep
    have := hI6 l hrep
    simp only [List.countP_append, this]
    by_cases hlab : l = wci.label
    · subst hlab
      rw [mapFind?_mapEmplace_new _ _ _ hnone]
      simp [Construction.isModuleFor]
    · rw [mapFind?_mapEmplace_ne _ _ _ _ hlab]
      simp [Construction.isModuleFor, hlab]
  · intro l m1 hl
    obtain ⟨h1, h2⟩ := hmods.1 l m1 hl
    exact ⟨by simp [h1], h2⟩
  · intro l hrep
    have := hmods.2 l hrep
    simp only [List.countP_append, this]
    simp [Construction.isModuleOf]
  · exact ⟨rfl, rfl, rfl, rfl, rfl, rfl, rfl, ⟨_, rfl, by simp [Construction.scheduleID]⟩,
      fun _ _ h => h⟩
  · exact ⟨_, mapFind?_mapEmplace_new _ _ _ hnone, rfl⟩
  · intro l hlab
    exact mapFind?_mapEmplace_ne _ _ _ _ hlab
  · exact mapEmplace_keys_nodup _ _ _

end PathManager

end art

namespace art

namespace PathManager

theorem extends_refl (si : Nat) (pm : PathManager) : Extends si pm pm :=
  ⟨rfl, rfl, rfl, rfl, rfl, rfl, rfl, ⟨[], by simp, by simp⟩, fun _ _ h => h⟩

theorem extends_trans {si : Nat} {pm pm1 pm2 : PathManager} (h1 : Extends si pm pm1)
    (h2 : Extends si pm1 pm2) : Extends si pm pm2 := by
  obtain ⟨a1, a2, a3, a4, a5, a6, a7, ⟨add1, a8, a9⟩, a10⟩ := h1
  obtain ⟨b1, b2, b3, b4, b5, b6, b7, ⟨add2, b8, b9⟩, b10⟩ := h2
  refine ⟨b1.trans a1, b2.trans a2, b3.trans a3, b4.trans a4, b5.trans a5, b6.trans a6,
    b7.trans a7, ⟨add1 ++ add2, ?_, ?_⟩, fun l m h => b10 l m (a10 l m h)⟩
  · rw [b8, a8, List.append_assoc]
  · intro c hc
    rcases List.mem_append.mp hc with h | h
    · exact a9 c h
    · exact b9 c h

theorem isReplicated_of_find (am : List (String × ModuleConfigInfo)) (label : String)
    (mci : ModuleConfigInfo) (h : mapFind? am label = some mci) :
    isReplicated am label = decide (mci.moduleThreadingType_ = ModuleThreadingType.replicated) := by
  unfold isReplicated
  rw [h]

theorem fillWorker_spec (f : ModuleFactory) (si : Nat) (wci : WorkerInPath.ConfigInfo)
    (mci : ModuleConfigInfo) (st : FillState)
    (hcfg : mapFind? st.pm.allModules_ wci.label = some mci)
    (hmm : f.make_module wci.label si = MakeResult.made)
    (hmw : f.make_worker_from_module wci.label si = MakeResult.made)
    (hgood : WorkersAgree si st.workers st.pm) (hmods : ModulesAgree st.pm) :
    ∃ st1, fillWorker f si st wci = Except.ok st1 ∧
      WorkersAgree si st1.workers st1.pm ∧ ModulesAgree st1.pm ∧ Extends si st.pm st1.pm ∧
      st1.configErrMsgs = st.configErrMsgs ∧
      (∃ w, mapFind? st1.workers wci.label = some (some w) ∧
        st1.wips = st.wips ++ [{ worker := some w, filterAction := wci.filterAction }]) ∧
      (∀ l, l ≠ wci.label → mapFind? st1.workers l = mapFind? st.workers l) ∧
      (∀ v, mapFind? st.workers wci.label = some v → mapFind? st1.workers wci.label = some v) ∧
      ((st.workers.map Prod.fst).Nodup → (st1.workers.map Prod.fst).Nodup) := by
  have hrep := isReplicated_of_find _ _ _ hcfg
  obtain ⟨hI1, hI2, hI6⟩ := hgood
  unfold fillWorker
  rw [hcfg]
  simp only
  cases hw : mapFind? st.workers wci.label with
  | some v =>
    obtain ⟨w, hv, _⟩ := hI1 _ _ hw
    subst hv
    simp only [Option.join]
    have hsame : mapEmplace wci.label (some w) st.workers = st.workers :=
      mapEmplace_old _ _ _ _ hw
    refine ⟨_, rfl, ?_, hmods, extends_refl _ _, rfl, ⟨w, ?_, rfl⟩, ?_, ?_, ?_⟩
    · simp only [enterWorker, hsame]
      exact ⟨hI1, hI2, hI6⟩
    · simp only [enterWorker, hsame]
      exact hw
    · intro l _
      simp only [enterWorker, hsame]
    · intro v hv
      simp only [enterWorker, hsame]
      rw [hw]
      exact hv
    · intro h
      simp only [enterWorker, hsame]
      exact h
  | none =>
    simp only [Option.join]
    cases hmod : (if mci.moduleThreadingType_ ≠ ModuleThreadingType.replicated then
        mapFind? st.pm.moduleSet_ wci.label else none) with
    | some m =>
      simp only
      have hnr : mci.moduleThreadingType_ ≠ ModuleThreadingType.replicated := by
        intro h
        rw [if_neg (not_not.mpr h)] at hmod
        cases hmod
      rw [if_pos hnr] at hmod
      have hrf : isReplicated st.pm.allModules_ wci.label = false := by
        rw [hrep]
        exact decide_eq_false hnr
      obtain ⟨st1, h1, h2, h3, h4, h5, h6, h7, h8⟩ := makeWorker_spec f si wci mci m st hmw hw hI1 hI2
        (by
          intro l hl
          rw [hI6 l hl]
          have hne : l ≠ wci.label := by
            intro h
            rw [h, hrf] at hl
            cases hl
          simp [hne])
        ⟨(hmods.1 _ _ hmod).1, (hmods.1 _ _ hmod).2, by rw [hrf]; simpa using hmod⟩ hmods
      exact ⟨st1, h1, h2, h3, h4, h5, h6, h7, fun v hv => (by cases hv), h8⟩
    | none =>
      simp only
      rw [hmm]
      simp only
      have hfresh : isReplicated st.pm.allModules_ wci.label = false →
          mapFind? st.pm.moduleSet_ wci.label = none := by
        intro hrf
        rw [hrep] at hrf
        have hnr : mci.moduleThreadingType_ ≠ ModuleThreadingType.replicated :=
          of_decide_eq_false hrf
        rw [if_pos hnr] at hmod
        exact hmod
      obtain ⟨st1, h1, h2, h3, h4, h5, h6, h7, h8⟩ := makeWorker_spec f si wci mci
        { id := st.pm.constructed.length, module_label := wci.label, scheduleID := si }
        { st with
          pm := { st.pm with
            moduleSet_ := mapEmplace wci.label
              { id := st.pm.constructed.length, module_label := wci.label, scheduleID := si }
              st.pm.moduleSet_,
            constructed := st.pm.constructed ++
              [Construction.module
                { id := st.pm.constructed.length, module_label := wci.label,
                  scheduleID := si }] } }
        hmw hw
        (by
          intro l v hl
          obtain ⟨w, a1, a2, a3, a4, a5, a6, a7⟩ := hI1 l v hl
          have hne : l ≠ wci.label := by
            intro h
            rw [h, hw] at hl
            cases hl
          refine ⟨w, a1, a2, a3, by simp [a4], by simp [a5], a6, ?_⟩
          simp only [mapFind?_mapEmplace_ne _ _ _ _ hne]
          exact a7)
        (by
          intro l
          simp only [List.countP_append, hI2 l]
          simp [Construction.isWorkerFor])
        (by
          intro l hl
          simp only [List.countP_append, hI6 l hl]
          by_cases hne : l = wci.label
          · subst hne
            rw [hw]
            simp [Construction.isModuleFor]
          · have hne2 : ¬ (wci.label = l) := fun h => hne h.symm
            simp [Construction.isModuleFor, hne, hne2])
        ⟨by simp, rfl, by
          cases hrf : isReplicated st.pm.allModules_ wci.label with
          | true => simp
          | false =>
            simp only [Bool.false_eq_true, if_false]
            exact mapFind?_mapEmplace_new _ _ _ (hfresh hrf)⟩
        ⟨by
          intro l m1 hl
          by_cases hne : l = wci.label
          · subst hne
            cases hold : mapFind? st.pm.moduleSet_ wci.label with
            | some old =>
              simp only [mapEmplace_old _ _ _ _ hold] at hl
              obtain ⟨b1, b2⟩ := hmods.1 _ _ hl
              exact ⟨by simp [b1], b2⟩
            | none =>
              simp only [mapFind?_mapEmplace_new _ _ _ hold] at hl
              cases hl
              exact ⟨by simp, rfl⟩
          · simp only [mapFind?_mapEmplace_ne _ _ _ _ hne] at hl
            obtain ⟨b1, b2⟩ := hmods.1 _ _ hl
            exact ⟨by simp [b1], b2⟩, by
          intro l hl
          simp only [List.countP_append, hmods.2 l hl]
          by_cases hne : l = wci.label
          · subst hne
            rw [hfresh hl]
            simp only [mapFind?_mapEmplace_new _ _ _ (hfresh hl)]
            simp [Construction.isModuleOf]
          · have hne2 : ¬ (wci.label = l) := fun h => hne h.symm
            simp only [mapFind?_mapEmplace_ne _ _ _ _ hne]
            simp [Construction.isModuleOf, hne2]⟩
      refine ⟨st1, h1, h2, h3, extends_trans ?_ h4, h5, h6, h7, fun v hv => (by cases hv), h8⟩
      refine ⟨rfl, rfl, rfl, rfl, rfl, rfl, rfl, ⟨_, rfl, by simp [Construction.scheduleID]⟩, ?_⟩
      intro l m1 hl
      by_cases hne : l = wci.label
      · subst hne
        simp only [mapEmplace_old _ _ _ _ hl]
        exact hl
      · simp only [mapFind?_mapEmplace_ne _ _ _ _ hne]
        exact hl

end PathManager

end art

namespace art

namespace PathManager

theorem wipsFor_congr (w1 w2 : List (String × Option Worker))
    (wci_list : List WorkerInPath.ConfigInfo)
    (hin : ∀ c ∈ wci_list, ∃ w, mapFind? w1 c.label = some (some w))
    (hst : ∀ l v, mapFind? w1 l = some v → mapFind? w2 l = some v) :
    wipsFor w1 wci_list = wipsFor w2 wci_list := by
  unfold wipsFor
  apply List.map_congr_left
  intro c hc
  obtain ⟨w, hw⟩ := hin c hc
  rw [hw, hst _ _ hw]

theorem fillWorkersLoop_spec (f : ModuleFactory) (si : Nat)
    (wci_list : List WorkerInPath.ConfigInfo) (st : FillState)
    (hcfg : ∀ c ∈ wci_list, (mapFind? st.pm.allModules_ c.label).isSome = true)
    (hmade : ∀ c ∈ wci_list, f.make_module c.label si = MakeResult.made ∧
      f.make_worker_from_module c.label si = MakeResult.made)
    (hgood : WorkersAgree si st.workers st.pm) (hmods : ModulesAgree st.pm) :
    ∃ st1, fillWorkersLoop f si wci_list st = Except.ok st1 ∧
      WorkersAgree si st1.workers st1.pm ∧ ModulesAgree st1.pm ∧ Extends si st.pm st1.pm ∧
      st1.configErrMsgs = st.configErrMsgs ∧
      st1.wips = st.wips ++ wipsFor st1.workers wci_list ∧
      (∀ c ∈ wci_list, ∃ w, mapFind? st1.workers c.label = some (some w)) ∧
      (∀ l v, mapFind? st.workers l = some v → mapFind? st1.workers l = some v) ∧
      (∀ l, (mapFind? st1.workers l).isSome = true ↔
        ((mapFind? st.workers l).isSome = true ∨
          l ∈ wci_list.map WorkerInPath.ConfigInfo.label)) ∧
      ((st.workers.map Prod.fst).Nodup → (st1.workers.map Prod.fst).Nodup) := by
  induction wci_list generalizing st with
  | nil =>
    exact ⟨st, rfl, hgood, hmods, extends_refl _ _, rfl, by simp [wipsFor],
      fun c hc => absurd hc (List.not_mem_nil c), fun _ _ h => h, by simp, fun h => h⟩
  | cons c rest ih =>
    obtain ⟨mci, hmci⟩ := Option.isSome_iff_exists.mp (hcfg c (List.mem_cons_self _ _))
    obtain ⟨hmm, hmw⟩ := hmade c (List.mem_cons_self _ _)
    obtain ⟨st1, h1, h2, h3, h4, h5, ⟨w, h6, h6w⟩, h7, h8, h9⟩ :=
      fillWorker_spec f si c mci st hmci hmm hmw hgood hmods
    have hst1 : ∀ l v, mapFind? st.workers l = some v → mapFind? st1.workers l = some v := by
      intro l v hl
      by_cases hne : l = c.label
      · subst hne
        exact h8 v hl
      · rw [h7 l hne]
        exact hl
    obtain ⟨st2, g1, g2, g3, g4, g5, g6, g7, g8, g9, g10⟩ := ih st1
      (fun x hx => by rw [h4.1]; exact hcfg x (List.mem_cons_of_mem _ hx))
      (fun x hx => hmade x (List.mem_cons_of_mem _ hx)) h2 h3
    rw [fillWorkersLoop, h1]
    refine ⟨st2, g1, g2, g3, extends_trans h4 g4, g5.trans h5, ?_, ?_, ?_, ?_, ?_⟩
    · rw [g6, h6w]
      simp only [wipsFor, List.map_cons, List.append_assoc, List.singleton_append]
      rw [g8 _ _ h6]
      rfl
    · intro x hx
      rcases List.mem_cons.mp hx with hxc | hxr
      · subst hxc
        exact ⟨w, g8 _ _ h6⟩
      · exact g7 x hxr
    · intro l v hl
      exact g8 l v (hst1 l v hl)
    · intro l
      rw [g9 l]
      simp only [List.map_cons, List.mem_cons]
      by_cases hne : l = c.label
      · subst hne
        simp [h6]
      · rw [h7 l hne]
        simp [hne]
    · intro h
      exact g10 (h9 h)

theorem fillWorkers__spec (f : ModuleFactory) (si : Nat)
    (wci_list : List WorkerInPath.ConfigInfo) (workers : List (String × Option Worker))
    (pm : PathManager)
    (hcfg : ∀ c ∈ wci_list, (mapFind? pm.allModules_ c.label).isSome = true)
    (hmade : ∀ c ∈ wci_list, f.make_module c.label si = MakeResult.made ∧
      f.make_worker_from_module c.label si = MakeResult.made)
    (hgood : WorkersAgree si workers pm) (hmods : ModulesAgree pm) :
    ∃ workers1 pm1, fillWorkers_ f si wci_list [] workers pm =
        Except.ok (wipsFor workers1 wci_list, workers1, pm1) ∧
      WorkersAgree si workers1 pm1 ∧ ModulesAgree pm1 ∧ Extends si pm pm1 ∧
      (∀ c ∈ wci_list, ∃ w, mapFind? workers1 c.label = some (some w)) ∧
      (∀ l v, mapFind? workers l = some v → mapFind? workers1 l = some v) ∧
      (∀ l, (mapFind? workers1 l).isSome = true ↔
        ((mapFind? workers l).isSome = true ∨
          l ∈ wci_list.map WorkerInPath.ConfigInfo.label)) ∧
      ((workers.map Prod.fst).Nodup → (workers1.map Prod.fst).Nodup) := by
  obtain ⟨st1, g1, g2, g3, g4, g5, g6, g7, g8, g9, g10⟩ := fillWorkersLoop_spec f si wci_list
    { configErrMsgs := [], wips := [], workers := workers, pm := pm } hcfg hmade hgood hmods
  unfold fillWorkers_
  rw [g1]
  simp only at g5 g6
  simp only [g5, List.isEmpty_nil, Bool.not_true, Bool.false_eq_true, if_false]
  rw [g6, List.nil_append]
  exact ⟨st1.workers, st1.pm, rfl, g2, g3, g4, g7, g8, g9, g10⟩

end PathManager

end art

namespace art

namespace PathManager

theorem makeTriggerPaths_spec (f : ModuleFactory) (si : Nat)
    (paths : List (String × List WorkerInPath.ConfigInfo)) (bitPos : Nat) (pinfo : PathsInfo)
    (pm : PathManager)
    (hcfg : ∀ p ∈ paths, ∀ c ∈ p.2, (mapFind? pm.allModules_ c.label).isSome = true)
    (hmade : ∀ p ∈ paths, ∀ c ∈ p.2, f.make_module c.label si = MakeResult.made ∧
      f.make_worker_from_module c.label si = MakeResult.made)
    (hgood : WorkersAgree si pinfo.workers pm) (hmods : ModulesAgree pm) :
    ∃ pinfo1 pm1, makeTriggerPaths f si paths bitPos pinfo pm = Except.ok (pinfo1, pm1) ∧
      WorkersAgree si pinfo1.workers pm1 ∧ ModulesAgree pm1 ∧ Extends si pm pm1 ∧
      pinfo1.pathResults = pinfo.pathResults ∧
      pinfo1.paths = pinfo.paths ++ pathsFor si pinfo1.workers bitPos paths ∧
      (∀ l v, mapFind? pinfo.workers l = some v → mapFind? pinfo1.workers l = some v) ∧
      (∀ l, (mapFind? pinfo1.workers l).isSome = true ↔
        ((mapFind? pinfo.workers l).isSome = true ∨
          l ∈ paths.flatMap fun p => p.2.map WorkerInPath.ConfigInfo.label)) ∧
      ((pinfo.workers.map Prod.fst).Nodup → (pinfo1.workers.map Prod.fst).Nodup) := by
  induction paths generalizing bitPos pinfo pm with
  | nil =>
    exact ⟨pinfo, pm, rfl, hgood, hmods, extends_refl _ _, rfl, by simp [pathsFor],
      fun _ _ h => h, by simp, fun h => h⟩
  | cons p rest ih =>
    obtain ⟨path_name, infos⟩ := p
    obtain ⟨workers1, pm1, h1, h2, h3, h4, h5, h6, h7, h8⟩ := fillWorkers__spec f si infos
      pinfo.workers pm (hcfg _ (List.mem_cons_self _ _)) (hmade _ (List.mem_cons_self _ _))
      hgood hmods
    obtain ⟨pinfo2, pm2, g1, g2, g3, g4, g5, g6, g7, g8, g9⟩ := ih (bitPos + 1)
      { pinfo with
        workers := workers1,
        paths := pinfo.paths ++
          [{ scheduleID := si, bitPosition := bitPos, isEndPath := false, name := path_name,
             workers := wipsFor workers1 infos }] }
      pm1
      (fun q hq c hc => by rw [h4.1]; exact hcfg q (List.mem_cons_of_mem _ hq) c hc)
      (fun q hq => hmade q (List.mem_cons_of_mem _ hq)) h2 h3
    rw [makeTriggerPaths, h1]
    refine ⟨pinfo2, pm2, g1, g2, g3, extends_trans h4 g4, g5, ?_, ?_, ?_, ?_⟩
    · rw [g6]
      simp only [pathsFor, List.append_assoc, List.singleton_append]
      rw [wipsFor_congr workers1 pinfo2.workers infos h5 g7]
    · intro l v hl
      exact g7 l v (h6 l v hl)
    · intro l
      rw [g8 l]
      simp only [h7 l, List.flatMap_cons, List.mem_append]
      exact or_assoc
    · intro h
      exact g9 (h8 h)

theorem WorkersAgree.of_extends {si sj : Nat} {workers : List (String × Option Worker)}
    {pm pm1 : PathManager} (h : WorkersAgree sj workers pm) (hext : Extends si pm pm1)
    (hne : si ≠ sj) : WorkersAgree sj workers pm1 := by
  obtain ⟨a1, _, _, _, _, _, _, ⟨added, a8, a9⟩, a10⟩ := hext
  obtain ⟨h1, h2, h3⟩ := h
  have hw0 : ∀ l, added.countP (Construction.isWorkerFor l sj) = 0 := by
    intro l
    apply List.countP_eq_zero.mpr
    intro c hc
    have hs := a9 c hc
    cases c with
    | module m => simp [Construction.isWorkerFor]
    | worker w =>
      simp only [Construction.scheduleID] at hs
      simp only [Construction.isWorkerFor, Bool.and_eq_true, decide_eq_true_eq, not_and]
      intro _ h
      exact hne (hs.symm.trans h)
  have hm0 : ∀ l, added.countP (Construction.isModuleFor l sj) = 0 := by
    intro l
    apply List.countP_eq_zero.mpr
    intro c hc
    have hs := a9 c hc
    cases c with
    | worker w => simp [Construction.isModuleFor]
    | module m =>
      simp only [Construction.scheduleID] at hs
      simp only [Construction.isModuleFor, Bool.and_eq_true, decide_eq_true_eq, not_and]
      intro _ h
      exact hne (hs.symm.trans h)
  refine ⟨?_, ?_, ?_⟩
  · intro l v hl
    obtain ⟨w, b1, b2, b3, b4, b5, b6, b7⟩ := h1 l v hl
    refine ⟨w, b1, b2, b3, ?_, ?_, b6, ?_⟩
    · rw [a8]
      exact List.mem_append_left _ b4
    · rw [a8]
      exact List.mem_append_left _ b5
    · rw [a1]
      cases hr : isReplicated pm.allModules_ l with
      | true =>
        rw [hr] at b7
        simpa using b7
      | false =>
        rw [hr] at b7
        simp only [Bool.false_eq_true, if_false] at b7 ⊢
        exact a10 _ _ b7
  · intro l
    rw [a8, List.countP_append, hw0 l, h2 l]
    rfl
  · intro l hl
    rw [a1] at hl
    rw [a8, List.countP_append, hm0 l, h3 l hl]
    rfl

end PathManager

end art

namespace art

namespace PathManager

theorem WorkersAgree.nil (si : Nat) (pm : PathManager)
    (h : ∀ c ∈ pm.constructed, Construction.scheduleID c < si) : WorkersAgree si [] pm := by
  refine ⟨?_, ?_, ?_⟩
  · intro l v hl
    simp [mapFind?] at hl
  · intro l
    simp only [mapFind?, Option.isSome_none, Bool.false_eq_true, if_false]
    apply List.countP_eq_zero.mpr
    intro c hc
    have hs := h c hc
    cases c with
    | module m => simp [Construction.isWorkerFor]
    | worker w =>
      simp only [Construction.scheduleID] at hs
      simp only [Construction.isWorkerFor, Bool.and_eq_true, decide_eq_true_eq, not_and]
      intro _ h1
      omega
  · intro l _
    simp only [mapFind?, Option.isSome_none, Bool.false_eq_true, if_false]
    apply List.countP_eq_zero.mpr
    intro c hc
    have hs := h c hc
    cases c with
    | worker w => simp [Construction.isModuleFor]
    | module m =>
      simp only [Construction.scheduleID] at hs
      simp only [Construction.isModuleFor, Bool.and_eq_true, decide_eq_true_eq, not_and]
      intro _ h1
      omega

theorem fillSchedule_spec (f : ModuleFactory) (pm : PathManager) (k : Nat)
    (hk : k < pm.nschedules)
    (hcfg : ∀ p ∈ pm.protoTrigPathLabelMap_, ∀ c ∈ p.2,
      (mapFind? pm.allModules_ c.label).isSome = true)
    (hmade : ∀ p ∈ pm.protoTrigPathLabelMap_, ∀ c ∈ p.2, ∀ si,
      f.make_module c.label si = MakeResult.made ∧
      f.make_worker_from_module c.label si = MakeResult.made)
    (hdone : SchedulesDone k pm) :
    ∃ pm1, fillSchedule f pm k = Except.ok pm1 ∧ SchedulesDone (k + 1) pm1 ∧
      pm1.allModules_ = pm.allModules_ ∧
      pm1.protoTrigPathLabelMap_ = pm.protoTrigPathLabelMap_ ∧
      pm1.protoEndPathLabels_ = pm.protoEndPathLabels_ ∧ pm1.nschedules = pm.nschedules ∧
      pm1.triggerPathNames_ = pm.triggerPathNames_ ∧ pm1.endPathInfo_ = pm.endPathInfo_ := by
  obtain ⟨hmods, hlog, hprev, hempty, hlen⟩ := hdone
  have hget : pm.triggerPathsInfo_[k]? = some PathsInfo.empty := hempty k (Nat.le_refl k) hk
  have hgetD : pm.triggerPathsInfo_.getD k PathsInfo.empty = PathsInfo.empty := by
    rw [List.getD_eq_getElem?_getD, hget]
    rfl
  obtain ⟨pinfo1, pm1, h1, h2, h3, h4, h5, h6, h7, h8, h9⟩ := makeTriggerPaths_spec f k
    pm.protoTrigPathLabelMap_ 0
    { workers := [], paths := [], pathResults := pm.triggerPathNames_.length } pm hcfg
    (fun p hp c hc => hmade p hp c hc k) (WorkersAgree.nil k pm hlog) hmods
  obtain ⟨a1, a2, a3, a4, a5, a6, a7, ⟨added, a8, a9⟩, a10⟩ := h4
  unfold fillSchedule
  rw [hgetD]
  simp only [PathsInfo.empty]
  rw [h1]
  simp only at h5 h6 h8 h9
  refine ⟨_, rfl, ⟨h3, ?_, ?_, ?_, ?_⟩, a1, a2, a3, a4, a5, a7⟩
  · intro c hc
    change c ∈ pm1.constructed at hc
    rw [a8] at hc
    rcases List.mem_append.mp hc with h | h
    · exact Nat.lt_succ_of_lt (hlog c h)
    · rw [a9 c h]
      exact Nat.lt_succ_self k
  · intro sj hsj
    by_cases hjk : sj = k
    · subst hjk
      refine ⟨pinfo1, ?_, h2, ?_, h9 (by simp), ?_, ?_⟩
      · change (pm1.triggerPathsInfo_.set sj pinfo1)[sj]? = some pinfo1
        rw [List.getElem?_set_self (by rw [a6, hlen]; exact hk)]
      · change pinfo1.paths = pathsFor sj pinfo1.workers 0 pm1.protoTrigPathLabelMap_
        rw [h6, a2]
        simp
      · intro l
        rw [h8 l]
        change _ ↔ l ∈ triggerLabels pm1
        unfold triggerLabels
        rw [a2]
        simp [mapFind?]
      · change pinfo1.pathResults = pm1.triggerPathNames_.length
        rw [h5, a5]
    · have hlt : sj < k := by omega
      obtain ⟨pinfo, b1, b2, b3, b4, b5, b6⟩ := hprev sj hlt
      refine ⟨pinfo, ?_, ?_, ?_, b4, ?_, ?_⟩
      · change (pm1.triggerPathsInfo_.set k pinfo1)[sj]? = some pinfo
        rw [List.getElem?_set_ne (fun h => hjk h.symm), a6]
        exact b1
      · have hb : WorkersAgree sj pinfo.workers pm1 := WorkersAgree.of_extends b2
          ⟨a1, a2, a3, a4, a5, a6, a7, ⟨added, a8, a9⟩, a10⟩ (fun h => hjk h.symm)
        exact hb
      · change pinfo.paths = pathsFor sj pinfo.workers 0 pm1.protoTrigPathLabelMap_
        rw [a2]
        exact b3
      · intro l
        rw [b5 l]
        change _ ↔ l ∈ triggerLabels pm1
        unfold triggerLabels
        rw [a2]
      · change pinfo.pathResults = pm1.triggerPathNames_.length
        rw [a5]
        exact b6
  · intro sj hsj hlt
    change (pm1.triggerPathsInfo_.set k pinfo1)[sj]? = some PathsInfo.empty
    rw [List.getElem?_set_ne (by omega), a6]
    exact hempty sj (by omega) (by rw [← a4]; exact hlt)
  · change (pm1.triggerPathsInfo_.set k pinfo1).length = pm1.nschedules
    rw [List.length_set, a6, a4]
    exact hlen

end PathManager

end art

namespace art

namespace PathManager

theorem fillSchedules_spec (f : ModuleFactory) (m k : Nat) (pm : PathManager)
    (hkm : k + m = pm.nschedules)
    (hcfg : ∀ p ∈ pm.protoTrigPathLabelMap_, ∀ c ∈ p.2,
      (mapFind? pm.allModules_ c.label).isSome = true)
    (hmade : ∀ p ∈ pm.protoTrigPathLabelMap_, ∀ c ∈ p.2, ∀ si,
      f.make_module c.label si = MakeResult.made ∧
      f.make_worker_from_module c.label si = MakeResult.made)
    (hdone : SchedulesDone k pm) :
    ∃ pm1, fillSchedules f (List.range' k m) pm = Except.ok pm1 ∧ SchedulesDone (k + m) pm1 ∧
      pm1.allModules_ = pm.allModules_ ∧
      pm1.protoTrigPathLabelMap_ = pm.protoTrigPathLabelMap_ ∧
      pm1.protoEndPathLabels_ = pm.protoEndPathLabels_ ∧ pm1.nschedules = pm.nschedules ∧
      pm1.triggerPathNames_ = pm.triggerPathNames_ ∧ pm1.endPathInfo_ = pm.endPathInfo_ := by
  induction m generalizing k pm with
  | zero => exact ⟨pm, rfl, hdone, rfl, rfl, rfl, rfl, rfl, rfl⟩
  | succ m ih =>
    obtain ⟨pm1, h1, h2, a1, a2, a3, a4, a5, a6⟩ := fillSchedule_spec f pm k (by omega) hcfg hmade
      hdone
    obtain ⟨pm2, g1, g2, b1, b2, b3, b4, b5, b6⟩ := ih (k + 1) pm1 (by omega)
      (by rw [a1, a2]; exact hcfg) (by rw [a2]; exact hmade) h2
    rw [List.range'_succ, fillSchedules, h1]
    refine ⟨pm2, g1, ?_, b1.trans a1, b2.trans a2, b3.trans a3, b4.trans a4, b5.trans a5,
      b6.trans a6⟩
    have : k + (m + 1) = k + 1 + m := by omega
    rw [this]
    exact g2

theorem SchedulesDone.fresh (pm : PathManager) (h1 : pm.constructed = [])
    (h2 : pm.moduleSet_ = [])
    (h3 : pm.triggerPathsInfo_ = List.replicate pm.nschedules PathsInfo.empty) :
    SchedulesDone 0 pm := by
  refine ⟨⟨?_, ?_⟩, ?_, ?_, ?_, ?_⟩
  · intro l m hl
    rw [h2] at hl
    simp [mapFind?] at hl
  · intro l _
    rw [h1, h2]
    simp [mapFind?]
  · intro c hc
    rw [h1] at hc
    exact absurd hc (List.not_mem_nil c)
  · intro sj hsj
    exact absurd hsj (Nat.not_lt_zero sj)
  · intro sj _ hlt
    rw [h3, List.getElem?_replicate]
    simp [hlt]
  · rw [h3, List.length_replicate]

theorem createTriggerPaths_spec (f : ModuleFactory) (pm : PathManager)
    (h1 : pm.constructed = []) (h2 : pm.moduleSet_ = [])
    (h3 : pm.triggerPathsInfo_ = List.replicate pm.nschedules PathsInfo.empty)
    (hcfg : ∀ l ∈ triggerLabels pm, (mapFind? pm.allModules_ l).isSome = true)
    (hmade : ∀ l ∈ triggerLabels pm, ∀ si, f.make_module l si = MakeResult.made ∧
      f.make_worker_from_module l si = MakeResult.made) :
    ∃ pm1, createTriggerPaths f pm = Except.ok pm1 ∧ SchedulesDone pm.nschedules pm1 ∧
      pm1.allModules_ = pm.allModules_ ∧
      pm1.protoTrigPathLabelMap_ = pm.protoTrigPathLabelMap_ ∧
      pm1.protoEndPathLabels_ = pm.protoEndPathLabels_ ∧ pm1.nschedules = pm.nschedules ∧
      pm1.triggerPathNames_ = pm.triggerPathNames_ ∧ pm1.endPathInfo_ = pm.endPathInfo_ := by
  have hmem : ∀ p ∈ pm.protoTrigPathLabelMap_, ∀ c ∈ p.2, c.label ∈ triggerLabels pm := by
    intro p hp c hc
    unfold triggerLabels
    exact List.mem_flatMap.mpr ⟨p, hp, List.mem_map.mpr ⟨c, hc, rfl⟩⟩
  obtain ⟨pm1, g1, g2, g3⟩ := fillSchedules_spec f pm.nschedules 0 pm (by omega)
    (fun p hp c hc => hcfg _ (hmem p hp c hc)) (fun p hp c hc => hmade _ (hmem p hp c hc))
    (SchedulesDone.fresh pm h1 h2 h3)
  unfold createTriggerPaths
  rw [List.range_eq_range']
  rw [Nat.zero_add] at g2
  exact ⟨pm1, g1, g2, g3⟩

end PathManager

end art

namespace art

namespace PathManager

/-- C16: from the state the constructor leaves, with every label on the
trigger paths configured and all module libraries making their modules and
workers, the block of `createModulesAndWorkers()` that makes the trigger paths
ends, and for every schedule: the paths of the schedule give every occurrence
of a label the worker that the map of workers of the schedule holds for it; the
map has exactly one entry per distinct label on the trigger paths; that worker
has been constructed once for the label and the schedule; the module of the
worker is, for a module that is not replicated, the one module constructed for
the label (the entry of `moduleSet_`, the same for all schedules), and, for a
replicated module, the one module constructed for the label and the
schedule. -/
theorem workers_and_modules_made_once (f : ModuleFactory) (pm : PathManager)
    (hlog : pm.constructed = []) (hset : pm.moduleSet_ = [])
    (hinfo : pm.triggerPathsInfo_ = List.replicate pm.nschedules PathsInfo.empty)
    (hcfg : ∀ l ∈ triggerLabels pm, (mapFind? pm.allModules_ l).isSome = true)
    (hmade : ∀ l ∈ triggerLabels pm, ∀ si, f.make_module l si = MakeResult.made ∧
      f.make_worker_from_module l si = MakeResult.made) :
    ∃ pm1, createTriggerPaths f pm = Except.ok pm1 ∧
      ∀ si, si < pm.nschedules →
        ∃ pinfo, pm1.triggerPathsInfo_[si]? = some pinfo ∧
          pinfo.paths = pathsFor si pinfo.workers 0 pm.protoTrigPathLabelMap_ ∧
          (pinfo.workers.map Prod.fst).Nodup ∧
          (∀ l, l ∈ pinfo.workers.map Prod.fst ↔ l ∈ triggerLabels pm) ∧
          ∀ l ∈ triggerLabels pm,
            ∃ w, mapFind? pinfo.workers l = some (some w) ∧
              w.module_label = l ∧ w.scheduleID = si ∧
              Construction.worker w ∈ pm1.constructed ∧
              pm1.constructed.countP (Construction.isWorkerFor l si) = 1 ∧
              Construction.module w.module ∈ pm1.constructed ∧
              (if isReplicated pm.allModules_ l then
                w.module.scheduleID = si ∧
                  pm1.constructed.countP (Construction.isModuleFor l si) = 1
              else
                mapFind? pm1.moduleSet_ l = some w.module ∧
                  pm1.constructed.countP (Construction.isModuleOf l) = 1) := by
  obtain ⟨pm1, h1, ⟨hmods, _, hdone, _, _⟩, a1, a2, _⟩ :=
    createTriggerPaths_spec f pm hlog hset hinfo hcfg hmade
  have hlabels : triggerLabels pm1 = triggerLabels pm := by
    unfold triggerLabels
    rw [a2]
  refine ⟨pm1, h1, ?_⟩
  intro si hsi
  obtain ⟨pinfo, b1, ⟨c1, c2, c3⟩, b3, b4, b5, _⟩ := hdone si hsi
  refine ⟨pinfo, b1, by rw [b3, a2], b4, ?_, ?_⟩
  · intro l
    rw [← mapFind?_isSome_iff, b5 l, hlabels]
  · intro l hl
    have hsome : (mapFind? pinfo.workers l).isSome = true := (b5 l).mpr (by rw [hlabels]; exact hl)
    obtain ⟨v, hv⟩ := Option.isSome_iff_exists.mp hsome
    obtain ⟨w, d1, d2, d3, d4, d5, d6, d7⟩ := c1 l v hv
    subst d1
    have hcount := c2 l
    rw [hsome] at hcount
    refine ⟨w, hv, d2, d3, d4, hcount, d5, ?_⟩
    rw [a1] at d7
    cases hr : isReplicated pm.allModules_ l with
    | true =>
      rw [hr] at d7
      have hc3 := c3 l (by rw [a1]; exact hr)
      rw [hsome] at hc3
      simp only [if_true] at d7 ⊢
      exact ⟨d7, hc3⟩
    | false =>
      rw [hr] at d7
      simp only [Bool.false_eq_true, if_false] at d7 ⊢
      have hm := hmods.2 l (by rw [a1]; exact hr)
      rw [d7] at hm
      exact ⟨d7, hm⟩

/-- Witness of C16: the path manager of `twoEndPaths` with two schedules, and
module libraries that make every module and worker. -/
theorem workers_and_modules_made_once_witness :
    triggerLabels samplePathManager = ["a", "f", "f", "a"] ∧
    ∃ pm1, createTriggerPaths makesAll samplePathManager = Except.ok pm1 ∧
      ∀ si, si < samplePathManager.nschedules →
        ∃ pinfo, pm1.triggerPathsInfo_[si]? = some pinfo ∧
          pinfo.paths = pathsFor si pinfo.workers 0 samplePathManager.protoTrigPathLabelMap_ ∧
          (pinfo.workers.map Prod.fst).Nodup ∧
          (∀ l, l ∈ pinfo.workers.map Prod.fst ↔ l ∈ triggerLabels samplePathManager) ∧
          ∀ l ∈ triggerLabels samplePathManager,
            ∃ w, mapFind? pinfo.workers l = some (some w) ∧
              w.module_label = l ∧ w.scheduleID = si ∧
              Construction.worker w ∈ pm1.constructed ∧
              pm1.constructed.countP (Construction.isWorkerFor l si) = 1 ∧
              Construction.module w.module ∈ pm1.constructed ∧
              (if isReplicated samplePathManager.allModules_ l then
                w.module.scheduleID = si ∧
                  pm1.constructed.countP (Construction.isModuleFor l si) = 1
              else
                mapFind? pm1.moduleSet_ l = some w.module ∧
                  pm1.constructed.countP (Construction.isModuleOf l) = 1) :=
  ⟨by decide, workers_and_modules_made_once makesAll samplePathManager (by decide) (by decide)
    (by decide) (by decide) (fun _ _ _ => ⟨rfl, rfl⟩)⟩

end PathManager

end art

/-! ## Theorems: the end path -/

namespace art

namespace PathManager

theorem makeWorker_frame (f : ModuleFactory) (si : Nat) (wci : WorkerInPath.ConfigInfo)
    (mci : ModuleConfigInfo) (m : ModuleBase) (st st1 : FillState)
    (h : makeWorker f si wci mci m st = Except.ok st1) :
    st1.pm.allModules_ = st.pm.allModules_ ∧
      st1.pm.protoEndPathLabels_ = st.pm.protoEndPathLabels_ ∧
      st1.pm.endPathInfo_ = st.pm.endPathInfo_ ∧
      st1.pm.protoTrigPathLabelMap_ = st.pm.protoTrigPathLabelMap_ ∧
      st1.pm.nschedules = st.pm.nschedules ∧
      ∃ worker, st1.wips = st.wips ++ [{ worker := worker, filterAction := wci.filterAction }] := by
  unfold makeWorker at h
  cases hm : f.make_worker_from_module wci.label si with
  | threw t =>
    rw [hm] at h
    cases h
  | invalid what =>
    rw [hm] at h
    cases h
    exact ⟨rfl, rfl, rfl, rfl, rfl, none, rfl⟩
  | made =>
    rw [hm] at h
    cases h
    exact ⟨rfl, rfl, rfl, rfl, rfl, _, rfl⟩

theorem fillWorker_frame (f : ModuleFactory) (si : Nat) (wci : WorkerInPath.ConfigInfo)
    (st st1 : FillState) (h : fillWorker f si st wci = Except.ok st1) :
    st1.pm.allModules_ = st.pm.allModules_ ∧
      st1.pm.protoEndPathLabels_ = st.pm.protoEndPathLabels_ ∧
      st1.pm.endPathInfo_ = st.pm.endPathInfo_ ∧
      st1.pm.protoTrigPathLabelMap_ = st.pm.protoTrigPathLabelMap_ ∧
      st1.pm.nschedules = st.pm.nschedules ∧
      ∃ worker, st1.wips = st.wips ++ [{ worker := worker, filterAction := wci.filterAction }] := by
  unfold fillWorker at h
  cases hc : mapFind? st.pm.allModules_ wci.label with
  | none =>
    rw [hc] at h
    cases h
  | some mci =>
    rw [hc] at h
    simp only at h
    cases hw : (mapFind? st.workers wci.label).join with
    | some w =>
      rw [hw] at h
      cases h
      exact ⟨rfl, rfl, rfl, rfl, rfl, _, rfl⟩
    | none =>
      rw [hw] at h
      simp only at h
      cases hmod : (if mci.moduleThreadingType_ ≠ ModuleThreadingType.replicated then
          mapFind? st.pm.moduleSet_ wci.label else none) with
      | some m =>
        rw [hmod] at h
        exact makeWorker_frame f si wci mci m st st1 h
      | none =>
        rw [hmod] at h
        simp only at h
        cases hm : f.make_module wci.label si with
        | threw t =>
          rw [hm] at h
          cases h
        | invalid what =>
          rw [hm] at h
          cases h
          exact ⟨rfl, rfl, rfl, rfl, rfl, none, rfl⟩
        | made =>
          rw [hm] at h
          simp only at h
          have hf := makeWorker_frame f si wci mci _ _ st1 h
          exact hf

theorem fillWorkersLoop_frame (f : ModuleFactory) (si : Nat)
    (wci_list : List WorkerInPath.ConfigInfo) (st st1 : FillState)
    (h : fillWorkersLoop f si wci_list st = Except.ok st1) :
    st1.pm.allModules_ = st.pm.allModules_ ∧
      st1.pm.protoEndPathLabels_ = st.pm.protoEndPathLabels_ ∧
      st1.pm.endPathInfo_ = st.pm.endPathInfo_ ∧
      st1.pm.protoTrigPathLabelMap_ = st.pm.protoTrigPathLabelMap_ ∧
      st1.pm.nschedules = st.pm.nschedules ∧
      ∃ more, st1.wips = st.wips ++ more ∧
        more.map WorkerInPath.filterAction = wci_list.map WorkerInPath.ConfigInfo.filterAction := by
  induction wci_list generalizing st with
  | nil =>
    cases h
    exact ⟨rfl, rfl, rfl, rfl, rfl, [], by simp, rfl⟩
  | cons c rest ih =>
    rw [fillWorkersLoop] at h
    cases h1 : fillWorker f si st c with
    | error t =>
      rw [h1] at h
      cases h
    | ok st2 =>
      rw [h1] at h
      obtain ⟨a1, a2, a3, a4, a5, w, a6⟩ := fillWorker_frame f si c st st2 h1
      obtain ⟨b1, b2, b3, b4, b5, more, b6, b7⟩ := ih st2 h
      refine ⟨b1.trans a1, b2.trans a2, b3.trans a3, b4.trans a4, b5.trans a5,
        { worker := w, filterAction := c.filterAction } :: more, ?_, ?_⟩
      · rw [b6, a6]
        simp
      · simp [b7]

theorem fillWorkers__frame (f : ModuleFactory) (si : Nat)
    (wci_list : List WorkerInPath.ConfigInfo) (workers workers1 : List (String × Option Worker))
    (wips : List WorkerInPath) (pm pm1 : PathManager)
    (h : fillWorkers_ f si wci_list [] workers pm = Except.ok (wips, workers1, pm1)) :
    pm1.allModules_ = pm.allModules_ ∧ pm1.protoEndPathLabels_ = pm.protoEndPathLabels_ ∧
      pm1.endPathInfo_ = pm.endPathInfo_ ∧
      pm1.protoTrigPathLabelMap_ = pm.protoTrigPathLabelMap_ ∧
      pm1.nschedules = pm.nschedules ∧
      wips.map WorkerInPath.filterAction = wci_list.map WorkerInPath.ConfigInfo.filterAction := by
  unfold fillWorkers_ at h
  cases h1 : fillWorkersLoop f si wci_list
      { configErrMsgs := [], wips := [], workers := workers, pm := pm } with
  | error t =>
    rw [h1] at h
    cases h
  | ok st =>
    rw [h1] at h
    simp only at h
    split at h
    · cases h
    · cases h
      obtain ⟨a1, a2, a3, a4, a5, more, a6, a7⟩ := fillWorkersLoop_frame f si wci_list _ st h1
      refine ⟨a1, a2, a3, a4, a5, ?_⟩
      rw [a6]
      simpa using a7

theorem makeTriggerPaths_frame (f : ModuleFactory) (si : Nat)
    (paths : List (String × List WorkerInPath.ConfigInfo)) (bitPos : Nat)
    (pinfo pinfo1 : PathsInfo) (pm pm1 : PathManager)
    (h : makeTriggerPaths f si paths bitPos pinfo pm = Except.ok (pinfo1, pm1)) :
    pm1.allModules_ = pm.allModules_ ∧ pm1.protoEndPathLabels_ = pm.protoEndPathLabels_ ∧
      pm1.endPathInfo_ = pm.endPathInfo_ ∧
      pm1.protoTrigPathLabelMap_ = pm.protoTrigPathLabelMap_ ∧
      pm1.nschedules = pm.nschedules := by
  induction paths generalizing bitPos pinfo pm with
  | nil =>
    cases h
    exact ⟨rfl, rfl, rfl, rfl, rfl⟩
  | cons p rest ih =>
    obtain ⟨path_name, infos⟩ := p
    rw [makeTriggerPaths] at h
    cases h1 : fillWorkers_ f si infos [] pinfo.workers pm with
    | error t =>
      rw [h1] at h
      cases h
    | ok r =>
      obtain ⟨wips, workers, pm2⟩ := r
      rw [h1] at h
      obtain ⟨a1, a2, a3, a4, a5, _⟩ := fillWorkers__frame f si infos _ _ _ _ _ h1
      obtain ⟨b1, b2, b3, b4, b5⟩ := ih _ _ _ h
      exact ⟨b1.trans a1, b2.trans a2, b3.trans a3, b4.trans a4, b5.trans a5⟩

theorem fillSchedules_frame (f : ModuleFactory) (sis : List Nat) (pm pm1 : PathManager)
    (h : fillSchedules f sis pm = Except.ok pm1) :
    pm1.allModules_ = pm.allModules_ ∧ pm1.protoEndPathLabels_ = pm.protoEndPathLabels_ ∧
      pm1.endPathInfo_ = pm.endPathInfo_ ∧
      pm1.protoTrigPathLabelMap_ = pm.protoTrigPathLabelMap_ ∧
      pm1.nschedules = pm.nschedules := by
  induction sis generalizing pm with
  | nil =>
    cases h
    exact ⟨rfl, rfl, rfl, rfl, rfl⟩
  | cons si rest ih =>
    rw [fillSchedules] at h
    cases h1 : fillSchedule f pm si with
    | error t =>
      rw [h1] at h
      cases h
    | ok pm2 =>
      rw [h1] at h
      obtain ⟨b1, b2, b3, b4, b5⟩ := ih pm2 h
      unfold fillSchedule at h1
      simp only at h1
      split at h1
      · cases h1
      · rename_i pinfo2 pm3 h2
        cases h1
        obtain ⟨a1, a2, a3, a4, a5⟩ := makeTriggerPaths_frame f si _ _ _ _ _ _ h2
        exact ⟨b1.trans a1, b2.trans a2, b3.trans a3, b4.trans a4, b5.trans a5⟩

end PathManager

end art

namespace art

namespace PathManager

theorem makeWorker_ok (f : ModuleFactory) (si : Nat) (wci : WorkerInPath.ConfigInfo)
    (mci : ModuleConfigInfo) (m : ModuleBase) (st : FillState)
    (hmw : f.make_worker_from_module wci.label si = MakeResult.made) :
    ∃ st1, makeWorker f si wci mci m st = Except.ok st1 ∧
      st1.configErrMsgs = st.configErrMsgs := by
  unfold makeWorker
  rw [hmw]
  exact ⟨_, rfl, rfl⟩

theorem fillWorker_ok (f : ModuleFactory) (si : Nat) (wci : WorkerInPath.ConfigInfo)
    (st : FillState) (hcfg : (mapFind? st.pm.allModules_ wci.label).isSome = true)
    (hmm : f.make_module wci.label si = MakeResult.made)
    (hmw : f.make_worker_from_module wci.label si = MakeResult.made) :
    ∃ st1, fillWorker f si st wci = Except.ok st1 ∧
      st1.configErrMsgs = st.configErrMsgs := by
  obtain ⟨mci, hmci⟩ := Option.isSome_iff_exists.mp hcfg
  unfold fillWorker
  rw [hmci]
  simp only
  cases hw : (mapFind? st.workers wci.label).join with
  | some w => exact ⟨_, rfl, rfl⟩
  | none =>
    simp only
    cases hmod : (if mci.moduleThreadingType_ ≠ ModuleThreadingType.replicated then
        mapFind? st.pm.moduleSet_ wci.label else none) with
    | some m => exact makeWorker_ok f si wci mci m st hmw
    | none =>
      simp only
      rw [hmm]
      simp only
      have hf := makeWorker_ok f si wci mci
        { id := st.pm.constructed.length, module_label := wci.label, scheduleID := si }
        { st with
          pm := { st.pm with
            moduleSet_ := mapEmplace wci.label
              { id := st.pm.constructed.length, module_label := wci.label, scheduleID := si }
              st.pm.moduleSet_,
            constructed := st.pm.constructed ++
              [Construction.module
                { id := st.pm.constructed.length, module_label := wci.label,
                  scheduleID := si }] } } hmw
      exact hf

theorem fillWorkersLoop_ok (f : ModuleFactory) (si : Nat)
    (wci_list : List WorkerInPath.ConfigInfo) (st : FillState)
    (hcfg : ∀ c ∈ wci_list, (mapFind? st.pm.allModules_ c.label).isSome = true)
    (hmade : ∀ c ∈ wci_list, f.make_module c.label si = MakeResult.made ∧
      f.make_worker_from_module c.label si = MakeResult.made) :
    ∃ st1, fillWorkersLoop f si wci_list st = Except.ok st1 ∧
      st1.configErrMsgs = st.configErrMsgs := by
  induction wci_list generalizing st with
  | nil => exact ⟨st, rfl, rfl⟩
  | cons c rest ih =>
    obtain ⟨st1, h1, h2⟩ := fillWorker_ok f si c st (hcfg c (List.mem_cons_self _ _))
      (hmade c (List.mem_cons_self _ _)).1 (hmade c (List.mem_cons_self _ _)).2
    obtain ⟨a1, _⟩ := fillWorker_frame f si c st st1 h1
    obtain ⟨st2, g1, g2⟩ := ih st1
      (fun x hx => by rw [a1]; exact hcfg x (List.mem_cons_of_mem _ hx))
      (fun x hx => hmade x (List.mem_cons_of_mem _ hx))
    rw [fillWorkersLoop, h1]
    exact ⟨st2, g1, g2.trans h2⟩

theorem createEndPath_ok (f : ModuleFactory) (pm : PathManager)
    (hcfg : ∀ c ∈ pm.protoEndPathLabels_, (mapFind? pm.allModules_ c.label).isSome = true)
    (hmade : ∀ c ∈ pm.protoEndPathLabels_, f.make_module c.label 0 = MakeResult.made ∧
      f.make_worker_from_module c.label 0 = MakeResult.made) :
    ∃ pm1, createEndPath f pm = Except.ok pm1 := by
  unfold createEndPath
  cases hl : pm.protoEndPathLabels_ with
  | nil => exact ⟨pm, rfl⟩
  | cons c rest =>
    obtain ⟨st1, h1, h2⟩ := fillWorkersLoop_ok f 0 pm.protoEndPathLabels_
      { configErrMsgs := [], wips := [], workers := pm.endPathInfo_.workers, pm := pm } hcfg hmade
    rw [hl] at h1
    simp only [List.isEmpty_cons, Bool.not_false, if_true]
    unfold fillWorkers_
    rw [h1]
    simp only at h2
    simp only [h2, List.isEmpty_nil, Bool.not_true, Bool.false_eq_true, if_false]
    exact Exists.intro _ rfl

theorem createEndPath_paths (f : ModuleFactory) (pm pm1 : PathManager)
    (h : createEndPath f pm = Except.ok pm1) :
    (pm.protoEndPathLabels_ = [] → pm1.endPathInfo_.paths = pm.endPathInfo_.paths) ∧
      (pm.protoEndPathLabels_ ≠ [] →
        ∃ wips, pm1.endPathInfo_.paths = pm.endPathInfo_.paths ++
            [{ scheduleID := 0, bitPosition := 0, isEndPath := true, name := "end_path",
               workers := wips }] ∧
          wips.map WorkerInPath.filterAction =
            pm.protoEndPathLabels_.map WorkerInPath.ConfigInfo.filterAction) := by
  unfold createEndPath at h
  cases hl : pm.protoEndPathLabels_ with
  | nil =>
    rw [hl] at h
    simp only [List.isEmpty_nil, Bool.not_true, Bool.false_eq_true, if_false] at h
    cases h
    exact ⟨fun _ => rfl, fun hne => absurd rfl hne⟩
  | cons c rest =>
    rw [hl] at h
    simp only [List.isEmpty_cons, Bool.not_false, if_true] at h
    refine ⟨fun hnil => (by cases hnil), fun _ => ?_⟩
    cases h1 : fillWorkers_ f 0 (c :: rest) [] pm.endPathInfo_.workers pm with
    | error t =>
      rw [h1] at h
      cases h
    | ok r =>
      obtain ⟨wips, workers, pm2⟩ := r
      rw [h1] at h
      cases h
      obtain ⟨_, _, a3, _, _, a6⟩ := fillWorkers__frame f 0 (c :: rest) _ _ _ _ _ h1
      exact ⟨wips, by simp [a3], a6⟩

end PathManager

end art

namespace art

theorem pathEndLabels_of_no_violations (ps : ProcessParameters)
    (am : List (String × ModuleConfigInfo)) (name : String)
    (h : pathViolations am (pathsConfig ps.trigger_paths) (pathsConfig ps.end_paths) name
      (pathOf ps name) = []) :
    pathEndLabels am (pathsConfig ps.trigger_paths) (pathsConfig ps.end_paths) name
        (pathOf ps name) =
      if activeObserverPath ps am name = true then (pathOf ps name).map configInfoOf else [] := by
  unfold activeObserverPath
  generalize pathOf ps name = entries at h ⊢
  cases entries with
  | nil => simp [pathEndLabels]
  | cons e rest =>
    cases hf : mapFind? am (labelOf e) with
    | none => simp [pathViolations, hf] at h
    | some mci =>
      simp only [pathViolations, hf] at h
      simp only [pathEndLabels, hf]
      cases hig : ignoredAs (pathsConfig ps.trigger_paths) (pathsConfig ps.end_paths) name
          (categoryOf mci) with
      | true =>
        rcases categoryOf_cases mci with hc | hc
        · rw [hc] at hig
          have hobs : is_observer mci.moduleType_ = true := by
            unfold categoryOf at hc
            by_contra hn
            rw [if_neg hn] at hc
            cases hc
          simp [hc, hig, hobs]
        · have hobs : is_observer mci.moduleType_ = false := by
            unfold categoryOf at hc
            cases ho : is_observer mci.moduleType_ with
            | false => rfl
            | true =>
              rw [ho] at hc
              simp at hc
          simp [hc, hobs]
      | false =>
        rw [hig] at h
        simp only [Bool.false_eq_true, if_false, List.append_eq_nil] at h
        have hall : ∀ x ∈ rest, isConfigured am x = true := by
          intro x hx
          have hx0 : entryViolations am name (categoryOf mci) x = [] :=
            List.flatMap_eq_nil_iff.mp h.2 x hx
          unfold isConfigured
          cases hfx : mapFind? am (labelOf x) with
          | some _ => rfl
          | none => simp [entryViolations, hfx] at hx0
        have hfilter : rest.filter (isConfigured am) = rest := List.filter_eq_self.mpr hall
        rcases categoryOf_cases mci with hc | hc
        · rw [hc] at hig
          have hobs : is_observer mci.moduleType_ = true := by
            unfold categoryOf at hc
            by_contra hn
            rw [if_neg hn] at hc
            cases hc
          simp [hc, hig, hobs, hfilter]
        · have hobs : is_observer mci.moduleType_ = false := by
            unfold categoryOf at hc
            cases ho : is_observer mci.moduleType_ with
            | false => rfl
            | true =>
              rw [ho] at hc
              simp at hc
          simp [hc, hobs]

theorem pathViolations_nil_of_violations_nil (ps : ProcessParameters)
    (am : List (String × ModuleConfigInfo)) (h : violations ps am = []) (name : String)
    (hname : name ∈ pathNames ps) :
    pathViolations am (pathsConfig ps.trigger_paths) (pathsConfig ps.end_paths) name
      (pathOf ps name) = [] := by
  unfold violations at h
  exact List.flatMap_eq_nil_iff.mp (List.append_eq_nil.mp h).2 name hname

end art

namespace art

namespace PathManager

theorem createModulesAndWorkers_end_path (f : ModuleFactory) (err : String)
    (pm pm2 : PathManager) (hempty : pm.endPathInfo_ = PathsInfo.empty)
    (h : createModulesAndWorkers f err pm = Except.ok pm2) :
    (pm.protoEndPathLabels_ = [] → pm2.endPathInfo_.paths = []) ∧
      (pm.protoEndPathLabels_ ≠ [] →
        ∃ wips, pm2.endPathInfo_.paths =
            [{ scheduleID := 0, bitPosition := 0, isEndPath := true, name := "end_path",
               workers := wips }] ∧
          wips.map WorkerInPath.filterAction =
            pm.protoEndPathLabels_.map WorkerInPath.ConfigInfo.filterAction) := by
  unfold createModulesAndWorkers at h
  cases h1 : createTriggerPaths f pm with
  | error t =>
    rw [h1] at h
    cases h
  | ok pm1 =>
    rw [h1] at h
    simp only at h
    obtain ⟨_, a2, a3, _, _⟩ := fillSchedules_frame f _ pm pm1 h1
    cases h2 : createEndPath f pm1 with
    | error t =>
      rw [h2] at h
      cases h
    | ok pm3 =>
      rw [h2] at h
      simp only at h
      split at h
      · cases h
      · cases h
        obtain ⟨b1, b2⟩ := createEndPath_paths f pm1 pm3 h2
        rw [a2, a3, hempty] at b1 b2
        refine ⟨fun hnil => ?_, fun hne => ?_⟩
        · exact b1 hnil
        · obtain ⟨wips, c1, c2⟩ := b2 hne
          exact ⟨wips, by simpa [PathsInfo.empty] using c1, c2⟩

theorem createModulesAndWorkers_ok (f : ModuleFactory) (pm : PathManager)
    (hlog : pm.constructed = []) (hset : pm.moduleSet_ = [])
    (hinfo : pm.triggerPathsInfo_ = List.replicate pm.nschedules PathsInfo.empty)
    (hcfg : ∀ l ∈ triggerLabels pm ++ pm.protoEndPathLabels_.map WorkerInPath.ConfigInfo.label,
      (mapFind? pm.allModules_ l).isSome = true)
    (hmade : ∀ l ∈ triggerLabels pm ++ pm.protoEndPathLabels_.map WorkerInPath.ConfigInfo.label,
      ∀ si, f.make_module l si = MakeResult.made ∧
        f.make_worker_from_module l si = MakeResult.made) :
    ∃ pm2, createModulesAndWorkers f "" pm = Except.ok pm2 := by
  obtain ⟨pm1, h1, _, a1, _, a3, _⟩ := createTriggerPaths_spec f pm hlog hset hinfo
    (fun l hl => hcfg l (List.mem_append_left _ hl))
    (fun l hl => hmade l (List.mem_append_left _ hl))
  obtain ⟨pm3, h2⟩ := createEndPath_ok f pm1
    (fun c hc => by
      rw [a1]
      rw [a3] at hc
      exact hcfg _ (List.mem_append_right _ (List.mem_map.mpr ⟨c, hc, rfl⟩)))
    (fun c hc => by
      rw [a3] at hc
      exact hmade _ (List.mem_append_right _ (List.mem_map.mpr ⟨c, hc, rfl⟩)) 0)
  unfold createModulesAndWorkers
  rw [h1]
  simp only
  rw [h2]
  exact Exists.intro _ rfl

/-- C17: when the constructor returns, `protoEndPathLabels_` is the
concatenation, in the order of the path names and keeping each path's own
order, of the entries of all active observer paths (the order of the path names
is ascending when the physics table lists its names in ascending order); and
when `createModulesAndWorkers()` returns, the end path information holds
exactly one path, named "end_path", with one worker in path for each entry of
`protoEndPathLabels_`, when this is not empty, and no path when it is empty.
With all labels on the paths configured, all module libraries making their
modules and workers and no error in the module graph,
`createModulesAndWorkers()` does return. -/
theorem end_paths_coalesced (ps : ProcessParameters) (n : Nat) (pm : PathManager)
    (h : mk0 ps n = Except.ok pm) :
    pm.protoEndPathLabels_ = (pathNames ps).flatMap (fun name =>
      if activeObserverPath ps (configuredModules ps) name = true then
        (pathOf ps name).map configInfoOf
      else []) ∧
    ((ps.physics.map Prod.fst).Pairwise (fun a b => stringLess a b = true) →
      (pathNames ps).Pairwise (fun a b => stringLess a b = true)) ∧
    (∀ f err pm2, createModulesAndWorkers f err pm = Except.ok pm2 →
      (pm.protoEndPathLabels_ = [] → pm2.endPathInfo_.paths = []) ∧
      (pm.protoEndPathLabels_ ≠ [] →
        ∃ wips, pm2.endPathInfo_.paths =
            [{ scheduleID := 0, bitPosition := 0, isEndPath := true, name := "end_path",
               workers := wips }] ∧
          wips.map WorkerInPath.filterAction =
            pm.protoEndPathLabels_.map WorkerInPath.ConfigInfo.filterAction)) ∧
    (∀ f : ModuleFactory,
      (∀ l ∈ triggerLabels pm ++ pm.protoEndPathLabels_.map WorkerInPath.ConfigInfo.label,
        (mapFind? pm.allModules_ l).isSome = true ∧
          ∀ si, f.make_module l si = MakeResult.made ∧
            f.make_worker_from_module l si = MakeResult.made) →
      ∃ pm2, createModulesAndWorkers f "" pm = Except.ok pm2) := by
  obtain ⟨_, hv, hend, hn, hset, _, hlog, hinfo, hempty⟩ := mk0_of_ok ps n pm h
  refine ⟨?_, ?_, ?_, ?_⟩
  · rw [hend]
    apply List.flatMap_congr
    intro name hname
    exact pathEndLabels_of_no_violations ps _ name
      (pathViolations_nil_of_violations_nil ps _ hv name hname)
  · intro hs
    unfold pathNames
    exact List.Pairwise.filter _ hs
  · intro f err pm2 h2
    exact createModulesAndWorkers_end_path f err pm pm2 hempty h2
  · intro f hall
    exact createModulesAndWorkers_ok f pm hlog hset (by rw [hinfo, hn])
      (fun l hl => (hall l hl).1) (fun l hl => (hall l hl).2)

/-- Witness of C17: the configuration `twoEndPaths` has the observer paths `e1`
and `e2`; their three entries make up the one end path. -/
theorem end_paths_coalesced_witness :
    mk0 twoEndPaths 2 = Except.ok samplePathManager ∧
    samplePathManager.protoEndPathLabels_ =
      [{ label := "b", filterAction := WorkerInPath.FilterAction.Normal },
       { label := "b", filterAction := WorkerInPath.FilterAction.Normal },
       { label := "b", filterAction := WorkerInPath.FilterAction.Normal }] ∧
    (createModulesAndWorkers makesAll "" samplePathManager).toOption.map
        (fun pm2 => pm2.endPathInfo_.paths.map Path.name) = some ["end_path"] ∧
    samplePathManager.protoEndPathLabels_ = (pathNames twoEndPaths).flatMap (fun name =>
      if activeObserverPath twoEndPaths (configuredModules twoEndPaths) name = true then
        (pathOf twoEndPaths name).map configInfoOf
      else []) :=
  ⟨rfl, by decide, by decide, (end_paths_coalesced twoEndPaths 2 samplePathManager rfl).1⟩

end PathManager

end art

/-! ## Theorems: prescaler -/

namespace art

namespace Prescaler

theorem filterCalls_spec (k : Nat) (p : Prescaler) (hn : 1 ≤ p.n_)
    (hk : p.count_ + k < 2 ^ 64) :
    filterCalls k p = some
      ((List.range k).map (fun j => decide ((p.count_ + j + 1) % p.n_ = p.offset_)),
        { p with count_ := p.count_ + k }) := by
  induction k generalizing p with
  | zero => rfl
  | succ k ih =>
    have hn0 : p.n_ ≠ 0 := by omega
    have hc : (p.count_ + 1) % 2 ^ 64 = p.count_ + 1 := Nat.mod_eq_of_lt (by omega)
    have := ih { p with count_ := p.count_ + 1 } hn (by simp only; omega)
    simp only [filterCalls, filter, hn0, if_false, hc, this]
    rw [List.range_succ_eq_map]
    simp only [List.map_cons, List.map_map, Nat.add_zero]
    congr 2
    · congr 1
      apply List.map_congr_left
      intro j _
      have h1 : p.count_ + 1 + j + 1 = p.count_ + (j + 1) + 1 := by omega
      simp only [Function.comp, Nat.succ_eq_add_one, h1]
    · congr 1
      omega

theorem countP_window_shift (n o a : Nat) :
    (List.range' (a + 1) n).countP (fun k => decide (k % n = o)) =
      (List.range' a n).countP (fun k => decide (k % n = o)) := by
  cases n with
  | zero => rfl
  | succ m =>
    have h1 : List.range' (a + 1) (m + 1) = List.range' (a + 1) m ++ [a + 1 + m] := by
      rw [List.range'_concat, Nat.one_mul]
    have h2 : List.range' a (m + 1) = a :: List.range' (a + 1) m := by
      rw [List.range'_succ]
    rw [h1, h2, List.countP_append, List.countP_cons]
    have h3 : (a + 1 + m) % (m + 1) = a % (m + 1) := by
      have : a + 1 + m = a + (m + 1) := by omega
      rw [this, Nat.add_mod_right]
    simp [List.countP_cons, h3]

theorem countP_window (n o : Nat) (ho : o < n) (a : Nat) :
    (List.range' a n).countP (fun k => decide (k % n = o)) = 1 := by
  induction a with
  | zero =>
    rw [← List.range_eq_range']
    have h1 : (List.range n).countP (fun k => decide (k % n = o)) =
        (List.range n).countP (fun k => k == o) := by
      apply List.countP_congr
      intro k hk
      have hlt : k < n := List.mem_range.mp hk
      simp [Nat.mod_eq_of_lt hlt]
    rw [h1]
    have h2 : (List.range n).count o = 1 :=
      List.count_eq_one_of_mem (List.nodup_range n) (List.mem_range.mpr ho)
    simpa [List.count] using h2
  | succ a ih => rw [countP_window_shift, ih]

/-- C30: for a prescale factor `n` of at least 1 and a prescale offset `o`, the
first `k` calls of `filter` on a freshly constructed module, `k` below `2^64`,
all return, and the `j`-th of them returns true exactly when `j mod n = o`; so
for `o < n` exactly one of any `n` consecutive calls (the calls number `a + 1`
to `a + n`) accepts, and for `o >= n` no call accepts. -/
theorem filter_accepts_one_in_n (n o k : Nat) (hn : 1 ≤ n) (hk : k < 2 ^ 64) :
    (∃ p, filterCalls k (mk0 n o) = some
      ((List.range k).map (fun j => decide ((j + 1) % n = o)), p)) ∧
    (o < n → ∀ a, ((List.range' (a + 1) n).map (fun j => decide (j % n = o))).count true = 1) ∧
    (n ≤ o → ∀ j, decide (j % n = o) = false) := by
  refine ⟨?_, ?_, ?_⟩
  · have h := filterCalls_spec k (mk0 n o) hn (by simp [mk0]; exact hk)
    simp only [mk0, Nat.zero_add] at h ⊢
    exact ⟨_, h⟩
  · intro ho a
    rw [List.count, List.countP_map]
    have h1 := countP_window n o ho (a + 1)
    have h2 : (List.range' (a + 1) n).countP ((fun x => x == true) ∘ fun j => decide (j % n = o)) =
        (List.range' (a + 1) n).countP (fun k => decide (k % n = o)) := by
      apply List.countP_congr
      intro j _
      simp
    rw [h2, h1]
  · intro ho j
    have : j % n < n := Nat.mod_lt j (by omega)
    simp only [decide_eq_false_iff_not]
    omega

/-- Witness of C30: factor 3, offset 1, seven calls. -/
theorem filter_accepts_one_in_n_witness :
    (filterCalls 7 (mk0 3 1)).map Prod.fst =
        some [true, false, false, true, false, false, true] ∧
      ((∃ p, filterCalls 7 (mk0 3 1) = some
        ((List.range 7).map (fun j => decide ((j + 1) % 3 = 1)), p)) ∧
      (1 < 3 → ∀ a,
        ((List.range' (a + 1) 3).map (fun j => decide (j % 3 = 1))).count true = 1) ∧
      (3 ≤ 1 → ∀ j, decide (j % 3 = 1) = false)) :=
  ⟨by decide, filter_accepts_one_in_n 3 1 7 (by decide) (by decide)⟩

end Prescaler

end art

/-! ## Theorems: construction and random access of the item source -/

namespace art

namespace DecrepitRelicInputSourceImplementation

open input (ItemType)

/-- C22, as stated, fails: on a source whose event limit is reached (here one
constructed with `maxEvents` 0) `readEvent(eventID)` throws nothing and returns
a null pointer, leaving the source as it is. -/
theorem readEventByID_returns_null_at_limit :
    (mk0 ProcessingMode.RunsSubRunsAndEvents 0 (-1) [ItemType.IsEvent]).limitReached = true ∧
      readEventByID 7 (mk0 ProcessingMode.RunsSubRunsAndEvents 0 (-1) [ItemType.IsEvent]) =
        Except.ok (none, mk0 ProcessingMode.RunsSubRunsAndEvents 0 (-1) [ItemType.IsEvent]) :=
  ⟨by decide, rfl⟩

/-- C22, amended: for every argument and every state of the source,
`skip(offset)`, also when called through `skipEvents`, throws the `LogicError`
that says that random access is not implemented and returns nothing;
`readEvent(eventID)` does the same as long as neither limit is reached, and
returns a null pointer, without throwing and without changing the source, once
the event limit or the sub-run limit is reached. -/
theorem random_access_not_implemented (s : Source) (offset : Int) (eventID : Nat) :
    skip offset s = Except.error (randomAccessNotImplemented "skip") ∧
    skipEvents offset s = Except.error (randomAccessNotImplemented "skip") ∧
    (s.limitReached = false →
      readEventByID eventID s = Except.error (randomAccessNotImplemented "readIt")) ∧
    (s.limitReached = true → readEventByID eventID s = Except.ok (none, s)) ∧
    (∀ function, ∃ e, randomAccessNotImplemented function = Thrown.cet e ∧
      e.category = "LogicError" ∧
      e.message = "DecrepitRelicInputSourceImplementation::" ++ function ++ "()\n" ++
        "Random access is not implemented for this type of Input Source\n" ++
        "Contact a Framework Developer\n") := by
  refine ⟨rfl, rfl, ?_, ?_, fun function => ⟨_, rfl, rfl, rfl⟩⟩
  · intro h
    simp [readEventByID, h, readIt]
  · intro h
    simp [readEventByID, h]

/-- C21: when the label of the module can be read, the assertion on the
product registry holds and `registerProducts_()` does not throw, the
constructor returns a source whose mode is `Runs`, `RunsAndSubRuns` or
`RunsSubRunsAndEvents` when the parameter `processingMode` has that name, and
`RunsSubRunsAndEvents` when the parameter is absent; for every other value of
the parameter it throws an exception of category `Configuration`, whatever
`registerProducts_()` would do. -/
theorem construct_processingMode (args : ConstructorArguments) (stream : List ItemType)
    (registerProducts_ : Option Thrown) (module_label : String)
    (hlabel : args.module_label = Except.ok module_label)
    (hreg : module_label = "source" → args.productRegistry = true) :
    (∀ mode, args.processingMode = some (modeName mode) → registerProducts_ = none →
      construct args stream registerProducts_ = some (Except.ok
        (mk0 mode (args.maxEvents.getD (-1)) (args.maxSubRuns.getD (-1)) stream))) ∧
    (args.processingMode = none → registerProducts_ = none →
      construct args stream registerProducts_ = some (Except.ok
        (mk0 ProcessingMode.RunsSubRunsAndEvents (args.maxEvents.getD (-1))
          (args.maxSubRuns.getD (-1)) stream))) ∧
    (∀ value, args.processingMode = some value → (∀ mode, value ≠ modeName mode) →
      construct args stream registerProducts_ = some (Except.error (illegalProcessingMode value)) ∧
      ∃ e, illegalProcessingMode value = Thrown.cet e ∧ e.category = "Configuration") := by
  have hassert : (!(module_label == "source") || args.productRegistry) = true := by
    by_cases h : module_label = "source"
    · simp [hreg h]
    · simp [h]
  refine ⟨?_, ?_, ?_⟩
  · intro mode hmode hr
    subst hr
    unfold construct
    rw [hlabel]
    simp only [hassert, cassert, if_true, Option.bind, hmode, Option.getD]
    cases mode <;> simp [modeName, mk0]
  · intro hmode hr
    subst hr
    unfold construct
    rw [hlabel]
    simp only [hassert, cassert, if_true, Option.bind, hmode, Option.getD]
    simp [mk0]
  · intro value hvalue hne
    refine ⟨?_, _, rfl, rfl⟩
    have h1 : value ≠ "Runs" := hne ProcessingMode.Runs
    have h2 : value ≠ "RunsAndSubRuns" := hne ProcessingMode.RunsAndSubRuns
    have h3 : value ≠ "RunsSubRunsAndEvents" := hne ProcessingMode.RunsSubRunsAndEvents
    unfold construct
    rw [hlabel]
    simp only [hassert, cassert, if_true, Option.bind, hvalue, Option.getD]
    simp [h1, h2, h3]

/-- Witness of C21: the value "runs", which differs from "Runs" in case, is
rejected, and the value "Runs" is accepted. -/
theorem construct_processingMode_witness :
    (construct (sampleArguments (some "runs")) [] none =
        some (Except.error (illegalProcessingMode "runs")) ∧
      ∃ e, illegalProcessingMode "runs" = Thrown.cet e ∧ e.category = "Configuration") ∧
    construct (sampleArguments (some "Runs")) [] none =
      some (Except.ok (mk0 ProcessingMode.Runs (-1) (-1) [])) :=
  ⟨(construct_processingMode (sampleArguments (some "runs")) [] none "source" rfl
      (fun _ => rfl)).2.2 "runs" rfl (by intro mode; cases mode <;> decide), rfl⟩

end DecrepitRelicInputSourceImplementation

end art

/-! ## Theorems: abnormal termination -/

namespace art

namespace EventProcessor

/-- C28, as stated, fails: when saving the random-number state throws inside
`terminateAbnormally()`, the exception is swallowed and the function returns,
but `alreadyHandlingException()` is still true. -/
theorem terminateAbnormally_leaves_flag_raised :
    sampleProcessor.alreadyHandlingException_ = false ∧
      (terminateAbnormally saveFailsWorld sampleProcessor).alreadyHandlingException_ = true := by
  decide

/-- C28, amended: `terminateAbnormally()` always returns; afterwards
`alreadyHandlingException()` is false when its body ran to the end, and true
when saving the random-number state or terminating the state machine threw
inside it (the exception itself being swallowed). -/
theorem terminateAbnormally_flag (w : World) (ep : EventProcessor) :
    (terminateAbnormally w ep).alreadyHandlingException_ = bodyThrows w ep := by
  obtain ⟨iterations, rng, save, stop⟩ := w
  obtain ⟨a, b, c, machine, d, e, f, g, h, trace, i⟩ := ep
  cases rng <;> cases save <;> cases machine with
  | none => simp [terminateAbnormally, terminateMachine, bodyThrows, record]
  | some m =>
    obtain ⟨m1, m2, m3, term⟩ := m
    obtain ⟨thrown, r2, r3, r4, r5, r6⟩ := stop
    cases term <;> cases thrown <;> cases r2 <;> cases r3 <;> cases r4 <;> cases r5 <;>
      simp [terminateAbnormally, terminateMachine, bodyThrows, record, process_event,
        doErrorStuff, setExceptionMessageFiles, setExceptionMessageRuns,
        setExceptionMessageSubRuns]

end EventProcessor

end art

/-! ## Theorems: path entries -/

namespace art

theorem string_mk_data (s : String) : String.mk s.data = s := rfl

theorem findIdx?_all_false {α : Type} (p : α → Bool) (l : List α) (h : ∀ x ∈ l, p x = false) :
    l.findIdx? p = none := by
  rw [List.findIdx?_eq_none_iff]
  exact h

theorem findIdx?_two_false {α : Type} (p : α → Bool) (a b : α) (l : List α) (pos : Nat)
    (ha : p a = false) (hb : p b = false) (h : (a :: b :: l).findIdx? p = some pos) :
    2 ≤ pos := by
  rw [List.findIdx?_cons, ha, List.findIdx?_succ, List.findIdx?_cons, hb, List.findIdx?_succ] at h
  simp only [Bool.false_eq_true, if_false, Option.map_map, Option.map_eq_some',
    Function.comp] at h
  obtain ⟨i, _, hi⟩ := h
  omega

/-- The character is one of the two prefix characters `!` and `-`. -/
theorem not_contains_iff (c : Char) :
    (!"!-".data.contains c) = false ↔ (c = Char.ofNat 33 ∨ c = Char.ofNat 45) := by
  have h : "!-".data = [Char.ofNat 33, Char.ofNat 45] := by decide
  rw [h, Bool.not_eq_false']
  simp

end art

namespace art

theorem find_first_not_of_label (l : String) (c : Char) (rest : List Char)
    (hl : l.data = c :: rest) (h1 : c ≠ Char.ofNat 33) (h2 : c ≠ Char.ofNat 45) :
    find_first_not_of l "!-" = some 0 := by
  have hc : (!"!-".data.contains c) = true := by
    cases hb : (!"!-".data.contains c) with
    | true => rfl
    | false =>
      rcases (not_contains_iff c).mp hb with h | h
      · exact absurd h h1
      · exact absurd h h2
  unfold find_first_not_of
  rw [hl, List.findIdx?_cons, hc]
  rfl

theorem find_first_not_of_prefixed (p : Char) (l : String) (c : Char) (rest : List Char)
    (hp : p = Char.ofNat 33 ∨ p = Char.ofNat 45)
    (hl : l.data = c :: rest) (h1 : c ≠ Char.ofNat 33) (h2 : c ≠ Char.ofNat 45) :
    find_first_not_of (String.mk (p :: l.data)) "!-" = some 1 := by
  have hc : (!"!-".data.contains c) = true := by
    cases hb : (!"!-".data.contains c) with
    | true => rfl
    | false =>
      rcases (not_contains_iff c).mp hb with h | h
      · exact absurd h h1
      · exact absurd h h2
  have hpp : (!"!-".data.contains p) = false := (not_contains_iff p).mpr hp
  unfold find_first_not_of
  simp only
  rw [hl, List.findIdx?_cons, hpp, List.findIdx?_succ, List.findIdx?_cons, hc]
  rfl

theorem remove_filter_action_all_prefix (entry : String)
    (h : ∀ ch ∈ entry.data, ch = Char.ofNat 33 ∨ ch = Char.ofNat 45) :
    remove_filter_action entry = Except.error (illegalLabel entry) := by
  have hf : find_first_not_of entry "!-" = none := by
    unfold find_first_not_of
    apply findIdx?_all_false
    intro x hx
    exact (not_contains_iff x).mpr (h x hx)
  unfold remove_filter_action
  rw [hf]

theorem remove_filter_action_two_prefix (entry : String) (c1 c2 : Char) (rest : List Char)
    (he : entry.data = c1 :: c2 :: rest)
    (h1 : c1 = Char.ofNat 33 ∨ c1 = Char.ofNat 45)
    (h2 : c2 = Char.ofNat 33 ∨ c2 = Char.ofNat 45) :
    remove_filter_action entry = Except.error (illegalLabel entry) := by
  unfold remove_filter_action
  cases hf : find_first_not_of entry "!-" with
  | none => rfl
  | some pos =>
    have hpos : 2 ≤ pos := by
      unfold find_first_not_of at hf
      rw [he] at hf
      exact findIdx?_two_false _ c1 c2 rest pos ((not_contains_iff c1).mpr h1)
        ((not_contains_iff c2).mpr h2) hf
    simp only
    rw [if_pos (by omega)]

namespace PathManager

theorem mk0_malformed (ps : ProcessParameters) (n : Nat) (am : List (String × ModuleConfigInfo))
    (hmod : collectModules ps = Except.ok am)
    (hseq : (badNames ps (pathNames ps)).isEmpty = true)
    (hbad : ∃ name ∈ pathNames ps, ∃ e ∈ pathOf ps name, wellFormed e = false) :
    ∃ bad, wellFormed bad = false ∧ mk0 ps n = Except.error (illegalLabel bad) := by
  obtain ⟨bad, hb, hrun⟩ := processPaths_error ps am (pathsConfig ps.trigger_paths)
    (pathsConfig ps.end_paths) (pathNames ps) hbad
    { es := unknownPaths (pathsConfig ps.trigger_paths) (pathsConfig ps.end_paths)
        (pathNames ps),
      specified_modules := [],
      num_end_paths := 0,
      triggerPathNames_ := [],
      protoTrigPathLabelMap_ := [],
      protoEndPathLabels_ := [] }
  refine ⟨bad, hb, ?_⟩
  unfold mk0
  rw [hmod]
  simp only
  unfold scanPaths
  simp only [hseq, Bool.not_true, Bool.false_eq_true, if_false]
  rw [hrun]

/-- C23: for every non-empty label `L` that does not begin with `!` or `-`, the
entry `L` is read as the label `L` with the filter action Normal, the entry
`!L` as `L` with Veto and the entry `-L` as `L` with Ignore; an entry that is
empty or consists of the characters `!` and `-` only, or that begins with two
of these characters, makes `remove_filter_action` throw an exception of
category `Configuration`, and so does the constructor for a configuration
(with accepted module tables and all path names keys to sequences) in which a
path has an entry that `remove_filter_action` rejects. -/
theorem entry_is_action_and_label (L : String) (c : Char) (rest : List Char)
    (hL : L.data = c :: rest) (h1 : c ≠ Char.ofNat 33) (h2 : c ≠ Char.ofNat 45) :
    (remove_filter_action L = Except.ok L ∧
      filterActionOf L = WorkerInPath.FilterAction.Normal) ∧
    (remove_filter_action ("!" ++ L) = Except.ok L ∧
      filterActionOf ("!" ++ L) = WorkerInPath.FilterAction.Veto) ∧
    (remove_filter_action ("-" ++ L) = Except.ok L ∧
      filterActionOf ("-" ++ L) = WorkerInPath.FilterAction.Ignore) ∧
    (∀ entry, (∀ ch ∈ entry.data, ch = Char.ofNat 33 ∨ ch = Char.ofNat 45) →
      remove_filter_action entry = Except.error (illegalLabel entry)) ∧
    (∀ entry c1 c2 tail, entry.data = c1 :: c2 :: tail →
      (c1 = Char.ofNat 33 ∨ c1 = Char.ofNat 45) → (c2 = Char.ofNat 33 ∨ c2 = Char.ofNat 45) →
      remove_filter_action entry = Except.error (illegalLabel entry)) ∧
    (∀ entry, ∃ e, illegalLabel entry = Thrown.cet e ∧ e.category = "Configuration") ∧
    (∀ ps n am, collectModules ps = Except.ok am →
      (badNames ps (pathNames ps)).isEmpty = true →
      (∃ name ∈ pathNames ps, ∃ e ∈ pathOf ps name, wellFormed e = false) →
      ∃ bad, wellFormed bad = false ∧ mk0 ps n = Except.error (illegalLabel bad)) := by
  have hbang : ("!" ++ L) = String.mk (Char.ofNat 33 :: L.data) := by
    apply String.ext
    rw [String.data_append]
    rfl
  have hdash : ("-" ++ L) = String.mk (Char.ofNat 45 :: L.data) := by
    apply String.ext
    rw [String.data_append]
    rfl
  refine ⟨⟨?_, ?_⟩, ⟨?_, ?_⟩, ⟨?_, ?_⟩, remove_filter_action_all_prefix,
    remove_filter_action_two_prefix, fun entry => ⟨_, rfl, rfl⟩, mk0_malformed⟩
  · unfold remove_filter_action
    rw [find_first_not_of_label L c rest hL h1 h2]
    rfl
  · unfold filterActionOf
    rw [hL]
    simp [h1, h2]
  · unfold remove_filter_action
    rw [hbang, find_first_not_of_prefixed _ L c rest (Or.inl rfl) hL h1 h2]
    rfl
  · unfold filterActionOf
    rw [hbang]
    simp
  · unfold remove_filter_action
    rw [hdash, find_first_not_of_prefixed _ L c rest (Or.inr rfl) hL h1 h2]
    rfl
  · unfold filterActionOf
    rw [hdash]
    simp

/-- Witness of C23: the label `f` of the sample configurations. -/
theorem entry_is_action_and_label_witness :
    remove_filter_action "!f" = Except.ok "f" ∧
      filterActionOf "!f" = WorkerInPath.FilterAction.Veto ∧
      remove_filter_action "!!f" = Except.error (illegalLabel "!!f") ∧
      remove_filter_action "" = Except.error (illegalLabel "") ∧
      (remove_filter_action "f" = Except.ok "f" ∧
        filterActionOf "f" = WorkerInPath.FilterAction.Normal) :=
  ⟨rfl, by decide, rfl, rfl,
    (entry_is_action_and_label "f" (Char.ofNat 102) [] rfl (by decide) (by decide)).1⟩

end PathManager

end art

/-! ## Theorems: data dependencies -/

namespace art

namespace test

theorem consumeDependency_rejected (module_name current : String)
    (modules : List (String × detail.ModuleGraphInfo)) (acc : List ProductInfo) (dep : TypeAndTag)
    (hknown : resolvesToCurrent current dep = true → dep.inputTag.label ≠ "input_source" →
      (mapFind? modules dep.inputTag.label).isSome = true)
    (hrej : isRejected current modules dep = true) :
    consumeDependency module_name current modules acc dep =
      Except.error (noSuchProduct module_name dep) := by
  simp only [isRejected, Bool.and_eq_true, Bool.not_eq_true', bne_iff_ne, ne_eq] at hrej
  obtain ⟨⟨hres, hlab⟩, hprov⟩ := hrej
  have hk := hknown hres hlab
  obtain ⟨info, hinfo⟩ := Option.isSome_iff_exists.mp hk
  have hres2 : (ProcessTag.mk0 dep.inputTag.process current).name = current := by
    simpa [resolvesToCurrent] using hres
  have hany : info.produced_products.any (product_match dep) = false := by
    simpa [isProvided, hinfo] using hprov
  simp [consumeDependency, dependencyLabel, hres2, hlab, hinfo, hany]

theorem consumeDependency_accepted (module_name current : String)
    (modules : List (String × detail.ModuleGraphInfo)) (acc : List ProductInfo) (dep : TypeAndTag)
    (hknown : resolvesToCurrent current dep = true → dep.inputTag.label ≠ "input_source" →
      (mapFind? modules dep.inputTag.label).isSome = true)
    (hrej : isRejected current modules dep = false) :
    ∃ acc1, consumeDependency module_name current modules acc dep = Except.ok acc1 ∧
      (∀ x ∈ acc, x ∈ acc1) ∧
      ({ friendlyClassName := dep.friendlyClassName,
         label := dependencyLabel current dep,
         instanceName := dep.inputTag.instanceName,
         process := ProcessTag.mk0 dep.inputTag.process current } : ProductInfo) ∈ acc1 := by
  have hmem : ∀ (info : ProductInfo),
      (∀ x ∈ acc, x ∈ (if info ∈ acc then acc else acc ++ [info])) ∧
        info ∈ (if info ∈ acc then acc else acc ++ [info]) := by
    intro info
    by_cases h : info ∈ acc
    · simp [h]
    · simp only [if_neg h]
      exact ⟨fun x hx => List.mem_append_left _ hx, by simp⟩
  by_cases hlabel : dependencyLabel current dep = "input_source"
  · refine ⟨_, ?_, hmem _⟩
    simp [consumeDependency, hlabel]
  · have hres : resolvesToCurrent current dep = true := by
      unfold dependencyLabel at hlabel
      by_contra hn
      apply hlabel
      have : (ProcessTag.mk0 dep.inputTag.process current).name ≠ current := by
        simpa [resolvesToCurrent] using hn
      rw [if_pos this]
    have hres2 : (ProcessTag.mk0 dep.inputTag.process current).name = current := by
      simpa [resolvesToCurrent] using hres
    have hlab : dep.inputTag.label ≠ "input_source" := by
      intro h
      apply hlabel
      unfold dependencyLabel
      rw [if_neg (not_not.mpr hres2)]
      exact h
    obtain ⟨info, hinfo⟩ := Option.isSome_iff_exists.mp (hknown hres hlab)
    have hany : info.produced_products.any (product_match dep) = true := by
      simp only [isRejected, hres, Bool.true_and, Bool.and_eq_false_imp, bne_iff_ne, ne_eq,
        Bool.not_eq_false'] at hrej
      have := hrej hlab
      simpa [isProvided, hinfo] using this
    refine ⟨_, ?_, hmem _⟩
    simp only [consumeDependency, hlabel, ne_eq, not_false_eq_true, if_true, hinfo, hany,
      Bool.not_true, Bool.false_eq_true, if_false]

theorem consumeDependencies_spec (module_name current : String)
    (modules : List (String × detail.ModuleGraphInfo)) (deps : List TypeAndTag)
    (hknown : ∀ dep ∈ deps, resolvesToCurrent current dep = true →
      dep.inputTag.label ≠ "input_source" → (mapFind? modules dep.inputTag.label).isSome = true)
    (acc : List ProductInfo) :
    ((∃ dep ∈ deps, isRejected current modules dep = true) →
      ∃ dep ∈ deps, isRejected current modules dep = true ∧
        consumeDependencies module_name current modules deps acc =
          Except.error (noSuchProduct module_name dep)) ∧
    ((∀ dep ∈ deps, isRejected current modules dep = false) →
      ∃ acc1, consumeDependencies module_name current modules deps acc = Except.ok acc1 ∧
        (∀ x ∈ acc, x ∈ acc1) ∧
        ∀ dep ∈ deps,
          ({ friendlyClassName := dep.friendlyClassName,
             label := dependencyLabel current dep,
             instanceName := dep.inputTag.instanceName,
             process := ProcessTag.mk0 dep.inputTag.process current } : ProductInfo) ∈ acc1) := by
  induction deps generalizing acc with
  | nil =>
    refine ⟨?_, ?_⟩
    · rintro ⟨dep, hd, _⟩
      exact absurd hd (List.not_mem_nil dep)
    · intro _
      exact ⟨acc, rfl, fun x hx => hx, fun dep hd => absurd hd (List.not_mem_nil dep)⟩
  | cons d rest ih =>
    have hk0 := hknown d (List.mem_cons_self _ _)
    have hkrest : ∀ dep ∈ rest, resolvesToCurrent current dep = true →
        dep.inputTag.label ≠ "input_source" →
        (mapFind? modules dep.inputTag.label).isSome = true :=
      fun dep hd => hknown dep (List.mem_cons_of_mem _ hd)
    cases hrd : isRejected current modules d with
    | true =>
      have hrun := consumeDependency_rejected module_name current modules acc d hk0 hrd
      refine ⟨fun _ => ⟨d, List.mem_cons_self _ _, hrd, ?_⟩, ?_⟩
      · rw [consumeDependencies, hrun]
      · intro hall
        have := hall d (List.mem_cons_self _ _)
        rw [hrd] at this
        cases this
    | false =>
      obtain ⟨acc1, hrun, hsub, hmem⟩ :=
        consumeDependency_accepted module_name current modules acc d hk0 hrd
      obtain ⟨ih1, ih2⟩ := ih hkrest acc1
      refine ⟨?_, ?_⟩
      · rintro ⟨dep, hd, hr⟩
        have hin : ∃ dep ∈ rest, isRejected current modules dep = true := by
          rcases List.mem_cons.mp hd with h | h
          · rw [h, hrd] at hr
            cases hr
          · exact ⟨dep, h, hr⟩
        obtain ⟨dep1, hd1, hr1, hrun1⟩ := ih1 hin
        refine ⟨dep1, List.mem_cons_of_mem _ hd1, hr1, ?_⟩
        rw [consumeDependencies, hrun]
        exact hrun1
      · intro hall
        obtain ⟨acc2, hrun2, hsub2, hmem2⟩ :=
          ih2 (fun dep hd => hall dep (List.mem_cons_of_mem _ hd))
        refine ⟨acc2, ?_, fun x hx => hsub2 x (hsub x hx), ?_⟩
        · rw [consumeDependencies, hrun]
          exact hrun2
        · intro dep hd
          rcases List.mem_cons.mp hd with h | h
          · rw [h]
            exact hsub2 _ hmem
          · exact hmem2 dep h

end test

end art

namespace art

namespace test

/-- C25 (the claim as stated fails): in the sample job the declaration of a
product "ints" from the module "input_source" in the current process "job"
resolves to the current process, its label is known to the check, and that
module produces no product at all, yet `sorted_consumed_products` does not
fail: it records the dependency. -/
theorem sorted_consumed_products_accepts_input_source :
    resolvesToCurrent "job" (sampleDeclaration "ints" "input_source" "job") = true ∧
    mapFind? sampleModules "input_source" = some { produced_products := [] } ∧
    sorted_consumed_products (some [sampleDeclaration "ints" "input_source" "job"]) "a1" "job"
        sampleModules =
      Except.ok [{ friendlyClassName := "ints", label := "input_source", instanceName := "",
                   process := ProcessTag.mk0 "job" "job" }] := by
  refine ⟨by decide, by decide, rfl⟩

/-- C25 (amended): when every declaration that resolves to the current process
and names a module other than "input_source" names a known module,
`sorted_consumed_products` fails exactly if one of these declarations names a
module that produces no product with the same friendly class name and the
same instance name; the failure is the Configuration exception for such a
declaration; and when the function returns, every declaration whose process tag
names another process is recorded as a dependency on "input_source". -/
theorem sorted_consumed_products_rejects (module_name current_process_name : String)
    (modules : List (String × detail.ModuleGraphInfo)) (deps : List TypeAndTag)
    (hknown : ∀ dep ∈ deps, resolvesToCurrent current_process_name dep = true →
      dep.inputTag.label ≠ "input_source" →
      (mapFind? modules dep.inputTag.label).isSome = true) :
    ((∃ t, sorted_consumed_products (some deps) module_name current_process_name modules =
        Except.error t) ↔
      ∃ dep ∈ deps, resolvesToCurrent current_process_name dep = true ∧
        dep.inputTag.label ≠ "input_source" ∧ isProvided modules dep = false) ∧
    (∀ t, sorted_consumed_products (some deps) module_name current_process_name modules =
        Except.error t →
      ∃ dep ∈ deps, resolvesToCurrent current_process_name dep = true ∧
        t = noSuchProduct module_name dep ∧
        ∃ e, t = Thrown.cet e ∧ e.category = "Configuration") ∧
    (∀ sorted_deps,
      sorted_consumed_products (some deps) module_name current_process_name modules =
        Except.ok sorted_deps →
      ∀ dep ∈ deps, resolvesToCurrent current_process_name dep = false →
        ({ friendlyClassName := dep.friendlyClassName, label := "input_source",
           instanceName := dep.inputTag.instanceName,
           process := ProcessTag.mk0 dep.inputTag.process current_process_name } :
          ProductInfo) ∈ sorted_deps) := by
  obtain ⟨h1, h2⟩ :=
    consumeDependencies_spec module_name current_process_name modules deps hknown []
  have hrej : ∀ dep, isRejected current_process_name modules dep = true ↔
      (resolvesToCurrent current_process_name dep = true ∧
        dep.inputTag.label ≠ "input_source" ∧ isProvided modules dep = false) := by
    intro dep
    simp [isRejected, and_assoc]
  have hrun : sorted_consumed_products (some deps) module_name current_process_name modules =
      consumeDependencies module_name current_process_name modules deps [] := rfl
  rw [hrun]
  by_cases hex : ∃ dep ∈ deps, isRejected current_process_name modules dep = true
  · obtain ⟨dep, hd, hr, herr⟩ := h1 hex
    refine ⟨⟨fun _ => ⟨dep, hd, (hrej dep).mp hr⟩, fun _ => ⟨_, herr⟩⟩, ?_, ?_⟩
    · intro t ht
      rw [herr] at ht
      cases ht
      exact ⟨dep, hd, ((hrej dep).mp hr).1, rfl, _, rfl, rfl⟩
    · intro sorted_deps hs
      rw [herr] at hs
      cases hs
  · have hall : ∀ dep ∈ deps, isRejected current_process_name modules dep = false := by
      intro dep hd
      cases h : isRejected current_process_name modules dep with
      | false => rfl
      | true => exact absurd ⟨dep, hd, h⟩ hex
    obtain ⟨acc, hok, _, hmem⟩ := h2 hall
    refine ⟨⟨?_, ?_⟩, ?_, ?_⟩
    · rintro ⟨t, ht⟩
      rw [hok] at ht
      cases ht
    · rintro ⟨dep, hd, hr⟩
      exact absurd ⟨dep, hd, (hrej dep).mpr hr⟩ hex
    · intro t ht
      rw [hok] at ht
      cases ht
    · intro sorted_deps hs dep hd hres
      rw [hok] at hs
      cases hs
      have hm := hmem dep hd
      have hne : (ProcessTag.mk0 dep.inputTag.process current_process_name).name ≠
          current_process_name := by
        simpa [resolvesToCurrent] using hres
      have hl : dependencyLabel current_process_name dep = "input_source" := by
        unfold dependencyLabel
        rw [if_pos hne]
      rw [hl] at hm
      exact hm

/-- C25 (witness): in the sample job a module that consumes "ints" from `p1`
(provided), "floats" from `p1` (not provided) and "ints" from `p1` of the
process "earlier" is rejected because of the second declaration. -/
theorem sorted_consumed_products_rejects_witness :
    (∃ dep ∈ [sampleDeclaration "ints" "p1" "job", sampleDeclaration "floats" "p1" "job",
        sampleDeclaration "ints" "p1" "earlier"],
      resolvesToCurrent "job" dep = true ∧ dep.inputTag.label ≠ "input_source" ∧
        isProvided sampleModules dep = false) ∧
    ∃ t, sorted_consumed_products
      (some [sampleDeclaration "ints" "p1" "job", sampleDeclaration "floats" "p1" "job",
        sampleDeclaration "ints" "p1" "earlier"]) "a1" "job" sampleModules = Except.error t :=
  have h := sorted_consumed_products_rejects "a1" "job" sampleModules
    [sampleDeclaration "ints" "p1" "job", sampleDeclaration "floats" "p1" "job",
      sampleDeclaration "ints" "p1" "earlier"] (by decide)
  ⟨⟨sampleDeclaration "floats" "p1" "job", by decide, by decide, by decide, by decide⟩,
    h.1.mpr ⟨sampleDeclaration "floats" "p1" "job", by decide, by decide, by decide, by decide⟩⟩

end test

end art

/-! ## Theorems: serialized module invocations -/

namespace art

namespace scheduling

open detail

theorem countP_holders_le_one_step (running : List Invocation) (e : SchedulerEvent)
    (h : ∀ q, running.countP (fun i => (queuesOf i.module).contains q) ≤ 1) :
    ∀ q, (schedulerStep running e).countP (fun i => (queuesOf i.module).contains q) ≤ 1 := by
  intro q
  cases e with
  | invoke schedule module =>
    simp only [schedulerStep]
    by_cases hb : (queuesOf module).any (isHeld running) = true
    · rw [if_pos hb]
      exact h q
    · rw [if_neg hb]
      rw [List.countP_append]
      by_cases hq : (queuesOf module).contains q = true
      · have hfree : isHeld running q = false := by
          cases hh : isHeld running q with
          | false => rfl
          | true =>
            exfalso
            apply hb
            rw [List.any_eq_true]
            exact ⟨q, by simpa using hq, hh⟩
        have h0 : running.countP (fun i => (queuesOf i.module).contains q) = 0 := by
          rw [List.countP_eq_zero]
          intro i hi hc
          have : isHeld running q = true := by
            unfold isHeld
            rw [List.any_eq_true]
            exact ⟨i, hi, hc⟩
          rw [hfree] at this
          cases this
        rw [h0]
        simp only [List.countP_cons, List.countP_nil, hq, if_true]
        decide
      · have : [({ schedule := schedule, module := module } : Invocation)].countP
            (fun i => (queuesOf i.module).contains q) = 0 := by
          rw [List.countP_eq_zero]
          intro i hi
          rw [List.mem_singleton] at hi
          rw [hi]
          exact hq
        rw [this]
        exact h q
  | finish index =>
    simp only [schedulerStep]
    exact le_trans (List.Sublist.countP_le _ (List.eraseIdx_sublist running index)) (h q)

theorem countP_holders_le_one (events : List SchedulerEvent) :
    ∀ (running : List Invocation),
      (∀ q, running.countP (fun i => (queuesOf i.module).contains q) ≤ 1) →
      ∀ q, (schedulerRun events running).countP (fun i => (queuesOf i.module).contains q) ≤ 1 := by
  induction events with
  | nil => intro running h; exact h
  | cons e rest ih =>
    intro running h
    exact ih _ (countP_holders_le_one_step running e h)

theorem invocationsInProgress_le_holders (m1 m2 : SharedModule) (q : String)
    (h1 : q ∈ queuesOf m1) (h2 : q ∈ queuesOf m2) (running : List Invocation) :
    invocationsInProgress m1 m2 running ≤
      running.countP (fun i => (queuesOf i.module).contains q) := by
  unfold invocationsInProgress
  apply List.countP_mono_left
  intro i _ hi
  simp only [Bool.or_eq_true, decide_eq_true_eq] at hi
  rcases hi with hi | hi
  · rw [hi]
    simpa using h1
  · rw [hi]
    simpa using h2

theorem mem_queuesOf_createQueues (m : SharedModule) (q : String)
    (hq : q ∈ m.resourceNames_) (ha : m.asyncDeclared_ = false) :
    (SharedModule.createQueues m).1 = none ∧ q ∈ queuesOf (SharedModule.createQueues m).2 := by
  have hne : m.resourceNames_.isEmpty = false := by
    cases hr : m.resourceNames_ with
    | nil => rw [hr] at hq; cases hq
    | cons a l => rfl
  simp [SharedModule.createQueues, hne, ha, queuesOf, hq]

theorem mem_queuesOf_doBeginJob (m : SharedModule) (q : String)
    (hq : q ∈ m.resourceNames_) (ha : m.asyncDeclared_ = false) :
    (SharedProducer.doBeginJob none m).1 = none ∧
      q ∈ queuesOf (SharedProducer.doBeginJob none m).2 := by
  have hne : m.resourceNames_.isEmpty = false := by
    cases hr : m.resourceNames_ with
    | nil => rw [hr] at hq; cases hq
    | cons a l => rfl
  simp [SharedProducer.doBeginJob, hne, ha, queuesOf, hq]

/-- C26: two modules that both declare the resource "DB" and do not declare
`async` get their queues at begin-job without an exception (through
`SharedModule::createQueues` or `SharedProducer::doBeginJob`), and then,
whatever the schedules do and in whatever order, at most one invocation of
these modules is in progress: the counter of invocations in progress never
exceeds 1. -/
theorem serialized_invocations_never_overlap (m1 m2 : SharedModule)
    (events : List SchedulerEvent)
    (h1 : "DB" ∈ m1.resourceNames_) (h2 : "DB" ∈ m2.resourceNames_)
    (ha1 : m1.asyncDeclared_ = false) (ha2 : m2.asyncDeclared_ = false) :
    (SharedModule.createQueues m1).1 = none ∧ (SharedProducer.doBeginJob none m2).1 = none ∧
    invocationsInProgress (SharedModule.createQueues m1).2 (SharedProducer.doBeginJob none m2).2
      (schedulerRun events []) ≤ 1 ∧
    invocationsInProgress (SharedModule.createQueues m1).2 (SharedModule.createQueues m2).2
      (schedulerRun events []) ≤ 1 := by
  have c1 := mem_queuesOf_createQueues m1 "DB" h1 ha1
  have c2 := mem_queuesOf_createQueues m2 "DB" h2 ha2
  have d2 := mem_queuesOf_doBeginJob m2 "DB" h2 ha2
  have hinv := countP_holders_le_one events [] (fun q => by simp) "DB"
  exact ⟨c1.1, d2.1,
    le_trans (invocationsInProgress_le_holders _ _ "DB" c1.2 d2.2 _) hinv,
    le_trans (invocationsInProgress_le_holders _ _ "DB" c1.2 c2.2 _) hinv⟩

/-- C26 (witness): the modules "a" and "b" serialized on "DB", with schedule 0
invoking "a", schedule 1 asking for "b" while "a" runs, "a" ending, and
schedule 1 asking for "b" again. -/
theorem serialized_invocations_never_overlap_witness :
    "DB" ∈ (serializedOnDB "a").resourceNames_ ∧
    invocationsInProgress (SharedModule.createQueues (serializedOnDB "a")).2
      (SharedProducer.doBeginJob none (serializedOnDB "b")).2
      (schedulerRun
        [SchedulerEvent.invoke 0 (SharedModule.createQueues (serializedOnDB "a")).2,
         SchedulerEvent.invoke 1 (SharedProducer.doBeginJob none (serializedOnDB "b")).2,
         SchedulerEvent.finish 0,
         SchedulerEvent.invoke 1 (SharedProducer.doBeginJob none (serializedOnDB "b")).2] []) ≤ 1 :=
  ⟨by decide,
    (serialized_invocations_never_overlap (serializedOnDB "a") (serializedOnDB "b")
      [SchedulerEvent.invoke 0 (SharedModule.createQueues (serializedOnDB "a")).2,
       SchedulerEvent.invoke 1 (SharedProducer.doBeginJob none (serializedOnDB "b")).2,
       SchedulerEvent.finish 0,
       SchedulerEvent.invoke 1 (SharedProducer.doBeginJob none (serializedOnDB "b")).2]
      (by decide) (by decide) (by decide) (by decide)).2.2.1⟩

end scheduling

end art

/-! ## Theorems: item source, the protocol -/

namespace art
namespace DecrepitRelicInputSourceImplementation
open input (ItemType)

/-- What `nextItemType_()` leaves behind, with the items it has read: the
stream left is a tail of the stream it found. -/
theorem nextItemType__result_tail (s : Source) :
    ∃ (pre p : List ItemType) (c : List Hook),
      s.pending = pre ++ p ∧
      nextItemType_ s = (p.headD ItemType.IsStop, { s with pending := p, calls := c }) ∧
      permitted s.processingMode_ (p.headD ItemType.IsStop) := by
  obtain ⟨pre, rest, hl, hpre, hx⟩ := exists_split s.processingMode_ s.pending
  refine ⟨pre, rest, s.calls ++ skipCalls pre ++ [Hook.getNextItemType], hl,
    nextItemType__skip pre rest s hl hpre hx, ?_⟩
  cases rest with
  | nil => simp [permitted]
  | cons x post => exact hx x rfl

set_option maxHeartbeats 4000000 in
/-- Containment in one call: between two rounds of the protocol, the item
`nextItemType()` returns is allowed after the item returned last. -/
theorem nextItemType_allowedAfter (s : Source) (it : ItemType) (s1 : Source)
    (hI : betweenRounds s) (h : nextItemType s = some (it, s1)) :
    allowedAfter s.state_ it = true := by
  obtain ⟨p, c, hr, hperm⟩ := nextItemType__result { s with doneReadAhead_ := true }
  obtain ⟨pending, calls, a, b, c, d, e, mode, f, g, hh, i⟩ := s
  unfold nextItemType at h
  unfold betweenRounds at hI
  dsimp only at h hr hperm hI ⊢
  cases f with
  | true =>
    simp only [if_true, Option.some.injEq, Prod.mk.injEq] at h
    obtain ⟨h1, h2⟩ := h
    subst h1
    have : g = ItemType.IsStop := by simpa using hI.symm
    subst this
    rfl
  | false =>
    have hg : g ≠ ItemType.IsStop := by simpa using hI.symm
    rw [if_neg (by simp)] at h
    rw [hr] at h
    clear hr
    generalize List.headD p ItemType.IsStop = newState at h hperm
    simp only [finishNextItemType, cassert_bind, processingMode, setRunPrincipal,
      setSubRunPrincipal, readRun_, readSubRun_] at h
    split_ifs at h <;>
      simp only [Option.some.injEq, Prod.mk.injEq, reduceCtorEq] at h <;>
      (obtain ⟨h1, h2⟩ := h; subst h2; subst h1; cases g <;> simp_all [allowedAfter])

end DecrepitRelicInputSourceImplementation
end art

namespace art
namespace DecrepitRelicInputSourceImplementation
open input (ItemType)
theorem mem_consumeHead (t x : ItemType) (l : List ItemType) (h : x ∈ consumeHead t l) :
    x ∈ l := by
  cases l with
  | nil => exact h
  | cons y ys =>
    simp only [consumeHead] at h
    split_ifs at h
    · exact List.mem_cons_of_mem _ h
    · exact h

theorem headD_eq_head? (p : List ItemType) (hp : ItemType.IsInvalid ∉ p) :
    p.headD ItemType.IsStop ≠ ItemType.IsInvalid ∧
    (p.headD ItemType.IsStop = ItemType.IsEvent → p.head? = some ItemType.IsEvent) := by
  cases p with
  | nil => simp
  | cons x rest =>
    have hx : x ≠ ItemType.IsInvalid := fun h0 => hp (h0 ▸ List.mem_cons_self _ _)
    simp [hx]

/-- The read call of an item passes its assertions when the item is cached as
read ahead and comes with the limits and members the call asserts. -/
theorem consume_passes (it : ItemType) (s1 : Source)
    (hV : ItemType.IsInvalid ∉ s1.pending) (hit : it ≠ ItemType.IsInvalid)
    (hd : s1.doneReadAhead_ = true) (hst : s1.state_ = it)
    (hlim : (it = ItemType.IsFile ∨ it = ItemType.IsRun ∨ it = ItemType.IsSubRun) →
      s1.limitReached = false)
    (hev : it = ItemType.IsEvent →
      s1.eventLimitReached = false ∧ s1.pending.head? = some ItemType.IsEvent)
    (hsr : it = ItemType.IsSubRun → s1.subRunPrincipal_.isSome = true) :
    ∃ s2, consume it s1 = some s2 ∧ ItemType.IsInvalid ∉ s2.pending := by
  obtain ⟨pending, calls, a, b, c, d, e, mode, f, g, hh, i⟩ := s1
  dsimp only at hV hd hst hlim hev hsr
  subst hd; subst hst
  have hc0 : ItemType.IsInvalid ∉ consumeHead ItemType.IsFile pending :=
    fun h0 => hV (mem_consumeHead _ _ _ h0)
  have hc3 : ItemType.IsInvalid ∉ consumeHead ItemType.IsEvent pending :=
    fun h0 => hV (mem_consumeHead _ _ _ h0)
  cases g with
  | IsInvalid => exact absurd rfl hit
  | IsFile =>
    have := hlim (Or.inl rfl)
    simp [consume, readFile, cassert_bind, this, readFile_, hc0]
  | IsRun =>
    have := hlim (Or.inr (Or.inl rfl))
    simp [consume, readRun, cassert_bind, this, hV]
  | IsSubRun =>
    have := hlim (Or.inr (Or.inr rfl))
    have h2 := hsr rfl
    simp [consume, readSubRun, cassert_bind, this, hV, h2]
  | IsEvent =>
    obtain ⟨h1, h2⟩ := hev rfl
    simp only [consume, readEvent, cassert_bind, readEvent_, h1, h2]
    by_cases hb : b > 0 <;> simp [hb, hc3]
  | IsStop => exact ⟨_, rfl, hV⟩

/-- A read call that returns leaves the source between two rounds, the item
it consumed being the one returned last. -/
theorem consume_post (it : ItemType) (s1 s2 : Source)
    (hd : s1.doneReadAhead_ = true) (hst : s1.state_ = it)
    (h : consume it s1 = some s2) :
    betweenRounds s2 ∧ s2.state_ = it := by
  obtain ⟨pending, calls, a, b, c, d, e, mode, f, g, hh, i⟩ := s1
  dsimp only at hd hst
  subst hd; subst hst
  unfold betweenRounds
  cases g with
  | IsInvalid => simp [consume] at h
  | IsFile =>
    simp only [consume, readFile, cassert_bind, readFile_] at h
    split_ifs at h <;> (cases h; simp)
  | IsRun =>
    simp only [consume, readRun, cassert_bind, Option.map_eq_some'] at h
    obtain ⟨r, h1, h2⟩ := h
    split_ifs at h1 <;> (cases h1; subst h2; simp)
  | IsSubRun =>
    simp only [consume, readSubRun, cassert_bind, Option.map_eq_some'] at h
    obtain ⟨r, h1, h2⟩ := h
    split_ifs at h1 <;> (cases h1; subst h2; simp)
  | IsEvent =>
    simp only [consume, readEvent, cassert_bind, readEvent_, Option.map_eq_some'] at h
    obtain ⟨r, h1, h2⟩ := h
    split_ifs at h1 <;> (cases h1; subst h2; simp)
  | IsStop =>
    simp only [consume, Option.some.injEq] at h
    subst h
    simp


end DecrepitRelicInputSourceImplementation
end art

namespace art
namespace DecrepitRelicInputSourceImplementation
open input (ItemType)
set_option maxHeartbeats 4000000 in
/-- On a stream without `IsInvalid` the assertions inside `nextItemType()`
hold: the call returns. -/
theorem nextItemType_isSome (s : Source) (hV : ItemType.IsInvalid ∉ s.pending) :
    (nextItemType s).isSome = true := by
  obtain ⟨pre, p, c, hsplit, hr, hperm⟩ :=
    nextItemType__result_tail { s with doneReadAhead_ := true }
  obtain ⟨pending, calls, a, b, c, d, e, mode, f, g, hh, i⟩ := s
  dsimp only at hsplit hr hperm hV ⊢
  subst hsplit
  have hVp : ItemType.IsInvalid ∉ p := fun h0 => hV (List.mem_append_right _ h0)
  have hne := (headD_eq_head? p hVp).1
  unfold nextItemType
  dsimp only
  cases f with
  | true => simp
  | false =>
    rw [if_neg (by simp), hr]
    clear hr
    generalize List.headD p ItemType.IsStop = newState at hperm hne
    simp only [finishNextItemType, cassert_bind, processingMode, setRunPrincipal,
      setSubRunPrincipal, readRun_, readSubRun_]
    unfold permitted at hperm
    split_ifs <;> first
      | rfl
      | (exfalso; cases newState <;> cases mode <;> simp_all)

set_option maxHeartbeats 4000000 in
/-- What `nextItemType()` returns on a stream without `IsInvalid`, when it is
called between two rounds: an item other than `IsInvalid`, with the limits
and members the read call of the item asserts. -/
theorem nextItemType_ready (s : Source) (it : ItemType) (s1 : Source)
    (hV : ItemType.IsInvalid ∉ s.pending) (hd : s.doneReadAhead_ = false)
    (h : nextItemType s = some (it, s1)) :
    ItemType.IsInvalid ∉ s1.pending ∧ it ≠ ItemType.IsInvalid ∧
    ((it = ItemType.IsFile ∨ it = ItemType.IsRun ∨ it = ItemType.IsSubRun) →
      s1.limitReached = false) ∧
    (it = ItemType.IsEvent →
      s1.eventLimitReached = false ∧ s1.pending.head? = some ItemType.IsEvent ∧
        s1.processingMode_ = ProcessingMode.RunsSubRunsAndEvents) ∧
    (it = ItemType.IsSubRun →
      s1.subRunPrincipal_.isSome = true ∧ s1.processingMode_ ≠ ProcessingMode.Runs) := by
  obtain ⟨pre, p, c, hsplit, hr, hperm⟩ :=
    nextItemType__result_tail { s with doneReadAhead_ := true }
  obtain ⟨pending, calls, a, b, c, d, e, mode, f, g, hh, i⟩ := s
  dsimp only at hsplit hr hperm hV hd ⊢
  subst hsplit
  subst hd
  have hVp : ItemType.IsInvalid ∉ p := fun h0 => hV (List.mem_append_right _ h0)
  have hne := (headD_eq_head? p hVp).1
  have hev := (headD_eq_head? p hVp).2
  have hc1 : ItemType.IsInvalid ∉ consumeHead ItemType.IsRun p :=
    fun h0 => hVp (mem_consumeHead _ _ _ h0)
  have hc2 : ItemType.IsInvalid ∉ consumeHead ItemType.IsSubRun p :=
    fun h0 => hVp (mem_consumeHead _ _ _ h0)
  unfold nextItemType at h
  dsimp only at h
  rw [if_neg (by simp), hr] at h
  clear hr
  generalize List.headD p ItemType.IsStop = newState at h hperm hne hev
  simp only [finishNextItemType, cassert_bind, processingMode, setRunPrincipal,
    setSubRunPrincipal, readRun_, readSubRun_] at h
  unfold permitted at hperm
  split_ifs at h <;>
    simp only [Option.some.injEq, Prod.mk.injEq, reduceCtorEq] at h <;>
    (obtain ⟨h1, h2⟩ := h; subst h2; subst h1
     simp_all [limitReached, eventLimitReached, subRunLimitReached]) <;>
    (cases newState <;> cases mode <;> simp_all)


end DecrepitRelicInputSourceImplementation
end art

namespace art
namespace DecrepitRelicInputSourceImplementation
open input (ItemType)

/-- One round of the protocol on a stream without `IsInvalid`, from a state
between two rounds: `nextItemType()` and the read call of the item it returns
pass their assertions, and the state reached is again one between two rounds. -/
theorem round_passes (s : Source) (hI : betweenRounds s)
    (hV : ItemType.IsInvalid ∉ s.pending) :
    ∃ it s1 s2, nextItemType s = some (it, s1) ∧ consume it s1 = some s2 ∧
      betweenRounds s2 ∧ ItemType.IsInvalid ∉ s2.pending := by
  obtain ⟨⟨it, s1⟩, hn⟩ := Option.isSome_iff_exists.1 (nextItemType_isSome s hV)
  obtain ⟨hd1, hst1, -, -, -, -, hcached⟩ := nextItemType_post s it s1 hn
  cases hd : s.doneReadAhead_ with
  | true =>
    obtain ⟨hit, hs1⟩ := hcached hd
    have hstop : s.state_ = ItemType.IsStop := by
      unfold betweenRounds at hI
      rw [hd] at hI
      simpa using hI.symm
    rw [hstop] at hit
    subst hit; subst hs1
    exact ⟨ItemType.IsStop, s1, s1, hn, rfl, hI, hV⟩
  | false =>
    obtain ⟨hV1, hit, hlim, hev, hsr⟩ := nextItemType_ready s it s1 hV hd hn
    obtain ⟨s2, hc, hV2⟩ := consume_passes it s1 hV1 hit hd1 hst1 hlim
      (fun h => ⟨(hev h).1, (hev h).2.1⟩) (fun h => (hsr h).1)
    exact ⟨it, s1, s2, hn, hc, (consume_post it s1 s2 hd1 hst1 hc).1, hV2⟩

/-- Any number of rounds of the protocol on a stream without `IsInvalid` pass
all assertions. -/
theorem protocol_passes (n : Nat) :
    ∀ s : Source, betweenRounds s → ItemType.IsInvalid ∉ s.pending →
      ∃ items s1, protocol n s = some (items, s1) ∧ items.length = n ∧
        betweenRounds s1 ∧ ItemType.IsInvalid ∉ s1.pending := by
  induction n with
  | zero =>
    intro s hI hV
    exact ⟨[], s, rfl, rfl, hI, hV⟩
  | succ n ih =>
    intro s hI hV
    obtain ⟨it, s1, s2, hn, hc, hI2, hV2⟩ := round_passes s hI hV
    obtain ⟨items, s3, hp, hlen, hI3, hV3⟩ := ih s2 hI2 hV2
    refine ⟨it :: items, s3, ?_, by simp [hlen], hI3, hV3⟩
    simp [protocol, hn, hc, hp]

/-- Containment along the protocol: the items returned, with the item the
next call returns, form a chain in which every item is allowed after the one
before it. -/
theorem protocol_chain (n : Nat) :
    ∀ (s : Source), betweenRounds s →
      ∀ (items : List ItemType) (s1 : Source), protocol n s = some (items, s1) →
      ∀ (it : ItemType) (s2 : Source), nextItemType s1 = some (it, s2) →
        List.Chain (fun a b => allowedAfter a b = true) s.state_ (items ++ [it]) := by
  induction n with
  | zero =>
    intro s hI items s1 hp it s2 hn
    simp only [protocol, Option.some.injEq, Prod.mk.injEq] at hp
    obtain ⟨h1, h2⟩ := hp
    subst h1; subst h2
    simp only [List.nil_append, List.chain_cons, List.Chain.nil, and_true]
    exact nextItemType_allowedAfter s it s2 hI hn
  | succ n ih =>
    intro s hI items s1 hp it s2 hn
    simp only [protocol, Option.bind_eq_some, Option.map_eq_some'] at hp
    obtain ⟨r, hr, sa, hc, q, hq, heq⟩ := hp
    obtain ⟨it0, s0⟩ := r
    simp only [Prod.mk.injEq] at heq
    obtain ⟨h1, h2⟩ := heq
    subst h1; subst h2
    obtain ⟨hd1, hst1, -⟩ := nextItemType_post s it0 s0 hr
    obtain ⟨hIa, hsta⟩ := consume_post it0 s0 sa hd1 hst1 hc
    have := ih sa hIa q.1 q.2 hq it s2 hn
    rw [hsta] at this
    simp only [List.cons_append, List.chain_cons]
    exact ⟨nextItemType_allowedAfter s it0 s0 hI hr, this⟩

theorem chain_after_stop (l : List ItemType)
    (h : List.Chain (fun a b => allowedAfter a b = true) ItemType.IsStop l) :
    ∀ x ∈ l, x = ItemType.IsStop := by
  induction l with
  | nil => intro x hx; cases hx
  | cons y ys ih =>
    rw [List.chain_cons] at h
    have hy : y = ItemType.IsStop := by
      cases y <;> first | rfl | (exact absurd h.1 (by decide))
    subst hy
    intro x hx
    rcases List.mem_cons.1 hx with h0 | h0
    · exact h0
    · exact ih h.2 x h0

/-- What a chain of allowed items that starts with nothing returned looks
like, in the words of containment. -/
theorem chain_containment (l : List ItemType)
    (h : List.Chain (fun a b => allowedAfter a b = true) ItemType.IsInvalid l) :
    (∀ x, l.head? = some x → x = ItemType.IsFile ∨ x = ItemType.IsStop) ∧
    (∀ pre post, l = pre ++ ItemType.IsRun :: post → ItemType.IsFile ∈ pre) ∧
    (∀ pre a post, l = pre ++ a :: ItemType.IsSubRun :: post →
      a = ItemType.IsRun ∨ a = ItemType.IsSubRun ∨ a = ItemType.IsEvent) ∧
    (∀ pre a post, l = pre ++ a :: ItemType.IsEvent :: post →
      a = ItemType.IsSubRun ∨ a = ItemType.IsEvent) ∧
    (∀ pre post, l = pre ++ ItemType.IsStop :: post → ∀ x ∈ post, x = ItemType.IsStop) := by
  have hhead : ∀ x, l.head? = some x → x = ItemType.IsFile ∨ x = ItemType.IsStop := by
    intro x hx
    cases l with
    | nil => cases hx
    | cons y ys =>
      simp only [List.head?_cons, Option.some.injEq] at hx
      subst hx
      rw [List.chain_cons] at h
      have h1 := h.1
      cases y <;> first
        | exact Or.inl rfl
        | exact Or.inr rfl
        | (exact absurd h1 (by decide))
  have hstop : ∀ pre post, l = pre ++ ItemType.IsStop :: post →
      ∀ x ∈ post, x = ItemType.IsStop := by
    intro pre post hl
    rw [hl, List.chain_split] at h
    exact chain_after_stop post h.2
  have hpair : ∀ pre a b post, l = pre ++ a :: b :: post → allowedAfter a b = true := by
    intro pre a b post hl
    rw [hl, List.chain_split, List.chain_cons] at h
    exact h.2.1
  refine ⟨hhead, ?_, ?_, ?_, hstop⟩
  · intro pre post hl
    cases pre with
    | nil =>
      rcases hhead ItemType.IsRun (by rw [hl]; rfl) with h0 | h0 <;> cases h0
    | cons y ys =>
      rcases hhead y (by rw [hl]; rfl) with h0 | h0
      · rw [h0]
        exact List.mem_cons_self _ _
      · subst h0
        have := hstop [] (ys ++ ItemType.IsRun :: post) (by rw [hl]; rfl) ItemType.IsRun
          (by simp)
        cases this
  · intro pre a post hl
    have := hpair pre a _ post hl
    cases a <;> first
      | exact Or.inl rfl
      | exact Or.inr (Or.inl rfl)
      | exact Or.inr (Or.inr rfl)
      | (exact absurd this (by decide))
  · intro pre a post hl
    have := hpair pre a _ post hl
    cases a <;> first
      | exact Or.inl rfl
      | exact Or.inr rfl
      | (exact absurd this (by decide))

theorem betweenRounds_mk0 (mode : ProcessingMode) (maxEvents maxSubRuns : Int)
    (stream : List ItemType) : betweenRounds (mk0 mode maxEvents maxSubRuns stream) := by
  simp [betweenRounds, mk0]

/-- C24: a source as constructed, on a stream of File, Run, SubRun, Event and
Stop items, driven by the protocol for any number of rounds (every item
returned by `nextItemType()` is consumed by its read call, Stop by none): all
rounds pass their assertions, and so does the call of `nextItemType()` that
follows; when this call returns File, Run or SubRun no limit is reached, when
it returns Event the event limit is not reached and the mode is
`RunsSubRunsAndEvents`, when it returns SubRun the mode is not `Runs`, and the
read call of the item returned passes its assertions as well. -/
theorem protocol_assertions_hold (mode : ProcessingMode) (maxEvents maxSubRuns : Int)
    (stream : List ItemType) (n : Nat) (hV : ItemType.IsInvalid ∉ stream) :
    ∃ items s, protocol n (mk0 mode maxEvents maxSubRuns stream) = some (items, s) ∧
      items.length = n ∧
      ∃ it s1, nextItemType s = some (it, s1) ∧
        ((it = ItemType.IsFile ∨ it = ItemType.IsRun ∨ it = ItemType.IsSubRun) →
          s1.eventLimitReached = false ∧ s1.subRunLimitReached = false) ∧
        (it = ItemType.IsEvent →
          s1.eventLimitReached = false ∧
            s1.processingMode = ProcessingMode.RunsSubRunsAndEvents) ∧
        (it = ItemType.IsSubRun → s1.processingMode ≠ ProcessingMode.Runs) ∧
        (consume it s1).isSome = true := by
  obtain ⟨items, s, hp, hlen, hI, hVs⟩ :=
    protocol_passes n (mk0 mode maxEvents maxSubRuns stream)
      (betweenRounds_mk0 mode maxEvents maxSubRuns stream) hV
  obtain ⟨it, s1, s2, hn, hc, -, -⟩ := round_passes s hI hVs
  refine ⟨items, s, hp, hlen, it, s1, hn, ?_, ?_, ?_, by rw [hc]; rfl⟩
  all_goals
    obtain ⟨-, hst1, -, -, -, -, hcached⟩ := nextItemType_post s it s1 hn
    cases hd : s.doneReadAhead_ with
    | true =>
      have hstop : s.state_ = ItemType.IsStop := by
        unfold betweenRounds at hI
        rw [hd] at hI
        simpa using hI.symm
      have hit := (hcached hd).1
      rw [hstop] at hit
      subst hit
      simp
    | false =>
      obtain ⟨-, -, hlim, hev, hsr⟩ := nextItemType_ready s it s1 hVs hd hn
      first
        | (intro h
           have := hlim h
           simpa [limitReached] using this)
        | (intro h
           exact ⟨(hev h).1, (hev h).2.2⟩)
        | (intro h
           exact (hsr h).2)

/-- C24 (witness): three rounds in mode `RunsAndSubRuns` with a limit of one
sub-run, on a stream that reports an event before its run and a second sub-run. -/
theorem protocol_assertions_hold_witness :
    ItemType.IsInvalid ∉ [ItemType.IsFile, ItemType.IsEvent, ItemType.IsRun, ItemType.IsSubRun,
      ItemType.IsEvent, ItemType.IsSubRun, ItemType.IsStop] ∧
    ∃ items s, protocol 3 (mk0 ProcessingMode.RunsAndSubRuns (-1) 1
        [ItemType.IsFile, ItemType.IsEvent, ItemType.IsRun, ItemType.IsSubRun,
          ItemType.IsEvent, ItemType.IsSubRun, ItemType.IsStop]) = some (items, s) ∧
      items.length = 3 ∧
      ∃ it s1, nextItemType s = some (it, s1) ∧
        ((it = ItemType.IsFile ∨ it = ItemType.IsRun ∨ it = ItemType.IsSubRun) →
          s1.eventLimitReached = false ∧ s1.subRunLimitReached = false) ∧
        (it = ItemType.IsEvent →
          s1.eventLimitReached = false ∧
            s1.processingMode = ProcessingMode.RunsSubRunsAndEvents) ∧
        (it = ItemType.IsSubRun → s1.processingMode ≠ ProcessingMode.Runs) ∧
        (consume it s1).isSome = true :=
  ⟨by decide,
    protocol_assertions_hold ProcessingMode.RunsAndSubRuns (-1) 1
      [ItemType.IsFile, ItemType.IsEvent, ItemType.IsRun, ItemType.IsSubRun,
        ItemType.IsEvent, ItemType.IsSubRun, ItemType.IsStop] 3 (by decide)⟩

/-- C27: a source as constructed, driven by the protocol on any stream
whatever (every item returned by `nextItemType()` is consumed by its read
call, Stop by none).  On a stream without `IsInvalid` every round returns.  On
every stream, the items returned in the rounds that pass, with the item the
next call returns, respect containment: the first item is File or Stop; a
Run comes after a File; an item directly before a SubRun is Run, SubRun or
Event; an item directly before an Event is SubRun or Event; and after a Stop
there are only Stops. -/
theorem nextItemType_containment (mode : ProcessingMode) (maxEvents maxSubRuns : Int)
    (stream : List ItemType) (n : Nat) :
    (ItemType.IsInvalid ∉ stream →
      ∃ items s it s1, protocol n (mk0 mode maxEvents maxSubRuns stream) = some (items, s) ∧
        items.length = n ∧ nextItemType s = some (it, s1)) ∧
    ∀ items s it s1, protocol n (mk0 mode maxEvents maxSubRuns stream) = some (items, s) →
      nextItemType s = some (it, s1) →
      (∀ x, (items ++ [it]).head? = some x → x = ItemType.IsFile ∨ x = ItemType.IsStop) ∧
      (∀ pre post, items ++ [it] = pre ++ ItemType.IsRun :: post → ItemType.IsFile ∈ pre) ∧
      (∀ pre a post, items ++ [it] = pre ++ a :: ItemType.IsSubRun :: post →
        a = ItemType.IsRun ∨ a = ItemType.IsSubRun ∨ a = ItemType.IsEvent) ∧
      (∀ pre a post, items ++ [it] = pre ++ a :: ItemType.IsEvent :: post →
        a = ItemType.IsSubRun ∨ a = ItemType.IsEvent) ∧
      (∀ pre post, items ++ [it] = pre ++ ItemType.IsStop :: post →
        ∀ x ∈ post, x = ItemType.IsStop) := by
  refine ⟨?_, ?_⟩
  · intro hV
    obtain ⟨items, s, hp, hlen, hI, hVs⟩ :=
      protocol_passes n (mk0 mode maxEvents maxSubRuns stream)
        (betweenRounds_mk0 mode maxEvents maxSubRuns stream) hV
    obtain ⟨it, s1, -, hn, -⟩ := round_passes s hI hVs
    exact ⟨items, s, it, s1, hp, hlen, hn⟩
  · intro items s it s1 hp hn
    exact chain_containment (items ++ [it])
      (protocol_chain n (mk0 mode maxEvents maxSubRuns stream)
        (betweenRounds_mk0 mode maxEvents maxSubRuns stream) items s hp it s1 hn)

end DecrepitRelicInputSourceImplementation
end art

/-! ## Theorems: bit positions of the trigger paths -/

namespace art

namespace PathManager

theorem makeWorker_names (f : ModuleFactory) (si : Nat) (wci : WorkerInPath.ConfigInfo)
    (mci : ModuleConfigInfo) (m : ModuleBase) (st st1 : FillState)
    (h : makeWorker f si wci mci m st = Except.ok st1) :
    st1.pm.triggerPathNames_ = st.pm.triggerPathNames_ ∧
      st1.pm.triggerPathsInfo_ = st.pm.triggerPathsInfo_ := by
  unfold makeWorker at h
  cases hm : f.make_worker_from_module wci.label si with
  | threw t =>
    rw [hm] at h
    cases h
  | invalid what =>
    rw [hm] at h
    cases h
    exact ⟨rfl, rfl⟩
  | made =>
    rw [hm] at h
    cases h
    exact ⟨rfl, rfl⟩

theorem fillWorker_names (f : ModuleFactory) (si : Nat) (wci : WorkerInPath.ConfigInfo)
    (st st1 : FillState) (h : fillWorker f si st wci = Except.ok st1) :
    st1.pm.triggerPathNames_ = st.pm.triggerPathNames_ ∧
      st1.pm.triggerPathsInfo_ = st.pm.triggerPathsInfo_ := by
  unfold fillWorker at h
  cases hc : mapFind? st.pm.allModules_ wci.label with
  | none =>
    rw [hc] at h
    cases h
  | some mci =>
    rw [hc] at h
    simp only at h
    cases hw : (mapFind? st.workers wci.label).join with
    | some w =>
      rw [hw] at h
      cases h
      exact ⟨rfl, rfl⟩
    | none =>
      rw [hw] at h
      simp only at h
      cases hmod : (if mci.moduleThreadingType_ ≠ ModuleThreadingType.replicated then
          mapFind? st.pm.moduleSet_ wci.label else none) with
      | some m =>
        rw [hmod] at h
        exact makeWorker_names f si wci mci m st st1 h
      | none =>
        rw [hmod] at h
        simp only at h
        cases hm : f.make_module wci.label si with
        | threw t =>
          rw [hm] at h
          cases h
        | invalid what =>
          rw [hm] at h
          cases h
          exact ⟨rfl, rfl⟩
        | made =>
          rw [hm] at h
          simp only at h
          have hf := makeWorker_names f si wci mci _ _ st1 h
          exact hf

theorem fillWorkersLoop_names (f : ModuleFactory) (si : Nat)
    (wci_list : List WorkerInPath.ConfigInfo) (st st1 : FillState)
    (h : fillWorkersLoop f si wci_list st = Except.ok st1) :
    st1.pm.triggerPathNames_ = st.pm.triggerPathNames_ ∧
      st1.pm.triggerPathsInfo_ = st.pm.triggerPathsInfo_ := by
  induction wci_list generalizing st with
  | nil =>
    cases h
    exact ⟨rfl, rfl⟩
  | cons c rest ih =>
    rw [fillWorkersLoop] at h
    cases h1 : fillWorker f si st c with
    | error t =>
      rw [h1] at h
      cases h
    | ok st2 =>
      rw [h1] at h
      obtain ⟨a1, a2⟩ := fillWorker_names f si c st st2 h1
      obtain ⟨b1, b2⟩ := ih st2 h
      exact ⟨b1.trans a1, b2.trans a2⟩

theorem fillWorkers__names (f : ModuleFactory) (si : Nat)
    (wci_list : List WorkerInPath.ConfigInfo) (workers workers1 : List (String × Option Worker))
    (wips : List WorkerInPath) (pm pm1 : PathManager)
    (h : fillWorkers_ f si wci_list [] workers pm = Except.ok (wips, workers1, pm1)) :
    pm1.triggerPathNames_ = pm.triggerPathNames_ ∧
      pm1.triggerPathsInfo_ = pm.triggerPathsInfo_ := by
  unfold fillWorkers_ at h
  cases h1 : fillWorkersLoop f si wci_list
      { configErrMsgs := [], wips := [], workers := workers, pm := pm } with
  | error t =>
    rw [h1] at h
    cases h
  | ok st =>
    rw [h1] at h
    simp only at h
    split at h
    · cases h
    · cases h
      exact fillWorkersLoop_names f si wci_list _ st h1

/-- The paths `makeTriggerPaths` adds: one for each entry of the map, in the
order of the map, with bit positions counting up from `bitPos`. -/
theorem makeTriggerPaths_positions (f : ModuleFactory) (si : Nat)
    (paths : List (String × List WorkerInPath.ConfigInfo)) (bitPos : Nat)
    (pinfo pinfo1 : PathsInfo) (pm pm1 : PathManager)
    (h : makeTriggerPaths f si paths bitPos pinfo pm = Except.ok (pinfo1, pm1)) :
    pm1.triggerPathNames_ = pm.triggerPathNames_ ∧
      pm1.triggerPathsInfo_ = pm.triggerPathsInfo_ ∧
      pinfo1.pathResults = pinfo.pathResults ∧
      ∃ added, pinfo1.paths = pinfo.paths ++ added ∧
        added.map Path.name = paths.map Prod.fst ∧
        added.map Path.bitPosition = List.range' bitPos paths.length ∧
        ∀ p ∈ added, p.scheduleID = si ∧ p.isEndPath = false := by
  induction paths generalizing bitPos pinfo pm with
  | nil =>
    cases h
    exact ⟨rfl, rfl, rfl, [], by simp, rfl, rfl, fun p hp => absurd hp (List.not_mem_nil p)⟩
  | cons p rest ih =>
    obtain ⟨path_name, infos⟩ := p
    rw [makeTriggerPaths] at h
    cases h1 : fillWorkers_ f si infos [] pinfo.workers pm with
    | error t =>
      rw [h1] at h
      cases h
    | ok r =>
      obtain ⟨wips, workers, pm2⟩ := r
      rw [h1] at h
      obtain ⟨a1, a2⟩ := fillWorkers__names f si infos _ _ _ _ _ h1
      obtain ⟨b1, b2, b3, added, b4, b5, b6, b7⟩ := ih _ _ _ h
      refine ⟨b1.trans a1, b2.trans a2, b3,
        { scheduleID := si, bitPosition := bitPos, isEndPath := false, name := path_name,
          workers := wips } :: added, ?_, ?_, ?_, ?_⟩
      · rw [b4]
        simp
      · simp [b5]
      · simp [b6, List.range'_succ]
      · intro q hq
        rcases List.mem_cons.mp hq with h0 | h0
        · rw [h0]
          exact ⟨rfl, rfl⟩
        · exact b7 q h0

theorem fillSchedule_positions (f : ModuleFactory) (pm pm1 : PathManager) (si : Nat)
    (hempty : (pm.triggerPathsInfo_.getD si PathsInfo.empty).paths = [])
    (h : fillSchedule f pm si = Except.ok pm1) :
    pm1.triggerPathNames_ = pm.triggerPathNames_ ∧
      pm1.protoTrigPathLabelMap_ = pm.protoTrigPathLabelMap_ ∧
      ∃ pinfo, pm1.triggerPathsInfo_ = pm.triggerPathsInfo_.set si pinfo ∧
        PathsPlaced pm si pinfo := by
  unfold fillSchedule at h
  simp only at h
  split at h
  · cases h
  · rename_i pinfo2 pm3 h2
    cases h
    obtain ⟨a1, a2, a3, added, a4, a5, a6, a7⟩ := makeTriggerPaths_positions f si _ _ _ _ _ _ h2
    obtain ⟨_, _, _, b4, _⟩ := makeTriggerPaths_frame f si _ _ _ _ _ _ h2
    simp only at a3 a4
    rw [hempty, List.nil_append] at a4
    refine ⟨a1, b4, pinfo2, by simp only [a2], a3, ?_, ?_, ?_⟩
    · rw [a4, a5]
    · rw [a4, a6, List.range_eq_range']
    · rw [a4]
      exact a7

theorem fillSchedules_positions (f : ModuleFactory) (sis : List Nat) :
    ∀ (pm pm1 : PathManager), sis.Nodup →
      (∀ si ∈ sis, si < pm.triggerPathsInfo_.length ∧
        (pm.triggerPathsInfo_.getD si PathsInfo.empty).paths = []) →
      fillSchedules f sis pm = Except.ok pm1 →
      pm1.triggerPathNames_ = pm.triggerPathNames_ ∧
        pm1.protoTrigPathLabelMap_ = pm.protoTrigPathLabelMap_ ∧
        pm1.triggerPathsInfo_.length = pm.triggerPathsInfo_.length ∧
        (∀ si ∈ sis, PathsPlaced pm si (pm1.triggerPathsInfo_.getD si PathsInfo.empty)) ∧
        (∀ sj, sj ∉ sis → pm1.triggerPathsInfo_.getD sj PathsInfo.empty =
          pm.triggerPathsInfo_.getD sj PathsInfo.empty) := by
  induction sis with
  | nil =>
    intro pm pm1 _ _ h
    cases h
    exact ⟨rfl, rfl, rfl, fun si hsi => absurd hsi (List.not_mem_nil si), fun _ _ => rfl⟩
  | cons si rest ih =>
    intro pm pm1 hnd hpre h
    rw [fillSchedules] at h
    cases h1 : fillSchedule f pm si with
    | error t =>
      rw [h1] at h
      cases h
    | ok pm2 =>
      rw [h1] at h
      obtain ⟨hsi, hempty⟩ := hpre si (List.mem_cons_self _ _)
      obtain ⟨a1, a2, pinfo, a3, a4⟩ := fillSchedule_positions f pm pm2 si hempty h1
      have hnotin : si ∉ rest := (List.nodup_cons.mp hnd).1
      have hget : ∀ sj, sj ≠ si → pm2.triggerPathsInfo_.getD sj PathsInfo.empty =
          pm.triggerPathsInfo_.getD sj PathsInfo.empty := by
        intro sj hne
        rw [a3, List.getD_eq_getElem?_getD, List.getD_eq_getElem?_getD,
          List.getElem?_set_ne (Ne.symm hne)]
      have hgetsi : pm2.triggerPathsInfo_.getD si PathsInfo.empty = pinfo := by
        rw [a3, List.getD_eq_getElem?_getD, List.getElem?_set_self hsi]
        rfl
      have hlen : pm2.triggerPathsInfo_.length = pm.triggerPathsInfo_.length := by
        rw [a3, List.length_set]
      obtain ⟨b1, b2, b3, b4, b5⟩ := ih pm2 pm1 (List.nodup_cons.mp hnd).2
        (fun sj hsj => by
          have hne : sj ≠ si := fun h0 => hnotin (h0 ▸ hsj)
          obtain ⟨c1, c2⟩ := hpre sj (List.mem_cons_of_mem _ hsj)
          exact ⟨by rw [hlen]; exact c1, by rw [hget sj hne]; exact c2⟩) h
      have hplaced : ∀ sj pinfo0, PathsPlaced pm2 sj pinfo0 → PathsPlaced pm sj pinfo0 := by
        intro sj pinfo0 hp
        unfold PathsPlaced at hp ⊢
        rw [a1, a2] at hp
        exact hp
      refine ⟨b1.trans a1, b2.trans a2, b3.trans hlen, ?_, ?_⟩
      · intro sj hsj
        rcases List.mem_cons.mp hsj with h0 | h0
        · rw [h0, b5 si hnotin, hgetsi]
          exact a4
        · exact hplaced sj _ (b4 sj h0)
      · intro sj hsj
        have hne : sj ≠ si := fun h0 => hsj (h0 ▸ List.mem_cons_self _ _)
        have hnr : sj ∉ rest := fun h0 => hsj (List.mem_cons_of_mem _ h0)
        rw [b5 sj hnr, hget sj hne]

theorem createEndPath_names (f : ModuleFactory) (pm pm1 : PathManager)
    (h : createEndPath f pm = Except.ok pm1) :
    pm1.triggerPathNames_ = pm.triggerPathNames_ ∧
      pm1.triggerPathsInfo_ = pm.triggerPathsInfo_ := by
  unfold createEndPath at h
  split at h
  · split at h
    · cases h
    · rename_i wips workers pm2 h2
      cases h
      have hf := fillWorkers__names f 0 _ _ _ _ _ _ h2
      exact hf
  · cases h
    exact ⟨rfl, rfl⟩

/-- The trigger paths `createModulesAndWorkers()` leaves, for a path manager
whose schedules have no paths yet. -/
theorem createModulesAndWorkers_positions (f : ModuleFactory) (err : String)
    (pm pm1 : PathManager)
    (hinfo : pm.triggerPathsInfo_ = List.replicate pm.nschedules PathsInfo.empty)
    (h : createModulesAndWorkers f err pm = Except.ok pm1) :
    pm1.triggerPathNames_ = pm.triggerPathNames_ ∧
      pm1.triggerPathsInfo_.length = pm.nschedules ∧
      ∀ si pinfo, pm1.triggerPathsInfo_[si]? = some pinfo → PathsPlaced pm si pinfo := by
  unfold createModulesAndWorkers at h
  split at h
  · cases h
  · rename_i pm2 h2
    split at h
    · cases h
    · rename_i pm3 h3
      split at h
      · cases h
      · cases h
        simp only
        obtain ⟨c1, c2⟩ := createEndPath_names f pm2 pm3 h3
        unfold createTriggerPaths at h2
        obtain ⟨b1, b2, b3, b4, b5⟩ := fillSchedules_positions f (List.range pm.nschedules) pm pm2
          (List.nodup_range _)
          (fun si hsi => by
            rw [hinfo, List.length_replicate]
            refine ⟨List.mem_range.mp hsi, ?_⟩
            rw [List.getD_eq_getElem?_getD, List.getElem?_replicate]
            split <;> rfl) h2
        have hlen : pm3.triggerPathsInfo_.length = pm.nschedules := by
          rw [c2, b3, hinfo, List.length_replicate]
        refine ⟨c1.trans b1, hlen, ?_⟩
        intro si pinfo hget
        have hsi : si < pm.nschedules := by
          rw [← hlen]
          exact (List.getElem?_eq_some_iff.mp hget).1
        have := b4 si (List.mem_range.mpr hsi)
        rw [← c2, List.getD_eq_getElem?_getD, hget] at this
        exact this

end PathManager

end art

namespace art

theorem lexLess_asymm (a : List Char) : ∀ b : List Char, lexLess a b = true → lexLess b a = false := by
  induction a with
  | nil =>
    intro b _
    cases b <;> rfl
  | cons x xs ih =>
    intro b h
    cases b with
    | nil => simp [lexLess] at h
    | cons y ys =>
      simp only [lexLess] at h ⊢
      by_cases h1 : x.toNat < y.toNat
      · have h2 : ¬ y.toNat < x.toNat := by omega
        rw [if_neg h2, if_pos h1]
      · rw [if_neg h1] at h
        by_cases h2 : y.toNat < x.toNat
        · rw [if_pos h2] at h
          cases h
        · rw [if_neg h2] at h
          rw [if_neg h2, if_neg h1]
          exact ih ys h

theorem stringLess_asymm (a b : String) (h : stringLess a b = true) : stringLess b a = false :=
  lexLess_asymm a.data b.data h

theorem stringLess_ne (a b : String) (h : stringLess a b = true) : b ≠ a := by
  intro hab
  subst hab
  have := stringLess_asymm b b h
  rw [h] at this
  cases this

/-- A new path name that comes after all keys of the map goes to its end. -/
theorem appendToPath_keys_new (name : String) (info : WorkerInPath.ConfigInfo)
    (m : List (String × List WorkerInPath.ConfigInfo))
    (h : ∀ k ∈ m.map Prod.fst, stringLess k name = true) :
    (appendToPath name info m).map Prod.fst = m.map Prod.fst ++ [name] := by
  induction m with
  | nil => rfl
  | cons p rest ih =>
    obtain ⟨k, v⟩ := p
    have hk : stringLess k name = true := h k (by simp)
    have hne : name ≠ k := stringLess_ne k name hk
    have hnl : stringLess name k = false := stringLess_asymm k name hk
    simp only [appendToPath, if_neg hne, hnl, Bool.false_eq_true, and_false, if_false,
      List.map_cons, List.cons_append, List.cons.injEq, true_and]
    exact ih (fun k1 hk1 => h k1 (by simp only [List.map_cons, List.mem_cons]; exact Or.inr hk1))

theorem mapFind?_isSome_of_mem_keys {β : Type} (m : List (String × β)) (name : String)
    (h : name ∈ m.map Prod.fst) : (mapFind? m name).isSome = true := by
  induction m with
  | nil => cases h
  | cons p rest ih =>
    obtain ⟨k, v⟩ := p
    simp only [mapFind?]
    by_cases hk : name = k
    · rw [if_pos hk]
      rfl
    · rw [if_neg hk]
      apply ih
      simp only [List.map_cons, List.mem_cons] at h
      rcases h with h | h
      · exact absurd h hk
      · exact h

/-- An entry for a path name that is a key of the map leaves the keys as they
are. -/
theorem appendToPath_keys_old (name : String) (info : WorkerInPath.ConfigInfo)
    (m : List (String × List WorkerInPath.ConfigInfo)) (h : name ∈ m.map Prod.fst) :
    (appendToPath name info m).map Prod.fst = m.map Prod.fst := by
  induction m with
  | nil => cases h
  | cons p rest ih =>
    obtain ⟨k, v⟩ := p
    simp only [appendToPath]
    by_cases hk : name = k
    · rw [if_pos hk]
      rfl
    · rw [if_neg hk]
      have hrest : name ∈ rest.map Prod.fst := by
        simp only [List.map_cons, List.mem_cons] at h
        rcases h with h | h
        · exact absurd h hk
        · exact h
      have hsome := mapFind?_isSome_of_mem_keys rest name hrest
      have hnone : (mapFind? rest name).isNone = false := by
        cases hf : mapFind? rest name with
        | none => rw [hf] at hsome; cases hsome
        | some x => rfl
      simp only [hnone, Bool.false_eq_true, false_and, if_false, List.map_cons, List.cons.injEq,
        true_and]
      exact ih hrest

theorem recordEntry_keys (entry label path_name : String) (mci : ModuleConfigInfo)
    (cat : mod_cat_t) (st : PathScan) :
    (recordEntry entry label path_name mci cat st).triggerPathNames_ = st.triggerPathNames_ ∧
      (recordEntry entry label path_name mci cat st).protoTrigPathLabelMap_ =
        if cat = mod_cat_t.MODIFIER then
          appendToPath path_name ⟨label, filterActionOf entry⟩ st.protoTrigPathLabelMap_
        else st.protoTrigPathLabelMap_ := by
  unfold recordEntry
  by_cases hc : cat = mod_cat_t.MODIFIER <;> simp [hc]

/-- The entries of a path whose category is known leave `triggerPathNames_`
and the keys of `protoTrigPathLabelMap_` as they are. -/
theorem processEntries_known_names (am : List (String × ModuleConfigInfo))
    (tp ep : Option (List String)) (name : String) (path rest : List String) (cat : mod_cat_t)
    (hcat : cat ≠ mod_cat_t.UNSET) :
    ∀ (st : PathScan) (c1 : mod_cat_t) (st1 : PathScan),
      processEntries am tp ep name path rest cat st = Except.ok (c1, st1) →
      (cat = mod_cat_t.MODIFIER → name ∈ st.protoTrigPathLabelMap_.map Prod.fst) →
      st1.triggerPathNames_ = st.triggerPathNames_ ∧
        st1.protoTrigPathLabelMap_.map Prod.fst = st.protoTrigPathLabelMap_.map Prod.fst := by
  induction rest with
  | nil =>
    intro st c1 st1 h _
    cases h
    exact ⟨rfl, rfl⟩
  | cons e rest ih =>
    intro st c1 st1 h hkey
    rw [processEntries] at h
    cases hr : remove_filter_action e with
    | error t =>
      rw [hr] at h
      cases h
    | ok label =>
      rw [hr] at h
      simp only at h
      cases hfind : mapFind? am label with
      | none =>
        rw [hfind] at h
        simp only at h
        have := ih _ c1 st1 h hkey
        exact this
      | some mci =>
        rw [hfind] at h
        simp only at h
        rw [if_neg hcat] at h
        generalize (if is_observer mci.moduleType_ = true then mod_cat_t.OBSERVER
          else mod_cat_t.MODIFIER) = mtype at h
        have hstep : ∀ st0 : PathScan,
            processEntries am tp ep name path rest cat
              (recordEntry e label name mci cat st0) = Except.ok (c1, st1) →
            st0.triggerPathNames_ = st.triggerPathNames_ →
            st0.protoTrigPathLabelMap_ = st.protoTrigPathLabelMap_ →
            st1.triggerPathNames_ = st.triggerPathNames_ ∧
              st1.protoTrigPathLabelMap_.map Prod.fst =
                st.protoTrigPathLabelMap_.map Prod.fst := by
          intro st0 h0 hn hm
          obtain ⟨r1, r2⟩ := recordEntry_keys e label name mci cat st0
          have hkeys : (recordEntry e label name mci cat st0).protoTrigPathLabelMap_.map Prod.fst =
              st.protoTrigPathLabelMap_.map Prod.fst := by
            rw [r2, hm]
            by_cases hc : cat = mod_cat_t.MODIFIER
            · rw [if_pos hc]
              exact appendToPath_keys_old name _ _ (hkey hc)
            · rw [if_neg hc]
          obtain ⟨a1, a2⟩ := ih _ c1 st1 h0 (fun hc => by rw [hkeys]; exact hkey hc)
          exact ⟨a1.trans (r1.trans hn), a2.trans hkeys⟩
        by_cases hm : cat ≠ mtype
        · rw [if_pos hm] at h
          exact hstep _ h rfl rfl
        · rw [if_neg hm] at h
          exact hstep _ h rfl rfl

/-- The entries of a path whose category is not known yet: when the loop ends
without an exception, the path has joined `triggerPathNames_` and the keys of
`protoTrigPathLabelMap_` exactly if it is an active trigger path, in both
cases at the end, provided its name comes after all keys. -/
theorem processEntries_unset_names (am : List (String × ModuleConfigInfo))
    (tp ep : Option (List String)) (name : String) (path rest : List String) :
    ∀ (st : PathScan) (c1 : mod_cat_t) (st1 : PathScan),
      processEntries am tp ep name path rest mod_cat_t.UNSET st = Except.ok (c1, st1) →
      (∀ e ∈ rest, wellFormed e = true) →
      (∀ k ∈ st.protoTrigPathLabelMap_.map Prod.fst, stringLess k name = true) →
      st1.triggerPathNames_ = st.triggerPathNames_ ++
          (if triggerEntries am tp ep name rest then [name] else []) ∧
        st1.protoTrigPathLabelMap_.map Prod.fst = st.protoTrigPathLabelMap_.map Prod.fst ++
          (if triggerEntries am tp ep name rest then [name] else []) := by
  induction rest with
  | nil =>
    intro st c1 st1 h _ _
    cases h
    simp [triggerEntries]
  | cons e rest ih =>
    intro st c1 st1 h hwf hless
    have hrest : ∀ x ∈ rest, wellFormed x = true := fun x hx => hwf x (List.mem_cons_of_mem _ hx)
    rw [processEntries, remove_filter_action_of_wellFormed e (hwf e (List.mem_cons_self _ _))]
      at h
    simp only at h
    cases hfind : mapFind? am (labelOf e) with
    | none =>
      rw [hfind] at h
      simp only at h
      have := ih _ c1 st1 h hrest hless
      simpa [triggerEntries, hfind] using this
    | some mci =>
      rw [hfind] at h
      simp only [if_true] at h
      have hcatOf : (if is_observer mci.moduleType_ = true then mod_cat_t.OBSERVER
          else mod_cat_t.MODIFIER) = categoryOf mci := rfl
      rw [hcatOf] at h
      cases hig : ignoredAs tp ep name (categoryOf mci) with
      | true =>
        rw [categorize_none tp ep name _ _ hig] at h
        simp only at h
        have hfalse : triggerEntries am tp ep name (e :: rest) = false := by
          simp only [triggerEntries, hfind]
          rcases categoryOf_cases mci with hc | hc
          · simp [hc]
          · rw [hc] at hig
            simp [hc, hig]
        rw [hfalse]
        split at h
        · cases h
        · cases h
          simp
      | false =>
        have hcat : categorize tp ep name (categoryOf mci)
            { st with specified_modules := setInsert (labelOf e) st.specified_modules } =
            some (if categoryOf mci = mod_cat_t.MODIFIER then
              { st with
                specified_modules := setInsert (labelOf e) st.specified_modules,
                es := if ep.any (fun c => c.contains name) then
                    st.es ++ [PathError.endPathIsTrigger name]
                  else st.es,
                triggerPathNames_ := st.triggerPathNames_ ++ [name] }
            else
              { st with
                specified_modules := setInsert (labelOf e) st.specified_modules,
                es := if tp.any (fun c => c.contains name) then
                    st.es ++ [PathError.triggerPathIsEnd name]
                  else st.es }) := by
          unfold ignoredAs at hig
          unfold categorize
          by_cases hc : categoryOf mci = mod_cat_t.MODIFIER
          · rw [if_pos hc] at hig
            simp only [if_pos hc, hig, Bool.false_eq_true, if_false]
          · rw [if_neg hc] at hig
            simp only [if_neg hc, hig, Bool.false_eq_true, if_false]
        rw [hcat] at h
        simp only at h
        rcases categoryOf_cases mci with hc | hc
        · have htrig : triggerEntries am tp ep name (e :: rest) = false := by
            simp [triggerEntries, hfind, hc]
          rw [htrig]
          rw [hc] at h
          simp only [reduceCtorEq, if_false] at h
          obtain ⟨r1, r2⟩ := recordEntry_keys e (labelOf e) name mci mod_cat_t.OBSERVER
            { st with
              specified_modules := setInsert (labelOf e) st.specified_modules,
              es := if tp.any (fun c => c.contains name) then
                  st.es ++ [PathError.triggerPathIsEnd name]
                else st.es }
          obtain ⟨a1, a2⟩ := processEntries_known_names am tp ep name path rest
            mod_cat_t.OBSERVER (by decide) _ c1 st1 h (fun hx => by cases hx)
          rw [a1, a2, r1, r2]
          simp
        · have htrig : triggerEntries am tp ep name (e :: rest) = true := by
            rw [hc] at hig
            simp [triggerEntries, hfind, hc, hig]
          rw [htrig]
          rw [hc] at h
          simp only [if_true] at h
          obtain ⟨r1, r2⟩ := recordEntry_keys e (labelOf e) name mci mod_cat_t.MODIFIER
            { st with
              specified_modules := setInsert (labelOf e) st.specified_modules,
              es := if ep.any (fun c => c.contains name) then
                  st.es ++ [PathError.endPathIsTrigger name]
                else st.es,
              triggerPathNames_ := st.triggerPathNames_ ++ [name] }
          simp only [if_true] at r2
          have hkeys := appendToPath_keys_new name ⟨labelOf e, filterActionOf e⟩
            st.protoTrigPathLabelMap_ hless
          obtain ⟨a1, a2⟩ := processEntries_known_names am tp ep name path rest
            mod_cat_t.MODIFIER (by decide) _ c1 st1 h
            (fun _ => by rw [r2, hkeys]; simp)
          rw [a1, a2, r1, r2, hkeys]
          simp

end art

namespace art

theorem processPath_names (ps : ProcessParameters) (am : List (String × ModuleConfigInfo))
    (tp ep : Option (List String)) (name : String) (st st1 : PathScan)
    (h : processPath ps am tp ep name st = Except.ok st1)
    (hwf : ∀ e ∈ pathOf ps name, wellFormed e = true)
    (hless : ∀ k ∈ st.protoTrigPathLabelMap_.map Prod.fst, stringLess k name = true) :
    st1.triggerPathNames_ = st.triggerPathNames_ ++
        (if triggerEntries am tp ep name (pathOf ps name) then [name] else []) ∧
      st1.protoTrigPathLabelMap_.map Prod.fst = st.protoTrigPathLabelMap_.map Prod.fst ++
        (if triggerEntries am tp ep name (pathOf ps name) then [name] else []) := by
  unfold processPath at h
  cases hr : processEntries am tp ep name (pathOf ps name) (pathOf ps name) mod_cat_t.UNSET st with
  | error t =>
    rw [hr] at h
    cases h
  | ok r =>
    obtain ⟨c1, st2⟩ := r
    rw [hr] at h
    simp only at h
    obtain ⟨a1, a2⟩ := processEntries_unset_names am tp ep name (pathOf ps name) (pathOf ps name)
      st c1 st2 hr hwf hless
    by_cases hc : c1 = mod_cat_t.OBSERVER
    · rw [if_pos hc] at h
      cases h
      exact ⟨a1, a2⟩
    · rw [if_neg hc] at h
      cases h
      exact ⟨a1, a2⟩

theorem processPaths_names (ps : ProcessParameters) (am : List (String × ModuleConfigInfo))
    (tp ep : Option (List String)) (names : List String) :
    ∀ (st st1 : PathScan),
      processPaths ps am tp ep names st = Except.ok st1 →
      names.Pairwise (fun a b => stringLess a b = true) →
      (∀ name ∈ names, ∀ e ∈ pathOf ps name, wellFormed e = true) →
      (∀ k ∈ st.protoTrigPathLabelMap_.map Prod.fst, ∀ name ∈ names,
        stringLess k name = true) →
      st1.triggerPathNames_ = st.triggerPathNames_ ++
          names.filter (fun name => triggerEntries am tp ep name (pathOf ps name)) ∧
        st1.protoTrigPathLabelMap_.map Prod.fst = st.protoTrigPathLabelMap_.map Prod.fst ++
          names.filter (fun name => triggerEntries am tp ep name (pathOf ps name)) := by
  induction names with
  | nil =>
    intro st st1 h _ _ _
    cases h
    simp
  | cons name rest ih =>
    intro st st1 h hsorted hwf hless
    rw [processPaths] at h
    cases h1 : processPath ps am tp ep name st with
    | error t =>
      rw [h1] at h
      cases h
    | ok st2 =>
      rw [h1] at h
      simp only at h
      obtain ⟨hhead, hrest⟩ := List.pairwise_cons.mp hsorted
      obtain ⟨a1, a2⟩ := processPath_names ps am tp ep name st st2 h1
        (hwf name (List.mem_cons_self _ _))
        (fun k hk => hless k hk name (List.mem_cons_self _ _))
      obtain ⟨b1, b2⟩ := ih st2 st1 h hrest
        (fun n hn => hwf n (List.mem_cons_of_mem _ hn))
        (fun k hk n hn => by
          rw [a2, List.mem_append] at hk
          rcases hk with hk | hk
          · exact hless k hk n (List.mem_cons_of_mem _ hn)
          · split at hk
            · rw [List.mem_singleton] at hk
              rw [hk]
              exact hhead n hn
            · cases hk)
      rw [b1, b2, a1, a2]
      by_cases ht : triggerEntries am tp ep name (pathOf ps name) = true
      · simp [List.filter_cons, ht]
      · simp [List.filter_cons, ht]

theorem scanPaths_names (ps : ProcessParameters) (am : List (String × ModuleConfigInfo))
    (scan : PathScan) (h : scanPaths ps am = Except.ok scan)
    (hsorted : (pathNames ps).Pairwise (fun a b => stringLess a b = true)) :
    scan.triggerPathNames_ = (pathNames ps).filter (fun name =>
        triggerEntries am (pathsConfig ps.trigger_paths) (pathsConfig ps.end_paths) name
          (pathOf ps name)) ∧
      scan.protoTrigPathLabelMap_.map Prod.fst = scan.triggerPathNames_ := by
  obtain ⟨hseq, hwf, _, _⟩ := scanPaths_of_ok ps am scan h
  unfold scanPaths at h
  simp only [hseq, Bool.not_true, Bool.false_eq_true, if_false] at h
  obtain ⟨a1, a2⟩ := processPaths_names ps am _ _ (pathNames ps) _ scan h hsorted hwf
    (fun k hk => by cases hk)
  simp only [List.nil_append, List.map_nil] at a1 a2
  exact ⟨a1, by rw [a2, a1]⟩

theorem mk0_names (ps : ProcessParameters) (n : Nat) (pm : PathManager)
    (h : PathManager.mk0 ps n = Except.ok pm)
    (hsorted : (ps.physics.map Prod.fst).Pairwise (fun a b => stringLess a b = true)) :
    pm.triggerPathNames_ = (pathNames ps).filter (activeTriggerPath ps) ∧
      pm.protoTrigPathLabelMap_.map Prod.fst = pm.triggerPathNames_ := by
  have hs : (pathNames ps).Pairwise (fun a b => stringLess a b = true) := by
    unfold pathNames
    exact List.Pairwise.filter _ hsorted
  unfold PathManager.mk0 at h
  cases hc : collectModules ps with
  | error t1 =>
    rw [hc] at h
    cases h
  | ok am =>
    have ham := collectModules_ok ps am hc
    subst ham
    rw [hc] at h
    simp only at h
    cases hscan : scanPaths ps (configuredModules ps) with
    | error t1 =>
      rw [hscan] at h
      cases h
    | ok scan =>
      obtain ⟨a1, a2⟩ := scanPaths_names ps _ scan hscan hs
      rw [hscan] at h
      simp only at h
      split at h
      · cases h
      · cases h
        exact ⟨a1, a2⟩

namespace PathManager

/-- C29: for a physics table that lists its names in ascending order, a path
manager that the constructor returns and a `createModulesAndWorkers()` that
returns: `triggerPathNames_` holds the active trigger paths in ascending order
of their names, without duplicates; and every schedule has one trigger path
for each of these names, in this order, the path at place `i` having the name
at place `i` of `triggerPathNames_` and the bit position `i`, which is smaller
than the size of the schedule's `HLTGlobalStatus`. -/
theorem bit_positions_follow_names (ps : ProcessParameters) (n : Nat) (f : ModuleFactory)
    (err : String) (pm pm1 : PathManager)
    (hsorted : (ps.physics.map Prod.fst).Pairwise (fun a b => stringLess a b = true))
    (hmk : mk0 ps n = Except.ok pm)
    (hrun : createModulesAndWorkers f err pm = Except.ok pm1) :
    pm1.triggerPathNames_ = (pathNames ps).filter (activeTriggerPath ps) ∧
    pm1.triggerPathNames_.Pairwise (fun a b => stringLess a b = true) ∧
    pm1.triggerPathNames_.Nodup ∧
    pm1.triggerPathsInfo_.length = n ∧
    ∀ (si : Nat) (pinfo : PathsInfo), pm1.triggerPathsInfo_[si]? = some pinfo →
      pinfo.pathResults = pm1.triggerPathNames_.length ∧
      pinfo.paths.map Path.name = pm1.triggerPathNames_ ∧
      ∀ (i : Nat) (p : Path), pinfo.paths[i]? = some p →
        p.bitPosition = i ∧ pm1.triggerPathNames_[i]? = some p.name ∧
          p.bitPosition < pinfo.pathResults ∧ p.scheduleID = si ∧ p.isEndPath = false := by
  obtain ⟨a1, a2⟩ := mk0_names ps n pm hmk hsorted
  obtain ⟨_, _, _, hn, _, _, _, hinfo, _⟩ := mk0_of_ok ps n pm hmk
  obtain ⟨b1, b2, b3⟩ := createModulesAndWorkers_positions f err pm pm1
    (by rw [hinfo, hn]) hrun
  have hs : (pathNames ps).Pairwise (fun a b => stringLess a b = true) := by
    unfold pathNames
    exact List.Pairwise.filter _ hsorted
  have hpw : pm1.triggerPathNames_.Pairwise (fun a b => stringLess a b = true) := by
    rw [b1, a1]
    exact List.Pairwise.filter _ hs
  refine ⟨by rw [b1, a1], hpw, ?_, by rw [b2, hn], ?_⟩
  · exact hpw.imp (fun {a b} hab => (stringLess_ne a b hab).symm)
  · intro si pinfo hget
    obtain ⟨c1, c2, c3, c4⟩ := b3 si pinfo hget
    rw [a2, ← b1] at c2
    have hlen : pinfo.paths.length = pm1.triggerPathNames_.length := by
      rw [← c2, List.length_map]
    refine ⟨by rw [c1, b1], c2, ?_⟩
    intro i p hp
    have hi : i < pinfo.paths.length := (List.getElem?_eq_some_iff.mp hp).1
    have hbit : (pinfo.paths.map Path.bitPosition)[i]? = some p.bitPosition := by
      rw [List.getElem?_map, hp]
      rfl
    have hname : (pinfo.paths.map Path.name)[i]? = some p.name := by
      rw [List.getElem?_map, hp]
      rfl
    rw [c3] at hbit
    have hlt : i < pm.protoTrigPathLabelMap_.length := by
      have := congrArg List.length c3
      rw [List.length_map, List.length_range] at this
      omega
    rw [List.getElem?_range hlt] at hbit
    have hpos : p.bitPosition = i := by
      simp only [Option.some.injEq] at hbit
      exact hbit.symm
    rw [c2] at hname
    refine ⟨hpos, hname, ?_, c4 p (List.mem_iff_getElem?.mpr ⟨i, hp⟩)⟩
    rw [hpos, c1, ← b1, ← hlen]
    exact hi

/-- Witness of C29: the configuration `threeTriggerPaths`, whose trigger paths
`p1` and `p3` are active, with two schedules. -/
theorem bit_positions_follow_names_witness :
    (threeTriggerPaths.physics.map Prod.fst).Pairwise (fun a b => stringLess a b = true) ∧
    mk0 threeTriggerPaths 2 = Except.ok threePathManager ∧
    createModulesAndWorkers makesAll "" threePathManager = Except.ok threePathsMade ∧
    threePathsMade.triggerPathNames_ = ["p1", "p3"] ∧
    threePathsMade.triggerPathsInfo_.map
        (fun pinfo => pinfo.paths.map fun p => (p.name, p.bitPosition)) =
      [[("p1", 0), ("p3", 1)], [("p1", 0), ("p3", 1)]] ∧
    ∀ (si : Nat) (pinfo : PathsInfo), threePathsMade.triggerPathsInfo_[si]? = some pinfo →
      pinfo.pathResults = threePathsMade.triggerPathNames_.length ∧
      pinfo.paths.map Path.name = threePathsMade.triggerPathNames_ ∧
      ∀ (i : Nat) (p : Path), pinfo.paths[i]? = some p →
        p.bitPosition = i ∧ threePathsMade.triggerPathNames_[i]? = some p.name ∧
          p.bitPosition < pinfo.pathResults ∧ p.scheduleID = si ∧ p.isEndPath = false :=
  ⟨by decide, rfl, rfl, by decide, by decide,
    (bit_positions_follow_names threeTriggerPaths 2 makesAll "" threePathManager threePathsMade
      (by decide) rfl rfl).2.2.2.2⟩

end PathManager

end art
